import Mathlib

/-!
# SOLL parser: a shallow embedding of `lib/Parse/Parser.cpp`

The parser of the SOLL compiler front-end is a recursive-descent parser over a
cached token stream.  This development embeds it as state-passing functions on
an explicit parser state (`Parser`), and proves properties of the embedded code.

Conventions.

* A handle that may be null in the source (`unique_ptr<Expr>`, `TypePtr`, ...) is a
  value of a type with a `null` constructor.
* A failed `assert`, a dereference of a null handle and `__builtin_unreachable`
  are the outcome `Res.abort`; a computation that needs more recursion depth than
  the supplied fuel is the outcome `Res.outOfFuel`.
* Parts of the repository that `Parser.cpp` uses but that are declared elsewhere
  (token kinds and their order, operator precedences, the lexer, the semantic
  actions) are either parameters (`Env`) or definitions marked
  `Modelled from the spec:`.
-/

namespace Soll

/-- Token kinds `tok::TokenKind`.  The constructors are the kinds that `Parser.cpp`
names (`tok::eof`, `tok::kw_uint256`, ...); the numeric value of a kind, which the
source compares with `<=`, is not fixed here but supplied by `Env.ord`. -/
inductive tok where
  | unknown | eof | identifier | raw_identifier | numeric_constant | string_literal
  | hex_string_literal | l_square | r_square | l_paren | r_paren | l_brace
  | r_brace | period | colon | semi | comma | question
  | equalgreater | equal | pipeequal | caretequal | ampequal | lesslessequal
  | greatergreaterequal | plusequal | minusequal | starequal | slashequal | percentequal
  | pipepipe | ampamp | pipe | caret | amp | lessless
  | greatergreater | plus | minus | star | slash | percent
  | starstar | equalequal | exclaimequal | less | greater | lessequal
  | greaterequal | exclaim | tilde | plusplus | minusminus | kw_pragma
  | kw_import | kw_contract | kw_interface | kw_library | kw_is | kw_function
  | kw_constructor | kw_modifier | kw_event | kw_struct | kw_enum | kw_using
  | kw_returns | kw_return | kw_if | kw_else | kw_while | kw_do
  | kw_for | kw_break | kw_continue | kw_emit | kw_new | kw_true
  | kw_false | kw_mapping | kw_storage | kw_memory | kw_calldata | kw_indexed
  | kw_anonymous | kw_payable | kw_pure | kw_view | kw_constant | kw_public
  | kw_internal | kw_private | kw_external | kw_type | kw_assembly | kw_var
  | kw_int | kw_int8 | kw_int16 | kw_int24 | kw_int32 | kw_int40
  | kw_int48 | kw_int56 | kw_int64 | kw_int72 | kw_int80 | kw_int88
  | kw_int96 | kw_int104 | kw_int112 | kw_int120 | kw_int128 | kw_int136
  | kw_int144 | kw_int152 | kw_int160 | kw_int168 | kw_int176 | kw_int184
  | kw_int192 | kw_int200 | kw_int208 | kw_int216 | kw_int224 | kw_int232
  | kw_int240 | kw_int248 | kw_int256 | kw_uint | kw_uint8 | kw_uint16
  | kw_uint24 | kw_uint32 | kw_uint40 | kw_uint48 | kw_uint56 | kw_uint64
  | kw_uint72 | kw_uint80 | kw_uint88 | kw_uint96 | kw_uint104 | kw_uint112
  | kw_uint120 | kw_uint128 | kw_uint136 | kw_uint144 | kw_uint152 | kw_uint160
  | kw_uint168 | kw_uint176 | kw_uint184 | kw_uint192 | kw_uint200 | kw_uint208
  | kw_uint216 | kw_uint224 | kw_uint232 | kw_uint240 | kw_uint248 | kw_uint256
  | kw_bytes1 | kw_bytes2 | kw_bytes3 | kw_bytes4 | kw_bytes5 | kw_bytes6
  | kw_bytes7 | kw_bytes8 | kw_bytes9 | kw_bytes10 | kw_bytes11 | kw_bytes12
  | kw_bytes13 | kw_bytes14 | kw_bytes15 | kw_bytes16 | kw_bytes17 | kw_bytes18
  | kw_bytes19 | kw_bytes20 | kw_bytes21 | kw_bytes22 | kw_bytes23 | kw_bytes24
  | kw_bytes25 | kw_bytes26 | kw_bytes27 | kw_bytes28 | kw_bytes29 | kw_bytes30
  | kw_bytes31 | kw_bytes32 | kw_bytes | kw_string | kw_bool | kw_address
deriving DecidableEq, Repr, Inhabited

/-- Binary operator kinds, as returned by `token2bop`. -/
inductive BinaryOperatorKind where
  | BO_Exp | BO_Mul | BO_Div | BO_Rem | BO_Add | BO_Sub
  | BO_Shl | BO_Shr | BO_And | BO_Xor | BO_Or | BO_LT
  | BO_GT | BO_LE | BO_GE | BO_EQ | BO_NE | BO_LAnd
  | BO_LOr | BO_Assign | BO_MulAssign | BO_DivAssign | BO_RemAssign | BO_AddAssign
  | BO_SubAssign | BO_ShlAssign | BO_ShrAssign | BO_AndAssign | BO_XorAssign | BO_OrAssign
  | BO_Comma | BO_Undefined
deriving DecidableEq, Repr, Inhabited

/-- Unary operator kinds, as returned by `token2uop`. -/
inductive UnaryOperatorKind where
  | UO_PreInc | UO_PostInc | UO_PreDec | UO_PostDec | UO_AddrOf | UO_Deref
  | UO_Plus | UO_Minus | UO_Not | UO_LNot | UO_Undefined
deriving DecidableEq, Repr, Inhabited

/-- Integer kinds `IntegerType::IntKind`. -/
inductive IntKind where
  | U8 | U16 | U24 | U32 | U40 | U48 | U56 | U64
  | U72 | U80 | U88 | U96 | U104 | U112 | U120 | U128
  | U136 | U144 | U152 | U160 | U168 | U176 | U184 | U192
  | U200 | U208 | U216 | U224 | U232 | U240 | U248 | U256
  | I8 | I16 | I24 | I32 | I40 | I48 | I56 | I64
  | I72 | I80 | I88 | I96 | I104 | I112 | I120 | I128
  | I136 | I144 | I152 | I160 | I168 | I176 | I184 | I192
  | I200 | I208 | I216 | I224 | I232 | I240 | I248 | I256
deriving DecidableEq, Repr, Inhabited

/-- Fixed-bytes kinds `FixedBytesType::ByteKind`. -/
inductive ByteKind where
  | B1 | B2 | B3 | B4 | B5 | B6 | B7 | B8
  | B9 | B10 | B11 | B12 | B13 | B14 | B15 | B16
  | B17 | B18 | B19 | B20 | B21 | B22 | B23 | B24
  | B25 | B26 | B27 | B28 | B29 | B30 | B31 | B32
deriving DecidableEq, Repr, Inhabited

/-- The source's `token2bop`: the binary operator a token kind denotes. -/
def token2bop : tok → BinaryOperatorKind
  | .starstar => .BO_Exp
  | .star => .BO_Mul
  | .slash => .BO_Div
  | .percent => .BO_Rem
  | .plus => .BO_Add
  | .minus => .BO_Sub
  | .lessless => .BO_Shl
  | .greatergreater => .BO_Shr
  | .amp => .BO_And
  | .caret => .BO_Xor
  | .pipe => .BO_Or
  | .less => .BO_LT
  | .greater => .BO_GT
  | .lessequal => .BO_LE
  | .greaterequal => .BO_GE
  | .equalequal => .BO_EQ
  | .exclaimequal => .BO_NE
  | .ampamp => .BO_LAnd
  | .pipepipe => .BO_LOr
  | .equal => .BO_Assign
  | .starequal => .BO_MulAssign
  | .slashequal => .BO_DivAssign
  | .percentequal => .BO_RemAssign
  | .plusequal => .BO_AddAssign
  | .minusequal => .BO_SubAssign
  | .lesslessequal => .BO_ShlAssign
  | .greatergreaterequal => .BO_ShrAssign
  | .ampequal => .BO_AndAssign
  | .caretequal => .BO_XorAssign
  | .pipeequal => .BO_OrAssign
  | .comma => .BO_Comma
  | _ => .BO_Undefined

/-- The source's `token2uop`: the unary operator a token kind denotes, prefix form
when `IsPreOp` (the source's default argument) and postfix form otherwise. -/
def token2uop (k : tok) (IsPreOp : Bool) : UnaryOperatorKind :=
  match k with
  | .plusplus => if IsPreOp then .UO_PreInc else .UO_PostInc
  | .minusminus => if IsPreOp then .UO_PreDec else .UO_PostDec
  | .amp => .UO_AddrOf
  | .star => .UO_Deref
  | .plus => .UO_Plus
  | .minus => .UO_Minus
  | .tilde => .UO_Not
  | .exclaim => .UO_LNot
  | _ => .UO_Undefined

/-- The source's `token2inttype`; `none` is the failed
`assert(false && "Invalid int token.")` of the default case. -/
def token2inttype : tok → Option IntKind
  | .kw_uint8 => some .U8
  | .kw_uint16 => some .U16
  | .kw_uint24 => some .U24
  | .kw_uint32 => some .U32
  | .kw_uint40 => some .U40
  | .kw_uint48 => some .U48
  | .kw_uint56 => some .U56
  | .kw_uint64 => some .U64
  | .kw_uint72 => some .U72
  | .kw_uint80 => some .U80
  | .kw_uint88 => some .U88
  | .kw_uint96 => some .U96
  | .kw_uint104 => some .U104
  | .kw_uint112 => some .U112
  | .kw_uint120 => some .U120
  | .kw_uint128 => some .U128
  | .kw_uint136 => some .U136
  | .kw_uint144 => some .U144
  | .kw_uint152 => some .U152
  | .kw_uint160 => some .U160
  | .kw_uint168 => some .U168
  | .kw_uint176 => some .U176
  | .kw_uint184 => some .U184
  | .kw_uint192 => some .U192
  | .kw_uint200 => some .U200
  | .kw_uint208 => some .U208
  | .kw_uint216 => some .U216
  | .kw_uint224 => some .U224
  | .kw_uint232 => some .U232
  | .kw_uint240 => some .U240
  | .kw_uint248 => some .U248
  | .kw_uint256 => some .U256
  | .kw_uint => some .U256
  | .kw_int8 => some .I8
  | .kw_int16 => some .I16
  | .kw_int24 => some .I24
  | .kw_int32 => some .I32
  | .kw_int40 => some .I40
  | .kw_int48 => some .I48
  | .kw_int56 => some .I56
  | .kw_int64 => some .I64
  | .kw_int72 => some .I72
  | .kw_int80 => some .I80
  | .kw_int88 => some .I88
  | .kw_int96 => some .I96
  | .kw_int104 => some .I104
  | .kw_int112 => some .I112
  | .kw_int120 => some .I120
  | .kw_int128 => some .I128
  | .kw_int136 => some .I136
  | .kw_int144 => some .I144
  | .kw_int152 => some .I152
  | .kw_int160 => some .I160
  | .kw_int168 => some .I168
  | .kw_int176 => some .I176
  | .kw_int184 => some .I184
  | .kw_int192 => some .I192
  | .kw_int200 => some .I200
  | .kw_int208 => some .I208
  | .kw_int216 => some .I216
  | .kw_int224 => some .I224
  | .kw_int232 => some .I232
  | .kw_int240 => some .I240
  | .kw_int248 => some .I248
  | .kw_int256 => some .I256
  | .kw_int => some .I256
  | _ => none

/-- The source's `token2bytetype`; `none` is the failed assertion of the default
case. -/
def token2bytetype : tok → Option ByteKind
  | .kw_bytes1 => some .B1
  | .kw_bytes2 => some .B2
  | .kw_bytes3 => some .B3
  | .kw_bytes4 => some .B4
  | .kw_bytes5 => some .B5
  | .kw_bytes6 => some .B6
  | .kw_bytes7 => some .B7
  | .kw_bytes8 => some .B8
  | .kw_bytes9 => some .B9
  | .kw_bytes10 => some .B10
  | .kw_bytes11 => some .B11
  | .kw_bytes12 => some .B12
  | .kw_bytes13 => some .B13
  | .kw_bytes14 => some .B14
  | .kw_bytes15 => some .B15
  | .kw_bytes16 => some .B16
  | .kw_bytes17 => some .B17
  | .kw_bytes18 => some .B18
  | .kw_bytes19 => some .B19
  | .kw_bytes20 => some .B20
  | .kw_bytes21 => some .B21
  | .kw_bytes22 => some .B22
  | .kw_bytes23 => some .B23
  | .kw_bytes24 => some .B24
  | .kw_bytes25 => some .B25
  | .kw_bytes26 => some .B26
  | .kw_bytes27 => some .B27
  | .kw_bytes28 => some .B28
  | .kw_bytes29 => some .B29
  | .kw_bytes30 => some .B30
  | .kw_bytes31 => some .B31
  | .kw_bytes32 => some .B32
  | _ => none

/-- Modelled from the spec: `Token::isElementaryTypeName` (soll/Lex/Token.h is not
among the sources).  The elementary type keywords of section 3.1: `int`, `int8` ...
`int256`, `uint`, `uint8` ... `uint256`, `bytes1` ... `bytes32`, `bytes`, `string`,
`bool`, `address`. -/
def tok.isElementaryTypeName : tok → Bool
  | .kw_int | .kw_int8 | .kw_int16 | .kw_int24 | .kw_int32 | .kw_int40
  | .kw_int48 | .kw_int56 | .kw_int64 | .kw_int72 | .kw_int80 | .kw_int88
  | .kw_int96 | .kw_int104 | .kw_int112 | .kw_int120 | .kw_int128 | .kw_int136
  | .kw_int144 | .kw_int152 | .kw_int160 | .kw_int168 | .kw_int176 | .kw_int184
  | .kw_int192 | .kw_int200 | .kw_int208 | .kw_int216 | .kw_int224 | .kw_int232
  | .kw_int240 | .kw_int248 | .kw_int256 => true
  | .kw_uint | .kw_uint8 | .kw_uint16 | .kw_uint24 | .kw_uint32 | .kw_uint40
  | .kw_uint48 | .kw_uint56 | .kw_uint64 | .kw_uint72 | .kw_uint80 | .kw_uint88
  | .kw_uint96 | .kw_uint104 | .kw_uint112 | .kw_uint120 | .kw_uint128 | .kw_uint136
  | .kw_uint144 | .kw_uint152 | .kw_uint160 | .kw_uint168 | .kw_uint176 | .kw_uint184
  | .kw_uint192 | .kw_uint200 | .kw_uint208 | .kw_uint216 | .kw_uint224 | .kw_uint232
  | .kw_uint240 | .kw_uint248 | .kw_uint256 => true
  | .kw_bytes1 | .kw_bytes2 | .kw_bytes3 | .kw_bytes4 | .kw_bytes5 | .kw_bytes6
  | .kw_bytes7 | .kw_bytes8 | .kw_bytes9 | .kw_bytes10 | .kw_bytes11 | .kw_bytes12
  | .kw_bytes13 | .kw_bytes14 | .kw_bytes15 | .kw_bytes16 | .kw_bytes17 | .kw_bytes18
  | .kw_bytes19 | .kw_bytes20 | .kw_bytes21 | .kw_bytes22 | .kw_bytes23 | .kw_bytes24
  | .kw_bytes25 | .kw_bytes26 | .kw_bytes27 | .kw_bytes28 | .kw_bytes29 | .kw_bytes30
  | .kw_bytes31 | .kw_bytes32 => true
  | .kw_bytes | .kw_string | .kw_bool | .kw_address => true
  | _ => false

/-! ## Tokens -/

/-- A token: its kind and its payload (the name of an identifier, the raw lexeme of
a literal).  Source locations are not modelled. -/
structure Token where
  Kind : tok
  Text : String
deriving DecidableEq, Repr, Inhabited

namespace Token

/-- The source's `Tok.is(K)`. -/
def is (t : Token) (k : tok) : Bool := decide (t.Kind = k)

/-- The source's `Tok.isNot(K)`. -/
def isNot (t : Token) (k : tok) : Bool := decide (t.Kind ≠ k)

/-- The source's `Tok.isOneOf(K1, K2, ...)`. -/
def isOneOf (t : Token) (ks : List tok) : Bool := decide (t.Kind ∈ ks)

/-- Modelled from the spec: `Token::isAnyIdentifier` (soll/Lex/Token.h is not among
the sources): the kinds `identifier` and `raw_identifier` of section 3.1. -/
def isAnyIdentifier (t : Token) : Bool := t.isOneOf [.identifier, .raw_identifier]

/-- Elementary type keyword test on a token, see `tok.isElementaryTypeName`. -/
def isElementaryTypeName (t : Token) : Bool := t.Kind.isElementaryTypeName

/-- Modelled from the spec: `Token::isUnaryOp` (soll/Lex/Token.h is not among the
sources).  Section 4.2.4: the prefix operators are `++ -- + - ! ~ & *`, which are
the kinds `token2uop` maps to an operator. -/
def isUnaryOp (t : Token) : Bool := decide (token2uop t.Kind true ≠ .UO_Undefined)

/-- Modelled from the spec: `Tok.getIdentifierInfo()->getName()` (soll/Lex/Token.h is
not among the sources).  Section 3.1: only identifiers carry an interned name; on
any other token the identifier info is null and the dereference has no result. -/
def getIdentifierName (t : Token) : Option String :=
  if t.isAnyIdentifier then some t.Text else none

/-- The token the body-end marker of a replayed function body is: kind `eof`. -/
def eofTok : Token := ⟨.eof, ""⟩

end Token

/-! ## Parameters: the tables declared outside `Parser.cpp` -/

/-- The two tables `Parser.cpp` reads from headers that are not among the sources.
`ord` is the numeric value of a token kind (its position in
soll/Basic/TokenKinds.def), which the source compares in range tests such as
`tok::equal <= Kind && Kind < tok::percentequal`; `getBinOpPrecedence` is the
function of that name from soll/Basic/OperatorPrecedence.h. -/
structure Env where
  ord : tok → Nat
  getBinOpPrecedence : tok → Nat

/-! ## Source types -/

/-- State mutability `StateMutability` (Decl.h). -/
inductive StateMutability where
  | Pure | View | NonPayable | Payable
deriving DecidableEq, Repr, Inhabited

/-- Data location of an array type, as returned by `parseDataLocation`. -/
inductive DataLocation where
  | Storage | Memory | CallData
deriving DecidableEq, Repr, Inhabited

/-- A type handle `TypePtr`; `null` is the empty handle. -/
inductive Ty where
  | null
  | BooleanType
  | IntegerType (k : IntKind)
  | FixedBytesType (k : ByteKind)
  | BytesType
  | StringType
  | AddressType (sm : StateMutability)
  | ArrayType (elem : Ty) (len : Option Int) (loc : DataLocation)
  | MappingType (key : Ty) (value : Ty)
deriving DecidableEq, Repr, Inhabited

/-! ## Expressions, statements, declarations -/

/-- Cast kinds used by `parsePrimaryExpression`. -/
inductive CastKind where
  | TypeCast | IntegralCast
deriving DecidableEq, Repr, Inhabited

/-- An expression handle `unique_ptr<Expr>`; `null` is the empty handle.  String
literals hold their bytes. -/
inductive Expr where
  | null
  | Identifier (name : String) (resolved : Bool)
  | BooleanLiteral (b : Bool)
  | NumberLiteral (v : Int)
  | StringLiteral (bytes : List Nat)
  | UnaryOperator (sub : Expr) (op : UnaryOperatorKind)
  | BinaryOperator (op : BinaryOperatorKind) (lhs : Expr) (rhs : Expr)
  | ParenExpr (sub : Expr)
  | ExplicitCastExpr (sub : Expr) (kind : CastKind) (ty : Ty)
  | CallExpr (callee : Expr) (args : List Expr)
  | MemberExpr (base : Expr) (member : String)
  | IndexAccess (base : Expr) (index : Expr)
deriving Repr, Inhabited

/-- Null test of an expression handle (`!Expression`). -/
def Expr.isNull : Expr → Bool
  | .null => true
  | _ => false

/-- Visibility `Decl::Visibility` (Decl.h). -/
inductive Visibility where
  | Default | Private | Internal | Public | External
deriving DecidableEq, Repr, Inhabited

/-- Reference location `VarDecl::Location` (Decl.h). -/
inductive Location where
  | Unspecified | Storage | Memory | CallData
deriving DecidableEq, Repr, Inhabited

/-- Contract kind `ContractDecl::ContractKind` (Decl.h). -/
inductive ContractKind where
  | Interface | Contract | Library
deriving DecidableEq, Repr, Inhabited

/-- A variable declaration `VarDecl`, with the constructor arguments of the source. -/
structure VarDecl where
  T : Ty
  Name : String
  Value : Expr
  Vsblty : Visibility
  IsStateVariable : Bool
  IsIndexed : Bool
  IsConstant : Bool
  Loc : Location
deriving Repr, Inhabited

/-- A statement handle `unique_ptr<Stmt>`; `null` is the empty handle.  An
expression used as a statement is `expr`. -/
inductive Stmt where
  | null
  | Block (stmts : List Stmt)
  | IfStmt (cond : Expr) (trueBody : Stmt) (falseBody : Stmt)
  | WhileStmt (cond : Expr) (body : Stmt) (isDoWhile : Bool)
  | ForStmt (init : Stmt) (cond : Expr) (loop : Expr) (body : Stmt)
  | ContinueStmt
  | BreakStmt
  | ReturnStmt (value : Expr)
  | DeclStmt (vars : List (Option VarDecl)) (value : Expr)
  | EmitStmt (call : Expr)
  | expr (e : Expr)
deriving Repr, Inhabited

/-- The conversion of an expression handle to a statement handle: a null expression
is a null statement. -/
def Stmt.ofExpr : Expr → Stmt
  | .null => .null
  | e => .expr e

/-- Null test of a statement handle (`!Statement`). -/
def Stmt.isNull : Stmt → Bool
  | .null => true
  | _ => false

/-- A parameter list `ParamList`; an entry is `none` where `parseVariableDeclaration`
returned a null handle. -/
structure ParamList where
  Params : List (Option VarDecl)
deriving Repr, Inhabited

/-- A function declaration, with the arguments `Actions.CreateFunctionDecl` receives.
`Id` identifies the allocated object: a `LexedMethod` refers to its declaration by a
pointer, and `Id` is what that pointer is compared by.  `Modifiers` is the number of
modifier invocations (the parser never produces one). -/
structure FunctionDecl where
  Id : Nat
  Name : String
  Vsblty : Visibility
  SM : StateMutability
  IsConstructor : Bool
  IsFallback : Bool
  Params : Option ParamList
  Modifiers : Nat
  ReturnParams : Option ParamList
  Body : Stmt
deriving Repr, Inhabited

/-- An event declaration, with the arguments `Actions.CreateEventDecl` receives. -/
structure EventDecl where
  Name : String
  Params : Option ParamList
  Anonymous : Bool
deriving Repr, Inhabited

/-- An inheritance specifier `InheritanceSpecifier(BaseName, Arguments)` (Decl.h). -/
structure InheritanceSpecifier where
  BaseName : String
  Arguments : List Expr
deriving Repr, Inhabited

/-- A member handle in the `SubNodes` of a contract; `null` is the empty handle. -/
inductive Member where
  | null
  | function (fd : FunctionDecl)
  | var (vd : VarDecl)
  | event (ed : EventDecl)
deriving Repr, Inhabited

/-- A contract declaration, with the constructor arguments `parseContractDefinition`
passes. -/
structure ContractDecl where
  Name : String
  BaseContracts : List InheritanceSpecifier
  SubNodes : List Member
  Constructor : Option FunctionDecl
  Fallback : Option FunctionDecl
  Kind : ContractKind
deriving Repr, Inhabited

/-- A top-level node handle of a source unit; `null` is the empty handle. -/
inductive Decl where
  | null
  | PragmaDirective
  | Contract (cd : ContractDecl)
deriving Repr, Inhabited

/-- The source unit `SourceUnit(Nodes)` (Decl.h). -/
structure SourceUnit where
  Nodes : List Decl
deriving Repr, Inhabited

/-! ## Parser state -/

/-- Scope flags of `Scope` (soll/Sema/Scope.h is not among the sources); a scope
carries a set of them, `[]` being the flags value `0`. -/
inductive ScopeFlag where
  | FunctionScope | BreakScope | ContinueScope
deriving DecidableEq, Repr, Inhabited

/-- One lexical scope of the actions: its flags and the names registered in it, most
recent first. -/
structure Scope where
  Flags : List ScopeFlag
  Decls : List String
deriving DecidableEq, Repr, Inhabited

/-- Diagnostic identifiers used by the parser (section 6.2 of the spec). -/
inductive diag where
  | err_expected | err_expected_after | err_expected_contract_kind
  | err_expected_visibility | err_expected_state_mutability
  | err_expected_contract_part | err_expected_event | err_unknown_pragma
  | err_unimplemented_token | err_multiple_variable_location
  | err_location_without_typename | err_extraneous_token_before_semi
  | err_trailing_comma | warn_constant_removed
deriving DecidableEq, Repr, Inhabited

/-- A reported diagnostic: its identifier and the token kinds streamed into it. -/
structure Diagnostic where
  ID : diag
  Args : List tok
deriving DecidableEq, Repr, Inhabited

/-- A `LexedMethod`: the buffered tokens of a function body and the declaration the
body belongs to. -/
structure LexedMethod where
  Toks : List Token
  D : FunctionDecl
deriving Repr, Inhabited

/-- The state of the parser and of its collaborators.
`Tok` is the current token; `Lexer` holds the tokens `CachedLex` has not returned
yet; `Scopes` (innermost first) and `FunRtnTys` belong to the actions; `Diags` are
the diagnostics reported so far, oldest first; `NextDecl` numbers the function
declarations allocated so far. -/
structure Parser where
  Tok : Token
  Lexer : List Token
  Scopes : List Scope
  FunRtnTys : List Ty
  Diags : List Diagnostic
  LateParsedDeclarations : List LexedMethod
  NextDecl : Nat
deriving Repr, Inhabited

/-- Outcome of running a parser function: a result with the state after it, an abort
of the process (failed assertion, null dereference, unreachable code), or
exhaustion of the recursion fuel. -/
inductive Res (α : Type) where
  | ok (a : α) (s : Parser)
  | abort (msg : String)
  | outOfFuel
deriving Repr, Inhabited

/-- Sequencing of outcomes. -/
def Res.bind {α β : Type} (r : Res α) (f : α → Parser → Res β) : Res β :=
  match r with
  | .ok a s => f a s
  | .abort m => .abort m
  | .outOfFuel => .outOfFuel

/-- A parser function: from a state to an outcome. -/
def P (α : Type) : Type := Parser → Res α

instance : Monad P where
  pure a := fun s => .ok a s
  bind m f := fun s => (m s).bind f

/-- The current token `Tok`. -/
def getTok : P Token := fun s => .ok s.Tok s

/-- Abort of the process. -/
def abort {α : Type} (msg : String) : P α := fun _ => .abort msg

/-- Exhaustion of the fuel. -/
def outOfFuel {α : Type} : P α := fun _ => .outOfFuel

/-! ## The token stream -/

/-- Modelled from the spec: `Lexer::CachedLex` (soll/Lex/Lexer.h is not among the
sources).  Section 6.1: returns the next token and advances; a stream that is used
up yields `eof`. -/
def CachedLex (s : Parser) : Parser :=
  match s.Lexer with
  | [] => { s with Tok := Token.eofTok }
  | t :: rest => { s with Tok := t, Lexer := rest }

/-- Modelled from the spec: `Lexer::EnterTokenStream` (section 6.1): the following
`CachedLex` calls consume from the buffer first. -/
def EnterTokenStream (Toks : List Token) : P Unit :=
  fun s => .ok () { s with Lexer := Toks ++ s.Lexer }

/-- Modelled from the spec: `Parser::NextToken` (soll/Parse/Parser.h is not among
the sources): the one-token lookahead of section 2, the token after the current
one. -/
def NextToken (s : Parser) : Token := s.Lexer.headD Token.eofTok

/-- The token after the current one, as a parser function. -/
def getNextToken : P Token := fun s => .ok (NextToken s) s

/-- Modelled from the spec: `Parser::ConsumeToken` (soll/Parse/Parser.h is not among
the sources): `Tok = *TheLexer.CachedLex()`. -/
def ConsumeToken : P Unit := fun s => .ok () (CachedLex s)

/-- Modelled from the spec: `Parser::ConsumeAnyToken`, as `ConsumeToken`. -/
def ConsumeAnyToken : P Unit := fun s => .ok () (CachedLex s)

/-- Modelled from the spec: `Parser::ConsumeParen`, as `ConsumeToken`. -/
def ConsumeParen : P Unit := fun s => .ok () (CachedLex s)

/-- Modelled from the spec: `Parser::ConsumeBracket`, as `ConsumeToken`. -/
def ConsumeBracket : P Unit := fun s => .ok () (CachedLex s)

/-- Modelled from the spec: `Parser::ConsumeBrace`, as `ConsumeToken`. -/
def ConsumeBrace : P Unit := fun s => .ok () (CachedLex s)

/-- Modelled from the spec: `Parser::ConsumeStringToken`, as `ConsumeToken`. -/
def ConsumeStringToken : P Unit := fun s => .ok () (CachedLex s)

/-- Modelled from the spec: `Parser::TryConsumeToken` (soll/Parse/Parser.h is not
among the sources): consumes the current token and returns true if it is of the
expected kind, returns false and leaves it otherwise. -/
def TryConsumeToken (Expected : tok) : P Bool :=
  fun s => if s.Tok.is Expected then .ok true (CachedLex s) else .ok false s

/-- Modelled from the spec: `Parser::isTokenParen` (soll/Parse/Parser.h is not among
the sources): the current token is `(` or `)`. -/
def isTokenParen : P Bool := fun s => .ok (s.Tok.isOneOf [.l_paren, .r_paren]) s

/-! ## Diagnostics and semantic actions -/

/-- The source's `Diag(DiagID) << args`: report a diagnostic. -/
def Diag (ID : diag) (Args : List tok) : P Unit :=
  fun s => .ok () { s with Diags := s.Diags ++ [⟨ID, Args⟩] }

namespace Actions

/-- Modelled from the spec: `Sema::PushScope` (soll/Sema is not among the sources),
section 4.1: push a scope with the given flags. -/
def PushScope (Flags : List ScopeFlag) : P Unit :=
  fun s => .ok () { s with Scopes := ⟨Flags, []⟩ :: s.Scopes }

/-- Modelled from the spec: `Sema::PopScope`, section 4.1: pop the innermost scope
and discard its entries. -/
def PopScope : P Unit := fun s => .ok () { s with Scopes := s.Scopes.tail }

/-- Modelled from the spec: `Sema::addDecl`, section 4.1: register a declaration,
here by its name, in the top scope.  With no scope on the stack nothing is
registered. -/
def addDecl (Name : String) : P Unit :=
  fun s => match s.Scopes with
    | [] => .ok () s
    | top :: rest => .ok () { s with Scopes := { top with Decls := Name :: top.Decls } :: rest }

/-- Modelled from the spec: `Sema::SetFunRtnTys`, section 4.1: stash the return
types of the function being parsed. -/
def SetFunRtnTys (Tys : List Ty) : P Unit := fun s => .ok () { s with FunRtnTys := Tys }

/-- Modelled from the spec: `Sema::EraseFunRtnTys`, section 4.1. -/
def EraseFunRtnTys : P Unit := fun s => .ok () { s with FunRtnTys := [] }

/-- The names registered in the scopes that are on the stack. -/
def visible (s : Parser) : List String := (s.Scopes.map Scope.Decls).flatten

/-- Modelled from the spec: `Sema::CreateIdentifier`, section 4.1: resolve the name
of the token against the scope stack and attach the result to the node. -/
def CreateIdentifier (t : Token) : P Expr :=
  fun s => .ok (.Identifier t.Text (decide (t.Text ∈ visible s))) s

/-- Modelled from the spec: `Sema::CreateBinOp`, section 4.1, taken as the node
constructor. -/
def CreateBinOp (Op : BinaryOperatorKind) (LHS RHS : Expr) : Expr := .BinaryOperator Op LHS RHS

/-- Modelled from the spec: `Sema::CreateIndexAccess`, section 4.1, taken as the node
constructor. -/
def CreateIndexAccess (Base Index : Expr) : Expr := .IndexAccess Base Index

/-- Modelled from the spec: `Sema::CreateMemberExpr`, section 4.1, taken as the node
constructor. -/
def CreateMemberExpr (Base : Expr) (t : Token) : Expr := .MemberExpr Base t.Text

/-- Modelled from the spec: `Sema::CreateCallExpr`, section 4.1, taken as the node
constructor. -/
def CreateCallExpr (Callee : Expr) (Args : List Expr) : Expr := .CallExpr Callee Args

/-- Modelled from the spec: `Sema::CreateReturnStmt`, section 4.1, taken as the node
constructor. -/
def CreateReturnStmt (Value : Expr) : Stmt := .ReturnStmt Value

/-- Modelled from the spec: `Sema::CreateEventDecl`, section 4.1, taken as the node
constructor. -/
def CreateEventDecl (Name : String) (Params : Option ParamList) (Anonymous : Bool) : EventDecl :=
  ⟨Name, Params, Anonymous⟩

/-- Modelled from the spec: `Sema::CreateFunctionDecl`, section 4.1, taken as the
node constructor; the new object takes the next allocation number. -/
def CreateFunctionDecl (Name : String) (Vsblty : Visibility) (SM : StateMutability)
    (IsConstructor IsFallback : Bool) (Params : Option ParamList) (Modifiers : Nat)
    (ReturnParams : Option ParamList) (Body : Stmt) : P FunctionDecl :=
  fun s => .ok ⟨s.NextDecl, Name, Vsblty, SM, IsConstructor, IsFallback, Params, Modifiers,
      ReturnParams, Body⟩ { s with NextDecl := s.NextDecl + 1 }

end Actions

/-- Modelled from the spec: the guard `ParseScope` (soll/Parse/Parser.h is not among
the sources), section 5: entry pushes a scope (`EnterScope`, which is
`Actions.PushScope`), every exit path of the guarded region pops it (`ExitScope`,
which is `Actions.PopScope`). -/
def ParseScope {α : Type} (Flags : List ScopeFlag) (body : P α) : P α := do
  Actions.PushScope Flags
  let r ← body
  Actions.PopScope
  return r
/-! ## Literals -/

/-- The bytes of a lexeme.  A lexeme is held as the string of its bytes, one
character per byte. -/
def lexemeBytes (s : String) : List Nat := s.toList.map Char.toNat

/-- The library function `llvm::hexDigitValue`: the value of a hexadecimal digit,
`-1U` for any other character. -/
def hexDigitValue (c : Nat) : Nat :=
  if 48 ≤ c ∧ c ≤ 57 then c - 48
  else if 97 ≤ c ∧ c ≤ 102 then c - 97 + 10
  else if 65 ≤ c ∧ c ≤ 70 then c - 65 + 10
  else 4294967295

/-- Read `Quoted[i]` of a `std::string` of the given bytes: a byte of the string, the
terminating NUL at index `size`, and no value (undefined behaviour) beyond. -/
def readChar (Quoted : List Nat) (i : Nat) : Option Nat :=
  if i < Quoted.length then some (Quoted.getD i 0)
  else if i = Quoted.length then some 0
  else none

/-- Number of UTF-8 bytes the `\u` branch of `stringUnquote` writes for `UcnVal`. -/
def stringUnquote.BytesToWrite (UcnVal : Nat) : Nat :=
  if UcnVal < 0x80 then 1
  else if UcnVal < 0x800 then 2
  else if UcnVal < 0x10000 then 3
  else 4

/-- The table `FirstByteMark` of `stringUnquote`. -/
def stringUnquote.FirstByteMark (n : Nat) : Nat := [0x00, 0x00, 0xC0, 0xE0, 0xF0].getD n 0

/-- The stores of the `switch (BytesToWrite)` of `stringUnquote`, in program order,
each as (index into `Buffer`, byte stored).  `ResultBuf` starts at `&Buffer[5]` and
is decremented before each store. -/
def stringUnquote.stores (UcnVal : Nat) : List (Nat × Nat) :=
  let n := stringUnquote.BytesToWrite UcnVal
  let cont (k : Nat) (v : Nat) : Nat × Nat := (5 - k, ((v ||| 0x80) &&& 0xBF) % 256)
  let first (k : Nat) (v : Nat) : Nat × Nat := (5 - k, (v ||| stringUnquote.FirstByteMark n) % 256)
  match n with
  | 4 => [cont 1 UcnVal, cont 2 (UcnVal >>> 6), cont 3 (UcnVal >>> 12), first 4 (UcnVal >>> 18)]
  | 3 => [cont 1 UcnVal, cont 2 (UcnVal >>> 6), first 3 (UcnVal >>> 12)]
  | 2 => [cont 1 UcnVal, first 2 (UcnVal >>> 6)]
  | _ => [first 1 UcnVal]

/-- The bytes `Result.append(ResultBuf, BytesToWrite)` appends: the stored bytes from
the final `ResultBuf` upwards, that is the stores in reverse program order. -/
def stringUnquote.appended (UcnVal : Nat) : List Nat :=
  ((stringUnquote.stores UcnVal).map Prod.snd).reverse

/-- The loop `for (; TokBuf != TokEnd && Len; --Len)` shared by the `\u` and `\x`
branches of `stringUnquote`: the body reads `TokBuf[0]` and does not advance
`TokBuf`.  Returns the remaining `Len` and the accumulated value, reduced modulo
`2 ^ bits`. -/
def stringUnquote.digits (bits : Nat) (atEnd : Bool) (c : Nat) : Nat → Nat → Nat × Nat
  | 0, Val => (0, Val)
  | Len + 1, Val =>
    if atEnd then (Len + 1, Val)
    else stringUnquote.digits bits atEnd c Len ((((Val <<< 4) % 2 ^ bits) ||| hexDigitValue c) % 2 ^ bits)

/-- The inner loop `do { ++TokBuf; } while (TokBuf != TokEnd && TokBuf[0] != '\\')` of
`stringUnquote`: the index at which it stops. -/
def stringUnquote.plainRun (Quoted : List Nat) (TokEnd : Nat) : Nat → Nat → Except String Nat
  | 0, _ => .error "out of range"
  | fuel + 1, TokBuf =>
    let TokBuf := TokBuf + 1
    if TokBuf = TokEnd then .ok TokBuf
    else match readChar Quoted TokBuf with
      | none => .error "read past the end of the literal"
      | some c => if c ≠ 92 then stringUnquote.plainRun Quoted TokEnd fuel TokBuf else .ok TokBuf

/-- The main loop `while (TokBuf != TokEnd)` of `stringUnquote`. -/
def stringUnquote.loop (Quoted : List Nat) (TokEnd : Nat) :
    Nat → Nat → List Nat → Except String (List Nat)
  | 0, _, _ => .error "out of range"
  | fuel + 1, TokBuf, Result =>
    if TokBuf = TokEnd then .ok Result
    else match readChar Quoted TokBuf with
      | none => .error "read past the end of the literal"
      | some c0 =>
        if c0 ≠ 92 then
          match stringUnquote.plainRun Quoted TokEnd (Quoted.length + 2) TokBuf with
          | .error e => .error e
          | .ok Stop =>
            stringUnquote.loop Quoted TokEnd fuel Stop
              (Result ++ (Quoted.drop TokBuf).take (Stop - TokBuf))
        else match readChar Quoted (TokBuf + 1) with
          | none => .error "read past the end of the literal"
          | some c1 =>
            if c1 = 117 then
              let TokBuf := TokBuf + 2
              match readChar Quoted TokBuf with
              | none => .error "read past the end of the literal"
              | some c =>
                let (UcnLen, UcnVal) := stringUnquote.digits 32 (decide (TokBuf = TokEnd)) c 4 0
                if UcnLen ≠ 0 then .error "Unicode escape incompleted"
                else stringUnquote.loop Quoted TokEnd fuel TokBuf
                  (Result ++ stringUnquote.appended UcnVal)
            else
              let TokBuf := TokBuf + 2
              match readChar Quoted (TokBuf + 1) with
              | none => .error "read past the end of the literal"
              | some ResultChar =>
                let next (ch : Nat) := stringUnquote.loop Quoted TokEnd fuel TokBuf (Result ++ [ch])
                if ResultChar = 120 then
                  match readChar Quoted TokBuf with
                  | none => .error "read past the end of the literal"
                  | some c =>
                    let (HexLen, HexVal) := stringUnquote.digits 8 (decide (TokBuf = TokEnd)) c 2 0
                    if HexLen ≠ 0 then .error "Hex escape incompleted" else next HexVal
                else if ResultChar = 92 ∨ ResultChar = 39 ∨ ResultChar = 34 then next ResultChar
                else if ResultChar = 98 then next 8
                else if ResultChar = 102 then next 12
                else if ResultChar = 110 then next 10
                else if ResultChar = 114 then next 13
                else if ResultChar = 116 then next 9
                else if ResultChar = 118 then next 11
                else .error "unknown escape sequence!"

/-- The source's `stringUnquote` on the bytes of a quoted literal.  An error is a
failed assertion of the source or a read outside the string. -/
def stringUnquote (Quoted : List Nat) : Except String (List Nat) :=
  if Quoted.length < 2 then .error "string token with size < 2!"
  else
    let TokEnd := Quoted.length - 1
    let q := Quoted.getD 0 0
    if ¬ (q = 34 ∨ q = 39) then .error "TokBegin[0] is not a quote"
    else if Quoted.getD TokEnd 0 ≠ q then .error "TokEnd[0] != TokBegin[0]"
    else stringUnquote.loop Quoted TokEnd (Quoted.length + 2) 1 []

/-- The loop of the source's `hexUnquote`, two characters per step. -/
def hexUnquote.loop : List Nat → List Nat
  | a :: b :: rest =>
    ((((hexDigitValue a <<< 4) % 2 ^ 32) ||| hexDigitValue b) % 256) :: hexUnquote.loop rest
  | _ => []

/-- The source's `hexUnquote`; `none` is the failed assertion on an odd length. -/
def hexUnquote (Quoted : List Nat) : Option (List Nat) :=
  if Quoted.length % 2 = 0 then some (hexUnquote.loop Quoted) else none

/-- The digit value `llvm::consumeUnsignedInteger` gives a character, if any. -/
def getAsInteger.charVal (c : Char) : Option Nat :=
  if 48 ≤ c.toNat ∧ c.toNat ≤ 57 then some (c.toNat - 48)
  else if 97 ≤ c.toNat ∧ c.toNat ≤ 122 then some (c.toNat - 97 + 10)
  else if 65 ≤ c.toNat ∧ c.toNat ≤ 90 then some (c.toNat - 65 + 10)
  else none

/-- The library function `GetAutoSenseRadix` of LLVM: the radix a prefix selects and
the text after the prefix. -/
def getAsInteger.autoSenseRadix : List Char → Nat × List Char
  | '0' :: 'x' :: r => (16, r)
  | '0' :: 'X' :: r => (16, r)
  | '0' :: 'b' :: r => (2, r)
  | '0' :: 'B' :: r => (2, r)
  | '0' :: 'o' :: r => (8, r)
  | '0' :: c :: r => if c.isDigit then (8, c :: r) else (10, '0' :: c :: r)
  | s => (10, s)

/-- The digit loop of `llvm::consumeUnsignedInteger` on 64-bit values: the value and
the unread rest, `none` on overflow. -/
def getAsInteger.digitLoop (Radix : Nat) : List Char → Nat → Option (Nat × List Char)
  | [], Result => some (Result, [])
  | c :: r, Result =>
    match getAsInteger.charVal c with
    | none => some (Result, c :: r)
    | some v =>
      if v ≥ Radix then some (Result, c :: r)
      else
        let Next := (Result * Radix + v) % 2 ^ 64
        if Next / Radix < Result then none else getAsInteger.digitLoop Radix r Next

/-- The library function `llvm::consumeUnsignedInteger` with radix 0. -/
def getAsInteger.consumeUnsigned (Str : List Char) : Option (Nat × List Char) :=
  let (Radix, Str) := getAsInteger.autoSenseRadix Str
  if Str.isEmpty then none
  else match getAsInteger.digitLoop Radix Str 0 with
    | none => none
    | some (v, rest) => if rest.length = Str.length then none else some (v, rest)

/-- The library call `llvm::StringRef::getAsInteger(0, NumValue)` with `int NumValue`:
the value, or `none` where the call returns true (the text is not a number, or the
value does not fit `int`). -/
def getAsInteger (s : String) : Option Int :=
  let fits (v : Int) : Option Int := if -(2 ^ 31 : Int) ≤ v ∧ v < 2 ^ 31 then some v else none
  match s.toList with
  | '-' :: r =>
    match getAsInteger.consumeUnsigned r with
    | some (v, []) => if v ≤ 2 ^ 63 then fits (-(v : Int)) else none
    | _ => none
  | str =>
    match getAsInteger.consumeUnsigned str with
    | some (v, []) => if v < 2 ^ 63 then fits (v : Int) else none
    | _ => none

/-! ## Small productions -/

/-- The source's `Parser::ExpectAndConsume(ExpectedTok, DiagID)`; true is failure.  The
message argument of the source is not modelled. -/
def ExpectAndConsume (ExpectedTok : tok) (DiagID : diag) : P Bool := do
  let Tok ← getTok
  if Tok.is ExpectedTok then
    ConsumeAnyToken
    return false
  else
    if DiagID = .err_expected then Diag DiagID [ExpectedTok]
    else if DiagID = .err_expected_after then Diag DiagID [ExpectedTok]
    else Diag DiagID []
    return true

/-- The source's `Parser::ExpectAndConsumeSemi(DiagID)`; true is failure. -/
def ExpectAndConsumeSemi (DiagID : diag) : P Bool := do
  if (← TryConsumeToken .semi) then
    return false
  else
    let Tok ← getTok
    let Next ← getNextToken
    if (Tok.is .r_paren || Tok.is .r_square) && Next.is .semi then
      Diag .err_extraneous_token_before_semi []
      ConsumeAnyToken
      ConsumeToken
      return false
    else
      ExpectAndConsume .semi DiagID

/-- The source's `Parser::parseContractKind`. -/
def parseContractKind : P ContractKind := do
  let Tok ← getTok
  match Tok.Kind with
  | .kw_interface => do ConsumeToken; return .Interface
  | .kw_contract => do ConsumeToken; return .Contract
  | .kw_library => do ConsumeToken; return .Library
  | _ => do
    Diag .err_expected_contract_kind []
    ConsumeAnyToken
    return .Contract

/-- The source's `Parser::parseVisibilitySpecifier`. -/
def parseVisibilitySpecifier : P Visibility := do
  let Tok ← getTok
  match Tok.Kind with
  | .kw_public => do ConsumeToken; return .Public
  | .kw_internal => do ConsumeToken; return .Internal
  | .kw_private => do ConsumeToken; return .Private
  | .kw_external => do ConsumeToken; return .External
  | _ => do
    Diag .err_expected_visibility []
    ConsumeAnyToken
    return .Default

/-- The source's `Parser::parseStateMutability`. -/
def parseStateMutability : P StateMutability := do
  let Tok ← getTok
  match Tok.Kind with
  | .kw_payable => do ConsumeToken; return .Payable
  | .kw_view => do ConsumeToken; return .View
  | .kw_pure => do ConsumeToken; return .Pure
  | .kw_constant => do
    Diag .warn_constant_removed []
    ConsumeToken
    return .View
  | _ => do
    Diag .err_expected_state_mutability []
    ConsumeAnyToken
    return .NonPayable

/-- The source's `Parser::parseDataLocation`. -/
def parseDataLocation : P DataLocation := do
  let Tok ← getTok
  match Tok.Kind with
  | .kw_storage => do ConsumeToken; return .Storage
  | .kw_memory => do ConsumeToken; return .Memory
  | .kw_calldata => do ConsumeToken; return .CallData
  | _ => return .Storage

/-- The source's `Parser::ConsumeAndStoreUntil(T1, T2, Toks)`.  `Toks` is the buffer
passed by reference: the result is the returned flag and the buffer on return.
The two-argument calls of the source, `ConsumeAndStoreUntil(T, Toks)`, are
`ConsumeAndStoreUntil(T, T, Toks)`.  One unit of fuel is used per loop iteration and
per nested call. -/
def ConsumeAndStoreUntil : Nat → tok → tok → List Token → P (Bool × List Token)
  | 0, _, _, _ => outOfFuel
  | fuel + 1, T1, T2, Toks => do
    let Tok ← getTok
    if Tok.is T1 || Tok.is T2 then
      ConsumeAnyToken
      return (true, Toks ++ [Tok])
    else if Tok.is .eof then
      return (false, Toks)
    else if Tok.is .l_paren then
      ConsumeParen
      let (_, Toks1) ← ConsumeAndStoreUntil fuel .r_paren .r_paren (Toks ++ [Tok])
      ConsumeAndStoreUntil fuel T1 T2 Toks1
    else if Tok.is .l_square then
      ConsumeBracket
      let (_, Toks1) ← ConsumeAndStoreUntil fuel .r_square .r_square (Toks ++ [Tok])
      ConsumeAndStoreUntil fuel T1 T2 Toks1
    else if Tok.is .l_brace then
      ConsumeBrace
      let (_, Toks1) ← ConsumeAndStoreUntil fuel .r_brace .r_brace (Toks ++ [Tok])
      ConsumeAndStoreUntil fuel T1 T2 Toks1
    else if Tok.is .r_paren then
      ConsumeParen
      ConsumeAndStoreUntil fuel T1 T2 (Toks ++ [Tok])
    else if Tok.is .r_square then
      ConsumeBracket
      ConsumeAndStoreUntil fuel T1 T2 (Toks ++ [Tok])
    else if Tok.is .r_brace then
      ConsumeBrace
      ConsumeAndStoreUntil fuel T1 T2 (Toks ++ [Tok])
    else
      ConsumeAnyToken
      ConsumeAndStoreUntil fuel T1 T2 (Toks ++ [Tok])

/-- The source's `Parser::parsePragmaDirective`, its `do ... while` loop: one
iteration per unit of fuel. -/
def parsePragmaDirective.loop : Nat → P Unit
  | 0 => outOfFuel
  | fuel + 1 => do
    let Tok ← getTok
    if Tok.isOneOf [.raw_identifier, .identifier, .numeric_constant] then
      ConsumeToken
    else if token2bop Tok.Kind ≠ .BO_Undefined ∨ Tok.isOneOf [.l_square, .r_square, .l_paren,
        .r_paren, .l_brace, .r_brace, .period, .colon, .semi, .question, .equalgreater,
        .exclaim, .tilde, .plusplus, .minusminus] then
      ConsumeToken
    else
      Diag .err_unknown_pragma []
      ConsumeAnyToken
    let Tok ← getTok
    if Tok.isOneOf [.semi, .eof] then return () else parsePragmaDirective.loop fuel

/-- The source's `Parser::parsePragmaDirective`.  The collected `Tokens` and
`Literals` are local to the source function and unused; the punctuator cases, which
the source takes from soll/Basic/TokenKinds.def, are the punctuator kinds of `tok`. -/
def parsePragmaDirective (fuel : Nat) : P Decl := do
  ConsumeToken
  parsePragmaDirective.loop fuel
  if (← ExpectAndConsumeSemi .err_expected) then
    return .null
  else
    return .PragmaDirective
/-! ## The recursive productions

The productions for type names, expressions and statements call each other
recursively.  A production is written once, against a record `Fns` that holds the
productions it re-enters; `fns env n` is that record with recursion depth `n`
left.  A loop of a production runs on a counter of its own, started at the depth
plus one. -/

/-- The productions that are re-entered recursively, at some remaining depth. -/
structure Fns where
  fuel : Nat
  parseTypeName : Bool → P Ty
  parseExpression : Expr → P Expr
  parseBinaryExpression : Nat → Expr → P Expr
  parseUnaryExpression : Expr → P Expr
  parseStatement : P Stmt

/-- The options record `VarDeclParserOptions` (soll/Parse/Parser.h is not among the
sources); the flags are those of section 4.2.8 of the spec, all off by default. -/
structure VarDeclParserOptions where
  AllowVar : Bool
  AllowIndexed : Bool
  AllowEmptyName : Bool
  AllowInitialValue : Bool
  AllowLocationSpecifier : Bool
  IsStateVariable : Bool
deriving DecidableEq, Repr, Inhabited

/-- The default-constructed options: every flag off. -/
def VarDeclParserOptions.default : VarDeclParserOptions := ⟨false, false, false, false, false, false⟩

/-! ### Type names -/

/-- The source's `Parser::parseTypeNameSuffix`: one `[...]` suffix per unit of fuel. -/
def parseTypeNameSuffix : Nat → Ty → P Ty
  | 0, _ => outOfFuel
  | fuel + 1, T => do
    if (← TryConsumeToken .l_square) then
      let Tok ← getTok
      if Tok.is .numeric_constant then
        match getAsInteger Tok.Text with
        | none => abort "invalid array length"
        | some NumValue =>
          ConsumeToken
          if (← ExpectAndConsume .r_square .err_expected) then
            return .null
          else
            let Loc ← parseDataLocation
            parseTypeNameSuffix fuel (.ArrayType T (some NumValue) Loc)
      else
        if (← ExpectAndConsume .r_square .err_expected) then
          return .null
        else
          let Loc ← parseDataLocation
          parseTypeNameSuffix fuel (.ArrayType T none Loc)
    else
      return T

/-- The source's `Parser::parseMapping`. -/
def parseMapping (self : Fns) : P Ty := do
  if (← ExpectAndConsume .kw_mapping .err_expected) then
    return .null
  else if (← ExpectAndConsume .l_paren .err_expected) then
    return .null
  else
    let AllowVar := false
    let Tok ← getTok
    let KeyType ← if Tok.isElementaryTypeName then self.parseTypeName AllowVar else pure Ty.null
    if (← ExpectAndConsume .equalgreater .err_expected) then
      return .null
    else
      let ValueType ← self.parseTypeName AllowVar
      if (← ExpectAndConsume .r_paren .err_expected) then
        return .null
      else
        return .MappingType KeyType ValueType

/-- The elementary-type branch of the source's `Parser::parseTypeName`: the type the
keyword denotes (null when no case applies), with the keyword consumed. -/
def parseTypeName.elementary (env : Env) (Kind : tok) : P Ty := do
  if Kind = .kw_bool then
    ConsumeToken
    return .BooleanType
  else if env.ord .kw_int ≤ env.ord Kind ∧ env.ord Kind ≤ env.ord .kw_uint256 then
    match token2inttype Kind with
    | none => abort "Invalid int token."
    | some k =>
      ConsumeToken
      return .IntegerType k
  else if env.ord .kw_bytes1 ≤ env.ord Kind ∧ env.ord Kind ≤ env.ord .kw_bytes32 then
    match token2bytetype Kind with
    | none => abort "Invalid int token."
    | some k =>
      ConsumeToken
      return .FixedBytesType k
  else if Kind = .kw_bytes then
    ConsumeToken
    return .BytesType
  else if Kind = .kw_string then
    ConsumeToken
    return .StringType
  else if Kind = .kw_address then
    ConsumeToken
    let Tok ← getTok
    if Tok.isOneOf [.kw_constant, .kw_pure, .kw_view, .kw_payable] then
      let SM ← parseStateMutability
      return .AddressType SM
    else
      return .AddressType .NonPayable
  else
    return .null

/-- The source's `Parser::parseTypeName`.  The parameter `AllowVar` is unused by the
source. -/
def parseTypeName (env : Env) (self : Fns) (_AllowVar : Bool) : P Ty := do
  let Tok ← getTok
  let Kind := Tok.Kind
  if Tok.isElementaryTypeName then
    let T ← parseTypeName.elementary env Kind
    parseTypeNameSuffix (self.fuel + 1) T
  else if Kind = .kw_var then
    Diag .err_unimplemented_token [.kw_var]
    return .null
  else if Kind = .kw_function then
    Diag .err_unimplemented_token [.kw_function]
    return .null
  else if Kind = .kw_mapping then
    let T ← parseMapping self
    if T = .null then return T else parseTypeNameSuffix (self.fuel + 1) T
  else if Kind = .identifier ∨ Kind = .raw_identifier then
    Diag .err_unimplemented_token [Kind]
    return .null
  else
    abort "Expected Type Name"

/-! ### Expressions -/

/-- The loop of the source's `Parser::parseFunctionCallListArguments`. -/
def parseFunctionCallListArguments.loop (self : Fns) : Nat → List Expr → P (List Expr)
  | 0, _ => outOfFuel
  | fuel + 1, Arguments => do
    let Tok ← getTok
    if Tok.isNot .r_paren then
      if (← ExpectAndConsume .comma .err_expected) then
        return Arguments
      else
        let E ← self.parseExpression .null
        parseFunctionCallListArguments.loop self fuel (Arguments ++ [E])
    else
      return Arguments

/-- The source's `Parser::parseFunctionCallListArguments`. -/
def parseFunctionCallListArguments (self : Fns) : P (List Expr) := do
  let Tok ← getTok
  if Tok.isNot .r_paren then
    let E ← self.parseExpression .null
    parseFunctionCallListArguments.loop self (self.fuel + 1) [E]
  else
    return []

/-- The loop over named arguments of the source's
`Parser::parseFunctionCallArguments`.  The result says whether the loop ended (true)
or the function returned from inside it (false). -/
def parseFunctionCallArguments.loop (self : Fns) :
    Nat → Bool → List Expr → List String → P (Bool × List Expr × List String)
  | 0, _, _, _ => outOfFuel
  | fuel + 1, First, Args, Names => do
    let Tok ← getTok
    if Tok.isNot .r_brace then
      let failed ← if First then pure false else ExpectAndConsume .comma .err_expected
      if failed then
        return (false, Args, Names)
      else
        let NameTok ← getTok
        if NameTok.isNot .identifier then
          Diag .err_expected [.identifier]
          return (false, Args, Names)
        else
          ConsumeToken
          let E ← self.parseExpression .null
          let Tok ← getTok
          let Next ← getNextToken
          if Tok.is .comma && Next.is .r_brace then
            Diag .err_trailing_comma []
            ConsumeToken
            parseFunctionCallArguments.loop self fuel false (Args ++ [E]) (Names ++ [NameTok.Text])
          else
            parseFunctionCallArguments.loop self fuel false (Args ++ [E]) (Names ++ [NameTok.Text])
    else
      return (true, Args, Names)

/-- The source's `Parser::parseFunctionCallArguments`: the arguments and their names. -/
def parseFunctionCallArguments (self : Fns) : P (List Expr × List String) := do
  let Tok ← getTok
  if Tok.is .l_brace then
    ConsumeBrace
    let (ended, Args, Names) ← parseFunctionCallArguments.loop self (self.fuel + 1) true [] []
    if ended then
      ConsumeToken
      return (Args, Names)
    else
      return (Args, Names)
  else
    let Args ← parseFunctionCallListArguments self
    return (Args, [])

/-- The source's `Parser::parsePrimaryExpression`.  In the explicit cast the operand
is parsed before the target type is computed. -/
def parsePrimaryExpression (self : Fns) : P Expr := do
  let Tok ← getTok
  let Next ← getNextToken
  if Tok.isElementaryTypeName && Next.is .l_paren then
    let TypeNameTok := Tok
    ConsumeToken
    ConsumeParen
    let Sub ← self.parseExpression .null
    if TypeNameTok.is .kw_address then
      if (← ExpectAndConsume .r_paren .err_expected) then
        return .null
      else
        return .ExplicitCastExpr Sub .TypeCast (.AddressType .Payable)
    else
      match token2inttype TypeNameTok.Kind with
      | none => abort "Invalid int token."
      | some k =>
        if (← ExpectAndConsume .r_paren .err_expected) then
          return .null
        else
          return .ExplicitCastExpr Sub .IntegralCast (.IntegerType k)
  else
    match Tok.Kind with
    | .kw_true => do
      ConsumeToken
      return .BooleanLiteral true
    | .kw_false => do
      ConsumeToken
      return .BooleanLiteral false
    | .numeric_constant =>
      match getAsInteger Tok.Text with
      | none => abort "invalid numeric constant"
      | some NumValue => do
        ConsumeToken
        return .NumberLiteral NumValue
    | .string_literal =>
      match stringUnquote (lexemeBytes Tok.Text) with
      | .error e => abort e
      | .ok v => do
        ConsumeStringToken
        return .StringLiteral v
    | .hex_string_literal =>
      match hexUnquote (lexemeBytes Tok.Text) with
      | none => abort "Hex escape incompleted"
      | some v => do
        ConsumeStringToken
        return .StringLiteral v
    | .identifier => do
      let Expression ← Actions.CreateIdentifier Tok
      ConsumeToken
      return Expression
    | .kw_type => do
      Diag .err_unimplemented_token [.kw_type]
      return .null
    | .l_paren => do
      ConsumeAnyToken
      let Sub ← self.parseExpression .null
      let _ ← ExpectAndConsume .r_paren .err_expected
      return .ParenExpr Sub
    | .l_square => do
      ConsumeAnyToken
      let Sub ← self.parseExpression .null
      let _ ← ExpectAndConsume .r_square .err_expected
      return .ParenExpr Sub
    | _ => abort "Unknown token"

/-- The loop `while (true)` of the source's `Parser::parseLeftHandSideExpression`. -/
def parseLeftHandSideExpression.loop (self : Fns) : Nat → Expr → P Expr
  | 0, _ => outOfFuel
  | fuel + 1, Expression => do
    let Tok ← getTok
    if Tok.is .l_square then
      ConsumeBracket
      let Tok ← getTok
      let Index ← if Tok.isNot .r_square then self.parseExpression .null else pure Expr.null
      if (← ExpectAndConsume .r_square .err_expected) then
        return .null
      else
        parseLeftHandSideExpression.loop self fuel (Actions.CreateIndexAccess Expression Index)
    else if Tok.is .period then
      ConsumeToken
      let Tok ← getTok
      if Tok.isAnyIdentifier then
        ConsumeToken
        parseLeftHandSideExpression.loop self fuel (Actions.CreateMemberExpr Expression Tok)
      else
        Diag .err_expected [.identifier]
        ConsumeToken
        parseLeftHandSideExpression.loop self fuel (Actions.CreateMemberExpr Expression Tok)
    else if Tok.is .l_paren then
      ConsumeParen
      let (Arguments, _) ← parseFunctionCallArguments self
      if (← ExpectAndConsume .r_paren .err_expected) then
        return .null
      else
        parseLeftHandSideExpression.loop self fuel (Actions.CreateCallExpr Expression Arguments)
    else
      return Expression

/-- The source's `Parser::parseLeftHandSideExpression`. -/
def parseLeftHandSideExpression (env : Env) (self : Fns) (PartiallyParsedExpression : Expr) :
    P Expr := do
  if ¬ PartiallyParsedExpression.isNull then
    parseLeftHandSideExpression.loop self (self.fuel + 1) PartiallyParsedExpression
  else if (← TryConsumeToken .kw_new) then
    let _ ← parseTypeName env self false
    parseLeftHandSideExpression.loop self (self.fuel + 1) .null
  else
    let Expression ← parsePrimaryExpression self
    parseLeftHandSideExpression.loop self (self.fuel + 1) Expression

/-- The source's `Parser::parseUnaryExpression`.  `SubExps->getType()` dereferences the
operand: a null operand aborts. -/
def parseUnaryExpression (env : Env) (self : Fns) (PartiallyParsedExpression : Expr) :
    P Expr := do
  let Tok ← getTok
  let Op := token2uop Tok.Kind true
  if PartiallyParsedExpression.isNull && Tok.isUnaryOp then
    ConsumeToken
    let SubExps ← self.parseUnaryExpression .null
    if SubExps.isNull then abort "null operand of a unary operator"
    else return .UnaryOperator SubExps Op
  else
    let SubExps ← parseLeftHandSideExpression env self PartiallyParsedExpression
    let Tok ← getTok
    let Op := token2uop Tok.Kind false
    if ¬ (Op = .UO_PostInc ∨ Op = .UO_PostDec) then
      return SubExps
    else
      ConsumeToken
      if SubExps.isNull then abort "null operand of a unary operator"
      else return .UnaryOperator SubExps Op

/-- The inner loop `while (getBinOpPrecedence(Tok.getKind()) == Precedence)` of the
source's `Parser::parseBinaryExpression`. -/
def parseBinaryExpression.whileLoop (env : Env) (self : Fns) (Precedence : Nat) :
    Nat → Expr → P Expr
  | 0, _ => outOfFuel
  | fuel + 1, Expression => do
    let Tok ← getTok
    if env.getBinOpPrecedence Tok.Kind = Precedence then
      let Op := token2bop Tok.Kind
      ConsumeToken
      let RightHandSide ← self.parseBinaryExpression (Precedence + 1) .null
      parseBinaryExpression.whileLoop env self Precedence fuel
        (Actions.CreateBinOp Op Expression RightHandSide)
    else
      return Expression

/-- The outer loop `for (; Precedence >= MinPrecedence; --Precedence)` of the source's
`Parser::parseBinaryExpression`.  The first argument is the number of iterations
left, `Precedence + 1 - MinPrecedence`. -/
def parseBinaryExpression.forLoop (env : Env) (self : Fns) : Nat → Nat → Expr → P Expr
  | 0, _, Expression => pure Expression
  | count + 1, Precedence, Expression => do
    let Expression ← parseBinaryExpression.whileLoop env self Precedence (self.fuel + 1) Expression
    parseBinaryExpression.forLoop env self count (Precedence - 1) Expression

/-- The source's `Parser::parseBinaryExpression`. -/
def parseBinaryExpression (env : Env) (self : Fns) (MinPrecedence : Nat)
    (PartiallyParsedExpression : Expr) : P Expr := do
  let Expression ← parseUnaryExpression env self PartiallyParsedExpression
  let Tok ← getTok
  let Precedence := env.getBinOpPrecedence Tok.Kind
  parseBinaryExpression.forLoop env self (Precedence + 1 - MinPrecedence) Precedence Expression

/-- The source's `Parser::parseExpression`. -/
def parseExpression (env : Env) (self : Fns) (PartiallyParsedExpression : Expr) : P Expr := do
  let Expression ← parseBinaryExpression env self 4 PartiallyParsedExpression
  let Tok ← getTok
  if env.ord .equal ≤ env.ord Tok.Kind ∧ env.ord Tok.Kind < env.ord .percentequal then
    let Op := token2bop Tok.Kind
    ConsumeToken
    let RightHandSide ← self.parseExpression .null
    return Actions.CreateBinOp Op Expression RightHandSide
  else if (← TryConsumeToken .question) then
    let _trueExpression ← self.parseExpression .null
    if (← ExpectAndConsume .colon .err_expected) then
      return .null
    else
      let _falseExpression ← self.parseExpression .null
      return .null
  else
    return Expression
/-! ### Variable declarations and parameter lists -/

/-- The loop `while (!Tok.is(tok::eof))` of the source's
`Parser::parseVariableDeclaration`, over the attributes read so far.  The result is
`none` where the source returns a null handle from inside the loop. -/
def parseVariableDeclaration.loop (Options : VarDeclParserOptions) (T : Ty) :
    Nat → Bool → Bool → Visibility → Location → P (Option (Bool × Bool × Visibility × Location))
  | 0, _, _, _, _ => outOfFuel
  | fuel + 1, IsIndexed, IsDeclaredConst, Vsblty, Loc => do
    let Tok ← getTok
    if Tok.is .eof then
      return some (IsIndexed, IsDeclaredConst, Vsblty, Loc)
    else if Options.IsStateVariable && Tok.isOneOf [.kw_public, .kw_private, .kw_internal] then
      let Vsblty ← parseVisibilitySpecifier
      parseVariableDeclaration.loop Options T fuel IsIndexed IsDeclaredConst Vsblty Loc
    else if Options.AllowIndexed && Tok.is .kw_indexed then
      ConsumeToken
      parseVariableDeclaration.loop Options T fuel true IsDeclaredConst Vsblty Loc
    else if Tok.is .kw_constant then
      ConsumeToken
      parseVariableDeclaration.loop Options T fuel IsIndexed true Vsblty Loc
    else if Options.AllowLocationSpecifier &&
        Tok.isOneOf [.kw_memory, .kw_storage, .kw_calldata] then
      if Loc ≠ .Unspecified then
        Diag .err_multiple_variable_location []
        return none
      else if T = .null then
        Diag .err_location_without_typename []
        return none
      else if Tok.is .kw_storage then
        ConsumeToken
        parseVariableDeclaration.loop Options T fuel IsIndexed IsDeclaredConst Vsblty .Storage
      else if Tok.is .kw_memory then
        ConsumeToken
        parseVariableDeclaration.loop Options T fuel IsIndexed IsDeclaredConst Vsblty .Memory
      else
        ConsumeToken
        parseVariableDeclaration.loop Options T fuel IsIndexed IsDeclaredConst Vsblty .CallData
    else
      return some (IsIndexed, IsDeclaredConst, Vsblty, Loc)

/-- The source's `Parser::parseVariableDeclaration`; the result is `none` for a null
handle. -/
def parseVariableDeclaration (env : Env) (self : Fns) (Options : VarDeclParserOptions)
    (LookAheadArrayType : Ty) : P (Option VarDecl) := do
  let T ← if LookAheadArrayType ≠ .null then pure LookAheadArrayType
    else parseTypeName env self Options.AllowVar
  match (← parseVariableDeclaration.loop Options T (self.fuel + 1) false false .Default
      .Unspecified) with
  | none => return none
  | some (IsIndexed, IsDeclaredConst, Vsblty, Loc) =>
    let Tok ← getTok
    let named (Name : String) : P (Option VarDecl) := do
      let Value ← (do
        if Options.AllowInitialValue then
          if (← TryConsumeToken .equal) then parseExpression env self .null else pure Expr.null
        else pure Expr.null)
      let VD : VarDecl :=
        ⟨T, Name, Value, Vsblty, Options.IsStateVariable, IsIndexed, IsDeclaredConst, Loc⟩
      Actions.addDecl VD.Name
      return some VD
    if Options.AllowEmptyName && !Tok.isAnyIdentifier then
      named ""
    else
      match Tok.getIdentifierName with
      | none => abort "null identifier info"
      | some Name =>
        ConsumeToken
        named Name

/-- The loop `while (Tok.isNot(tok::r_paren))` of the source's
`Parser::parseParameterList`; `none` where the source returns a null handle. -/
def parseParameterList.loop (env : Env) (self : Fns) (Options : VarDeclParserOptions) :
    Nat → List (Option VarDecl) → P (Option (List (Option VarDecl)))
  | 0, _ => outOfFuel
  | fuel + 1, Parameters => do
    let Tok ← getTok
    if Tok.isNot .r_paren then
      if (← ExpectAndConsume .comma .err_expected) then
        return none
      else
        let VD ← parseVariableDeclaration env self Options .null
        parseParameterList.loop env self Options fuel (Parameters ++ [VD])
    else
      return some Parameters

/-- The source's `Parser::parseParameterList`; the result is `none` for a null handle. -/
def parseParameterList (env : Env) (self : Fns) (_Options : VarDeclParserOptions)
    (AllowEmpty : Bool) : P (Option ParamList) := do
  let Options := { _Options with AllowEmptyName := true }
  if (← ExpectAndConsume .l_paren .err_expected) then
    return none
  else
    let Tok ← getTok
    let Parameters ← (do
      if !AllowEmpty || Tok.isNot .r_paren then
        let VD ← parseVariableDeclaration env self Options .null
        parseParameterList.loop env self Options (self.fuel + 1) [VD]
      else pure (some []))
    match Parameters with
    | none => return none
    | some Parameters =>
      if (← ExpectAndConsume .r_paren .err_expected) then
        return none
      else
        return some ⟨Parameters⟩

/-! ### Statements -/

/-- The record `IndexAccessedPath` of the parser. -/
structure IndexAccessedPath where
  Path : List Token
  ElementaryType : Ty
  Indices : List Expr
deriving Repr, Inhabited

/-- The source's `IndexAccessedPath::empty`; `none` is its failed assertion. -/
def IndexAccessedPath.empty (Iap : IndexAccessedPath) : Option Bool :=
  if ¬ Iap.Indices.isEmpty ∧ Iap.Path.isEmpty ∧ Iap.ElementaryType ≠ .null then none
  else some (Iap.Path.isEmpty && decide (Iap.ElementaryType = .null) && Iap.Indices.isEmpty)

/-- The classification `LookAheadInfo` of the start of a simple statement. -/
inductive LookAheadInfo where
  | IndexAccessStructure | VariableDeclaration | Expression
deriving DecidableEq, Repr, Inhabited

/-- The source's `Parser::peekStatementType`. -/
def peekStatementType (s : Parser) : LookAheadInfo :=
  if s.Tok.isOneOf [.kw_mapping, .kw_function, .kw_var] then .VariableDeclaration
  else
    let MightBeTypeName := s.Tok.isElementaryTypeName || s.Tok.is .identifier
    if MightBeTypeName then
      let NextTok := NextToken s
      if s.Tok.isElementaryTypeName && NextTok.isOneOf [.kw_pure, .kw_view, .kw_payable] then
        .VariableDeclaration
      else if NextTok.isOneOf [.raw_identifier, .identifier, .kw_memory, .kw_storage,
          .kw_calldata] then
        .VariableDeclaration
      else if NextTok.isOneOf [.l_square, .period] then
        .IndexAccessStructure
      else .Expression
    else .Expression

/-- The loop `do ... while (TryConsumeToken(tok::period))` of the source's
`Parser::parseIndexAccessedPath`. -/
def parseIndexAccessedPath.path : Nat → List Token → P (List Token)
  | 0, _ => outOfFuel
  | fuel + 1, Path => do
    let Tok ← getTok
    ConsumeToken
    if (← TryConsumeToken .period) then parseIndexAccessedPath.path fuel (Path ++ [Tok])
    else return Path ++ [Tok]

/-- The loop `while (Tok.is(tok::l_square))` of the source's
`Parser::parseIndexAccessedPath`. -/
def parseIndexAccessedPath.indices (env : Env) (self : Fns) : Nat → List Expr → P (List Expr)
  | 0, _ => outOfFuel
  | fuel + 1, Indices => do
    let Tok ← getTok
    if Tok.is .l_square then
      ConsumeBracket
      let Index ← parseExpression env self .null
      if (← ExpectAndConsume .r_square .err_expected) then
        return Indices ++ [Index]
      else
        parseIndexAccessedPath.indices env self fuel (Indices ++ [Index])
    else
      return Indices

/-- The source's `Parser::parseIndexAccessedPath`. -/
def parseIndexAccessedPath (env : Env) (self : Fns) : P IndexAccessedPath := do
  let Tok ← getTok
  if Tok.isAnyIdentifier then
    let Path ← parseIndexAccessedPath.path (self.fuel + 1) []
    let Indices ← parseIndexAccessedPath.indices env self (self.fuel + 1) []
    return ⟨Path, .null, Indices⟩
  else
    let ElementaryType ← parseTypeName env self false
    let Indices ← parseIndexAccessedPath.indices env self (self.fuel + 1) []
    return ⟨[], ElementaryType, Indices⟩

/-- The source's `Parser::tryParseIndexAccessedPath`. -/
def tryParseIndexAccessedPath (env : Env) (self : Fns) : P (LookAheadInfo × IndexAccessedPath) :=
  fun s =>
    match peekStatementType s with
    | .VariableDeclaration => .ok (.VariableDeclaration, ⟨[], .null, []⟩) s
    | .Expression => .ok (.Expression, ⟨[], .null, []⟩) s
    | .IndexAccessStructure =>
      (parseIndexAccessedPath env self s).bind fun Iap s1 =>
        if s1.Tok.isOneOf [.identifier, .kw_memory, .kw_storage, .kw_calldata] then
          .ok (.VariableDeclaration, Iap) s1
        else
          .ok (.Expression, Iap) s1

/-- The loop over `Iap.Indices` of the source's
`Parser::typeNameFromIndexAccessStructure`.  An index that is not a number literal is
a null dereference. -/
def typeNameFromIndexAccessStructure.loop : List Expr → Ty → P Ty
  | [], T => pure T
  | Length :: rest, T =>
    match Length with
    | .NumberLiteral v => do
      let Loc ← parseDataLocation
      typeNameFromIndexAccessStructure.loop rest (.ArrayType T (some v) Loc)
    | _ => abort "array length is not a number literal"

/-- The source's `Parser::typeNameFromIndexAccessStructure`. -/
def typeNameFromIndexAccessStructure (Iap : IndexAccessedPath) : P Ty :=
  match Iap.empty with
  | none => abort "IndexAccessedPath::empty"
  | some true => pure .null
  | some false => typeNameFromIndexAccessStructure.loop Iap.Indices Iap.ElementaryType

/-- The source's `Parser::expressionFromIndexAccessStructure`.  `Iap.Path.front()` of an
empty path has no value. -/
def expressionFromIndexAccessStructure (Iap : IndexAccessedPath) : P Expr :=
  match Iap.empty with
  | none => abort "IndexAccessedPath::empty"
  | some true => pure .null
  | some false =>
    match Iap.Path with
    | [] => abort "front of an empty path"
    | first :: rest => do
      let Expression ← Actions.CreateIdentifier first
      let Expression := rest.foldl Actions.CreateMemberExpr Expression
      return Iap.Indices.foldl Actions.CreateIndexAccess Expression

/-- The source's `Parser::parseVariableDeclarationStatement`. -/
def parseVariableDeclarationStatement (env : Env) (self : Fns) (LookAheadArrayType : Ty) :
    P Stmt := do
  let Tok ← getTok
  let Next ← getNextToken
  if LookAheadArrayType = .null ∧ Tok.is .kw_var ∧ Next.is .l_paren then
    Diag .err_unimplemented_token [.kw_var]
    return .null
  else
    let Options := { VarDeclParserOptions.default with
      AllowVar := false, AllowLocationSpecifier := true }
    let VD ← parseVariableDeclaration env self Options LookAheadArrayType
    let Value ← (do
      if (← TryConsumeToken .equal) then parseExpression env self .null else pure Expr.null)
    return .DeclStmt [VD] Value

/-- The source's `Parser::parseSimpleStatement`. -/
def parseSimpleStatement (env : Env) (self : Fns) : P Stmt := do
  let IsParenExpr ← TryConsumeToken .l_paren
  let (StatementType, Iap) ← tryParseIndexAccessedPath env self
  match StatementType with
  | .VariableDeclaration =>
    let T ← typeNameFromIndexAccessStructure Iap
    parseVariableDeclarationStatement env self T
  | .Expression =>
    let Partial ← expressionFromIndexAccessStructure Iap
    let Expression ← parseExpression env self Partial
    if IsParenExpr then
      if (← ExpectAndConsume .r_paren .err_expected) then
        return .null
      else
        let E ← parseExpression env self (.ParenExpr Expression)
        return Stmt.ofExpr E
    else
      return Stmt.ofExpr Expression
  | .IndexAccessStructure => abort "Unhandle statement."

/-- The loop `while (true)` of the source's `Parser::parseEmitStatement`; `none` where
the source returns a null handle. -/
def parseEmitStatement.path : Nat → List Token → P (Option (List Token))
  | 0, _ => outOfFuel
  | fuel + 1, Path => do
    let Tok ← getTok
    if Tok.isNot .identifier then
      Diag .err_expected_event []
      return none
    else
      ConsumeToken
      let Next ← getTok
      if Next.isNot .period then
        return some (Path ++ [Tok])
      else
        ConsumeToken
        parseEmitStatement.path fuel (Path ++ [Tok])

/-- The source's `Parser::parseEmitStatement`. -/
def parseEmitStatement (self : Fns) : P Stmt := do
  ConsumeToken
  match (← parseEmitStatement.path (self.fuel + 1) []) with
  | none => return .null
  | some Path =>
    let EventName ← expressionFromIndexAccessStructure ⟨Path, .null, []⟩
    if (← ExpectAndConsume .l_paren .err_expected) then
      return .null
    else
      let (Arguments, _) ← parseFunctionCallArguments self
      if (← ExpectAndConsume .r_paren .err_expected) then
        return .null
      else
        return .EmitStmt (Actions.CreateCallExpr EventName Arguments)

/-- The source's `Parser::parseIfStatement`. -/
def parseIfStatement (env : Env) (self : Fns) : P Stmt := do
  ConsumeToken
  if (← ExpectAndConsume .l_paren .err_expected) then
    return .null
  else
    let Condition ← parseExpression env self .null
    if (← ExpectAndConsume .r_paren .err_expected) then
      return .null
    else
      let TrueBody ← self.parseStatement
      if (← TryConsumeToken .kw_else) then
        let FalseBody ← self.parseStatement
        return .IfStmt Condition TrueBody FalseBody
      else
        return .IfStmt Condition TrueBody .null

/-- The source's `Parser::parseWhileStatement`. -/
def parseWhileStatement (env : Env) (self : Fns) : P Stmt := do
  ConsumeToken
  if (← ExpectAndConsume .l_brace .err_expected) then
    return .null
  else
    let Condition ← parseExpression env self .null
    if (← ExpectAndConsume .r_brace .err_expected) then
      return .null
    else
      let Body ← ParseScope [.BreakScope, .ContinueScope] self.parseStatement
      return .WhileStmt Condition Body false

/-- The source's `Parser::parseDoWhileStatement`. -/
def parseDoWhileStatement (env : Env) (self : Fns) : P Stmt := do
  ConsumeToken
  let Body ← ParseScope [.BreakScope, .ContinueScope] self.parseStatement
  if (← ExpectAndConsume .kw_while .err_expected) then
    return .null
  else if (← ExpectAndConsume .l_brace .err_expected) then
    return .null
  else
    let Condition ← parseExpression env self .null
    if (← ExpectAndConsume .r_brace .err_expected) then
      return .null
    else
      let _ ← ExpectAndConsumeSemi .err_expected
      return .WhileStmt Condition Body true

/-- The source's `Parser::parseForStatement`. -/
def parseForStatement (env : Env) (self : Fns) : P Stmt := do
  ConsumeToken
  if (← ExpectAndConsume .l_paren .err_expected) then
    return .null
  else
    let Tok ← getTok
    let Init ← if Tok.isNot .semi then parseSimpleStatement env self else pure Stmt.null
    let _ ← ExpectAndConsumeSemi .err_expected
    let Tok ← getTok
    let Condition ← if Tok.isNot .semi then parseExpression env self .null else pure Expr.null
    let _ ← ExpectAndConsumeSemi .err_expected
    let Tok ← getTok
    let Loop ← if Tok.isNot .r_paren then parseExpression env self .null else pure Expr.null
    let _ ← ExpectAndConsume .r_paren .err_expected
    let Body ← ParseScope [.BreakScope, .ContinueScope] self.parseStatement
    return .ForStmt Init Condition Loop Body

/-- The loop `while (Tok.isNot(tok::r_brace))` of the source's `Parser::parseBlock`. -/
def parseBlock.loop (self : Fns) : Nat → List Stmt → P (List Stmt)
  | 0, _ => outOfFuel
  | fuel + 1, Statements => do
    let Tok ← getTok
    if Tok.isNot .r_brace then
      let Statement ← self.parseStatement
      if Statement.isNull then
        return Statements
      else
        parseBlock.loop self fuel (Statements ++ [Statement])
    else
      return Statements

/-- The source's `Parser::parseBlock`. -/
def parseBlock (self : Fns) : P Stmt :=
  ParseScope [] do
    if (← ExpectAndConsume .l_brace .err_expected) then
      return .null
    else
      let Statements ← parseBlock.loop self (self.fuel + 1) []
      ConsumeBrace
      return .Block Statements

/-- The source's `Parser::parseStatement`. -/
def parseStatement (env : Env) (self : Fns) : P Stmt := do
  let Tok ← getTok
  let finish (Statement : Stmt) : P Stmt := do
    if (← ExpectAndConsumeSemi .err_expected) then return .null else return Statement
  match Tok.Kind with
  | .kw_if => parseIfStatement env self
  | .kw_while => parseWhileStatement env self
  | .kw_do => parseDoWhileStatement env self
  | .kw_for => parseForStatement env self
  | .l_brace => parseBlock self
  | .kw_continue => do
    ConsumeToken
    finish .ContinueStmt
  | .kw_break => do
    ConsumeToken
    finish .BreakStmt
  | .kw_return => do
    ConsumeToken
    let Tok ← getTok
    if Tok.isNot .semi then
      let Value ← parseExpression env self .null
      finish (Actions.CreateReturnStmt Value)
    else
      finish (Actions.CreateReturnStmt .null)
  | .kw_assembly => do
    ConsumeToken
    finish .null
  | .kw_emit => do
    let Statement ← parseEmitStatement self
    finish Statement
  | _ => do
    let Statement ← parseSimpleStatement env self
    finish Statement

/-- The recursive productions with recursion depth `n` left. -/
def fns (env : Env) : Nat → Fns
  | 0 => ⟨0, fun _ => outOfFuel, fun _ => outOfFuel, fun _ _ => outOfFuel, fun _ => outOfFuel,
      outOfFuel⟩
  | n + 1 =>
    ⟨n + 1, parseTypeName env (fns env n), parseExpression env (fns env n),
      parseBinaryExpression env (fns env n), parseUnaryExpression env (fns env n),
      parseStatement env (fns env n)⟩
/-! ## Functions, contracts, source units -/

/-- The record `FunctionHeaderParserResult` of the parser.  `Modifiers` is the number
of modifier invocations; nothing in the parser adds one. -/
structure FunctionHeaderParserResult where
  IsConstructor : Bool
  IsFallback : Bool
  Name : String
  Vsblty : Visibility
  SM : StateMutability
  Parameters : Option ParamList
  Modifiers : Nat
  ReturnParameters : Option ParamList
deriving Repr, Inhabited

/-- The loop `while (true)` of the source's `Parser::parseFunctionHeader`, over the
visibility and state mutability read so far.  The branch for a modifier name
(`// TODO: Function Modifier`) has an empty body. -/
def parseFunctionHeader.loop (AllowModifiers : Bool) :
    Nat → Visibility → StateMutability → P (Visibility × StateMutability)
  | 0, _, _ => outOfFuel
  | fuel + 1, Vsblty, SM => do
    let Tok ← getTok
    if AllowModifiers && Tok.is .identifier then
      parseFunctionHeader.loop AllowModifiers fuel Vsblty SM
    else if Tok.isOneOf [.kw_public, .kw_private, .kw_internal, .kw_external] then
      let Vsblty ← parseVisibilitySpecifier
      parseFunctionHeader.loop AllowModifiers fuel Vsblty SM
    else if Tok.isOneOf [.kw_constant, .kw_pure, .kw_view, .kw_payable] then
      let SM ← parseStateMutability
      parseFunctionHeader.loop AllowModifiers fuel Vsblty SM
    else
      return (Vsblty, SM)

/-- The types of the parameters of a list, `Return->GetType()` for each entry; `none`
where the list or an entry is a null handle. -/
def ParamList.types : Option ParamList → Option (List Ty)
  | none => none
  | some ps => ps.Params.mapM fun p => p.map VarDecl.T

/-- The name part of the source's `Parser::parseFunctionHeader`: the flags
`IsConstructor` and `IsFallback` and the name. -/
def parseFunctionHeader.name (ForceEmptyName : Bool) : P (Bool × Bool × String) := do
  let Tok ← getTok
  if ¬ (Tok.is .kw_constructor || Tok.is .kw_function) then
    abort "Tok.is(tok::kw_function)"
  else
    let IsConstructor := Tok.is .kw_constructor
    ConsumeToken
    let Tok ← getTok
    if IsConstructor then
      return (true, false, "solidity.constructor")
    else if ForceEmptyName || Tok.is .l_paren then
      return (false, true, "solidity.fallback")
    else if Tok.isAnyIdentifier then
      ConsumeToken
      return (false, false, Tok.Text)
    else
      abort "assert(false)"

/-- The source's `Parser::parseFunctionHeader`.  The fields `Vsblty` and `SM` of the
result start as `Default` and `NonPayable`. -/
def parseFunctionHeader (env : Env) (self : Fns) (ForceEmptyName AllowModifiers : Bool) :
    P FunctionHeaderParserResult := do
  let (IsConstructor, IsFallback, Name) ← parseFunctionHeader.name ForceEmptyName
  let Options := { VarDeclParserOptions.default with AllowLocationSpecifier := true }
  let Parameters ← parseParameterList env self Options true
  let (Vsblty, SM) ← parseFunctionHeader.loop AllowModifiers (self.fuel + 1) .Default .NonPayable
  if (← TryConsumeToken .kw_returns) then
    let PermitEmptyParameterList := false
    let ReturnParameters ← parseParameterList env self Options PermitEmptyParameterList
    match ParamList.types ReturnParameters with
    | none => abort "null return parameter"
    | some Tys =>
      Actions.SetFunRtnTys Tys
      return ⟨IsConstructor, IsFallback, Name, Vsblty, SM, Parameters, 0, ReturnParameters⟩
  else
    return ⟨IsConstructor, IsFallback, Name, Vsblty, SM, Parameters, 0, some ⟨[]⟩⟩

/-- Registration of the parameters of a function, `Actions.addDecl(P)` for each; a
null parameter is a null dereference. -/
def ParseLexedMethodDef.addParams : List (Option VarDecl) → P Unit
  | [] => pure ()
  | none :: _ => abort "null parameter"
  | some P :: rest => do
    Actions.addDecl P.Name
    ParseLexedMethodDef.addParams rest

/-- The source's `Parser::ParseLexedMethodDef`.  The result is the block that
`FD->setBody` stores into the declaration `LM.D` points to. -/
def ParseLexedMethodDef (self : Fns) (LM : LexedMethod) : P Stmt := do
  let Tok ← getTok
  let BodyEnd := Token.eofTok
  let Toks := LM.Toks ++ [BodyEnd, Tok]
  EnterTokenStream Toks
  ConsumeAnyToken
  let FD := LM.D
  ParseScope [] do
    match FD.Params with
    | none => abort "null parameter list"
    | some Params =>
      ParseLexedMethodDef.addParams Params.Params
      match ParamList.types FD.ReturnParams with
      | none => abort "null return parameter"
      | some Tys =>
        Actions.SetFunRtnTys Tys
        ParseScope [.FunctionScope] do
          let Body ← parseBlock self
          let Tok ← getTok
          if ¬ Tok.is .eof then
            abort "assert(false)"
          else
            ConsumeToken
            Actions.EraseFunRtnTys
            return Body

/-- The source's `Parser::parseFunctionDefinitionOrFunctionTypeStateVariable`; the
result is `none` for a null handle. -/
def parseFunctionDefinitionOrFunctionTypeStateVariable (env : Env) (self : Fns) :
    P (Option FunctionDecl) :=
  ParseScope [] do
    let Header ← parseFunctionHeader env self false true
    let Tok ← getTok
    if Header.IsConstructor || Header.Modifiers ≠ 0 || !Header.Name.isEmpty ||
        Tok.isOneOf [.semi, .l_brace] then
      let FD ← Actions.CreateFunctionDecl Header.Name Header.Vsblty Header.SM
        Header.IsConstructor Header.IsFallback Header.Parameters Header.Modifiers
        Header.ReturnParameters .null
      if Tok.is .l_brace then
        ConsumeBrace
        let (found, Toks) ← ConsumeAndStoreUntil (self.fuel + 1) .r_brace .r_brace [Tok]
        if ¬ found then
          abort "assert(false)"
        else
          fun s => .ok (some FD)
            { s with LateParsedDeclarations := s.LateParsedDeclarations ++ [⟨Toks, FD⟩] }
      else if (← ExpectAndConsumeSemi .err_expected) then
        return none
      else
        return some FD
    else
      return none

/-- The source's `Parser::parseEventDefinition`; the result is `none` for a null
handle. -/
def parseEventDefinition (env : Env) (self : Fns) : P (Option EventDecl) := do
  let Tok ← getTok
  match Tok.getIdentifierName with
  | none => abort "null identifier info"
  | some Name =>
    ConsumeToken
    let Options := { VarDeclParserOptions.default with AllowIndexed := true }
    let Parameters ← parseParameterList env self Options true
    let Anonymous ← TryConsumeToken .kw_anonymous
    if (← ExpectAndConsumeSemi .err_expected) then
      return none
    else
      let ED := Actions.CreateEventDecl Name Parameters Anonymous
      Actions.addDecl ED.Name
      return some ED

/-- The loop `while (!isTokenParen())` over the arguments of a base contract in the
source's `Parser::parseContractDefinition`; `none` where the source returns a null
handle. -/
def parseContractDefinition.arguments (env : Env) (self : Fns) :
    Nat → List Expr → P (Option (List Expr))
  | 0, _ => outOfFuel
  | fuel + 1, Arguments => do
    if !(← isTokenParen) then
      if (← ExpectAndConsume .comma .err_expected) then
        return none
      else
        let E ← parseExpression env self .null
        parseContractDefinition.arguments env self fuel (Arguments ++ [E])
    else
      return some Arguments

/-- The loop `do ... while (TryConsumeToken(tok::comma))` over the base contracts in
the source's `Parser::parseContractDefinition`; `none` where the source returns a
null handle. -/
def parseContractDefinition.bases (env : Env) (self : Fns) :
    Nat → List InheritanceSpecifier → P (Option (List InheritanceSpecifier))
  | 0, _ => outOfFuel
  | fuel + 1, BaseContracts => do
    let Tok ← getTok
    if !Tok.isAnyIdentifier then
      Diag .err_expected [.identifier]
      return none
    else
      let BaseName := Tok.Text
      ConsumeToken
      let Arguments ← (do
        if (← isTokenParen) then
          ConsumeParen
          parseContractDefinition.arguments env self (self.fuel + 1) []
        else pure (some []))
      match Arguments with
      | none => return none
      | some Arguments =>
        let BaseContracts := BaseContracts ++ [⟨BaseName, Arguments⟩]
        if (← TryConsumeToken .comma) then
          parseContractDefinition.bases env self fuel BaseContracts
        else
          return some BaseContracts

/-- The loop `while (Tok.isNot(tok::eof))` over the members in the source's
`Parser::parseContractDefinition`, over `SubNodes`, `Constructor` and `Fallback`;
`none` where the source returns a null handle. -/
def parseContractDefinition.members (env : Env) (self : Fns) :
    Nat → List Member → Option FunctionDecl → Option FunctionDecl →
      P (Option (List Member × Option FunctionDecl × Option FunctionDecl))
  | 0, _, _, _ => outOfFuel
  | fuel + 1, SubNodes, Constructor, Fallback => do
    let Tok ← getTok
    if Tok.is .eof then
      return some (SubNodes, Constructor, Fallback)
    else if Tok.is .r_brace then
      ConsumeBrace
      return some (SubNodes, Constructor, Fallback)
    else if Tok.isOneOf [.kw_function, .kw_constructor] then
      match (← parseFunctionDefinitionOrFunctionTypeStateVariable env self) with
      | some FD =>
        Actions.addDecl FD.Name
        if FD.IsConstructor then
          if Constructor.isSome then
            abort "multiple constructor defined!"
          else
            Actions.EraseFunRtnTys
            parseContractDefinition.members env self fuel SubNodes (some FD) Fallback
        else if FD.IsFallback then
          if Fallback.isSome then
            abort "multiple fallback defined!"
          else
            Actions.EraseFunRtnTys
            parseContractDefinition.members env self fuel SubNodes Constructor (some FD)
        else
          Actions.EraseFunRtnTys
          parseContractDefinition.members env self fuel (SubNodes ++ [.function FD]) Constructor
            Fallback
      | none =>
        Actions.EraseFunRtnTys
        parseContractDefinition.members env self fuel SubNodes Constructor Fallback
    else if Tok.is .kw_struct then
      Diag .err_unimplemented_token [.kw_struct]
      return none
    else if Tok.is .kw_enum then
      Diag .err_unimplemented_token [.kw_enum]
      return none
    else if Tok.isElementaryTypeName || Tok.isAnyIdentifier || Tok.is .kw_mapping then
      let options := { VarDeclParserOptions.default with
        IsStateVariable := true, AllowInitialValue := true }
      let VD ← parseVariableDeclaration env self options .null
      let SubNodes := SubNodes ++ [match VD with | some vd => Member.var vd | none => Member.null]
      if (← ExpectAndConsumeSemi .err_expected) then
        return none
      else
        parseContractDefinition.members env self fuel SubNodes Constructor Fallback
    else if Tok.is .kw_modifier then
      Diag .err_unimplemented_token [.kw_modifier]
      return none
    else if (← TryConsumeToken .kw_event) then
      let ED ← parseEventDefinition env self
      let SubNodes := SubNodes ++ [match ED with | some ed => Member.event ed | none => Member.null]
      parseContractDefinition.members env self fuel SubNodes Constructor Fallback
    else if Tok.is .kw_using then
      Diag .err_unimplemented_token [.kw_using]
      return none
    else
      Diag .err_expected_contract_part []
      return none

/-- The functions a contract declaration owns. -/
def ContractDecl.functions (CD : ContractDecl) : List FunctionDecl :=
  CD.SubNodes.filterMap (fun m => match m with | .function fd => some fd | _ => none) ++
    CD.Constructor.toList ++ CD.Fallback.toList

/-- The effect of `FD->setBody(Body)` on the contract that owns the declaration with
the given `Id`. -/
def ContractDecl.setBody (CD : ContractDecl) (Id : Nat) (Body : Stmt) : ContractDecl :=
  let set (fd : FunctionDecl) : FunctionDecl := if fd.Id = Id then { fd with Body := Body } else fd
  { CD with
    SubNodes := CD.SubNodes.map fun m => match m with
      | .function fd => .function (set fd)
      | m => m
    Constructor := CD.Constructor.map set
    Fallback := CD.Fallback.map set }

/-- The loop `for (auto &LPD : LateParsedDeclarations) LPD->ParseLexedMethodDefs()` of
the source's `Parser::parseContractDefinition`.  A record whose declaration is not
owned by the contract points to a destroyed object: using it aborts. -/
def parseContractDefinition.late (self : Fns) : List LexedMethod → ContractDecl → P ContractDecl
  | [], CD => pure CD
  | LM :: rest, CD => do
    if LM.D.Id ∈ CD.functions.map FunctionDecl.Id then
      let Body ← ParseLexedMethodDef self LM
      parseContractDefinition.late self rest (CD.setBody LM.D.Id Body)
    else
      abort "use of a destroyed FunctionDecl"

/-- The source's `Parser::parseContractDefinition`; the result is `none` for a null
handle. -/
def parseContractDefinition (env : Env) (self : Fns) : P (Option ContractDecl) :=
  ParseScope [] do
    let CtKind ← parseContractKind
    let Tok ← getTok
    if !Tok.isAnyIdentifier then
      Diag .err_expected [.identifier]
      return none
    else
      let Name := Tok.Text
      ConsumeToken
      let BaseContracts ← (do
        if (← TryConsumeToken .kw_is) then
          parseContractDefinition.bases env self (self.fuel + 1) []
        else pure (some []))
      match BaseContracts with
      | none => return none
      | some BaseContracts =>
        if (← ExpectAndConsume .l_brace .err_expected) then
          return none
        else
          match (← parseContractDefinition.members env self (self.fuel + 1) [] none none) with
          | none => return none
          | some (SubNodes, Constructor, Fallback) =>
            let CD : ContractDecl := ⟨Name, BaseContracts, SubNodes, Constructor, Fallback, CtKind⟩
            Actions.addDecl CD.Name
            let Late ← (fun s => Res.ok s.LateParsedDeclarations s : P (List LexedMethod))
            let CD ← parseContractDefinition.late self Late CD
            (fun s => Res.ok () { s with LateParsedDeclarations := [] } : P Unit)
            return some CD

/-- The loop `while (Tok.isNot(tok::eof))` of the source's `Parser::parse`. -/
def parse.loop (env : Env) (self : Fns) : Nat → List Decl → P (List Decl)
  | 0, _ => outOfFuel
  | fuel + 1, Nodes => do
    let Tok ← getTok
    if Tok.is .eof then
      return Nodes
    else if Tok.is .kw_pragma then
      let PD ← parsePragmaDirective (self.fuel + 1)
      parse.loop env self fuel (Nodes ++ [PD])
    else if Tok.is .kw_import then
      ConsumeToken
      parse.loop env self fuel Nodes
    else if Tok.isOneOf [.kw_interface, .kw_library, .kw_contract] then
      let CD ← parseContractDefinition env self
      parse.loop env self fuel (Nodes ++ [match CD with | some cd => Decl.Contract cd | none => Decl.null])
    else
      ConsumeAnyToken
      parse.loop env self fuel Nodes

/-- The source's `Parser::parse`, with the given fuel: recursion depth `fuel` for the
productions, `fuel + 1` iterations for each loop. -/
def parse (env : Env) (fuel : Nat) : P SourceUnit :=
  ParseScope [] do
    let Nodes ← parse.loop env (fns env fuel) (fuel + 1) []
    return ⟨Nodes⟩

/-- The state after the constructor `Parser::Parser`: the first token of the stream is
the current token; there are no scopes, diagnostics or buffered bodies yet. -/
def Parser.init (Toks : List Token) : Parser :=
  CachedLex ⟨Token.eofTok, Toks, [], [], [], [], 0⟩

/-- The table of `getBinOpPrecedence` used for the examples.
Modelled from the spec: soll/Basic/OperatorPrecedence.h is not among the sources;
section 4.2.4 fixes that the levels follow the source language, assignment lowest
and `**` highest among the binary operators, and that `parse_binary` starts at level
4, above comma, assignment and the conditional. -/
def specPrecedence : tok → Nat
  | .comma => 1
  | .equal | .pipeequal | .caretequal | .ampequal | .lesslessequal | .greatergreaterequal
  | .plusequal | .minusequal | .starequal | .slashequal | .percentequal => 2
  | .question => 3
  | .pipepipe => 4
  | .ampamp => 5
  | .equalequal | .exclaimequal => 6
  | .less | .greater | .lessequal | .greaterequal => 7
  | .pipe => 8
  | .caret => 9
  | .amp => 10
  | .lessless | .greatergreater => 11
  | .plus | .minus => 12
  | .star | .slash | .percent => 13
  | .starstar => 14
  | _ => 0

/-- The numbering of the token kinds used for the examples.
Modelled from the spec: soll/Basic/TokenKinds.def is not among the sources; the
kinds are numbered in the order `tok` lists them, in which the assignment operators
run from `=` to `%=`, the integer keywords from `int` to `uint256` and the
fixed-bytes keywords from `bytes1` to `bytes32`. -/
def specOrd (k : tok) : Nat := k.toCtorIdx

/-- The tables used for the examples. -/
def specEnv : Env := ⟨specOrd, specPrecedence⟩
/-! ## Streams and vocabulary of the statements -/

/-- The state `s` with the token stream replaced: the first token of `ts` is the
current token, the others are still to be lexed (with `ts` empty the current token
is `eof`). -/
def Parser.setStream (s : Parser) (ts : List Token) : Parser := CachedLex { s with Lexer := ts }

/-- The identifier token with the given name. -/
def operand (a : String) : Token := ⟨.identifier, a⟩

/-- The node `Actions.CreateIdentifier` builds in state `s` for the name `a`. -/
def ident (s : Parser) (a : String) : Expr := .Identifier a (decide (a ∈ Actions.visible s))

/-- The binary node `Actions.CreateBinOp` builds for the operator token `o`. -/
def binary (o : Token) (l r : Expr) : Expr := Actions.CreateBinOp (token2bop o.Kind) l r

/-- A token kind is a binary operator token when `token2bop` maps it to an operator. -/
def isBinaryOperatorToken (k : tok) : Prop := token2bop k ≠ .BO_Undefined

instance (k : tok) : Decidable (isBinaryOperatorToken k) := by
  unfold isBinaryOperatorToken; infer_instance

/-- The test `tok::equal <= Kind && Kind < tok::percentequal` of `parseExpression`. -/
def Env.inAssignRange (env : Env) (k : tok) : Prop :=
  env.ord .equal ≤ env.ord k ∧ env.ord k < env.ord .percentequal

instance (env : Env) (k : tok) : Decidable (env.inAssignRange k) := by
  unfold Env.inAssignRange; infer_instance

/-- A token kind at which an operand ends: none of the suffixes `[`, `.`, `(`, `++`,
`--` that `parseLeftHandSideExpression` and `parseUnaryExpression` attach to an
operand. -/
def endsOperand (k : tok) : Prop :=
  k ∉ [tok.l_square, tok.period, tok.l_paren, tok.plusplus, tok.minusminus]

instance (k : tok) : Decidable (endsOperand k) := by
  unfold endsOperand; infer_instance

/-- A token kind at which `parseExpression` stops: it ends an operand, its binary
precedence is below 4, it is not in the assignment range and it is not `?`. -/
def Env.endsExpression (env : Env) (k : tok) : Prop :=
  endsOperand k ∧ env.getBinOpPrecedence k < 4 ∧ ¬ env.inAssignRange k ∧ k ≠ .question

instance (env : Env) (k : tok) : Decidable (env.endsExpression k) := by
  unfold Env.endsExpression; infer_instance

/-- The tokens `o a1 o a2 ...` that continue a chain of operands joined by `o`. -/
def chain (o : Token) : List String → List Token
  | [] => []
  | a :: as => o :: operand a :: chain o as

/-- The left-nested tree of a chain: `((e o a1) o a2) ...`. -/
def leftNested (s : Parser) (o : Token) (e : Expr) (as : List String) : Expr :=
  as.foldl (fun l a => binary o l (ident s a)) e

/-- The right-nested tree of a chain: `a1 op (a2 op (... an))`. -/
def rightNested (s : Parser) (op : BinaryOperatorKind) : String → List String → Expr
  | a, [] => ident s a
  | a, b :: bs => Actions.CreateBinOp op (ident s a) (rightNested s op b bs)

/-- The punctuator or keyword token of the given kind. -/
def punct (k : tok) : Token := ⟨k, ""⟩


/-- The pairs of an opening bracket kind and its closing kind. -/
def bracketPairs : List (tok × tok) :=
  [(tok.l_paren, tok.r_paren), (tok.l_square, tok.r_square), (tok.l_brace, tok.r_brace)]

/-- The kinds `ConsumeAndStoreUntil` treats specially: the six brackets and `eof`. -/
def bracketOrEof : List tok :=
  [tok.l_paren, tok.r_paren, tok.l_square, tok.r_square, tok.l_brace, tok.r_brace, tok.eof]

/-- Token sequences that are balanced with respect to `()`, `[]` and `{}` and hold no
`eof`: empty; a token that is no bracket, then a balanced sequence; or a bracketed
balanced sequence, then a balanced sequence. -/
inductive Balanced : List Token → Prop where
  | nil : Balanced []
  | plain (t : Token) (ts : List Token) :
      t.Kind ∉ bracketOrEof → Balanced ts → Balanced (t :: ts)
  | group (l r : Token) (xs ys : List Token) :
      (l.Kind, r.Kind) ∈ bracketPairs → Balanced xs → Balanced ys →
      Balanced (l :: (xs ++ r :: ys))

/-- Scope `b` extends scope `a`: the same flags, and the names registered in `a` are
still registered in `b` (names are added at the front). -/
def Scope.le (a b : Scope) : Prop := a.Flags = b.Flags ∧ a.Decls <:+ b.Decls

/-- The scope stack `b` extends the scope stack `a`: the same depth, and scope by scope
`b` extends `a`. -/
def ScopesLe (a b : List Scope) : Prop := List.Forall₂ Scope.le a b

/-- A parser function keeps the scope stack: whenever it returns, the stack has the
depth it had before and every scope has kept its names. -/
structure Keeps {α : Type} (m : P α) : Prop where
  out : ∀ s a s1, m s = .ok a s1 → ScopesLe s.Scopes s1.Scopes

/-- The re-entered productions all keep the scope stack. -/
structure Fns.Keeps (F : Fns) : Prop where
  parseTypeName : ∀ b, Soll.Keeps (F.parseTypeName b)
  parseExpression : ∀ e, Soll.Keeps (F.parseExpression e)
  parseBinaryExpression : ∀ p e, Soll.Keeps (F.parseBinaryExpression p e)
  parseUnaryExpression : ∀ e, Soll.Keeps (F.parseUnaryExpression e)
  parseStatement : Soll.Keeps F.parseStatement


/-- The name under which a member of a contract is registered; a null handle has
none. -/
def Member.names : Member → List String
  | .null => []
  | .function fd => [fd.Name]
  | .var vd => [vd.Name]
  | .event ed => [ed.Name]

/-- The names of the functions, state variables and events of a contract, given by
its `SubNodes`, `Constructor` and `Fallback`. -/
def memberNames (SubNodes : List Member) (Constructor Fallback : Option FunctionDecl) :
    List String :=
  SubNodes.flatMap Member.names ++ (Constructor.toList ++ Fallback.toList).map FunctionDecl.Name

/-- The names `names` are registered in state `s`: there is a scope on the stack and
each name is in a scope that is on the stack. -/
def Registered (names : List String) (s : Parser) : Prop :=
  s.Scopes ≠ [] ∧ ∀ n ∈ names, n ∈ Actions.visible s

/-- A parser function run with the names `pre` registered returns with the names
`sel r` registered, `r` its result. -/
structure Registers {α : Type} (pre : List String) (sel : α → List String) (m : P α) :
    Prop where
  out : ∀ s a s1, Registered pre s → m s = .ok a s1 → Registered (sel a) s1

/-- The names of the members in the result of the loop over the members. -/
def membersResultNames :
    Option (List Member × Option FunctionDecl × Option FunctionDecl) → List String
  | none => []
  | some (SubNodes, Constructor, Fallback) => memberNames SubNodes Constructor Fallback

/-! ### The example of a body that calls a function declared after it -/

/-- The tokens of `function a() public { b(); } function b() public {} }`: the members
of the contract `contract C { function a() public { b(); } function b() public {} }`
and its closing brace. -/
def deferredExample.members : List Token :=
  [⟨.kw_function, "function"⟩, operand "a", punct .l_paren, punct .r_paren,
    ⟨.kw_public, "public"⟩, punct .l_brace, operand "b", punct .l_paren, punct .r_paren,
    punct .semi, punct .r_brace,
    ⟨.kw_function, "function"⟩, operand "b", punct .l_paren, punct .r_paren,
    ⟨.kw_public, "public"⟩, punct .l_brace, punct .r_brace, punct .r_brace]

/-- The declaration of the function with the given number and name in the example,
with the given body. -/
def deferredExample.decl (Id : Nat) (Name : String) (Body : Stmt) : FunctionDecl :=
  ⟨Id, Name, .Public, .NonPayable, false, false, some ⟨[]⟩, 0, some ⟨[]⟩, Body⟩

/-- The buffered body of `a` in the example. -/
def deferredExample.bodyA : LexedMethod :=
  ⟨[punct .l_brace, operand "b", punct .l_paren, punct .r_paren, punct .semi, punct .r_brace],
    deferredExample.decl 0 "a" .null⟩

/-- The buffered body of `b` in the example. -/
def deferredExample.bodyB : LexedMethod :=
  ⟨[punct .l_brace, punct .r_brace], deferredExample.decl 1 "b" .null⟩

/-- A state of the example inside the scope of the contract: the current token, the
tokens still to be lexed, the names registered in the scope of the contract, the
queue of buffered bodies and the number of declarations allocated. -/
def deferredExample.state (Tok : Token) (Lexer : List Token) (Decls : List String)
    (Late : List LexedMethod) (NextDecl : Nat) : Parser :=
  ⟨Tok, Lexer, [⟨[], Decls⟩], [], [], Late, NextDecl⟩

/-- The state in the example when the loop over the members starts. -/
def deferredExample.start : Parser :=
  deferredExample.state ⟨.kw_function, "function"⟩ deferredExample.members.tail [] [] 0

/-- The state in the example when the loop over the members has ended, with the
given names in the scope of the contract. -/
def deferredExample.collected (Decls : List String) : Parser :=
  deferredExample.state Token.eofTok [] Decls [deferredExample.bodyA, deferredExample.bodyB] 2

/-- The contract the example builds before the bodies are parsed. -/
def deferredExample.contract : ContractDecl :=
  ⟨"C", [], [.function (deferredExample.decl 0 "a" .null),
    .function (deferredExample.decl 1 "b" .null)], none, none, .Contract⟩

/-! ### Vocabulary for the classification of simple statements -/

/-- The table of the start of a simple statement, as the specification words it, by
the kind `t` of the current token and the kind `n` of the next token: a variable
declaration if `t` is `mapping`, `function` or `var`; otherwise, if `t` is an
elementary type name or an identifier: a variable declaration if `t` is an elementary
type name and `n` is one of `pure`, `view`, `payable`, or if `n` is one of
`raw_identifier`, `identifier`, `memory`, `storage`, `calldata`; an index-access
structure if `n` is `[` or `.`; an expression in every remaining case. -/
def peekStatementTypeSpec (t n : tok) : LookAheadInfo :=
  if t = .kw_mapping ∨ t = .kw_function ∨ t = .kw_var then .VariableDeclaration
  else if t.isElementaryTypeName = true ∨ t = .identifier then
    if (t.isElementaryTypeName = true ∧ (n = .kw_pure ∨ n = .kw_view ∨ n = .kw_payable)) ∨
        n = .raw_identifier ∨ n = .identifier ∨ n = .kw_memory ∨ n = .kw_storage ∨
        n = .kw_calldata then .VariableDeclaration
    else if n = .l_square ∨ n = .period then .IndexAccessStructure
    else .Expression
  else .Expression

/-! ### Vocabulary for properties of results -/

/-- Every result the parser function `m` returns satisfies `Q`. -/
structure Ensures {α : Type} (Q : α → Prop) (m : P α) : Prop where
  out : ∀ s a s1, m s = .ok a s1 → Q a

/-- The members collected for a contract are sorted: no function among `SubNodes` is
a constructor or a fallback, the function held as `Constructor` is a constructor, and
the function held as `Fallback` is a fallback and no constructor. -/
def membersSorted (SubNodes : List Member) (Constructor Fallback : Option FunctionDecl) :
    Prop :=
  (∀ fd, Member.function fd ∈ SubNodes → fd.IsConstructor = false ∧ fd.IsFallback = false) ∧
  (∀ fd, Constructor = some fd → fd.IsConstructor = true) ∧
  (∀ fd, Fallback = some fd → fd.IsConstructor = false ∧ fd.IsFallback = true)

/-- The tokens of the path `id0.id1. ... .idk`. -/
def pathTokens : String → List String → List Token
  | id0, [] => [operand id0]
  | id0, i :: is => operand id0 :: punct .period :: pathTokens i is

/-- The expression `expressionFromIndexAccessStructure` synthesizes in state `s` from
the path `id0.id1. ... .idk` and the indices `e1 ... em`:
`IndexAccess(... IndexAccess(Member(... Member(Identifier(id0), id1) ..., idk), e1) ..., em)`,
built with `Actions.CreateIdentifier`, `Actions.CreateMemberExpr` and
`Actions.CreateIndexAccess`. -/
def pathExpr (s : Parser) (id0 : String) (ids : List String) (Indices : List Expr) : Expr :=
  Indices.foldl Actions.CreateIndexAccess
    ((ids.map operand).foldl Actions.CreateMemberExpr (ident s id0))

/-! ## Vocabulary for literals and integer types -/

/-- A character code is a hexadecimal digit: `0`-`9`, `a`-`f` or `A`-`F`. -/
def isHexDigit (c : Nat) : Prop :=
  (48 ≤ c ∧ c ≤ 57) ∨ (97 ≤ c ∧ c ≤ 102) ∨ (65 ≤ c ∧ c ≤ 70)

/-- The character code of the (lower-case) hexadecimal digit of value `d`. -/
def hexDigitChar (d : Nat) : Nat := if d < 10 then 48 + d else 87 + d

/-- The two-digit hexadecimal encoding of a byte string: every byte becomes its high
digit followed by its low digit. -/
def hexEncode : List Nat → List Nat
  | [] => []
  | b :: bs => hexDigitChar (b / 16) :: hexDigitChar (b % 16) :: hexEncode bs

/-- The keywords `uint8`, `uint16`, ..., `uint256`, in the order of their widths. -/
def uintKeywords : List tok :=
  [.kw_uint8, .kw_uint16, .kw_uint24, .kw_uint32, .kw_uint40, .kw_uint48, .kw_uint56, .kw_uint64,
   .kw_uint72, .kw_uint80, .kw_uint88, .kw_uint96, .kw_uint104, .kw_uint112, .kw_uint120, .kw_uint128,
   .kw_uint136, .kw_uint144, .kw_uint152, .kw_uint160, .kw_uint168, .kw_uint176, .kw_uint184, .kw_uint192,
   .kw_uint200, .kw_uint208, .kw_uint216, .kw_uint224, .kw_uint232, .kw_uint240, .kw_uint248, .kw_uint256]

/-- The keywords `int8`, `int16`, ..., `int256`, in the order of their widths. -/
def intKeywords : List tok :=
  [.kw_int8, .kw_int16, .kw_int24, .kw_int32, .kw_int40, .kw_int48, .kw_int56, .kw_int64,
   .kw_int72, .kw_int80, .kw_int88, .kw_int96, .kw_int104, .kw_int112, .kw_int120, .kw_int128,
   .kw_int136, .kw_int144, .kw_int152, .kw_int160, .kw_int168, .kw_int176, .kw_int184, .kw_int192,
   .kw_int200, .kw_int208, .kw_int216, .kw_int224, .kw_int232, .kw_int240, .kw_int248, .kw_int256]

/-- The unsigned integer kinds `U8`, `U16`, ..., `U256`, in the order of their widths. -/
def unsignedKinds : List IntKind :=
  [.U8, .U16, .U24, .U32, .U40, .U48, .U56, .U64,
   .U72, .U80, .U88, .U96, .U104, .U112, .U120, .U128,
   .U136, .U144, .U152, .U160, .U168, .U176, .U184, .U192,
   .U200, .U208, .U216, .U224, .U232, .U240, .U248, .U256]

/-- The signed integer kinds `I8`, `I16`, ..., `I256`, in the order of their widths. -/
def signedKinds : List IntKind :=
  [.I8, .I16, .I24, .I32, .I40, .I48, .I56, .I64,
   .I72, .I80, .I88, .I96, .I104, .I112, .I120, .I128,
   .I136, .I144, .I152, .I160, .I168, .I176, .I184, .I192,
   .I200, .I208, .I216, .I224, .I232, .I240, .I248, .I256]

/-- The entry of a list ordered by width that belongs to the width `n`, a multiple of
8 from 8 on. -/
def atWidth {α : Type} (l : List α) (n : Nat) : Option α :=
  if n % 8 = 0 ∧ 8 ≤ n then l.get? (n / 8 - 1) else none

/-- The keyword `uint{n}`. -/
def uintKeyword (n : Nat) : Option tok := atWidth uintKeywords n

/-- The keyword `int{n}`. -/
def intKeyword (n : Nat) : Option tok := atWidth intKeywords n

/-- The unsigned kind of width `n`, `U{n}`. -/
def unsignedKind (n : Nat) : Option IntKind := atWidth unsignedKinds n

/-- The signed kind of width `n`, `I{n}`. -/
def signedKind (n : Nat) : Option IntKind := atWidth signedKinds n

/-- The value of a digit character: `0`-`9`, and `a`-`f` or `A`-`F` for ten to
fifteen. -/
def digitOf (c : Char) : Option Nat :=
  if 48 ≤ c.toNat ∧ c.toNat ≤ 57 then some (c.toNat - 48)
  else if 97 ≤ c.toNat ∧ c.toNat ≤ 102 then some (c.toNat - 87)
  else if 65 ≤ c.toNat ∧ c.toNat ≤ 70 then some (c.toNat - 55)
  else none

/-- The value the digits `ds` denote in base `R` after the value `acc` of the digits
read before them; no value if a character is not a digit of base `R`. -/
def digitsValue (R : Nat) : List Char → Nat → Option Nat
  | [], acc => some acc
  | c :: r, acc =>
    match digitOf c with
    | some d => if d < R then digitsValue R r (acc * R + d) else none
    | none => none

/-- The value a numeric lexeme denotes under the base its prefix determines: `0x`
hexadecimal, `0b` binary, a leading `0` octal, otherwise decimal; no value if the
text is not of one of these forms. -/
def lexemeValue : List Char → Option Nat
  | '0' :: 'x' :: ds => if ds.isEmpty then none else digitsValue 16 ds 0
  | '0' :: 'b' :: ds => if ds.isEmpty then none else digitsValue 2 ds 0
  | '0' :: d :: ds => digitsValue 8 (d :: ds) 0
  | ds => if ds.isEmpty then none else digitsValue 10 ds 0

/-! ## Vocabulary for the token stream -/

/-- The tokens `c` are consumed from the state `s`, one after the other, and `s1` is
the state after the last of them: each token of `c` is the current token when it is
consumed (by `CachedLex`, which changes nothing else). -/
def Parser.consumes (s : Parser) : List Token → Parser → Prop
  | [], s1 => s1 = s
  | t :: c, s1 => s.Tok = t ∧ Parser.consumes (CachedLex s) c s1

/-- A parser function never fails the assertion `Unhandle statement.` (the default
branch of `parseSimpleStatement`). -/
structure Handled {α : Type} (m : P α) : Prop where
  out : ∀ s, m s ≠ .abort "Unhandle statement."

/-- None of the re-entered productions fails the assertion `Unhandle statement.` -/
structure Fns.Handled (F : Fns) : Prop where
  parseTypeName : ∀ b, Soll.Handled (F.parseTypeName b)
  parseExpression : ∀ e, Soll.Handled (F.parseExpression e)
  parseBinaryExpression : ∀ p e, Soll.Handled (F.parseBinaryExpression p e)
  parseUnaryExpression : ∀ e, Soll.Handled (F.parseUnaryExpression e)
  parseStatement : Soll.Handled F.parseStatement

/-! ## The class `FunctionDecl` of `soll/AST/Decl.h` -/

/-- The move construction `std::unique_ptr<Block>(std::move(p))`: the new pointer owns
what `p` owned and `p` is left null.  The result is the new pointer and `p` after the
move. -/
def unique_ptr.move (p : Stmt) : Stmt × Stmt := (p, .null)

/-- The class `FunctionDecl` of `soll/AST/Decl.h`: the members of its base classes
`Decl` and `CallableVarDecl`, then its own members in the order of their declaration.
`FunctionModifiers` is the number of modifier invocations. -/
structure AST.FunctionDecl where
  Name : String
  Vsblty : Visibility
  Params : Option ParamList
  ReturnParams : Option ParamList
  SM : StateMutability
  IsConstructor : Bool
  FunctionModifiers : Nat
  Body : Stmt
  Implemented : Bool
deriving Repr, Inhabited

/-- The constructor `FunctionDecl::FunctionDecl` of `soll/AST/Decl.h`.  The members are
initialised in the order of their declaration, so `Body(std::move(body))` runs before
`Implemented(body != nullptr)`, which reads the parameter `body` after the move. -/
def AST.FunctionDecl.FunctionDecl (name : String) (visibility : Visibility)
    (sm : StateMutability) (isConstructor : Bool) (Params : Option ParamList)
    (modifiers : Nat) (returnParams : Option ParamList) (body : Stmt) : AST.FunctionDecl :=
  let SM := sm
  let IsConstructor := isConstructor
  let FunctionModifiers := modifiers
  let (Body, body) := unique_ptr.move body
  let Implemented := !body.isNull
  ⟨name, visibility, Params, returnParams, SM, IsConstructor, FunctionModifiers, Body,
    Implemented⟩

/-- The accessor `FunctionDecl::getBody` of `soll/AST/Decl.h`. -/
def AST.FunctionDecl.getBody (FD : AST.FunctionDecl) : Stmt := FD.Body

/-- A result of `stringUnquote` or of one of its loops that is not a failure with the
message `Unhandle statement.` -/
def OtherMessage {α : Type} (r : Except String α) : Prop :=
  ∀ e, r = .error e → e ≠ "Unhandle statement."

/-! ## Basic facts about the state monad and the stream -/

theorem bind_apply {α β : Type} (m : P α) (f : α → P β) (s : Parser) :
    (m >>= f) s = (m s).bind f := rfl

theorem pure_apply {α : Type} (a : α) (s : Parser) : (pure a : P α) s = .ok a s := rfl

theorem Res.bind_ok {α β : Type} (a : α) (s : Parser) (f : α → Parser → Res β) :
    (Res.ok a s).bind f = f a s := rfl

theorem Res.bind_abort {α β : Type} (m : String) (f : α → Parser → Res β) :
    (Res.abort m : Res α).bind f = .abort m := rfl

theorem Res.bind_outOfFuel {α β : Type} (f : α → Parser → Res β) :
    (Res.outOfFuel : Res α).bind f = .outOfFuel := rfl

theorem getTok_apply (s : Parser) : getTok s = .ok s.Tok s := rfl

theorem getNextToken_apply (s : Parser) : getNextToken s = .ok (NextToken s) s := rfl

theorem ConsumeToken_apply (s : Parser) : ConsumeToken s = .ok () (CachedLex s) := rfl

theorem ConsumeAnyToken_apply (s : Parser) : ConsumeAnyToken s = .ok () (CachedLex s) := rfl

theorem ConsumeParen_apply (s : Parser) : ConsumeParen s = .ok () (CachedLex s) := rfl

theorem ConsumeBracket_apply (s : Parser) : ConsumeBracket s = .ok () (CachedLex s) := rfl

theorem ConsumeBrace_apply (s : Parser) : ConsumeBrace s = .ok () (CachedLex s) := rfl

theorem TryConsumeToken_apply (k : tok) (s : Parser) :
    TryConsumeToken k s = if s.Tok.Kind = k then .ok true (CachedLex s) else .ok false s := by
  unfold TryConsumeToken Token.is
  by_cases h : s.Tok.Kind = k <;> simp only [h, decide_True, decide_False, if_true, if_false,
    Bool.false_eq_true]

theorem abort_apply {α : Type} (m : String) (s : Parser) : (abort m : P α) s = .abort m := rfl

theorem outOfFuel_apply {α : Type} (s : Parser) : (outOfFuel : P α) s = .outOfFuel := rfl

theorem CachedLex_Tok (s : Parser) : (CachedLex s).Tok = NextToken s := by
  unfold CachedLex NextToken; cases s.Lexer <;> rfl

theorem setStream_cons_Tok (s : Parser) (t : Token) (ts : List Token) :
    (s.setStream (t :: ts)).Tok = t := rfl

theorem setStream_nil_Tok (s : Parser) : (s.setStream []).Tok = Token.eofTok := rfl

theorem setStream_Tok (s : Parser) (ts : List Token) :
    (s.setStream ts).Tok = ts.headD Token.eofTok := by
  cases ts <;> rfl

theorem NextToken_setStream (s : Parser) (t : Token) (ts : List Token) :
    NextToken (s.setStream (t :: ts)) = ts.headD Token.eofTok := rfl

theorem CachedLex_setStream (s : Parser) (t : Token) (ts : List Token) :
    CachedLex (s.setStream (t :: ts)) = s.setStream ts := by
  cases ts <;> rfl

theorem CachedLex_setStream_nil (s : Parser) : CachedLex (s.setStream []) = s.setStream [] := rfl

theorem visible_setStream (s : Parser) (ts : List Token) :
    Actions.visible (s.setStream ts) = Actions.visible s := by
  cases ts <;> rfl

theorem init_eq_setStream (ts : List Token) :
    Parser.init ts = (Parser.init []).setStream ts := by
  cases ts <;> rfl

theorem fns_succ_parseExpression (env : Env) (n : Nat) :
    (fns env (n + 1)).parseExpression = parseExpression env (fns env n) := rfl

theorem fns_succ_parseBinaryExpression (env : Env) (n : Nat) :
    (fns env (n + 1)).parseBinaryExpression = parseBinaryExpression env (fns env n) := rfl

theorem fns_fuel (env : Env) (n : Nat) : (fns env n).fuel = n := by
  cases n <;> rfl

theorem isBinaryOperatorToken_endsOperand (k : tok) (h : isBinaryOperatorToken k) :
    endsOperand k := by
  unfold isBinaryOperatorToken at h
  unfold endsOperand
  intro hm
  simp only [List.mem_cons, List.mem_singleton, List.not_mem_nil, or_false] at hm
  rcases hm with h1 | h1 | h1 | h1 | h1 <;> subst h1 <;> exact h rfl

/-! ## Operands -/

theorem parsePrimaryExpression_identifier (self : Fns) (s : Parser)
    (hk : s.Tok.Kind = .identifier) :
    parsePrimaryExpression self s = .ok (ident s s.Tok.Text) (CachedLex s) := by
  obtain ⟨⟨k, txt⟩, lexer, sc, fr, dg, lp, nd⟩ := s
  simp only at hk
  subst hk
  rfl

theorem parseLeftHandSideExpression_loop_done (self : Fns) (fuel : Nat) (E : Expr) (s : Parser)
    (h : s.Tok.Kind ∉ [tok.l_square, tok.period, tok.l_paren]) :
    parseLeftHandSideExpression.loop self (fuel + 1) E s = .ok E s := by
  simp only [List.mem_cons, List.mem_singleton, not_or, List.not_mem_nil, not_false_eq_true,
    and_true] at h
  unfold parseLeftHandSideExpression.loop
  simp only [bind_apply, getTok_apply, Res.bind_ok, Token.is, h, decide_False, pure_apply,
    Bool.false_eq_true, if_false]

/-- An identifier followed by a token that ends an operand is a complete unary
expression. -/
theorem parseUnaryExpression_identifier (env : Env) (self : Fns) (s : Parser)
    (hk : s.Tok.Kind = .identifier) (hn : endsOperand (NextToken s).Kind) :
    parseUnaryExpression env self .null s = .ok (ident s s.Tok.Text) (CachedLex s) := by
  unfold endsOperand at hn
  simp only [List.mem_cons, List.mem_singleton, not_or, List.not_mem_nil, not_false_eq_true,
    and_true] at hn
  obtain ⟨h1, h2, h3, h4, h5⟩ := hn
  have hloop : parseLeftHandSideExpression.loop self (self.fuel + 1) (ident s s.Tok.Text)
      (CachedLex s) = .ok (ident s s.Tok.Text) (CachedLex s) := by
    apply parseLeftHandSideExpression_loop_done
    rw [CachedLex_Tok]
    simp only [List.mem_cons, List.mem_singleton, not_or, List.not_mem_nil, not_false_eq_true,
      and_true]
    exact ⟨h1, h2, h3⟩
  have hlhs : parseLeftHandSideExpression env self .null s =
      .ok (ident s s.Tok.Text) (CachedLex s) := by
    unfold parseLeftHandSideExpression
    simp only [Expr.isNull, not_true_eq_false, if_false, bind_apply, TryConsumeToken_apply, hk,
      Res.bind_ok, Bool.false_eq_true, parsePrimaryExpression_identifier self s hk, hloop,
      reduceCtorEq]
  have hpost : token2uop (NextToken s).Kind false ≠ .UO_PostInc ∧
      token2uop (NextToken s).Kind false ≠ .UO_PostDec := by
    generalize (NextToken s).Kind = k at h4 h5
    cases k <;> simp_all [token2uop]
  have hu : s.Tok.isUnaryOp = false := by
    simp only [Token.isUnaryOp, hk, token2uop, ne_eq, not_true_eq_false, decide_False]
  unfold parseUnaryExpression
  simp only [bind_apply, getTok_apply, Res.bind_ok, hu, Bool.and_false, Bool.false_eq_true,
    if_false, hlhs, CachedLex_Tok, hpost.1, hpost.2, or_self, not_false_eq_true, if_true,
    pure_apply]

/-! ## The loops of `parseBinaryExpression` -/

theorem whileLoop_exit (env : Env) (self : Fns) (P fuel : Nat) (E : Expr) (s : Parser)
    (h : env.getBinOpPrecedence s.Tok.Kind ≠ P) :
    parseBinaryExpression.whileLoop env self P (fuel + 1) E s = .ok E s := by
  unfold parseBinaryExpression.whileLoop
  simp only [bind_apply, getTok_apply, Res.bind_ok, h, if_false, pure_apply]

theorem whileLoop_step (env : Env) (self : Fns) (P fuel : Nat) (E : Expr) (s : Parser)
    (h : env.getBinOpPrecedence s.Tok.Kind = P) :
    parseBinaryExpression.whileLoop env self P (fuel + 1) E s =
      (self.parseBinaryExpression (P + 1) .null (CachedLex s)).bind fun R s1 =>
        parseBinaryExpression.whileLoop env self P fuel (binary s.Tok E R) s1 := by
  conv => lhs; unfold parseBinaryExpression.whileLoop
  simp only [bind_apply, getTok_apply, Res.bind_ok, h, if_true, ConsumeToken_apply, binary]

theorem forLoop_zero (env : Env) (self : Fns) (P : Nat) (E : Expr) (s : Parser) :
    parseBinaryExpression.forLoop env self 0 P E s = .ok E s := rfl

theorem forLoop_succ (env : Env) (self : Fns) (count P : Nat) (E : Expr) (s : Parser) :
    parseBinaryExpression.forLoop env self (count + 1) P E s =
      (parseBinaryExpression.whileLoop env self P (self.fuel + 1) E s).bind fun E1 s1 =>
        parseBinaryExpression.forLoop env self count (P - 1) E1 s1 := rfl

/-- The `for` loop does nothing on the levels the current token is not of. -/
theorem forLoop_skip (env : Env) (self : Fns) (count : Nat) :
    ∀ (P : Nat) (E : Expr) (s : Parser),
      (∀ q, q ≤ P → P < q + count → env.getBinOpPrecedence s.Tok.Kind ≠ q) →
      parseBinaryExpression.forLoop env self count P E s = .ok E s := by
  induction count with
  | zero => intro P E s _; rfl
  | succ c ih =>
    intro P E s h
    rw [forLoop_succ, whileLoop_exit env self P self.fuel E s (h P (le_refl P) (by omega)),
      Res.bind_ok]
    apply ih
    intro q hq1 hq2
    exact h q (by omega) (by omega)

/-- The `for` loop descends to the level of the current token. -/
theorem forLoop_descend (env : Env) (self : Fns) (c q : Nat) (E : Expr) (s : Parser)
    (hq : env.getBinOpPrecedence s.Tok.Kind = q) :
    ∀ d, parseBinaryExpression.forLoop env self (c + d) (q + d) E s =
      parseBinaryExpression.forLoop env self c q E s := by
  intro d
  induction d with
  | zero => rfl
  | succ d ih =>
    have h1 : c + (d + 1) = (c + d) + 1 := by omega
    rw [h1, forLoop_succ, whileLoop_exit env self (q + (d + 1)) self.fuel E s (by omega),
      Res.bind_ok]
    have h2 : q + (d + 1) - 1 = q + d := by omega
    rw [h2]
    exact ih

/-- An identifier followed by a token that ends an operand and whose precedence is
below `MinPrecedence` is a complete binary expression. -/
theorem parseBinaryExpression_operand (env : Env) (self : Fns) (Min : Nat) (s : Parser)
    (hk : s.Tok.Kind = .identifier) (hn : endsOperand (NextToken s).Kind)
    (hp : env.getBinOpPrecedence (NextToken s).Kind < Min) :
    parseBinaryExpression env self Min .null s = .ok (ident s s.Tok.Text) (CachedLex s) := by
  unfold parseBinaryExpression
  simp only [bind_apply, parseUnaryExpression_identifier env self s hk hn, Res.bind_ok,
    getTok_apply, CachedLex_Tok]
  apply forLoop_skip
  intro q _ hq2
  omega

/-- The `while` loop at the level of `o` parses a chain `o a1 o a2 ...` into a
left-nested tree, when each operand is parsed by one call of the re-entered
`parseBinaryExpression`. -/
theorem whileLoop_chain (env : Env) (self self1 : Fns) (o : Token) (p : Nat) (s : Parser)
    (rest : List Token)
    (hself : self.parseBinaryExpression = parseBinaryExpression env self1)
    (ho : isBinaryOperatorToken o.Kind) (hp : env.getBinOpPrecedence o.Kind = p)
    (hr1 : endsOperand (rest.headD Token.eofTok).Kind)
    (hr2 : env.getBinOpPrecedence (rest.headD Token.eofTok).Kind < p) :
    ∀ (as : List String) (E : Expr) (fuel : Nat), as.length < fuel →
      parseBinaryExpression.whileLoop env self p fuel E (s.setStream (chain o as ++ rest)) =
        .ok (leftNested s o E as) (s.setStream rest) := by
  intro as
  induction as with
  | nil =>
    intro E fuel hf
    obtain ⟨f, rfl⟩ : ∃ f, fuel = f + 1 := ⟨fuel - 1, by omega⟩
    apply whileLoop_exit
    rw [setStream_Tok]
    exact Nat.ne_of_lt hr2
  | cons a as ih =>
    intro E fuel hf
    obtain ⟨f, rfl⟩ : ∃ f, fuel = f + 1 := ⟨fuel - 1, by omega⟩
    simp only [List.length_cons] at hf
    have hnext : (chain o as ++ rest).headD Token.eofTok = o ∨
        (chain o as ++ rest).headD Token.eofTok = rest.headD Token.eofTok := by
      cases as with
      | nil => right; rfl
      | cons b bs => left; rfl
    have hn1 : endsOperand ((chain o as ++ rest).headD Token.eofTok).Kind := by
      rcases hnext with h | h <;> rw [h]
      · exact isBinaryOperatorToken_endsOperand _ ho
      · exact hr1
    have hn2 : env.getBinOpPrecedence ((chain o as ++ rest).headD Token.eofTok).Kind < p + 1 := by
      rcases hnext with h | h <;> rw [h] <;> omega
    show parseBinaryExpression.whileLoop env self p (f + 1) E
      (s.setStream (o :: operand a :: (chain o as ++ rest))) = _
    rw [whileLoop_step env self p f E _ (by rw [setStream_cons_Tok]; exact hp), hself,
      CachedLex_setStream,
      parseBinaryExpression_operand env self1 (p + 1) _ rfl
        (by rw [NextToken_setStream]; exact hn1) (by rw [NextToken_setStream]; exact hn2),
      Res.bind_ok, CachedLex_setStream, setStream_cons_Tok, setStream_cons_Tok]
    have hid : ident (s.setStream (operand a :: (chain o as ++ rest))) (operand a).Text =
        ident s a := by
      unfold ident
      rw [visible_setStream]
      rfl
    rw [hid]
    exact ih (binary o E (ident s a)) f (by omega)

/-- `parseBinaryExpression` parses an identifier followed by a chain at one level
`p >= MinPrecedence` into the left-nested tree. -/
theorem parseBinaryExpression_chain (env : Env) (self self1 : Fns) (o : Token) (p Min : Nat)
    (s : Parser) (a : String) (as : List String) (rest : List Token)
    (hself : self.parseBinaryExpression = parseBinaryExpression env self1)
    (ho : isBinaryOperatorToken o.Kind) (hp : env.getBinOpPrecedence o.Kind = p)
    (hmin : Min ≤ p)
    (hr1 : endsOperand (rest.headD Token.eofTok).Kind)
    (hr2 : env.getBinOpPrecedence (rest.headD Token.eofTok).Kind < Min)
    (hfuel : as.length ≤ self.fuel) :
    parseBinaryExpression env self Min .null (s.setStream (operand a :: (chain o as ++ rest))) =
      .ok (leftNested s o (ident s a) as) (s.setStream rest) := by
  have hnext : (chain o as ++ rest).headD Token.eofTok = o ∨
      (as = [] ∧ (chain o as ++ rest).headD Token.eofTok = rest.headD Token.eofTok) := by
    cases as with
    | nil => right; exact ⟨rfl, rfl⟩
    | cons b bs => left; rfl
  have hn1 : endsOperand ((chain o as ++ rest).headD Token.eofTok).Kind := by
    rcases hnext with h | ⟨_, h⟩ <;> rw [h]
    · exact isBinaryOperatorToken_endsOperand _ ho
    · exact hr1
  have hid : ident (s.setStream (operand a :: (chain o as ++ rest))) (operand a).Text =
      ident s a := by
    unfold ident
    rw [visible_setStream]
    rfl
  unfold parseBinaryExpression
  simp only [bind_apply]
  rw [parseUnaryExpression_identifier env self _ rfl (by rw [NextToken_setStream]; exact hn1)]
  simp only [bind_apply, Res.bind_ok, getTok_apply, CachedLex_setStream, setStream_cons_Tok, hid]
  rcases hnext with h | ⟨hnil, h⟩
  · have hq : env.getBinOpPrecedence (s.setStream (chain o as ++ rest)).Tok.Kind = p := by
      rw [setStream_Tok, h]; exact hp
    rw [hq]
    obtain ⟨c, hc⟩ : ∃ c, p + 1 - Min = c + 1 := ⟨p - Min, by omega⟩
    rw [hc, forLoop_succ,
      whileLoop_chain env self self1 o p s rest hself ho hp hr1 (by omega) as (ident s a)
        (self.fuel + 1) (by omega),
      Res.bind_ok]
    apply forLoop_skip
    intro q hq1 hq2
    rw [setStream_Tok]
    omega
  · subst hnil
    show parseBinaryExpression.forLoop env self _ _ (ident s a) (s.setStream rest) = _
    apply forLoop_skip
    intro q hq1 hq2
    rw [setStream_Tok]
    omega

/-- One level of the `for` loop on a chain at that level. -/
theorem forLoop_chain (env : Env) (self self1 : Fns) (o : Token) (p c : Nat) (s : Parser)
    (as : List String) (E : Expr) (rest : List Token)
    (hself : self.parseBinaryExpression = parseBinaryExpression env self1)
    (ho : isBinaryOperatorToken o.Kind) (hp : env.getBinOpPrecedence o.Kind = p)
    (hr1 : endsOperand (rest.headD Token.eofTok).Kind)
    (hr2 : env.getBinOpPrecedence (rest.headD Token.eofTok).Kind + c < p)
    (hfuel : as.length ≤ self.fuel) :
    parseBinaryExpression.forLoop env self (c + 1) p E (s.setStream (chain o as ++ rest)) =
      .ok (leftNested s o E as) (s.setStream rest) := by
  rw [forLoop_succ,
    whileLoop_chain env self self1 o p s rest hself ho hp hr1 (by omega) as E (self.fuel + 1)
      (by omega),
    Res.bind_ok]
  apply forLoop_skip
  intro q hq1 hq2
  rw [setStream_Tok]
  omega

/-! ## The three exits of `parseExpression` -/

theorem parseExpression_plain (env : Env) (self : Fns) (e E : Expr) (s s1 : Parser)
    (hb : parseBinaryExpression env self 4 e s = .ok E s1)
    (h1 : ¬ env.inAssignRange s1.Tok.Kind) (h2 : s1.Tok.Kind ≠ .question) :
    parseExpression env self e s = .ok E s1 := by
  unfold Env.inAssignRange at h1
  unfold parseExpression
  simp only [bind_apply, hb, Res.bind_ok, getTok_apply, h1, if_false, TryConsumeToken_apply, h2,
    Bool.false_eq_true, pure_apply]

theorem parseExpression_assign (env : Env) (self : Fns) (e E : Expr) (s s1 : Parser)
    (hb : parseBinaryExpression env self 4 e s = .ok E s1)
    (h1 : env.inAssignRange s1.Tok.Kind) :
    parseExpression env self e s =
      (self.parseExpression .null (CachedLex s1)).bind fun R s2 => .ok (binary s1.Tok E R) s2 := by
  unfold Env.inAssignRange at h1
  unfold parseExpression
  simp only [bind_apply, hb, Res.bind_ok, getTok_apply, h1, and_self, if_true, ConsumeToken_apply,
    binary]
  rfl

theorem parseExpression_conditional (env : Env) (self : Fns) (e E T F : Expr)
    (s s1 s2 s3 : Parser)
    (hb : parseBinaryExpression env self 4 e s = .ok E s1)
    (h1 : ¬ env.inAssignRange s1.Tok.Kind) (h2 : s1.Tok.Kind = .question)
    (ht : self.parseExpression .null (CachedLex s1) = .ok T s2)
    (h3 : s2.Tok.Kind = .colon)
    (hf : self.parseExpression .null (CachedLex s2) = .ok F s3) :
    parseExpression env self e s = .ok .null s3 := by
  unfold Env.inAssignRange at h1
  have h1q := h1
  rw [h2] at h1q
  unfold parseExpression
  simp only [bind_apply, hb, Res.bind_ok, getTok_apply, h1q, if_false, TryConsumeToken_apply, h2,
    if_true, ht, ExpectAndConsume, Token.is, h3, decide_True, ConsumeAnyToken_apply, pure_apply,
    Bool.false_eq_true, hf]

/-- An identifier followed by a token at which expressions stop is a complete
expression. -/
theorem parseExpression_operand (env : Env) (self : Fns) (s : Parser)
    (hk : s.Tok.Kind = .identifier) (hn : env.endsExpression (NextToken s).Kind) :
    parseExpression env self .null s = .ok (ident s s.Tok.Text) (CachedLex s) := by
  obtain ⟨h1, h2, h3, h4⟩ := hn
  apply parseExpression_plain env self _ _ _ _
    (parseBinaryExpression_operand env self 4 s hk h1 h2)
  · rw [CachedLex_Tok]; exact h3
  · rw [CachedLex_Tok]; exact h4

theorem ident_setStream (s : Parser) (a : String) (ts : List Token) :
    ident (s.setStream (operand a :: ts)) (s.setStream (operand a :: ts)).Tok.Text = ident s a := by
  unfold ident
  rw [visible_setStream]
  rfl

theorem ident_setStream_name (s : Parser) (a : String) (ts : List Token) :
    ident (s.setStream ts) a = ident s a := by
  unfold ident
  rw [visible_setStream]

theorem operand_Text (a : String) : (operand a).Text = a := rfl

/-- A chain of assignments `a = b1 = b2 ...` nests to the right. -/
theorem parseExpression_assignChain (env : Env) (eq : Token) (s : Parser) (rest : List Token)
    (heq : eq.Kind = .equal)
    (hprec : env.getBinOpPrecedence .equal < 4)
    (hord : env.ord .equal < env.ord .percentequal)
    (hend : env.endsExpression (rest.headD Token.eofTok).Kind) :
    ∀ (as : List String) (a : String) (fuel : Nat), as.length < fuel →
      (fns env fuel).parseExpression .null (s.setStream (operand a :: (chain eq as ++ rest))) =
        .ok (rightNested s .BO_Assign a as) (s.setStream rest) := by
  intro as
  induction as with
  | nil =>
    intro a fuel hf
    obtain ⟨f, rfl⟩ : ∃ f, fuel = f + 1 := ⟨fuel - 1, by omega⟩
    rw [fns_succ_parseExpression,
      parseExpression_operand env _ _ rfl (by rw [NextToken_setStream]; exact hend),
      CachedLex_setStream, ident_setStream]
    rfl
  | cons b bs ih =>
    intro a fuel hf
    obtain ⟨f, rfl⟩ : ∃ f, fuel = f + 1 := ⟨fuel - 1, by omega⟩
    simp only [List.length_cons] at hf
    have hop : parseBinaryExpression env (fns env f) 4 .null
        (s.setStream (operand a :: (chain eq (b :: bs) ++ rest))) =
        .ok (ident s a) (s.setStream (eq :: operand b :: (chain eq bs ++ rest))) := by
      rw [parseBinaryExpression_operand env _ 4 _ rfl
        (by
          rw [NextToken_setStream]
          exact isBinaryOperatorToken_endsOperand _ (by
            show isBinaryOperatorToken eq.Kind
            rw [heq]; decide))
        (by
          rw [NextToken_setStream]
          show env.getBinOpPrecedence eq.Kind < 4
          rw [heq]; exact hprec),
        CachedLex_setStream, ident_setStream]
      rfl
    rw [fns_succ_parseExpression,
      parseExpression_assign env _ _ _ _ _ hop
        (by
          rw [setStream_cons_Tok, heq]
          exact ⟨le_refl _, hord⟩),
      CachedLex_setStream, ih b f (by omega), Res.bind_ok, setStream_cons_Tok]
    unfold binary
    rw [heq]
    rfl

/-! ## A modifier name after the parameter list -/

/-- With a modifier name as the current token the header loop of
`parseFunctionHeader` never ends. -/
theorem parseFunctionHeader_loop_diverges :
    ∀ (n : Nat) (V : Visibility) (SM : StateMutability) (s : Parser),
      s.Tok.Kind = .identifier → parseFunctionHeader.loop true n V SM s = .outOfFuel := by
  intro n
  induction n with
  | zero => intro V SM s _; rfl
  | succ n ih =>
    intro V SM s h
    unfold parseFunctionHeader.loop
    simp only [bind_apply, getTok_apply, Res.bind_ok, Token.is, h, decide_True, Bool.and_self,
      if_true]
    exact ih V SM s h

theorem parseContractKind_contract (s : Parser) (h : s.Tok.Kind = .kw_contract) :
    parseContractKind s = .ok .Contract (CachedLex s) := by
  obtain ⟨⟨k, txt⟩, lexer, sc, fr, dg, lp, nd⟩ := s
  simp only at h
  subst h
  rfl

theorem parseFunctionHeader_diverges (env : Env) (self : Fns) (f m : Token) (rest : List Token)
    (sc : List Scope) (fr : List Ty) (dg : List Diagnostic) (lp : List LexedMethod) (nd : Nat)
    (hf : f.Kind = .identifier) (hm : m.Kind = .identifier) :
    parseFunctionHeader env self false true
      ⟨punct .kw_function, f :: punct .l_paren :: punct .r_paren :: m :: rest, sc, fr, dg, lp, nd⟩ =
      .outOfFuel := by
  unfold parseFunctionHeader
  simp only [bind_apply, parseFunctionHeader.name, getTok_apply, Res.bind_ok, Token.is, punct,
    reduceCtorEq, decide_False, decide_True, Bool.or_true, Bool.false_eq_true, not_true_eq_false,
    not_false_eq_true, if_false, if_true, ConsumeToken_apply, CachedLex, Bool.or_false, hf,
    Token.isAnyIdentifier, Token.isOneOf, List.mem_cons, true_or, pure_apply,
    parseParameterList, ExpectAndConsume, ConsumeAnyToken_apply, Token.isNot, ne_eq,
    Bool.not_true, Bool.and_false, Bool.or_self, Bool.not_false, Bool.true_and, Bool.and_true]
  rw [parseFunctionHeader_loop_diverges _ _ _ _ hm]
  rfl

theorem parseFunctionDefinition_diverges (env : Env) (self : Fns) (f m : Token)
    (rest : List Token) (sc : List Scope) (fr : List Ty) (dg : List Diagnostic)
    (lp : List LexedMethod) (nd : Nat)
    (hf : f.Kind = .identifier) (hm : m.Kind = .identifier) :
    parseFunctionDefinitionOrFunctionTypeStateVariable env self
      ⟨punct .kw_function, f :: punct .l_paren :: punct .r_paren :: m :: rest, sc, fr, dg, lp, nd⟩ =
      .outOfFuel := by
  unfold parseFunctionDefinitionOrFunctionTypeStateVariable ParseScope
  simp only [bind_apply, Actions.PushScope, Res.bind_ok,
    parseFunctionHeader_diverges env self f m rest _ fr dg lp nd hf hm, Res.bind_outOfFuel]

theorem members_diverges (env : Env) (self : Fns) (n : Nat) (f m : Token)
    (rest : List Token) (sc : List Scope) (fr : List Ty) (dg : List Diagnostic)
    (lp : List LexedMethod) (nd : Nat) (SubNodes : List Member) (C F : Option FunctionDecl)
    (hf : f.Kind = .identifier) (hm : m.Kind = .identifier) :
    parseContractDefinition.members env self (n + 1) SubNodes C F
      ⟨punct .kw_function, f :: punct .l_paren :: punct .r_paren :: m :: rest, sc, fr, dg, lp, nd⟩ =
      .outOfFuel := by
  unfold parseContractDefinition.members
  simp only [bind_apply, getTok_apply, Res.bind_ok, Token.is, punct, reduceCtorEq, decide_False,
    Bool.false_eq_true, if_false, Token.isOneOf, List.mem_cons, true_or, decide_True, if_true]
  have h := parseFunctionDefinition_diverges env self f m rest sc fr dg lp nd hf hm
  simp only [punct] at h
  rw [h]
  rfl

theorem parseContractDefinition_diverges (env : Env) (self : Fns) (c f m : Token)
    (rest : List Token) (sc : List Scope) (fr : List Ty) (dg : List Diagnostic)
    (lp : List LexedMethod) (nd : Nat)
    (hc : c.Kind = .identifier) (hf : f.Kind = .identifier) (hm : m.Kind = .identifier) :
    parseContractDefinition env self
      ⟨punct .kw_contract, c :: punct .l_brace :: punct .kw_function :: f :: punct .l_paren ::
        punct .r_paren :: m :: rest, sc, fr, dg, lp, nd⟩ = .outOfFuel := by
  unfold parseContractDefinition ParseScope
  simp only [bind_apply, Actions.PushScope, Res.bind_ok]
  rw [parseContractKind_contract _ rfl]
  have h := members_diverges env self self.fuel f m rest (⟨[], []⟩ :: sc) fr dg lp nd [] none none
    hf hm
  simp only [punct] at h
  simp only [Res.bind_ok, CachedLex, getTok_apply, bind_apply, Token.isAnyIdentifier,
    Token.isOneOf, hc, List.mem_cons, true_or, decide_True, Bool.not_true, Bool.false_eq_true,
    if_false, ConsumeToken_apply, TryConsumeToken_apply, punct, reduceCtorEq, pure_apply,
    ExpectAndConsume, Token.is, if_true, ConsumeAnyToken_apply, h, Res.bind_outOfFuel]

/-- C6, what the code does on the failing input: on the token sequence of
`contract C { function f() m {} }` (then `eof`), where the modifier name `m`
follows the parameter list, `Parser::parse` does not return: whatever the fuel, the
run ends out of fuel, in the header loop of `parseFunctionHeader`, which does not
consume the modifier name. -/
theorem parse_modifier_diverges (env : Env) (fuel : Nat) :
    parse env fuel (Parser.init [punct .kw_contract, operand "C", punct .l_brace,
      punct .kw_function, operand "f", punct .l_paren, punct .r_paren, operand "m",
      punct .l_brace, punct .r_brace, punct .r_brace, punct .eof]) = .outOfFuel := by
  unfold parse ParseScope
  simp only [bind_apply, Actions.PushScope, Res.bind_ok, Parser.init, CachedLex]
  unfold parse.loop
  have h := parseContractDefinition_diverges env (fns env fuel) (operand "C") (operand "f")
    (operand "m") [punct .l_brace, punct .r_brace, punct .r_brace, punct .eof] [⟨[], []⟩] [] [] []
    0 rfl rfl rfl
  simp only [punct] at h
  simp only [bind_apply, getTok_apply, Res.bind_ok, Token.is, punct, reduceCtorEq, decide_False,
    Bool.false_eq_true, if_false, Token.isOneOf, List.mem_cons, List.mem_singleton, or_true,
    true_or, false_or, decide_True, if_true, h, Res.bind_outOfFuel]

/-! ## `ConsumeAndStoreUntil` -/

theorem ConsumeAndStoreUntil_found (fuel : Nat) (T : tok) (Toks : List Token) (s : Parser)
    (h : s.Tok.Kind = T) :
    ConsumeAndStoreUntil (fuel + 1) T T Toks s = .ok (true, Toks ++ [s.Tok]) (CachedLex s) := by
  unfold ConsumeAndStoreUntil
  simp only [bind_apply, getTok_apply, Res.bind_ok, Token.is, h, decide_True, Bool.or_self,
    if_true, ConsumeAnyToken_apply, pure_apply]

theorem ConsumeAndStoreUntil_plain (fuel : Nat) (T : tok) (Toks : List Token) (s : Parser)
    (hT : s.Tok.Kind ≠ T) (h : s.Tok.Kind ∉ bracketOrEof) :
    ConsumeAndStoreUntil (fuel + 1) T T Toks s =
      ConsumeAndStoreUntil fuel T T (Toks ++ [s.Tok]) (CachedLex s) := by
  unfold bracketOrEof at h
  simp only [List.mem_cons, List.mem_singleton, not_or, List.not_mem_nil, or_false] at h
  obtain ⟨h1, h2, h3, h4, h5, h6, h7⟩ := h
  conv => lhs; unfold ConsumeAndStoreUntil
  simp only [bind_apply, getTok_apply, Res.bind_ok, Token.is, hT, h1, h2, h3, h4, h5, h6, h7,
    decide_False, Bool.or_self, Bool.false_eq_true, if_false, ConsumeAnyToken_apply]

theorem ConsumeAndStoreUntil_open (fuel : Nat) (T o c : tok) (Toks : List Token) (s : Parser)
    (hp : (o, c) ∈ bracketPairs) (ho : s.Tok.Kind = o) (hT : o ≠ T) :
    ConsumeAndStoreUntil (fuel + 1) T T Toks s =
      (ConsumeAndStoreUntil fuel c c (Toks ++ [s.Tok]) (CachedLex s)).bind fun r s1 =>
        ConsumeAndStoreUntil fuel T T r.2 s1 := by
  unfold bracketPairs at hp
  simp only [List.mem_cons, Prod.mk.injEq, List.mem_singleton, List.not_mem_nil, or_false] at hp
  conv => lhs; unfold ConsumeAndStoreUntil
  rcases hp with ⟨h1, h2⟩ | ⟨h1, h2⟩ | ⟨h1, h2⟩ <;> subst h1 <;> subst h2 <;>
    simp only [bind_apply, getTok_apply, Res.bind_ok, Token.is, ho, hT, decide_False,
      decide_True, Bool.or_self, Bool.false_eq_true, if_false, if_true, reduceCtorEq,
      ConsumeParen_apply, ConsumeBracket_apply, ConsumeBrace_apply]

/-- The closing kinds. -/
theorem closer_of_pair (o c : tok) (hp : (o, c) ∈ bracketPairs) :
    c ∈ [tok.r_paren, tok.r_square, tok.r_brace] ∧ o ∉ [tok.r_paren, tok.r_square, tok.r_brace] ∧
      o ∈ bracketOrEof := by
  unfold bracketPairs at hp
  simp only [List.mem_cons, Prod.mk.injEq, List.mem_singleton, List.not_mem_nil, or_false] at hp
  rcases hp with ⟨h1, h2⟩ | ⟨h1, h2⟩ | ⟨h1, h2⟩ <;> subst h1 <;> subst h2 <;> decide

/-- On a balanced sequence followed by a closing bracket of kind `T`,
`ConsumeAndStoreUntil(T, T, Toks)` stores the sequence and the bracket and stops after
the bracket. -/
theorem ConsumeAndStoreUntil_balanced (ts : List Token) (hb : Balanced ts) :
    ∀ (T : tok) (close : Token) (rest Toks : List Token) (s : Parser) (fuel : Nat),
      T ∈ [tok.r_paren, tok.r_square, tok.r_brace] → close.Kind = T → ts.length < fuel →
      ConsumeAndStoreUntil fuel T T Toks (s.setStream (ts ++ close :: rest)) =
        .ok (true, Toks ++ ts ++ [close]) (s.setStream rest) := by
  induction hb with
  | nil =>
    intro T close rest Toks s fuel _ hc hf
    obtain ⟨f, rfl⟩ : ∃ f, fuel = f + 1 := ⟨fuel - 1, by omega⟩
    show ConsumeAndStoreUntil (f + 1) T T Toks (s.setStream (close :: rest)) = _
    rw [ConsumeAndStoreUntil_found f T Toks _ (by rw [setStream_cons_Tok]; exact hc),
      CachedLex_setStream, setStream_cons_Tok, List.append_nil]
  | plain t ts ht _ ih =>
    intro T close rest Toks s fuel hT hc hf
    obtain ⟨f, rfl⟩ : ∃ f, fuel = f + 1 := ⟨fuel - 1, by omega⟩
    simp only [List.length_cons] at hf
    have htT : t.Kind ≠ T := by
      intro h
      apply ht
      rw [h]
      unfold bracketOrEof
      simp only [List.mem_cons, List.mem_singleton, List.not_mem_nil, or_false] at hT ⊢
      rcases hT with h1 | h1 | h1 <;> subst h1 <;> simp only [reduceCtorEq, or_true, true_or,
        or_false, false_or]
    show ConsumeAndStoreUntil (f + 1) T T Toks (s.setStream (t :: (ts ++ close :: rest))) = _
    rw [ConsumeAndStoreUntil_plain f T Toks _ (by rw [setStream_cons_Tok]; exact htT)
        (by rw [setStream_cons_Tok]; exact ht),
      CachedLex_setStream, setStream_cons_Tok, ih T close rest _ s f hT hc (by omega)]
    simp only [List.append_assoc, List.singleton_append]
  | group l r xs ys hp _ _ ihx ihy =>
    intro T close rest Toks s fuel hT hc hf
    obtain ⟨f, rfl⟩ : ∃ f, fuel = f + 1 := ⟨fuel - 1, by omega⟩
    simp only [List.length_cons, List.length_append] at hf
    obtain ⟨hc1, hc2, _⟩ := closer_of_pair _ _ hp
    have hoT : l.Kind ≠ T := fun h => hc2 (h ▸ hT)
    show ConsumeAndStoreUntil (f + 1) T T Toks
      (s.setStream (l :: ((xs ++ r :: ys) ++ close :: rest))) = _
    have hstream : (xs ++ r :: ys) ++ close :: rest = xs ++ r :: (ys ++ close :: rest) := by
      simp only [List.append_assoc, List.cons_append]
    rw [ConsumeAndStoreUntil_open f T l.Kind r.Kind Toks _ hp
        (by rw [setStream_cons_Tok]) hoT,
      CachedLex_setStream, setStream_cons_Tok, hstream,
      ihx r.Kind r (ys ++ close :: rest) _ s f hc1 rfl (by omega), Res.bind_ok,
      ihy T close rest _ s f hT hc (by omega)]
    simp only [List.append_assoc, List.singleton_append, List.cons_append, List.nil_append]

/-- `ConsumeAndStoreUntil` returns false only with `eof` as the current token. -/
theorem ConsumeAndStoreUntil_false_eof :
    ∀ (fuel : Nat) (T1 T2 : tok) (Toks : List Token) (s : Parser) (r : List Token) (s1 : Parser),
      ConsumeAndStoreUntil fuel T1 T2 Toks s = .ok (false, r) s1 → s1.Tok.Kind = .eof := by
  intro fuel
  induction fuel with
  | zero =>
    intro T1 T2 Toks s r s1 h
    exact absurd h (by unfold ConsumeAndStoreUntil; simp only [outOfFuel_apply, reduceCtorEq,
      not_false_eq_true])
  | succ f ih =>
    intro T1 T2 Toks s r s1 h
    have hnest : ∀ (c : tok) (A : List Token),
        ((ConsumeAndStoreUntil f c c A (CachedLex s)).bind fun x s2 =>
          ConsumeAndStoreUntil f T1 T2 x.2 s2) = .ok (false, r) s1 → s1.Tok.Kind = .eof := by
      intro c A hx
      cases hn : ConsumeAndStoreUntil f c c A (CachedLex s) with
      | ok x s2 =>
        rw [hn, Res.bind_ok] at hx
        exact ih T1 T2 _ s2 r s1 hx
      | abort m => rw [hn, Res.bind_abort] at hx; exact absurd hx (by simp only [reduceCtorEq,
          not_false_eq_true])
      | outOfFuel => rw [hn, Res.bind_outOfFuel] at hx; exact absurd hx (by
          simp only [reduceCtorEq, not_false_eq_true])
    unfold ConsumeAndStoreUntil at h
    simp only [bind_apply, getTok_apply, Res.bind_ok] at h
    split at h
    · simp only [bind_apply, ConsumeAnyToken_apply, Res.bind_ok, pure_apply, Res.ok.injEq,
        Prod.mk.injEq, Bool.true_eq_false, false_and] at h
    · split at h
      · rename_i heof
        simp only [pure_apply, Res.ok.injEq, Prod.mk.injEq, true_and] at h
        obtain ⟨_, hs⟩ := h
        subst hs
        simpa only [Token.is, decide_eq_true_eq] using heof
      · split at h
        · simp only [bind_apply, ConsumeParen_apply, Res.bind_ok] at h
          exact hnest _ _ h
        · split at h
          · simp only [bind_apply, ConsumeBracket_apply, Res.bind_ok] at h
            exact hnest _ _ h
          · split at h
            · simp only [bind_apply, ConsumeBrace_apply, Res.bind_ok] at h
              exact hnest _ _ h
            · split at h
              · simp only [bind_apply, ConsumeParen_apply, Res.bind_ok] at h
                exact ih _ _ _ _ _ _ h
              · split at h
                · simp only [bind_apply, ConsumeBracket_apply, Res.bind_ok] at h
                  exact ih _ _ _ _ _ _ h
                · split at h
                  · simp only [bind_apply, ConsumeBrace_apply, Res.bind_ok] at h
                    exact ih _ _ _ _ _ _ h
                  · simp only [bind_apply, ConsumeAnyToken_apply, Res.bind_ok] at h
                    exact ih _ _ _ _ _ _ h

/-! ## The scope stack is kept by every production -/

theorem Scope.le_refl (a : Scope) : Scope.le a a := ⟨rfl, List.suffix_refl _⟩

theorem ScopesLe.refl (a : List Scope) : ScopesLe a a := by
  induction a with
  | nil => exact List.Forall₂.nil
  | cons x xs ih => exact List.Forall₂.cons (Scope.le_refl x) ih

theorem ScopesLe.trans {a b c : List Scope} (h1 : ScopesLe a b) (h2 : ScopesLe b c) :
    ScopesLe a c := by
  unfold ScopesLe at *
  induction h1 generalizing c with
  | nil => cases h2; exact List.Forall₂.nil
  | cons hab _ ih =>
    cases h2 with
    | cons hbc hrest =>
      exact List.Forall₂.cons ⟨hab.1.trans hbc.1, hab.2.trans hbc.2⟩ (ih hrest)

theorem ScopesLe.length {a b : List Scope} (h : ScopesLe a b) : a.length = b.length :=
  List.Forall₂.length_eq h

theorem ScopesLe.visible {a b : List Scope} (h : ScopesLe a b) (n : String)
    (hn : n ∈ (a.map Scope.Decls).flatten) : n ∈ (b.map Scope.Decls).flatten := by
  unfold ScopesLe at h
  induction h with
  | nil => exact hn
  | cons hab _ ih =>
    simp only [List.map_cons, List.flatten_cons, List.mem_append] at hn ⊢
    rcases hn with h1 | h1
    · exact Or.inl (hab.2.subset h1)
    · exact Or.inr (ih h1)

theorem Keeps.of_same {α : Type} (m : P α)
    (h : ∀ s a s1, m s = .ok a s1 → s1.Scopes = s.Scopes) : Keeps m := by
  constructor
  intro s a s1 hm
  rw [h s a s1 hm]
  exact ScopesLe.refl _

theorem Keeps.pure {α : Type} (a : α) : Keeps (pure a : P α) := by
  apply Keeps.of_same
  intro s b s1 h
  cases h
  rfl

theorem Keeps.bind {α β : Type} (m : P α) (f : α → P β) (hm : Keeps m)
    (hf : ∀ a, Keeps (f a)) : Keeps (m >>= f) := by
  constructor
  intro s b s2 h
  rw [bind_apply] at h
  cases hms : m s with
  | ok a s1 =>
    rw [hms, Res.bind_ok] at h
    exact (hm.out s a s1 hms).trans ((hf a).out s1 b s2 h)
  | abort msg => rw [hms] at h; cases h
  | outOfFuel => rw [hms] at h; cases h

theorem Keeps.abort {α : Type} (msg : String) : Keeps (abort msg : P α) := by
  constructor; intro s a s1 h; cases h

theorem Keeps.outOfFuel {α : Type} : Keeps (outOfFuel : P α) := by
  constructor; intro s a s1 h; cases h

theorem Keeps.getTok : Keeps getTok := by
  apply Keeps.of_same; intro s a s1 h; cases h; rfl

theorem Keeps.getNextToken : Keeps getNextToken := by
  apply Keeps.of_same; intro s a s1 h; cases h; rfl

theorem CachedLex_Scopes (s : Parser) : (CachedLex s).Scopes = s.Scopes := by
  unfold CachedLex; cases s.Lexer <;> rfl

theorem Keeps.ConsumeToken : Keeps ConsumeToken := by
  apply Keeps.of_same; intro s a s1 h; cases h; exact CachedLex_Scopes s

theorem Keeps.ConsumeAnyToken : Keeps ConsumeAnyToken := Keeps.ConsumeToken

theorem Keeps.ConsumeParen : Keeps ConsumeParen := Keeps.ConsumeToken

theorem Keeps.ConsumeBracket : Keeps ConsumeBracket := Keeps.ConsumeToken

theorem Keeps.ConsumeBrace : Keeps ConsumeBrace := Keeps.ConsumeToken

theorem Keeps.ConsumeStringToken : Keeps ConsumeStringToken := Keeps.ConsumeToken

theorem Keeps.TryConsumeToken (k : tok) : Keeps (TryConsumeToken k) := by
  apply Keeps.of_same
  intro s a s1 h
  unfold Soll.TryConsumeToken at h
  split at h <;> cases h
  · exact CachedLex_Scopes s
  · rfl

theorem Keeps.isTokenParen : Keeps isTokenParen := by
  apply Keeps.of_same; intro s a s1 h; cases h; rfl

theorem Keeps.Diag (ID : diag) (Args : List tok) : Keeps (Diag ID Args) := by
  apply Keeps.of_same; intro s a s1 h; cases h; rfl

theorem Keeps.EnterTokenStream (Toks : List Token) : Keeps (EnterTokenStream Toks) := by
  apply Keeps.of_same; intro s a s1 h; cases h; rfl

theorem Keeps.SetFunRtnTys (Tys : List Ty) : Keeps (Actions.SetFunRtnTys Tys) := by
  apply Keeps.of_same; intro s a s1 h; cases h; rfl

theorem Keeps.EraseFunRtnTys : Keeps Actions.EraseFunRtnTys := by
  apply Keeps.of_same; intro s a s1 h; cases h; rfl

theorem Keeps.CreateIdentifier (t : Token) : Keeps (Actions.CreateIdentifier t) := by
  apply Keeps.of_same; intro s a s1 h; cases h; rfl

theorem Keeps.CreateFunctionDecl (Name : String) (V : Visibility) (SM : StateMutability)
    (c f : Bool) (ps : Option ParamList) (m : Nat) (rs : Option ParamList) (b : Stmt) :
    Keeps (Actions.CreateFunctionDecl Name V SM c f ps m rs b) := by
  apply Keeps.of_same; intro s a s1 h; cases h; rfl

theorem Keeps.addDecl (Name : String) : Keeps (Actions.addDecl Name) := by
  constructor
  intro s a s1 h
  unfold Actions.addDecl at h
  split at h
  · cases h; exact ScopesLe.refl _
  · rename_i top rest heq
    cases h
    rw [heq]
    exact List.Forall₂.cons ⟨rfl, List.suffix_cons _ _⟩ (ScopesLe.refl _)

/-- The guard `ParseScope` restores the stack its region started from. -/
theorem Keeps.ParseScope {α : Type} (Flags : List ScopeFlag) (body : P α) (h : Keeps body) :
    Keeps (ParseScope Flags body) := by
  constructor
  intro s a s3 hrun
  unfold Soll.ParseScope at hrun
  simp only [bind_apply, Actions.PushScope, Res.bind_ok] at hrun
  cases hb : body { s with Scopes := ⟨Flags, []⟩ :: s.Scopes } with
  | ok r s2 =>
    rw [hb] at hrun
    have hle := h.out _ _ _ hb
    cases hrun
    cases hs2 : s2.Scopes with
    | nil => rw [hs2] at hle; cases hle
    | cons top rest =>
      rw [hs2] at hle
      cases hle with
      | cons _ hrest => exact hrest
  | abort msg => rw [hb] at hrun; cases hrun
  | outOfFuel => rw [hb] at hrun; cases hrun

theorem Keeps.ExpectAndConsume (k : tok) (d : diag) : Keeps (ExpectAndConsume k d) := by
  unfold Soll.ExpectAndConsume
  try dsimp only
  repeat' (with_reducible first
    | exact Keeps.getTok | exact Keeps.ConsumeAnyToken | exact Keeps.Diag _ _ | exact Keeps.pure _
    | apply Keeps.bind | intro _ | split)

theorem Keeps.ExpectAndConsumeSemi (d : diag) : Keeps (ExpectAndConsumeSemi d) := by
  unfold Soll.ExpectAndConsumeSemi
  try dsimp only
  repeat' (with_reducible first
    | exact Keeps.getTok | exact Keeps.getNextToken | exact Keeps.ConsumeAnyToken
    | exact Keeps.ConsumeToken | exact Keeps.Diag _ _ | exact Keeps.pure _
    | exact Keeps.TryConsumeToken _ | exact Keeps.ExpectAndConsume _ _
    | apply Keeps.bind | intro _ | split)

theorem Keeps.parseContractKind :
    Keeps (parseContractKind) := by
  unfold Soll.parseContractKind
  try dsimp only
  repeat' (with_reducible first
    | exact Keeps.getTok
    | exact Keeps.getNextToken
    | exact Keeps.ConsumeToken
    | exact Keeps.ConsumeAnyToken
    | exact Keeps.ConsumeParen
    | exact Keeps.ConsumeBracket
    | exact Keeps.ConsumeBrace
    | exact Keeps.ConsumeStringToken
    | exact Keeps.Diag _ _
    | exact Keeps.pure _
    | exact Keeps.abort _
    | exact Keeps.outOfFuel
    | exact Keeps.TryConsumeToken _
    | exact Keeps.isTokenParen
    | exact Keeps.ExpectAndConsume _ _
    | exact Keeps.ExpectAndConsumeSemi _
    | apply Keeps.bind
    | apply Keeps.ParseScope
    | intro _
    | split)

theorem Keeps.parseVisibilitySpecifier :
    Keeps (parseVisibilitySpecifier) := by
  unfold Soll.parseVisibilitySpecifier
  try dsimp only
  repeat' (with_reducible first
    | exact Keeps.getTok
    | exact Keeps.getNextToken
    | exact Keeps.ConsumeToken
    | exact Keeps.ConsumeAnyToken
    | exact Keeps.ConsumeParen
    | exact Keeps.ConsumeBracket
    | exact Keeps.ConsumeBrace
    | exact Keeps.ConsumeStringToken
    | exact Keeps.Diag _ _
    | exact Keeps.pure _
    | exact Keeps.abort _
    | exact Keeps.outOfFuel
    | exact Keeps.TryConsumeToken _
    | exact Keeps.isTokenParen
    | exact Keeps.ExpectAndConsume _ _
    | exact Keeps.ExpectAndConsumeSemi _
    | apply Keeps.bind
    | apply Keeps.ParseScope
    | intro _
    | split)

theorem Keeps.parseStateMutability :
    Keeps (parseStateMutability) := by
  unfold Soll.parseStateMutability
  try dsimp only
  repeat' (with_reducible first
    | exact Keeps.getTok
    | exact Keeps.getNextToken
    | exact Keeps.ConsumeToken
    | exact Keeps.ConsumeAnyToken
    | exact Keeps.ConsumeParen
    | exact Keeps.ConsumeBracket
    | exact Keeps.ConsumeBrace
    | exact Keeps.ConsumeStringToken
    | exact Keeps.Diag _ _
    | exact Keeps.pure _
    | exact Keeps.abort _
    | exact Keeps.outOfFuel
    | exact Keeps.TryConsumeToken _
    | exact Keeps.isTokenParen
    | exact Keeps.ExpectAndConsume _ _
    | exact Keeps.ExpectAndConsumeSemi _
    | apply Keeps.bind
    | apply Keeps.ParseScope
    | intro _
    | split)

theorem Keeps.parseDataLocation :
    Keeps (parseDataLocation) := by
  unfold Soll.parseDataLocation
  try dsimp only
  repeat' (with_reducible first
    | exact Keeps.getTok
    | exact Keeps.getNextToken
    | exact Keeps.ConsumeToken
    | exact Keeps.ConsumeAnyToken
    | exact Keeps.ConsumeParen
    | exact Keeps.ConsumeBracket
    | exact Keeps.ConsumeBrace
    | exact Keeps.ConsumeStringToken
    | exact Keeps.Diag _ _
    | exact Keeps.pure _
    | exact Keeps.abort _
    | exact Keeps.outOfFuel
    | exact Keeps.TryConsumeToken _
    | exact Keeps.isTokenParen
    | exact Keeps.ExpectAndConsume _ _
    | exact Keeps.ExpectAndConsumeSemi _
    | apply Keeps.bind
    | apply Keeps.ParseScope
    | intro _
    | split)

theorem Keeps.ConsumeAndStoreUntil (fuel : Nat) :
    ∀ (T1 T2 : tok) (Toks : List Token), Keeps (ConsumeAndStoreUntil fuel T1 T2 Toks) := by
  induction fuel with
  | zero =>
    intros
    unfold Soll.ConsumeAndStoreUntil
    exact Keeps.outOfFuel
  | succ fuel ih =>
    intros
    unfold Soll.ConsumeAndStoreUntil
    try dsimp only
    repeat' (with_reducible first
      | exact ih _ _ _
      | exact Keeps.getTok
      | exact Keeps.getNextToken
      | exact Keeps.ConsumeToken
      | exact Keeps.ConsumeAnyToken
      | exact Keeps.ConsumeParen
      | exact Keeps.ConsumeBracket
      | exact Keeps.ConsumeBrace
      | exact Keeps.ConsumeStringToken
      | exact Keeps.Diag _ _
      | exact Keeps.pure _
      | exact Keeps.abort _
      | exact Keeps.outOfFuel
      | exact Keeps.TryConsumeToken _
      | exact Keeps.isTokenParen
      | exact Keeps.ExpectAndConsume _ _
      | exact Keeps.ExpectAndConsumeSemi _
      | apply Keeps.bind
      | apply Keeps.ParseScope
      | intro _
      | split)

theorem Keeps.parsePragmaDirective_loop (fuel : Nat) : Keeps (parsePragmaDirective.loop fuel) := by
  induction fuel with
  | zero =>
    unfold Soll.parsePragmaDirective.loop
    exact Keeps.outOfFuel
  | succ fuel ih =>
    unfold Soll.parsePragmaDirective.loop
    try dsimp only
    repeat' (with_reducible first
      | exact ih | exact Keeps.getTok | exact Keeps.ConsumeAnyToken | exact Keeps.ConsumeToken
      | exact Keeps.Diag _ _ | exact Keeps.pure _ | apply Keeps.bind | intro _ | split)

theorem Keeps.parsePragmaDirective (fuel : Nat) :
    Keeps (parsePragmaDirective fuel) := by
  unfold Soll.parsePragmaDirective
  try dsimp only
  repeat' (with_reducible first
    | exact Keeps.parsePragmaDirective_loop _
    | exact Keeps.getTok
    | exact Keeps.getNextToken
    | exact Keeps.ConsumeToken
    | exact Keeps.ConsumeAnyToken
    | exact Keeps.ConsumeParen
    | exact Keeps.ConsumeBracket
    | exact Keeps.ConsumeBrace
    | exact Keeps.ConsumeStringToken
    | exact Keeps.Diag _ _
    | exact Keeps.pure _
    | exact Keeps.abort _
    | exact Keeps.outOfFuel
    | exact Keeps.TryConsumeToken _
    | exact Keeps.isTokenParen
    | exact Keeps.ExpectAndConsume _ _
    | exact Keeps.ExpectAndConsumeSemi _
    | apply Keeps.bind
    | apply Keeps.ParseScope
    | intro _
    | split)

theorem Keeps.parseTypeNameSuffix (fuel : Nat) :
    ∀ (T : Ty), Keeps (parseTypeNameSuffix fuel T) := by
  induction fuel with
  | zero =>
    intros
    unfold Soll.parseTypeNameSuffix
    exact Keeps.outOfFuel
  | succ fuel ih =>
    intros
    unfold Soll.parseTypeNameSuffix
    try dsimp only
    repeat' (with_reducible first
      | exact ih _
      | exact Keeps.parseDataLocation
      | exact Keeps.getTok
      | exact Keeps.getNextToken
      | exact Keeps.ConsumeToken
      | exact Keeps.ConsumeAnyToken
      | exact Keeps.ConsumeParen
      | exact Keeps.ConsumeBracket
      | exact Keeps.ConsumeBrace
      | exact Keeps.ConsumeStringToken
      | exact Keeps.Diag _ _
      | exact Keeps.pure _
      | exact Keeps.abort _
      | exact Keeps.outOfFuel
      | exact Keeps.TryConsumeToken _
      | exact Keeps.isTokenParen
      | exact Keeps.ExpectAndConsume _ _
      | exact Keeps.ExpectAndConsumeSemi _
      | apply Keeps.bind
      | apply Keeps.ParseScope
      | intro _
      | split)

theorem Keeps.parseMapping (self : Fns) (hself : self.Keeps) :
    Keeps (parseMapping self) := by
  unfold Soll.parseMapping
  try dsimp only
  repeat' (with_reducible first
    | exact hself.parseTypeName _
    | exact hself.parseExpression _
    | exact hself.parseBinaryExpression _ _
    | exact hself.parseUnaryExpression _
    | exact hself.parseStatement
    | exact Keeps.getTok
    | exact Keeps.getNextToken
    | exact Keeps.ConsumeToken
    | exact Keeps.ConsumeAnyToken
    | exact Keeps.ConsumeParen
    | exact Keeps.ConsumeBracket
    | exact Keeps.ConsumeBrace
    | exact Keeps.ConsumeStringToken
    | exact Keeps.Diag _ _
    | exact Keeps.pure _
    | exact Keeps.abort _
    | exact Keeps.outOfFuel
    | exact Keeps.TryConsumeToken _
    | exact Keeps.isTokenParen
    | exact Keeps.ExpectAndConsume _ _
    | exact Keeps.ExpectAndConsumeSemi _
    | apply Keeps.bind
    | apply Keeps.ParseScope
    | intro _
    | split)

theorem Keeps.parseTypeName_elementary (env : Env) (Kind : tok) :
    Keeps (parseTypeName.elementary env Kind) := by
  unfold Soll.parseTypeName.elementary
  try dsimp only
  repeat' (with_reducible first
    | exact Keeps.parseStateMutability
    | exact Keeps.getTok
    | exact Keeps.getNextToken
    | exact Keeps.ConsumeToken
    | exact Keeps.ConsumeAnyToken
    | exact Keeps.ConsumeParen
    | exact Keeps.ConsumeBracket
    | exact Keeps.ConsumeBrace
    | exact Keeps.ConsumeStringToken
    | exact Keeps.Diag _ _
    | exact Keeps.pure _
    | exact Keeps.abort _
    | exact Keeps.outOfFuel
    | exact Keeps.TryConsumeToken _
    | exact Keeps.isTokenParen
    | exact Keeps.ExpectAndConsume _ _
    | exact Keeps.ExpectAndConsumeSemi _
    | apply Keeps.bind
    | apply Keeps.ParseScope
    | intro _
    | split)

theorem Keeps.parseTypeName (env : Env) (self : Fns) (b : Bool) (hself : self.Keeps) :
    Keeps (parseTypeName env self b) := by
  unfold Soll.parseTypeName
  try dsimp only
  repeat' (with_reducible first
    | exact hself.parseTypeName _
    | exact hself.parseExpression _
    | exact hself.parseBinaryExpression _ _
    | exact hself.parseUnaryExpression _
    | exact hself.parseStatement
    | exact Keeps.parseTypeName_elementary _ _
    | exact Keeps.parseTypeNameSuffix _ _
    | exact Keeps.parseMapping _ hself
    | exact Keeps.getTok
    | exact Keeps.getNextToken
    | exact Keeps.ConsumeToken
    | exact Keeps.ConsumeAnyToken
    | exact Keeps.ConsumeParen
    | exact Keeps.ConsumeBracket
    | exact Keeps.ConsumeBrace
    | exact Keeps.ConsumeStringToken
    | exact Keeps.Diag _ _
    | exact Keeps.pure _
    | exact Keeps.abort _
    | exact Keeps.outOfFuel
    | exact Keeps.TryConsumeToken _
    | exact Keeps.isTokenParen
    | exact Keeps.ExpectAndConsume _ _
    | exact Keeps.ExpectAndConsumeSemi _
    | apply Keeps.bind
    | apply Keeps.ParseScope
    | intro _
    | split)

theorem Keeps.parseFunctionCallListArguments_loop (self : Fns) (hself : self.Keeps) (fuel : Nat) :
    ∀ (A : List Expr), Keeps (parseFunctionCallListArguments.loop self fuel A) := by
  induction fuel with
  | zero =>
    intros
    unfold Soll.parseFunctionCallListArguments.loop
    exact Keeps.outOfFuel
  | succ fuel ih =>
    intros
    unfold Soll.parseFunctionCallListArguments.loop
    try dsimp only
    repeat' (with_reducible first
      | exact ih _
      | exact hself.parseTypeName _
      | exact hself.parseExpression _
      | exact hself.parseBinaryExpression _ _
      | exact hself.parseUnaryExpression _
      | exact hself.parseStatement
      | exact Keeps.getTok
      | exact Keeps.getNextToken
      | exact Keeps.ConsumeToken
      | exact Keeps.ConsumeAnyToken
      | exact Keeps.ConsumeParen
      | exact Keeps.ConsumeBracket
      | exact Keeps.ConsumeBrace
      | exact Keeps.ConsumeStringToken
      | exact Keeps.Diag _ _
      | exact Keeps.pure _
      | exact Keeps.abort _
      | exact Keeps.outOfFuel
      | exact Keeps.TryConsumeToken _
      | exact Keeps.isTokenParen
      | exact Keeps.ExpectAndConsume _ _
      | exact Keeps.ExpectAndConsumeSemi _
      | apply Keeps.bind
      | apply Keeps.ParseScope
      | intro _
      | split)

theorem Keeps.parseFunctionCallListArguments (self : Fns) (hself : self.Keeps) :
    Keeps (parseFunctionCallListArguments self) := by
  unfold Soll.parseFunctionCallListArguments
  try dsimp only
  repeat' (with_reducible first
    | exact hself.parseTypeName _
    | exact hself.parseExpression _
    | exact hself.parseBinaryExpression _ _
    | exact hself.parseUnaryExpression _
    | exact hself.parseStatement
    | exact Keeps.parseFunctionCallListArguments_loop _ hself _ _
    | exact Keeps.getTok
    | exact Keeps.getNextToken
    | exact Keeps.ConsumeToken
    | exact Keeps.ConsumeAnyToken
    | exact Keeps.ConsumeParen
    | exact Keeps.ConsumeBracket
    | exact Keeps.ConsumeBrace
    | exact Keeps.ConsumeStringToken
    | exact Keeps.Diag _ _
    | exact Keeps.pure _
    | exact Keeps.abort _
    | exact Keeps.outOfFuel
    | exact Keeps.TryConsumeToken _
    | exact Keeps.isTokenParen
    | exact Keeps.ExpectAndConsume _ _
    | exact Keeps.ExpectAndConsumeSemi _
    | apply Keeps.bind
    | apply Keeps.ParseScope
    | intro _
    | split)

theorem Keeps.parseFunctionCallArguments_loop (self : Fns) (hself : self.Keeps) (fuel : Nat) :
    ∀ (First : Bool) (A : List Expr) (N : List String), Keeps (parseFunctionCallArguments.loop self fuel First A N) := by
  induction fuel with
  | zero =>
    intros
    unfold Soll.parseFunctionCallArguments.loop
    exact Keeps.outOfFuel
  | succ fuel ih =>
    intros
    unfold Soll.parseFunctionCallArguments.loop
    try dsimp only
    repeat' (with_reducible first
      | exact ih _ _ _
      | exact hself.parseTypeName _
      | exact hself.parseExpression _
      | exact hself.parseBinaryExpression _ _
      | exact hself.parseUnaryExpression _
      | exact hself.parseStatement
      | exact Keeps.getTok
      | exact Keeps.getNextToken
      | exact Keeps.ConsumeToken
      | exact Keeps.ConsumeAnyToken
      | exact Keeps.ConsumeParen
      | exact Keeps.ConsumeBracket
      | exact Keeps.ConsumeBrace
      | exact Keeps.ConsumeStringToken
      | exact Keeps.Diag _ _
      | exact Keeps.pure _
      | exact Keeps.abort _
      | exact Keeps.outOfFuel
      | exact Keeps.TryConsumeToken _
      | exact Keeps.isTokenParen
      | exact Keeps.ExpectAndConsume _ _
      | exact Keeps.ExpectAndConsumeSemi _
      | apply Keeps.bind
      | apply Keeps.ParseScope
      | intro _
      | split)

theorem Keeps.parseFunctionCallArguments (self : Fns) (hself : self.Keeps) :
    Keeps (parseFunctionCallArguments self) := by
  unfold Soll.parseFunctionCallArguments
  try dsimp only
  repeat' (with_reducible first
    | exact hself.parseTypeName _
    | exact hself.parseExpression _
    | exact hself.parseBinaryExpression _ _
    | exact hself.parseUnaryExpression _
    | exact hself.parseStatement
    | exact Keeps.parseFunctionCallArguments_loop _ hself _ _ _ _
    | exact Keeps.parseFunctionCallListArguments _ hself
    | exact Keeps.getTok
    | exact Keeps.getNextToken
    | exact Keeps.ConsumeToken
    | exact Keeps.ConsumeAnyToken
    | exact Keeps.ConsumeParen
    | exact Keeps.ConsumeBracket
    | exact Keeps.ConsumeBrace
    | exact Keeps.ConsumeStringToken
    | exact Keeps.Diag _ _
    | exact Keeps.pure _
    | exact Keeps.abort _
    | exact Keeps.outOfFuel
    | exact Keeps.TryConsumeToken _
    | exact Keeps.isTokenParen
    | exact Keeps.ExpectAndConsume _ _
    | exact Keeps.ExpectAndConsumeSemi _
    | apply Keeps.bind
    | apply Keeps.ParseScope
    | intro _
    | split)

theorem Keeps.parsePrimaryExpression (self : Fns) (hself : self.Keeps) :
    Keeps (parsePrimaryExpression self) := by
  unfold Soll.parsePrimaryExpression
  try dsimp only
  repeat' (with_reducible first
    | exact hself.parseTypeName _
    | exact hself.parseExpression _
    | exact hself.parseBinaryExpression _ _
    | exact hself.parseUnaryExpression _
    | exact hself.parseStatement
    | exact Keeps.CreateIdentifier _
    | exact Keeps.getTok
    | exact Keeps.getNextToken
    | exact Keeps.ConsumeToken
    | exact Keeps.ConsumeAnyToken
    | exact Keeps.ConsumeParen
    | exact Keeps.ConsumeBracket
    | exact Keeps.ConsumeBrace
    | exact Keeps.ConsumeStringToken
    | exact Keeps.Diag _ _
    | exact Keeps.pure _
    | exact Keeps.abort _
    | exact Keeps.outOfFuel
    | exact Keeps.TryConsumeToken _
    | exact Keeps.isTokenParen
    | exact Keeps.ExpectAndConsume _ _
    | exact Keeps.ExpectAndConsumeSemi _
    | apply Keeps.bind
    | apply Keeps.ParseScope
    | intro _
    | split)

theorem Keeps.parseLeftHandSideExpression_loop (self : Fns) (hself : self.Keeps) (fuel : Nat) :
    ∀ (E : Expr), Keeps (parseLeftHandSideExpression.loop self fuel E) := by
  induction fuel with
  | zero =>
    intros
    unfold Soll.parseLeftHandSideExpression.loop
    exact Keeps.outOfFuel
  | succ fuel ih =>
    intros
    unfold Soll.parseLeftHandSideExpression.loop
    try dsimp only
    repeat' (with_reducible first
      | exact ih _
      | exact hself.parseTypeName _
      | exact hself.parseExpression _
      | exact hself.parseBinaryExpression _ _
      | exact hself.parseUnaryExpression _
      | exact hself.parseStatement
      | exact Keeps.parseFunctionCallArguments _ hself
      | exact Keeps.getTok
      | exact Keeps.getNextToken
      | exact Keeps.ConsumeToken
      | exact Keeps.ConsumeAnyToken
      | exact Keeps.ConsumeParen
      | exact Keeps.ConsumeBracket
      | exact Keeps.ConsumeBrace
      | exact Keeps.ConsumeStringToken
      | exact Keeps.Diag _ _
      | exact Keeps.pure _
      | exact Keeps.abort _
      | exact Keeps.outOfFuel
      | exact Keeps.TryConsumeToken _
      | exact Keeps.isTokenParen
      | exact Keeps.ExpectAndConsume _ _
      | exact Keeps.ExpectAndConsumeSemi _
      | apply Keeps.bind
      | apply Keeps.ParseScope
      | intro _
      | split)

theorem Keeps.parseLeftHandSideExpression (env : Env) (self : Fns) (E : Expr) (hself : self.Keeps) :
    Keeps (parseLeftHandSideExpression env self E) := by
  unfold Soll.parseLeftHandSideExpression
  try dsimp only
  repeat' (with_reducible first
    | exact hself.parseTypeName _
    | exact hself.parseExpression _
    | exact hself.parseBinaryExpression _ _
    | exact hself.parseUnaryExpression _
    | exact hself.parseStatement
    | exact Keeps.parseLeftHandSideExpression_loop _ hself _ _
    | exact Keeps.parseTypeName _ _ _ hself
    | exact Keeps.parsePrimaryExpression _ hself
    | exact Keeps.getTok
    | exact Keeps.getNextToken
    | exact Keeps.ConsumeToken
    | exact Keeps.ConsumeAnyToken
    | exact Keeps.ConsumeParen
    | exact Keeps.ConsumeBracket
    | exact Keeps.ConsumeBrace
    | exact Keeps.ConsumeStringToken
    | exact Keeps.Diag _ _
    | exact Keeps.pure _
    | exact Keeps.abort _
    | exact Keeps.outOfFuel
    | exact Keeps.TryConsumeToken _
    | exact Keeps.isTokenParen
    | exact Keeps.ExpectAndConsume _ _
    | exact Keeps.ExpectAndConsumeSemi _
    | apply Keeps.bind
    | apply Keeps.ParseScope
    | intro _
    | split)

theorem Keeps.parseUnaryExpression (env : Env) (self : Fns) (E : Expr) (hself : self.Keeps) :
    Keeps (parseUnaryExpression env self E) := by
  unfold Soll.parseUnaryExpression
  try dsimp only
  repeat' (with_reducible first
    | exact hself.parseTypeName _
    | exact hself.parseExpression _
    | exact hself.parseBinaryExpression _ _
    | exact hself.parseUnaryExpression _
    | exact hself.parseStatement
    | exact Keeps.parseLeftHandSideExpression _ _ _ hself
    | exact Keeps.getTok
    | exact Keeps.getNextToken
    | exact Keeps.ConsumeToken
    | exact Keeps.ConsumeAnyToken
    | exact Keeps.ConsumeParen
    | exact Keeps.ConsumeBracket
    | exact Keeps.ConsumeBrace
    | exact Keeps.ConsumeStringToken
    | exact Keeps.Diag _ _
    | exact Keeps.pure _
    | exact Keeps.abort _
    | exact Keeps.outOfFuel
    | exact Keeps.TryConsumeToken _
    | exact Keeps.isTokenParen
    | exact Keeps.ExpectAndConsume _ _
    | exact Keeps.ExpectAndConsumeSemi _
    | apply Keeps.bind
    | apply Keeps.ParseScope
    | intro _
    | split)

theorem Keeps.parseBinaryExpression_whileLoop (env : Env) (self : Fns) (Precedence : Nat) (hself : self.Keeps) (fuel : Nat) :
    ∀ (E : Expr), Keeps (parseBinaryExpression.whileLoop env self Precedence fuel E) := by
  induction fuel with
  | zero =>
    intros
    unfold Soll.parseBinaryExpression.whileLoop
    exact Keeps.outOfFuel
  | succ fuel ih =>
    intros
    unfold Soll.parseBinaryExpression.whileLoop
    try dsimp only
    repeat' (with_reducible first
      | exact ih _
      | exact hself.parseTypeName _
      | exact hself.parseExpression _
      | exact hself.parseBinaryExpression _ _
      | exact hself.parseUnaryExpression _
      | exact hself.parseStatement
      | exact Keeps.getTok
      | exact Keeps.getNextToken
      | exact Keeps.ConsumeToken
      | exact Keeps.ConsumeAnyToken
      | exact Keeps.ConsumeParen
      | exact Keeps.ConsumeBracket
      | exact Keeps.ConsumeBrace
      | exact Keeps.ConsumeStringToken
      | exact Keeps.Diag _ _
      | exact Keeps.pure _
      | exact Keeps.abort _
      | exact Keeps.outOfFuel
      | exact Keeps.TryConsumeToken _
      | exact Keeps.isTokenParen
      | exact Keeps.ExpectAndConsume _ _
      | exact Keeps.ExpectAndConsumeSemi _
      | apply Keeps.bind
      | apply Keeps.ParseScope
      | intro _
      | split)

theorem Keeps.parseBinaryExpression_forLoop (env : Env) (self : Fns) (hself : self.Keeps)
    (count : Nat) :
    ∀ (Precedence : Nat) (E : Expr),
      Keeps (parseBinaryExpression.forLoop env self count Precedence E) := by
  induction count with
  | zero =>
    intros
    unfold Soll.parseBinaryExpression.forLoop
    exact Keeps.pure _
  | succ count ih =>
    intros
    unfold Soll.parseBinaryExpression.forLoop
    exact Keeps.bind _ _ (Keeps.parseBinaryExpression_whileLoop _ _ _ hself _ _) (fun _ => ih _ _)

theorem Keeps.parseBinaryExpression (env : Env) (self : Fns) (Min : Nat) (E : Expr) (hself : self.Keeps) :
    Keeps (parseBinaryExpression env self Min E) := by
  unfold Soll.parseBinaryExpression
  try dsimp only
  repeat' (with_reducible first
    | exact hself.parseTypeName _
    | exact hself.parseExpression _
    | exact hself.parseBinaryExpression _ _
    | exact hself.parseUnaryExpression _
    | exact hself.parseStatement
    | exact Keeps.parseUnaryExpression _ _ _ hself
    | exact Keeps.parseBinaryExpression_forLoop _ _ hself _ _ _
    | exact Keeps.getTok
    | exact Keeps.getNextToken
    | exact Keeps.ConsumeToken
    | exact Keeps.ConsumeAnyToken
    | exact Keeps.ConsumeParen
    | exact Keeps.ConsumeBracket
    | exact Keeps.ConsumeBrace
    | exact Keeps.ConsumeStringToken
    | exact Keeps.Diag _ _
    | exact Keeps.pure _
    | exact Keeps.abort _
    | exact Keeps.outOfFuel
    | exact Keeps.TryConsumeToken _
    | exact Keeps.isTokenParen
    | exact Keeps.ExpectAndConsume _ _
    | exact Keeps.ExpectAndConsumeSemi _
    | apply Keeps.bind
    | apply Keeps.ParseScope
    | intro _)

theorem Keeps.parseExpression (env : Env) (self : Fns) (E : Expr) (hself : self.Keeps) :
    Keeps (parseExpression env self E) := by
  unfold Soll.parseExpression
  try dsimp only
  repeat' (with_reducible first
    | exact hself.parseTypeName _
    | exact hself.parseExpression _
    | exact hself.parseBinaryExpression _ _
    | exact hself.parseUnaryExpression _
    | exact hself.parseStatement
    | exact Keeps.parseBinaryExpression _ _ _ _ hself
    | exact Keeps.getTok
    | exact Keeps.getNextToken
    | exact Keeps.ConsumeToken
    | exact Keeps.ConsumeAnyToken
    | exact Keeps.ConsumeParen
    | exact Keeps.ConsumeBracket
    | exact Keeps.ConsumeBrace
    | exact Keeps.ConsumeStringToken
    | exact Keeps.Diag _ _
    | exact Keeps.pure _
    | exact Keeps.abort _
    | exact Keeps.outOfFuel
    | exact Keeps.TryConsumeToken _
    | exact Keeps.isTokenParen
    | exact Keeps.ExpectAndConsume _ _
    | exact Keeps.ExpectAndConsumeSemi _
    | apply Keeps.bind
    | apply Keeps.ParseScope
    | intro _
    | split)

theorem Keeps.parseVariableDeclaration_loop (Options : VarDeclParserOptions) (T : Ty) (fuel : Nat) :
    ∀ (a b : Bool) (c : Visibility) (d : Location), Keeps (parseVariableDeclaration.loop Options T fuel a b c d) := by
  induction fuel with
  | zero =>
    intros
    unfold Soll.parseVariableDeclaration.loop
    exact Keeps.outOfFuel
  | succ fuel ih =>
    intros
    unfold Soll.parseVariableDeclaration.loop
    try dsimp only
    repeat' (with_reducible first
      | exact ih _ _ _ _
      | exact Keeps.parseVisibilitySpecifier
      | exact Keeps.getTok
      | exact Keeps.getNextToken
      | exact Keeps.ConsumeToken
      | exact Keeps.ConsumeAnyToken
      | exact Keeps.ConsumeParen
      | exact Keeps.ConsumeBracket
      | exact Keeps.ConsumeBrace
      | exact Keeps.ConsumeStringToken
      | exact Keeps.Diag _ _
      | exact Keeps.pure _
      | exact Keeps.abort _
      | exact Keeps.outOfFuel
      | exact Keeps.TryConsumeToken _
      | exact Keeps.isTokenParen
      | exact Keeps.ExpectAndConsume _ _
      | exact Keeps.ExpectAndConsumeSemi _
      | apply Keeps.bind
      | apply Keeps.ParseScope
      | intro _
      | split)

theorem Keeps.parseVariableDeclaration (env : Env) (self : Fns) (Options : VarDeclParserOptions) (T : Ty) (hself : self.Keeps) :
    Keeps (parseVariableDeclaration env self Options T) := by
  unfold Soll.parseVariableDeclaration
  try dsimp only
  repeat' (with_reducible first
    | exact hself.parseTypeName _
    | exact hself.parseExpression _
    | exact hself.parseBinaryExpression _ _
    | exact hself.parseUnaryExpression _
    | exact hself.parseStatement
    | exact Keeps.parseTypeName _ _ _ hself
    | exact Keeps.parseVariableDeclaration_loop _ _ _ _ _ _ _
    | exact Keeps.parseExpression _ _ _ hself
    | exact Keeps.addDecl _
    | exact Keeps.getTok
    | exact Keeps.getNextToken
    | exact Keeps.ConsumeToken
    | exact Keeps.ConsumeAnyToken
    | exact Keeps.ConsumeParen
    | exact Keeps.ConsumeBracket
    | exact Keeps.ConsumeBrace
    | exact Keeps.ConsumeStringToken
    | exact Keeps.Diag _ _
    | exact Keeps.pure _
    | exact Keeps.abort _
    | exact Keeps.outOfFuel
    | exact Keeps.TryConsumeToken _
    | exact Keeps.isTokenParen
    | exact Keeps.ExpectAndConsume _ _
    | exact Keeps.ExpectAndConsumeSemi _
    | apply Keeps.bind
    | apply Keeps.ParseScope
    | intro _
    | split)

theorem Keeps.parseParameterList_loop (env : Env) (self : Fns) (Options : VarDeclParserOptions) (hself : self.Keeps) (fuel : Nat) :
    ∀ (A : List (Option VarDecl)), Keeps (parseParameterList.loop env self Options fuel A) := by
  induction fuel with
  | zero =>
    intros
    unfold Soll.parseParameterList.loop
    exact Keeps.outOfFuel
  | succ fuel ih =>
    intros
    unfold Soll.parseParameterList.loop
    try dsimp only
    repeat' (with_reducible first
      | exact ih _
      | exact hself.parseTypeName _
      | exact hself.parseExpression _
      | exact hself.parseBinaryExpression _ _
      | exact hself.parseUnaryExpression _
      | exact hself.parseStatement
      | exact Keeps.parseVariableDeclaration _ _ _ _ hself
      | exact Keeps.getTok
      | exact Keeps.getNextToken
      | exact Keeps.ConsumeToken
      | exact Keeps.ConsumeAnyToken
      | exact Keeps.ConsumeParen
      | exact Keeps.ConsumeBracket
      | exact Keeps.ConsumeBrace
      | exact Keeps.ConsumeStringToken
      | exact Keeps.Diag _ _
      | exact Keeps.pure _
      | exact Keeps.abort _
      | exact Keeps.outOfFuel
      | exact Keeps.TryConsumeToken _
      | exact Keeps.isTokenParen
      | exact Keeps.ExpectAndConsume _ _
      | exact Keeps.ExpectAndConsumeSemi _
      | apply Keeps.bind
      | apply Keeps.ParseScope
      | intro _
      | split)

theorem Keeps.parseParameterList (env : Env) (self : Fns) (Options : VarDeclParserOptions) (AllowEmpty : Bool) (hself : self.Keeps) :
    Keeps (parseParameterList env self Options AllowEmpty) := by
  unfold Soll.parseParameterList
  try dsimp only
  repeat' (with_reducible first
    | exact hself.parseTypeName _
    | exact hself.parseExpression _
    | exact hself.parseBinaryExpression _ _
    | exact hself.parseUnaryExpression _
    | exact hself.parseStatement
    | exact Keeps.parseVariableDeclaration _ _ _ _ hself
    | exact Keeps.parseParameterList_loop _ _ _ hself _ _
    | exact Keeps.getTok
    | exact Keeps.getNextToken
    | exact Keeps.ConsumeToken
    | exact Keeps.ConsumeAnyToken
    | exact Keeps.ConsumeParen
    | exact Keeps.ConsumeBracket
    | exact Keeps.ConsumeBrace
    | exact Keeps.ConsumeStringToken
    | exact Keeps.Diag _ _
    | exact Keeps.pure _
    | exact Keeps.abort _
    | exact Keeps.outOfFuel
    | exact Keeps.TryConsumeToken _
    | exact Keeps.isTokenParen
    | exact Keeps.ExpectAndConsume _ _
    | exact Keeps.ExpectAndConsumeSemi _
    | apply Keeps.bind
    | apply Keeps.ParseScope
    | intro _
    | split)

theorem Keeps.parseIndexAccessedPath_path (fuel : Nat) :
    ∀ (A : List Token), Keeps (parseIndexAccessedPath.path fuel A) := by
  induction fuel with
  | zero =>
    intros
    unfold Soll.parseIndexAccessedPath.path
    exact Keeps.outOfFuel
  | succ fuel ih =>
    intros
    unfold Soll.parseIndexAccessedPath.path
    try dsimp only
    repeat' (with_reducible first
      | exact ih _
      | exact Keeps.getTok
      | exact Keeps.getNextToken
      | exact Keeps.ConsumeToken
      | exact Keeps.ConsumeAnyToken
      | exact Keeps.ConsumeParen
      | exact Keeps.ConsumeBracket
      | exact Keeps.ConsumeBrace
      | exact Keeps.ConsumeStringToken
      | exact Keeps.Diag _ _
      | exact Keeps.pure _
      | exact Keeps.abort _
      | exact Keeps.outOfFuel
      | exact Keeps.TryConsumeToken _
      | exact Keeps.isTokenParen
      | exact Keeps.ExpectAndConsume _ _
      | exact Keeps.ExpectAndConsumeSemi _
      | apply Keeps.bind
      | apply Keeps.ParseScope
      | intro _
      | split)

theorem Keeps.parseIndexAccessedPath_indices (env : Env) (self : Fns) (hself : self.Keeps) (fuel : Nat) :
    ∀ (A : List Expr), Keeps (parseIndexAccessedPath.indices env self fuel A) := by
  induction fuel with
  | zero =>
    intros
    unfold Soll.parseIndexAccessedPath.indices
    exact Keeps.outOfFuel
  | succ fuel ih =>
    intros
    unfold Soll.parseIndexAccessedPath.indices
    try dsimp only
    repeat' (with_reducible first
      | exact ih _
      | exact hself.parseTypeName _
      | exact hself.parseExpression _
      | exact hself.parseBinaryExpression _ _
      | exact hself.parseUnaryExpression _
      | exact hself.parseStatement
      | exact Keeps.parseExpression _ _ _ hself
      | exact Keeps.getTok
      | exact Keeps.getNextToken
      | exact Keeps.ConsumeToken
      | exact Keeps.ConsumeAnyToken
      | exact Keeps.ConsumeParen
      | exact Keeps.ConsumeBracket
      | exact Keeps.ConsumeBrace
      | exact Keeps.ConsumeStringToken
      | exact Keeps.Diag _ _
      | exact Keeps.pure _
      | exact Keeps.abort _
      | exact Keeps.outOfFuel
      | exact Keeps.TryConsumeToken _
      | exact Keeps.isTokenParen
      | exact Keeps.ExpectAndConsume _ _
      | exact Keeps.ExpectAndConsumeSemi _
      | apply Keeps.bind
      | apply Keeps.ParseScope
      | intro _
      | split)

theorem Keeps.parseIndexAccessedPath (env : Env) (self : Fns) (hself : self.Keeps) :
    Keeps (parseIndexAccessedPath env self) := by
  unfold Soll.parseIndexAccessedPath
  try dsimp only
  repeat' (with_reducible first
    | exact hself.parseTypeName _
    | exact hself.parseExpression _
    | exact hself.parseBinaryExpression _ _
    | exact hself.parseUnaryExpression _
    | exact hself.parseStatement
    | exact Keeps.parseIndexAccessedPath_path _ _
    | exact Keeps.parseIndexAccessedPath_indices _ _ hself _ _
    | exact Keeps.parseTypeName _ _ _ hself
    | exact Keeps.getTok
    | exact Keeps.getNextToken
    | exact Keeps.ConsumeToken
    | exact Keeps.ConsumeAnyToken
    | exact Keeps.ConsumeParen
    | exact Keeps.ConsumeBracket
    | exact Keeps.ConsumeBrace
    | exact Keeps.ConsumeStringToken
    | exact Keeps.Diag _ _
    | exact Keeps.pure _
    | exact Keeps.abort _
    | exact Keeps.outOfFuel
    | exact Keeps.TryConsumeToken _
    | exact Keeps.isTokenParen
    | exact Keeps.ExpectAndConsume _ _
    | exact Keeps.ExpectAndConsumeSemi _
    | apply Keeps.bind
    | apply Keeps.ParseScope
    | intro _
    | split)

theorem Keeps.tryParseIndexAccessedPath (env : Env) (self : Fns) (hself : self.Keeps) :
    Keeps (tryParseIndexAccessedPath env self) := by
  constructor
  intro s a s1 h
  unfold Soll.tryParseIndexAccessedPath at h
  split at h
  · cases h; exact ScopesLe.refl _
  · cases h; exact ScopesLe.refl _
  · cases hp : Soll.parseIndexAccessedPath env self s with
    | ok Iap s2 =>
      rw [hp, Res.bind_ok] at h
      have hle := (Keeps.parseIndexAccessedPath env self hself).out _ _ _ hp
      split at h <;> cases h <;> exact hle
    | abort msg => rw [hp] at h; cases h
    | outOfFuel => rw [hp] at h; cases h

theorem Keeps.typeNameFromIndexAccessStructure_loop (Indices : List Expr) :
    ∀ (T : Ty), Keeps (typeNameFromIndexAccessStructure.loop Indices T) := by
  induction Indices with
  | nil =>
    intros
    unfold Soll.typeNameFromIndexAccessStructure.loop
    exact Keeps.pure _
  | cons Length rest ih =>
    intros
    unfold Soll.typeNameFromIndexAccessStructure.loop
    repeat' (with_reducible first
      | exact ih _ | exact Keeps.parseDataLocation | exact Keeps.abort _
      | apply Keeps.bind | intro _ | split)

theorem Keeps.typeNameFromIndexAccessStructure (Iap : IndexAccessedPath) :
    Keeps (typeNameFromIndexAccessStructure Iap) := by
  unfold Soll.typeNameFromIndexAccessStructure
  try dsimp only
  repeat' (with_reducible first
    | exact Keeps.typeNameFromIndexAccessStructure_loop _ _
    | exact Keeps.getTok
    | exact Keeps.getNextToken
    | exact Keeps.ConsumeToken
    | exact Keeps.ConsumeAnyToken
    | exact Keeps.ConsumeParen
    | exact Keeps.ConsumeBracket
    | exact Keeps.ConsumeBrace
    | exact Keeps.ConsumeStringToken
    | exact Keeps.Diag _ _
    | exact Keeps.pure _
    | exact Keeps.abort _
    | exact Keeps.outOfFuel
    | exact Keeps.TryConsumeToken _
    | exact Keeps.isTokenParen
    | exact Keeps.ExpectAndConsume _ _
    | exact Keeps.ExpectAndConsumeSemi _
    | apply Keeps.bind
    | apply Keeps.ParseScope
    | intro _
    | split)

theorem Keeps.expressionFromIndexAccessStructure (Iap : IndexAccessedPath) :
    Keeps (expressionFromIndexAccessStructure Iap) := by
  unfold Soll.expressionFromIndexAccessStructure
  try dsimp only
  repeat' (with_reducible first
    | exact Keeps.CreateIdentifier _
    | exact Keeps.getTok
    | exact Keeps.getNextToken
    | exact Keeps.ConsumeToken
    | exact Keeps.ConsumeAnyToken
    | exact Keeps.ConsumeParen
    | exact Keeps.ConsumeBracket
    | exact Keeps.ConsumeBrace
    | exact Keeps.ConsumeStringToken
    | exact Keeps.Diag _ _
    | exact Keeps.pure _
    | exact Keeps.abort _
    | exact Keeps.outOfFuel
    | exact Keeps.TryConsumeToken _
    | exact Keeps.isTokenParen
    | exact Keeps.ExpectAndConsume _ _
    | exact Keeps.ExpectAndConsumeSemi _
    | apply Keeps.bind
    | apply Keeps.ParseScope
    | intro _
    | split)

theorem Keeps.parseVariableDeclarationStatement (env : Env) (self : Fns) (T : Ty) (hself : self.Keeps) :
    Keeps (parseVariableDeclarationStatement env self T) := by
  unfold Soll.parseVariableDeclarationStatement
  try dsimp only
  repeat' (with_reducible first
    | exact hself.parseTypeName _
    | exact hself.parseExpression _
    | exact hself.parseBinaryExpression _ _
    | exact hself.parseUnaryExpression _
    | exact hself.parseStatement
    | exact Keeps.parseVariableDeclaration _ _ _ _ hself
    | exact Keeps.parseExpression _ _ _ hself
    | exact Keeps.getTok
    | exact Keeps.getNextToken
    | exact Keeps.ConsumeToken
    | exact Keeps.ConsumeAnyToken
    | exact Keeps.ConsumeParen
    | exact Keeps.ConsumeBracket
    | exact Keeps.ConsumeBrace
    | exact Keeps.ConsumeStringToken
    | exact Keeps.Diag _ _
    | exact Keeps.pure _
    | exact Keeps.abort _
    | exact Keeps.outOfFuel
    | exact Keeps.TryConsumeToken _
    | exact Keeps.isTokenParen
    | exact Keeps.ExpectAndConsume _ _
    | exact Keeps.ExpectAndConsumeSemi _
    | apply Keeps.bind
    | apply Keeps.ParseScope
    | intro _
    | split)

theorem Keeps.parseSimpleStatement (env : Env) (self : Fns) (hself : self.Keeps) :
    Keeps (parseSimpleStatement env self) := by
  unfold Soll.parseSimpleStatement
  try dsimp only
  repeat' (with_reducible first
    | exact hself.parseTypeName _
    | exact hself.parseExpression _
    | exact hself.parseBinaryExpression _ _
    | exact hself.parseUnaryExpression _
    | exact hself.parseStatement
    | exact Keeps.tryParseIndexAccessedPath _ _ hself
    | exact Keeps.typeNameFromIndexAccessStructure _
    | exact Keeps.expressionFromIndexAccessStructure _
    | exact Keeps.parseVariableDeclarationStatement _ _ _ hself
    | exact Keeps.parseExpression _ _ _ hself
    | exact Keeps.getTok
    | exact Keeps.getNextToken
    | exact Keeps.ConsumeToken
    | exact Keeps.ConsumeAnyToken
    | exact Keeps.ConsumeParen
    | exact Keeps.ConsumeBracket
    | exact Keeps.ConsumeBrace
    | exact Keeps.ConsumeStringToken
    | exact Keeps.Diag _ _
    | exact Keeps.pure _
    | exact Keeps.abort _
    | exact Keeps.outOfFuel
    | exact Keeps.TryConsumeToken _
    | exact Keeps.isTokenParen
    | exact Keeps.ExpectAndConsume _ _
    | exact Keeps.ExpectAndConsumeSemi _
    | apply Keeps.bind
    | apply Keeps.ParseScope
    | intro _
    | split)

theorem Keeps.parseEmitStatement_path (fuel : Nat) :
    ∀ (A : List Token), Keeps (parseEmitStatement.path fuel A) := by
  induction fuel with
  | zero =>
    intros
    unfold Soll.parseEmitStatement.path
    exact Keeps.outOfFuel
  | succ fuel ih =>
    intros
    unfold Soll.parseEmitStatement.path
    try dsimp only
    repeat' (with_reducible first
      | exact ih _
      | exact Keeps.getTok
      | exact Keeps.getNextToken
      | exact Keeps.ConsumeToken
      | exact Keeps.ConsumeAnyToken
      | exact Keeps.ConsumeParen
      | exact Keeps.ConsumeBracket
      | exact Keeps.ConsumeBrace
      | exact Keeps.ConsumeStringToken
      | exact Keeps.Diag _ _
      | exact Keeps.pure _
      | exact Keeps.abort _
      | exact Keeps.outOfFuel
      | exact Keeps.TryConsumeToken _
      | exact Keeps.isTokenParen
      | exact Keeps.ExpectAndConsume _ _
      | exact Keeps.ExpectAndConsumeSemi _
      | apply Keeps.bind
      | apply Keeps.ParseScope
      | intro _
      | split)

theorem Keeps.parseEmitStatement (self : Fns) (hself : self.Keeps) :
    Keeps (parseEmitStatement self) := by
  unfold Soll.parseEmitStatement
  try dsimp only
  repeat' (with_reducible first
    | exact hself.parseTypeName _
    | exact hself.parseExpression _
    | exact hself.parseBinaryExpression _ _
    | exact hself.parseUnaryExpression _
    | exact hself.parseStatement
    | exact Keeps.parseEmitStatement_path _ _
    | exact Keeps.expressionFromIndexAccessStructure _
    | exact Keeps.parseFunctionCallArguments _ hself
    | exact Keeps.getTok
    | exact Keeps.getNextToken
    | exact Keeps.ConsumeToken
    | exact Keeps.ConsumeAnyToken
    | exact Keeps.ConsumeParen
    | exact Keeps.ConsumeBracket
    | exact Keeps.ConsumeBrace
    | exact Keeps.ConsumeStringToken
    | exact Keeps.Diag _ _
    | exact Keeps.pure _
    | exact Keeps.abort _
    | exact Keeps.outOfFuel
    | exact Keeps.TryConsumeToken _
    | exact Keeps.isTokenParen
    | exact Keeps.ExpectAndConsume _ _
    | exact Keeps.ExpectAndConsumeSemi _
    | apply Keeps.bind
    | apply Keeps.ParseScope
    | intro _
    | split)

theorem Keeps.parseIfStatement (env : Env) (self : Fns) (hself : self.Keeps) :
    Keeps (parseIfStatement env self) := by
  unfold Soll.parseIfStatement
  try dsimp only
  repeat' (with_reducible first
    | exact hself.parseTypeName _
    | exact hself.parseExpression _
    | exact hself.parseBinaryExpression _ _
    | exact hself.parseUnaryExpression _
    | exact hself.parseStatement
    | exact Keeps.parseExpression _ _ _ hself
    | exact Keeps.getTok
    | exact Keeps.getNextToken
    | exact Keeps.ConsumeToken
    | exact Keeps.ConsumeAnyToken
    | exact Keeps.ConsumeParen
    | exact Keeps.ConsumeBracket
    | exact Keeps.ConsumeBrace
    | exact Keeps.ConsumeStringToken
    | exact Keeps.Diag _ _
    | exact Keeps.pure _
    | exact Keeps.abort _
    | exact Keeps.outOfFuel
    | exact Keeps.TryConsumeToken _
    | exact Keeps.isTokenParen
    | exact Keeps.ExpectAndConsume _ _
    | exact Keeps.ExpectAndConsumeSemi _
    | apply Keeps.bind
    | apply Keeps.ParseScope
    | intro _
    | split)

theorem Keeps.parseWhileStatement (env : Env) (self : Fns) (hself : self.Keeps) :
    Keeps (parseWhileStatement env self) := by
  unfold Soll.parseWhileStatement
  try dsimp only
  repeat' (with_reducible first
    | exact hself.parseTypeName _
    | exact hself.parseExpression _
    | exact hself.parseBinaryExpression _ _
    | exact hself.parseUnaryExpression _
    | exact hself.parseStatement
    | exact Keeps.parseExpression _ _ _ hself
    | exact Keeps.getTok
    | exact Keeps.getNextToken
    | exact Keeps.ConsumeToken
    | exact Keeps.ConsumeAnyToken
    | exact Keeps.ConsumeParen
    | exact Keeps.ConsumeBracket
    | exact Keeps.ConsumeBrace
    | exact Keeps.ConsumeStringToken
    | exact Keeps.Diag _ _
    | exact Keeps.pure _
    | exact Keeps.abort _
    | exact Keeps.outOfFuel
    | exact Keeps.TryConsumeToken _
    | exact Keeps.isTokenParen
    | exact Keeps.ExpectAndConsume _ _
    | exact Keeps.ExpectAndConsumeSemi _
    | apply Keeps.bind
    | apply Keeps.ParseScope
    | intro _
    | split)

theorem Keeps.parseDoWhileStatement (env : Env) (self : Fns) (hself : self.Keeps) :
    Keeps (parseDoWhileStatement env self) := by
  unfold Soll.parseDoWhileStatement
  try dsimp only
  repeat' (with_reducible first
    | exact hself.parseTypeName _
    | exact hself.parseExpression _
    | exact hself.parseBinaryExpression _ _
    | exact hself.parseUnaryExpression _
    | exact hself.parseStatement
    | exact Keeps.parseExpression _ _ _ hself
    | exact Keeps.getTok
    | exact Keeps.getNextToken
    | exact Keeps.ConsumeToken
    | exact Keeps.ConsumeAnyToken
    | exact Keeps.ConsumeParen
    | exact Keeps.ConsumeBracket
    | exact Keeps.ConsumeBrace
    | exact Keeps.ConsumeStringToken
    | exact Keeps.Diag _ _
    | exact Keeps.pure _
    | exact Keeps.abort _
    | exact Keeps.outOfFuel
    | exact Keeps.TryConsumeToken _
    | exact Keeps.isTokenParen
    | exact Keeps.ExpectAndConsume _ _
    | exact Keeps.ExpectAndConsumeSemi _
    | apply Keeps.bind
    | apply Keeps.ParseScope
    | intro _
    | split)

theorem Keeps.parseForStatement (env : Env) (self : Fns) (hself : self.Keeps) :
    Keeps (parseForStatement env self) := by
  unfold Soll.parseForStatement
  try dsimp only
  repeat' (with_reducible first
    | exact hself.parseTypeName _
    | exact hself.parseExpression _
    | exact hself.parseBinaryExpression _ _
    | exact hself.parseUnaryExpression _
    | exact hself.parseStatement
    | exact Keeps.parseExpression _ _ _ hself
    | exact Keeps.parseSimpleStatement _ _ hself
    | exact Keeps.getTok
    | exact Keeps.getNextToken
    | exact Keeps.ConsumeToken
    | exact Keeps.ConsumeAnyToken
    | exact Keeps.ConsumeParen
    | exact Keeps.ConsumeBracket
    | exact Keeps.ConsumeBrace
    | exact Keeps.ConsumeStringToken
    | exact Keeps.Diag _ _
    | exact Keeps.pure _
    | exact Keeps.abort _
    | exact Keeps.outOfFuel
    | exact Keeps.TryConsumeToken _
    | exact Keeps.isTokenParen
    | exact Keeps.ExpectAndConsume _ _
    | exact Keeps.ExpectAndConsumeSemi _
    | apply Keeps.bind
    | apply Keeps.ParseScope
    | intro _
    | split)

theorem Keeps.parseBlock_loop (self : Fns) (hself : self.Keeps) (fuel : Nat) :
    ∀ (A : List Stmt), Keeps (parseBlock.loop self fuel A) := by
  induction fuel with
  | zero =>
    intros
    unfold Soll.parseBlock.loop
    exact Keeps.outOfFuel
  | succ fuel ih =>
    intros
    unfold Soll.parseBlock.loop
    try dsimp only
    repeat' (with_reducible first
      | exact ih _
      | exact hself.parseTypeName _
      | exact hself.parseExpression _
      | exact hself.parseBinaryExpression _ _
      | exact hself.parseUnaryExpression _
      | exact hself.parseStatement
      | exact Keeps.getTok
      | exact Keeps.getNextToken
      | exact Keeps.ConsumeToken
      | exact Keeps.ConsumeAnyToken
      | exact Keeps.ConsumeParen
      | exact Keeps.ConsumeBracket
      | exact Keeps.ConsumeBrace
      | exact Keeps.ConsumeStringToken
      | exact Keeps.Diag _ _
      | exact Keeps.pure _
      | exact Keeps.abort _
      | exact Keeps.outOfFuel
      | exact Keeps.TryConsumeToken _
      | exact Keeps.isTokenParen
      | exact Keeps.ExpectAndConsume _ _
      | exact Keeps.ExpectAndConsumeSemi _
      | apply Keeps.bind
      | apply Keeps.ParseScope
      | intro _
      | split)

theorem Keeps.parseBlock (self : Fns) (hself : self.Keeps) :
    Keeps (parseBlock self) := by
  unfold Soll.parseBlock
  try dsimp only
  repeat' (with_reducible first
    | exact hself.parseTypeName _
    | exact hself.parseExpression _
    | exact hself.parseBinaryExpression _ _
    | exact hself.parseUnaryExpression _
    | exact hself.parseStatement
    | exact Keeps.parseBlock_loop _ hself _ _
    | exact Keeps.getTok
    | exact Keeps.getNextToken
    | exact Keeps.ConsumeToken
    | exact Keeps.ConsumeAnyToken
    | exact Keeps.ConsumeParen
    | exact Keeps.ConsumeBracket
    | exact Keeps.ConsumeBrace
    | exact Keeps.ConsumeStringToken
    | exact Keeps.Diag _ _
    | exact Keeps.pure _
    | exact Keeps.abort _
    | exact Keeps.outOfFuel
    | exact Keeps.TryConsumeToken _
    | exact Keeps.isTokenParen
    | exact Keeps.ExpectAndConsume _ _
    | exact Keeps.ExpectAndConsumeSemi _
    | apply Keeps.bind
    | apply Keeps.ParseScope
    | intro _
    | split)

theorem Keeps.parseStatement (env : Env) (self : Fns) (hself : self.Keeps) :
    Keeps (parseStatement env self) := by
  unfold Soll.parseStatement
  try dsimp only
  repeat' (with_reducible first
    | exact hself.parseTypeName _
    | exact hself.parseExpression _
    | exact hself.parseBinaryExpression _ _
    | exact hself.parseUnaryExpression _
    | exact hself.parseStatement
    | exact Keeps.parseIfStatement _ _ hself
    | exact Keeps.parseWhileStatement _ _ hself
    | exact Keeps.parseDoWhileStatement _ _ hself
    | exact Keeps.parseForStatement _ _ hself
    | exact Keeps.parseBlock _ hself
    | exact Keeps.parseExpression _ _ _ hself
    | exact Keeps.parseEmitStatement _ hself
    | exact Keeps.parseSimpleStatement _ _ hself
    | exact Keeps.getTok
    | exact Keeps.getNextToken
    | exact Keeps.ConsumeToken
    | exact Keeps.ConsumeAnyToken
    | exact Keeps.ConsumeParen
    | exact Keeps.ConsumeBracket
    | exact Keeps.ConsumeBrace
    | exact Keeps.ConsumeStringToken
    | exact Keeps.Diag _ _
    | exact Keeps.pure _
    | exact Keeps.abort _
    | exact Keeps.outOfFuel
    | exact Keeps.TryConsumeToken _
    | exact Keeps.isTokenParen
    | exact Keeps.ExpectAndConsume _ _
    | exact Keeps.ExpectAndConsumeSemi _
    | apply Keeps.bind
    | apply Keeps.ParseScope
    | intro _
    | split)

/-- Every re-entered production keeps the scope stack, at every depth. -/
theorem fns_keeps (env : Env) (n : Nat) : (fns env n).Keeps := by
  induction n with
  | zero =>
    exact ⟨fun _ => Keeps.outOfFuel, fun _ => Keeps.outOfFuel, fun _ _ => Keeps.outOfFuel,
      fun _ => Keeps.outOfFuel, Keeps.outOfFuel⟩
  | succ n ih =>
    exact ⟨fun b => Keeps.parseTypeName env (fns env n) b ih,
      fun e => Keeps.parseExpression env (fns env n) e ih,
      fun p e => Keeps.parseBinaryExpression env (fns env n) p e ih,
      fun e => Keeps.parseUnaryExpression env (fns env n) e ih,
      Keeps.parseStatement env (fns env n) ih⟩

theorem Keeps.parseFunctionHeader_loop (AllowModifiers : Bool) (fuel : Nat) :
    ∀ (V : Visibility) (SM : StateMutability), Keeps (parseFunctionHeader.loop AllowModifiers fuel V SM) := by
  induction fuel with
  | zero =>
    intros
    unfold Soll.parseFunctionHeader.loop
    exact Keeps.outOfFuel
  | succ fuel ih =>
    intros
    unfold Soll.parseFunctionHeader.loop
    try dsimp only
    repeat' (with_reducible first
      | exact ih _ _
      | exact Keeps.parseVisibilitySpecifier
      | exact Keeps.parseStateMutability
      | exact Keeps.getTok
      | exact Keeps.getNextToken
      | exact Keeps.ConsumeToken
      | exact Keeps.ConsumeAnyToken
      | exact Keeps.ConsumeParen
      | exact Keeps.ConsumeBracket
      | exact Keeps.ConsumeBrace
      | exact Keeps.ConsumeStringToken
      | exact Keeps.Diag _ _
      | exact Keeps.pure _
      | exact Keeps.abort _
      | exact Keeps.outOfFuel
      | exact Keeps.TryConsumeToken _
      | exact Keeps.isTokenParen
      | exact Keeps.ExpectAndConsume _ _
      | exact Keeps.ExpectAndConsumeSemi _
      | apply Keeps.bind
      | apply Keeps.ParseScope
      | intro _
      | split)

theorem Keeps.parseFunctionHeader_name (ForceEmptyName : Bool) :
    Keeps (parseFunctionHeader.name ForceEmptyName) := by
  unfold Soll.parseFunctionHeader.name
  try dsimp only
  repeat' (with_reducible first
    | exact Keeps.getTok
    | exact Keeps.getNextToken
    | exact Keeps.ConsumeToken
    | exact Keeps.ConsumeAnyToken
    | exact Keeps.ConsumeParen
    | exact Keeps.ConsumeBracket
    | exact Keeps.ConsumeBrace
    | exact Keeps.ConsumeStringToken
    | exact Keeps.Diag _ _
    | exact Keeps.pure _
    | exact Keeps.abort _
    | exact Keeps.outOfFuel
    | exact Keeps.TryConsumeToken _
    | exact Keeps.isTokenParen
    | exact Keeps.ExpectAndConsume _ _
    | exact Keeps.ExpectAndConsumeSemi _
    | apply Keeps.bind
    | apply Keeps.ParseScope
    | intro _
    | split)

theorem Keeps.parseFunctionHeader (env : Env) (self : Fns) (a b : Bool) (hself : self.Keeps) :
    Keeps (parseFunctionHeader env self a b) := by
  unfold Soll.parseFunctionHeader
  try dsimp only
  repeat' (with_reducible first
    | exact hself.parseTypeName _
    | exact hself.parseExpression _
    | exact hself.parseBinaryExpression _ _
    | exact hself.parseUnaryExpression _
    | exact hself.parseStatement
    | exact Keeps.parseFunctionHeader_name _
    | exact Keeps.parseParameterList _ _ _ _ hself
    | exact Keeps.parseFunctionHeader_loop _ _ _ _
    | exact Keeps.SetFunRtnTys _
    | exact Keeps.getTok
    | exact Keeps.getNextToken
    | exact Keeps.ConsumeToken
    | exact Keeps.ConsumeAnyToken
    | exact Keeps.ConsumeParen
    | exact Keeps.ConsumeBracket
    | exact Keeps.ConsumeBrace
    | exact Keeps.ConsumeStringToken
    | exact Keeps.Diag _ _
    | exact Keeps.pure _
    | exact Keeps.abort _
    | exact Keeps.outOfFuel
    | exact Keeps.TryConsumeToken _
    | exact Keeps.isTokenParen
    | exact Keeps.ExpectAndConsume _ _
    | exact Keeps.ExpectAndConsumeSemi _
    | apply Keeps.bind
    | apply Keeps.ParseScope
    | intro _
    | split)

theorem Keeps.addParams (Params : List (Option VarDecl)) :
    Keeps (ParseLexedMethodDef.addParams Params) := by
  induction Params with
  | nil =>
    unfold Soll.ParseLexedMethodDef.addParams
    exact Keeps.pure _
  | cons p rest ih =>
    cases p with
    | none =>
      unfold Soll.ParseLexedMethodDef.addParams
      exact Keeps.abort _
    | some vd =>
      unfold Soll.ParseLexedMethodDef.addParams
      exact Keeps.bind _ _ (Keeps.addDecl _) (fun _ => ih)

theorem Keeps.ParseLexedMethodDef (self : Fns) (LM : LexedMethod) (hself : self.Keeps) :
    Keeps (ParseLexedMethodDef self LM) := by
  unfold Soll.ParseLexedMethodDef
  try dsimp only
  repeat' (with_reducible first
    | exact hself.parseTypeName _
    | exact hself.parseExpression _
    | exact hself.parseBinaryExpression _ _
    | exact hself.parseUnaryExpression _
    | exact hself.parseStatement
    | exact Keeps.addParams _
    | exact Keeps.parseBlock _ hself
    | exact Keeps.EnterTokenStream _
    | exact Keeps.SetFunRtnTys _
    | exact Keeps.EraseFunRtnTys
    | exact Keeps.getTok
    | exact Keeps.getNextToken
    | exact Keeps.ConsumeToken
    | exact Keeps.ConsumeAnyToken
    | exact Keeps.ConsumeParen
    | exact Keeps.ConsumeBracket
    | exact Keeps.ConsumeBrace
    | exact Keeps.ConsumeStringToken
    | exact Keeps.Diag _ _
    | exact Keeps.pure _
    | exact Keeps.abort _
    | exact Keeps.outOfFuel
    | exact Keeps.TryConsumeToken _
    | exact Keeps.isTokenParen
    | exact Keeps.ExpectAndConsume _ _
    | exact Keeps.ExpectAndConsumeSemi _
    | apply Keeps.bind
    | apply Keeps.ParseScope
    | intro _
    | split)

theorem Keeps.queueLexedMethod (FD : FunctionDecl) (Toks : List Token) :
    Keeps (fun s => Res.ok (some FD)
      { s with LateParsedDeclarations := s.LateParsedDeclarations ++ [⟨Toks, FD⟩] }) := by
  apply Keeps.of_same; intro s a s1 h; cases h; rfl

theorem Keeps.parseFunctionDefinitionOrFunctionTypeStateVariable (env : Env) (self : Fns) (hself : self.Keeps) :
    Keeps (parseFunctionDefinitionOrFunctionTypeStateVariable env self) := by
  unfold Soll.parseFunctionDefinitionOrFunctionTypeStateVariable
  try dsimp only
  repeat' (with_reducible first
    | exact hself.parseTypeName _
    | exact hself.parseExpression _
    | exact hself.parseBinaryExpression _ _
    | exact hself.parseUnaryExpression _
    | exact hself.parseStatement
    | exact Keeps.parseFunctionHeader _ _ _ _ hself
    | exact Keeps.ConsumeAndStoreUntil _ _ _ _
    | exact Keeps.CreateFunctionDecl _ _ _ _ _ _ _ _ _
    | exact Keeps.queueLexedMethod _ _
    | exact Keeps.getTok
    | exact Keeps.getNextToken
    | exact Keeps.ConsumeToken
    | exact Keeps.ConsumeAnyToken
    | exact Keeps.ConsumeParen
    | exact Keeps.ConsumeBracket
    | exact Keeps.ConsumeBrace
    | exact Keeps.ConsumeStringToken
    | exact Keeps.Diag _ _
    | exact Keeps.pure _
    | exact Keeps.abort _
    | exact Keeps.outOfFuel
    | exact Keeps.TryConsumeToken _
    | exact Keeps.isTokenParen
    | exact Keeps.ExpectAndConsume _ _
    | exact Keeps.ExpectAndConsumeSemi _
    | apply Keeps.bind
    | apply Keeps.ParseScope
    | intro _
    | split)

theorem Keeps.parseEventDefinition (env : Env) (self : Fns) (hself : self.Keeps) :
    Keeps (parseEventDefinition env self) := by
  unfold Soll.parseEventDefinition
  try dsimp only
  repeat' (with_reducible first
    | exact hself.parseTypeName _
    | exact hself.parseExpression _
    | exact hself.parseBinaryExpression _ _
    | exact hself.parseUnaryExpression _
    | exact hself.parseStatement
    | exact Keeps.parseParameterList _ _ _ _ hself
    | exact Keeps.addDecl _
    | exact Keeps.getTok
    | exact Keeps.getNextToken
    | exact Keeps.ConsumeToken
    | exact Keeps.ConsumeAnyToken
    | exact Keeps.ConsumeParen
    | exact Keeps.ConsumeBracket
    | exact Keeps.ConsumeBrace
    | exact Keeps.ConsumeStringToken
    | exact Keeps.Diag _ _
    | exact Keeps.pure _
    | exact Keeps.abort _
    | exact Keeps.outOfFuel
    | exact Keeps.TryConsumeToken _
    | exact Keeps.isTokenParen
    | exact Keeps.ExpectAndConsume _ _
    | exact Keeps.ExpectAndConsumeSemi _
    | apply Keeps.bind
    | apply Keeps.ParseScope
    | intro _
    | split)

theorem Keeps.late (self : Fns) (hself : self.Keeps) (Late : List LexedMethod) :
    ∀ (CD : ContractDecl), Keeps (parseContractDefinition.late self Late CD) := by
  induction Late with
  | nil =>
    intros
    unfold Soll.parseContractDefinition.late
    exact Keeps.pure _
  | cons LM rest ih =>
    intros
    unfold Soll.parseContractDefinition.late
    repeat' (with_reducible first
      | exact ih _ | exact Keeps.ParseLexedMethodDef _ _ hself | exact Keeps.abort _
      | apply Keeps.bind | intro _ | split)


/-! ## Members are registered before the deferred bodies are parsed -/

theorem Registered.mono {names : List String} {s s1 : Parser} (h : Registered names s)
    (hle : ScopesLe s.Scopes s1.Scopes) : Registered names s1 := by
  constructor
  · intro h1
    have hl := hle.length
    rw [h1] at hl
    exact h.1 (List.length_eq_zero.mp hl)
  · intro n hn
    exact hle.visible n (h.2 n hn)

theorem Registered.keeps {α : Type} {names : List String} {m : P α} {s s1 : Parser} {a : α}
    (h : Registered names s) (hm : Keeps m) (hrun : m s = .ok a s1) : Registered names s1 :=
  h.mono (hm.out s a s1 hrun)

theorem Registered.of_subset {names names1 : List String} {s : Parser}
    (h : Registered names s) (hsub : ∀ n ∈ names1, n ∈ names) : Registered names1 s :=
  ⟨h.1, fun n hn => h.2 n (hsub n hn)⟩

/-- After `Actions.addDecl` with a scope on the stack the name is registered. -/
theorem Registered.cons_addDecl {names : List String} {s s1 : Parser} {a : Unit} (n : String)
    (h : Registered names s) (hrun : Actions.addDecl n s = .ok a s1) :
    Registered (n :: names) s1 := by
  have hkeep := h.keeps (Keeps.addDecl n) hrun
  refine ⟨hkeep.1, ?_⟩
  intro x hx
  rcases List.mem_cons.mp hx with hx | hx
  · subst hx
    unfold Actions.addDecl at hrun
    split at hrun
    · rename_i heq; exact absurd heq h.1
    · cases hrun
      simp only [Actions.visible, List.map_cons, List.flatten_cons, List.mem_append,
        List.mem_cons, true_or]
  · exact hkeep.2 x hx

theorem Registers.seq {α β : Type} {pre : List String} {sel : β → List String} {m : P α}
    {f : α → P β} (mid : α → List String) (hm : Registers pre mid m)
    (hf : ∀ a, Registers (mid a) sel (f a)) : Registers pre sel (m >>= f) := by
  constructor
  intro s b s2 hpre h
  rw [bind_apply] at h
  cases hms : m s with
  | ok a s1 =>
    rw [hms, Res.bind_ok] at h
    exact (hf a).out s1 b s2 (hm.out s a s1 hpre hms) h
  | abort msg => rw [hms] at h; cases h
  | outOfFuel => rw [hms] at h; cases h

theorem Registers.of_keeps {α : Type} {pre : List String} {m : P α} (hm : Keeps m) :
    Registers pre (fun _ => pre) m :=
  ⟨fun _ _ _ hpre h => hpre.keeps hm h⟩

theorem Registers.bind_keeps {α β : Type} {pre : List String} {sel : β → List String}
    {m : P α} {f : α → P β} (hm : Keeps m) (hf : ∀ a, Registers pre sel (f a)) :
    Registers pre sel (m >>= f) :=
  Registers.seq (fun _ => pre) (Registers.of_keeps hm) hf

theorem Registers.bind_addDecl {β : Type} {pre : List String} {sel : β → List String}
    (n : String) {f : Unit → P β} (hf : ∀ a, Registers (n :: pre) sel (f a)) :
    Registers pre sel (Actions.addDecl n >>= f) :=
  Registers.seq (fun _ => n :: pre) ⟨fun _ _ _ hpre h => hpre.cons_addDecl n h⟩ hf

theorem Registers.ret {α : Type} {pre : List String} {sel : α → List String} (a : α)
    (h : ∀ n ∈ sel a, n ∈ pre) : Registers pre sel (pure a : P α) := by
  constructor
  intro s b s1 hpre hrun
  cases hrun
  exact hpre.of_subset h

theorem Registers.aborted {α : Type} {pre : List String} {sel : α → List String}
    (msg : String) : Registers pre sel (abort msg : P α) := by
  constructor; intro s a s1 _ h; cases h

theorem Registers.noFuel {α : Type} {pre : List String} {sel : α → List String} :
    Registers pre sel (outOfFuel : P α) := by
  constructor; intro s a s1 _ h; cases h

theorem Registers.weaken {α : Type} {pre pre1 : List String} {sel : α → List String}
    {m : P α} (h : Registers pre1 sel m) (hsub : ∀ n ∈ pre1, n ∈ pre) : Registers pre sel m :=
  ⟨fun s a s1 hpre hrun => h.out s a s1 (hpre.of_subset hsub) hrun⟩

/-- A variable that `parseVariableDeclaration` returns has been registered. -/
theorem Registers.ofParseVariableDeclaration (env : Env) (self : Fns) (hself : self.Keeps)
    (Options : VarDeclParserOptions) (T : Ty) (pre : List String) :
    Registers pre (fun VD => VD.toList.map VarDecl.Name ++ pre)
      (parseVariableDeclaration env self Options T) := by
  unfold Soll.parseVariableDeclaration
  try dsimp only
  repeat' (first
    | (with_reducible first
      | exact Keeps.getTok | exact Keeps.ConsumeToken | exact Keeps.pure _
      | exact Keeps.TryConsumeToken _
      | exact Keeps.parseTypeName _ _ _ hself
      | exact Keeps.parseExpression _ _ _ hself
      | exact Keeps.parseVariableDeclaration_loop _ _ _ _ _ _ _
      | exact Registers.aborted _
      | apply Registers.bind_addDecl
      | apply Registers.bind_keeps
      | apply Keeps.bind)
    | exact Registers.ret _ (fun _ h => h)
    | intro _ | split)

/-- An event that `parseEventDefinition` returns has been registered. -/
theorem Registers.ofParseEventDefinition (env : Env) (self : Fns) (hself : self.Keeps)
    (pre : List String) :
    Registers pre (fun ED => ED.toList.map EventDecl.Name ++ pre)
      (parseEventDefinition env self) := by
  unfold Soll.parseEventDefinition
  try dsimp only
  repeat' (first
    | (with_reducible first
      | exact Keeps.getTok | exact Keeps.ConsumeToken | exact Keeps.pure _
      | exact Keeps.TryConsumeToken _
      | exact Keeps.ExpectAndConsumeSemi _
      | exact Keeps.parseParameterList _ _ _ _ hself
      | exact Registers.aborted _
      | apply Registers.bind_addDecl
      | apply Registers.bind_keeps
      | apply Keeps.bind)
    | exact Registers.ret _ (fun _ h => h)
    | intro _ | split)

theorem mem_memberNames (n : String) (S : List Member) (C F : Option FunctionDecl) :
    n ∈ memberNames S C F ↔
      (∃ m ∈ S, n ∈ m.names) ∨ (∃ fd, C = some fd ∧ fd.Name = n) ∨
        (∃ fd, F = some fd ∧ fd.Name = n) := by
  unfold memberNames
  simp only [List.mem_append, List.mem_flatMap, List.mem_map, Option.mem_toList,
    Option.mem_def, or_and_right, exists_or]

theorem memberNames_constructor (S : List Member) (C F : Option FunctionDecl)
    (FD : FunctionDecl) (h : ¬ C.isSome = true) :
    ∀ n ∈ memberNames S (some FD) F, n ∈ FD.Name :: memberNames S C F := by
  intro n hn
  cases C with
  | some c => exact absurd rfl h
  | none =>
    simp only [mem_memberNames, List.mem_cons, Option.some.injEq, exists_eq_left', false_and,
      exists_false, false_or] at hn ⊢
    rcases hn with h1 | h1 | h1
    · exact Or.inr (Or.inl h1)
    · exact Or.inl h1.symm
    · exact Or.inr (Or.inr (Or.inr h1))

theorem memberNames_fallback (S : List Member) (C F : Option FunctionDecl)
    (FD : FunctionDecl) (h : ¬ F.isSome = true) :
    ∀ n ∈ memberNames S C (some FD), n ∈ FD.Name :: memberNames S C F := by
  intro n hn
  cases F with
  | some c => exact absurd rfl h
  | none =>
    simp only [mem_memberNames, List.mem_cons, Option.some.injEq, exists_eq_left', false_and,
      exists_false, or_false] at hn ⊢
    rcases hn with h1 | h1 | h1
    · exact Or.inr (Or.inl h1)
    · exact Or.inr (Or.inr (Or.inl h1))
    · exact Or.inl h1.symm

theorem memberNames_append (S : List Member) (C F : Option FunctionDecl) (m : Member) :
    ∀ n ∈ memberNames (S ++ [m]) C F, n ∈ m.names ++ memberNames S C F := by
  intro n hn
  simp only [mem_memberNames, List.mem_append, List.mem_singleton] at hn ⊢
  rcases hn with ⟨m1, h1 | h1, h2⟩ | h1
  · exact Or.inr (Or.inl ⟨m1, h1, h2⟩)
  · subst h1; exact Or.inl h2
  · exact Or.inr (Or.inr h1)

/-- The loop over the members registers every member it collects. -/
theorem Registers.members (env : Env) (self : Fns) (hself : self.Keeps) (fuel : Nat) :
    ∀ (S : List Member) (C F : Option FunctionDecl),
      Registers (memberNames S C F) membersResultNames
        (parseContractDefinition.members env self fuel S C F) := by
  induction fuel with
  | zero =>
    intros
    unfold Soll.parseContractDefinition.members
    exact Registers.noFuel
  | succ fuel ih =>
    intro S C F
    unfold Soll.parseContractDefinition.members
    try dsimp only
    repeat' (first
      | (with_reducible first
        | exact Keeps.getTok | exact Keeps.ConsumeBrace | exact Keeps.pure _
        | exact Keeps.TryConsumeToken _
        | exact Keeps.ExpectAndConsumeSemi _
        | exact Keeps.Diag _ _
        | exact Keeps.EraseFunRtnTys
        | exact Keeps.parseFunctionDefinitionOrFunctionTypeStateVariable _ _ hself
        | exact Registers.aborted _
        | apply Registers.bind_addDecl
        | apply Registers.seq _ (Registers.ofParseVariableDeclaration env self hself _ _ _)
        | apply Registers.seq _ (Registers.ofParseEventDefinition env self hself _)
        | apply Registers.bind_keeps
        | apply Keeps.bind)
      | exact Registers.ret _ (fun _ h => h)
      | exact Registers.ret _ (fun _ h => nomatch h)
      | exact ih _ _ _
      | exact (ih _ _ _).weaken (memberNames_constructor _ _ _ _ (by assumption))
      | exact (ih _ _ _).weaken (memberNames_fallback _ _ _ _ (by assumption))
      | exact (ih _ _ _).weaken (memberNames_append _ _ _ _)
      | intro _ | split)

theorem late_cons (self : Fns) (LM : LexedMethod) (rest : List LexedMethod)
    (CD : ContractDecl) :
    parseContractDefinition.late self (LM :: rest) CD =
      if LM.D.Id ∈ CD.functions.map FunctionDecl.Id then
        ParseLexedMethodDef self LM >>= fun Body =>
          parseContractDefinition.late self rest (CD.setBody LM.D.Id Body)
      else abort "use of a destroyed FunctionDecl" := rfl

/-- The loop over the buffered bodies reaches a body in the state its predecessors
leave. -/
theorem late_append (self : Fns) (pre : List LexedMethod) :
    ∀ (post : List LexedMethod) (CD : ContractDecl) (s : Parser),
      parseContractDefinition.late self (pre ++ post) CD s =
        (parseContractDefinition.late self pre CD s).bind fun CDk sk =>
          parseContractDefinition.late self post CDk sk := by
  induction pre with
  | nil => intro post CD s; rfl
  | cons LM rest ih =>
    intro post CD s
    rw [List.cons_append, late_cons, late_cons]
    by_cases h : LM.D.Id ∈ CD.functions.map FunctionDecl.Id
    · rw [if_pos h, if_pos h, bind_apply, bind_apply]
      cases hb : ParseLexedMethodDef self LM s with
      | ok Body s1 => rw [Res.bind_ok, Res.bind_ok]; exact ih _ _ _
      | abort msg => rfl
      | outOfFuel => rfl
    · rw [if_neg h, if_neg h]
      rfl

/-! ### Steps of the loop over the members -/

theorem members_function (env : Env) (self : Fns) (fuel : Nat) (S : List Member)
    (C F : Option FunctionDecl) (s s1 s2 : Parser) (FD : FunctionDecl)
    (hk : s.Tok.Kind = .kw_function)
    (hrun : parseFunctionDefinitionOrFunctionTypeStateVariable env self s = .ok (some FD) s1)
    (hc : FD.IsConstructor = false) (hf : FD.IsFallback = false)
    (hadd : Actions.addDecl FD.Name s1 = .ok () s2) :
    parseContractDefinition.members env self (fuel + 1) S C F s =
      parseContractDefinition.members env self fuel (S ++ [.function FD]) C F
        { s2 with FunRtnTys := [] } := by
  conv => lhs; unfold parseContractDefinition.members
  simp only [bind_apply, getTok_apply, Res.bind_ok, Token.is, hk, reduceCtorEq, decide_False,
    Bool.false_eq_true, if_false, Token.isOneOf, List.mem_cons, true_or, decide_True, if_true,
    hrun, hadd, hc, hf, Actions.EraseFunRtnTys]

theorem members_r_brace (env : Env) (self : Fns) (fuel : Nat) (S : List Member)
    (C F : Option FunctionDecl) (s : Parser) (hk : s.Tok.Kind = .r_brace) :
    parseContractDefinition.members env self (fuel + 1) S C F s =
      .ok (some (S, C, F)) (CachedLex s) := by
  unfold parseContractDefinition.members
  simp only [bind_apply, getTok_apply, Res.bind_ok, Token.is, hk, reduceCtorEq, decide_False,
    Bool.false_eq_true, if_false, decide_True, if_true, ConsumeBrace_apply, pure_apply]

/-- The loop over the members on the example. -/
theorem deferredExample_members :
    parseContractDefinition.members specEnv (fns specEnv 4) 5 [] none none
        deferredExample.start =
      .ok (some (deferredExample.contract.SubNodes, none, none))
        (deferredExample.collected ["b", "a"]) :=
  (members_function specEnv (fns specEnv 4) 4 [] none none deferredExample.start
      (deferredExample.state ⟨.kw_function, "function"⟩ (deferredExample.members.drop 12) []
        [deferredExample.bodyA] 1)
      (deferredExample.state ⟨.kw_function, "function"⟩ (deferredExample.members.drop 12) ["a"]
        [deferredExample.bodyA] 1)
      (deferredExample.decl 0 "a" .null) rfl (by rfl) rfl rfl (by rfl)).trans
    ((members_function specEnv (fns specEnv 4) 3 [.function (deferredExample.decl 0 "a" .null)]
        none none
        (deferredExample.state ⟨.kw_function, "function"⟩ (deferredExample.members.drop 12)
          ["a"] [deferredExample.bodyA] 1)
        (deferredExample.state (punct .r_brace) [] ["a"]
          [deferredExample.bodyA, deferredExample.bodyB] 2)
        (deferredExample.state (punct .r_brace) [] ["b", "a"]
          [deferredExample.bodyA, deferredExample.bodyB] 2)
        (deferredExample.decl 1 "b" .null) rfl (by rfl) rfl rfl (by rfl)).trans
      (members_r_brace specEnv (fns specEnv 4) 2 _ none none
        (deferredExample.state (punct .r_brace) [] ["b", "a"]
          [deferredExample.bodyA, deferredExample.bodyB] 2) rfl))

/-- The body of `a` in the example, parsed with `a` and `b` registered: the identifier
`b` is resolved. -/
theorem deferredExample_bodyA :
    ParseLexedMethodDef (fns specEnv 4) deferredExample.bodyA
        (deferredExample.collected ["C", "b", "a"]) =
      .ok (.Block [.expr (.CallExpr (.Identifier "b" true) [])])
        (deferredExample.collected ["C", "b", "a"]) := by
  rfl

/-- The body of `b` in the example. -/
theorem deferredExample_bodyB :
    ParseLexedMethodDef (fns specEnv 4) deferredExample.bodyB
        (deferredExample.collected ["C", "b", "a"]) =
      .ok (.Block []) (deferredExample.collected ["C", "b", "a"]) := by
  rfl

/-- The loop over the buffered bodies on the example: in the body of `a` the
identifier `b` is resolved. -/
theorem deferredExample_late :
    parseContractDefinition.late (fns specEnv 4)
        [deferredExample.bodyA, deferredExample.bodyB] deferredExample.contract
        (deferredExample.collected ["C", "b", "a"]) =
      .ok ⟨"C", [],
          [.function (deferredExample.decl 0 "a"
              (.Block [.expr (.CallExpr (.Identifier "b" true) [])])),
            .function (deferredExample.decl 1 "b" (.Block []))],
          none, none, .Contract⟩
        (deferredExample.collected ["C", "b", "a"]) := by
  rw [late_cons, if_pos (by decide), bind_apply, deferredExample_bodyA, Res.bind_ok,
    late_cons, if_pos (by decide), bind_apply, deferredExample_bodyB, Res.bind_ok]
  rfl

/-! ## Precedence and associativity of expressions -/

/-- C1: for binary operator tokens `o1`, `o2` with
`precedence(o2) > precedence(o1) >= 4` and identifier operands `a`, `b`, `c`,
`parseExpression` (with `Actions.CreateBinOp` as the node constructor) parses
`a o1 b o2 c` as `Binary(o1, a, Binary(o2, b, c))` and `a o2 b o1 c` as
`Binary(o1, Binary(o2, a, b), c)`, consuming exactly these five tokens, whenever the
token after them ends an expression and the recursion depth is at least 3. -/
theorem parseExpression_precedence (env : Env) (fuel : Nat) (s : Parser) (o1 o2 : Token)
    (a b c : String) (rest : List Token)
    (ho1 : isBinaryOperatorToken o1.Kind) (ho2 : isBinaryOperatorToken o2.Kind)
    (h1 : 4 ≤ env.getBinOpPrecedence o1.Kind)
    (h2 : env.getBinOpPrecedence o1.Kind < env.getBinOpPrecedence o2.Kind)
    (hend : env.endsExpression (rest.headD Token.eofTok).Kind) (hfuel : 3 ≤ fuel) :
    (fns env fuel).parseExpression .null
        (s.setStream (operand a :: o1 :: operand b :: o2 :: operand c :: rest)) =
      .ok (binary o1 (ident s a) (binary o2 (ident s b) (ident s c))) (s.setStream rest) ∧
    (fns env fuel).parseExpression .null
        (s.setStream (operand a :: o2 :: operand b :: o1 :: operand c :: rest)) =
      .ok (binary o1 (binary o2 (ident s a) (ident s b)) (ident s c)) (s.setStream rest) := by
  obtain ⟨f, rfl⟩ : ∃ f, fuel = f + 3 := ⟨fuel - 3, by omega⟩
  obtain ⟨he1, he2, he3, he4⟩ := hend
  have hr3 : ¬ env.inAssignRange (s.setStream rest).Tok.Kind := by rw [setStream_Tok]; exact he3
  have hr4 : (s.setStream rest).Tok.Kind ≠ .question := by rw [setStream_Tok]; exact he4
  generalize hp1 : env.getBinOpPrecedence o1.Kind = p1 at h1 h2
  generalize hp2 : env.getBinOpPrecedence o2.Kind = p2 at h2
  obtain ⟨c1, hc1⟩ : ∃ c1, p1 + 1 - 4 = c1 + 1 := ⟨p1 - 4, by omega⟩
  constructor
  · rw [fns_succ_parseExpression]
    apply parseExpression_plain env _ _ _ _ _ _ hr3 hr4
    unfold parseBinaryExpression
    simp only [bind_apply]
    rw [parseUnaryExpression_identifier env _ _ rfl
      (by rw [NextToken_setStream]; exact isBinaryOperatorToken_endsOperand _ ho1)]
    simp only [bind_apply, Res.bind_ok, getTok_apply, CachedLex_setStream, setStream_cons_Tok,
      ident_setStream_name, operand_Text, hp1]
    have hrhs : parseBinaryExpression env (fns env (f + 1)) (p1 + 1) .null
        (s.setStream (operand b :: o2 :: operand c :: rest)) =
        .ok (binary o2 (ident s b) (ident s c)) (s.setStream rest) :=
      parseBinaryExpression_chain env (fns env (f + 1)) (fns env f) o2 p2 (p1 + 1) s b [c] rest
        (fns_succ_parseBinaryExpression env f) ho2 hp2 (by omega) he1 (by omega)
        (by rw [fns_fuel]; simp only [List.length_singleton]; omega)
    rw [hc1, forLoop_succ, fns_fuel,
      whileLoop_step env _ p1 _ _ _ (by rw [setStream_cons_Tok]; exact hp1),
      CachedLex_setStream, fns_succ_parseBinaryExpression, hrhs,
      Res.bind_ok, setStream_cons_Tok,
      whileLoop_exit env _ p1 _ _ _ (by rw [setStream_Tok]; omega), Res.bind_ok]
    apply forLoop_skip
    intro q hq1 hq2
    rw [setStream_Tok]
    omega
  · rw [fns_succ_parseExpression]
    apply parseExpression_plain env _ _ _ _ _ _ hr3 hr4
    unfold parseBinaryExpression
    simp only [bind_apply]
    rw [parseUnaryExpression_identifier env _ _ rfl
      (by rw [NextToken_setStream]; exact isBinaryOperatorToken_endsOperand _ ho2)]
    simp only [bind_apply, Res.bind_ok, getTok_apply, CachedLex_setStream, setStream_cons_Tok,
      ident_setStream_name, operand_Text, hp2]
    obtain ⟨c2, hc2⟩ : ∃ c2, p2 + 1 - 4 = c2 + 1 := ⟨p2 - 4, by omega⟩
    have hlevel2 : parseBinaryExpression.whileLoop env (fns env (f + 2)) p2
        ((fns env (f + 2)).fuel + 1) (ident s a)
        (s.setStream (chain o2 [b] ++ (o1 :: operand c :: rest))) =
        .ok (leftNested s o2 (ident s a) [b]) (s.setStream (o1 :: operand c :: rest)) :=
      whileLoop_chain env (fns env (f + 2)) (fns env (f + 1)) o2 p2 s (o1 :: operand c :: rest)
        (fns_succ_parseBinaryExpression env (f + 1)) ho2 hp2
        (isBinaryOperatorToken_endsOperand _ ho1) (by show env.getBinOpPrecedence o1.Kind < p2; omega)
        [b] (ident s a) _ (by rw [fns_fuel]; simp only [List.length_singleton]; omega)
    rw [hc2, forLoop_succ]
    show (parseBinaryExpression.whileLoop env (fns env (f + 2)) p2 ((fns env (f + 2)).fuel + 1)
      (ident s a) (s.setStream (chain o2 [b] ++ (o1 :: operand c :: rest)))).bind _ = _
    rw [hlevel2, Res.bind_ok]
    obtain ⟨d, hd2⟩ : ∃ d, p2 - 1 = p1 + d := ⟨p2 - 1 - p1, by omega⟩
    have hd : c2 = c1 + 1 + d := by omega
    rw [hd, hd2,
      forLoop_descend env _ (c1 + 1) p1 _ _ (by rw [setStream_cons_Tok]; exact hp1)]
    exact forLoop_chain env (fns env (f + 2)) (fns env (f + 1)) o1 p1 c1 s [c] _ rest
      (fns_succ_parseBinaryExpression env (f + 1)) ho1 hp1 he1 (by omega)
      (by rw [fns_fuel]; simp only [List.length_singleton]; omega)

/-- Witness of C1: `a + b * c` parses as `a + (b * c)` and `a * b + c` as
`(a * b) + c`, under the example tables. -/
theorem parseExpression_precedence_witness :
    (isBinaryOperatorToken tok.plus ∧ isBinaryOperatorToken tok.star ∧
      4 ≤ specEnv.getBinOpPrecedence tok.plus ∧
      specEnv.getBinOpPrecedence tok.plus < specEnv.getBinOpPrecedence tok.star ∧
      specEnv.endsExpression tok.eof) ∧
    ((fns specEnv 3).parseExpression .null
        ((Parser.init []).setStream
          [operand "a", ⟨.plus, "+"⟩, operand "b", ⟨.star, "*"⟩, operand "c"]) =
      .ok (.BinaryOperator .BO_Add (.Identifier "a" false)
        (.BinaryOperator .BO_Mul (.Identifier "b" false) (.Identifier "c" false)))
        (Parser.init []) ∧
    (fns specEnv 3).parseExpression .null
        ((Parser.init []).setStream
          [operand "a", ⟨.star, "*"⟩, operand "b", ⟨.plus, "+"⟩, operand "c"]) =
      .ok (.BinaryOperator .BO_Add
        (.BinaryOperator .BO_Mul (.Identifier "a" false) (.Identifier "b" false))
        (.Identifier "c" false)) (Parser.init [])) :=
  ⟨by decide,
    parseExpression_precedence specEnv 3 (Parser.init []) ⟨.plus, "+"⟩ ⟨.star, "*"⟩ "a" "b" "c" []
      (by decide) (by decide) (by decide) (by decide) (by decide) (by decide)⟩

/-- C2: `parseExpression` on `a = b = c` yields
`Binary(Assign, a, Binary(Assign, b, c))`; every chain `a1 = a2 = ... = an` of
assignments nests to the right and all its tokens are consumed.  The tables are such
that `=` has a binary precedence below 4 and lies in the assignment range of
`parseExpression`; the recursion depth is at least the number of operands. -/
theorem parseExpression_assign_right_assoc (env : Env) (s : Parser) (a b c : String)
    (as : List String) (rest : List Token) (fuel : Nat)
    (hprec : env.getBinOpPrecedence .equal < 4)
    (hord : env.ord .equal < env.ord .percentequal)
    (hend : env.endsExpression (rest.headD Token.eofTok).Kind)
    (hfuel : as.length < fuel) (hfuel3 : 3 ≤ fuel) :
    (fns env fuel).parseExpression .null
        (s.setStream (operand a :: punct .equal :: operand b :: punct .equal :: operand c :: rest)) =
      .ok (.BinaryOperator .BO_Assign (ident s a)
        (.BinaryOperator .BO_Assign (ident s b) (ident s c))) (s.setStream rest) ∧
    (fns env fuel).parseExpression .null
        (s.setStream (operand a :: (chain (punct .equal) as ++ rest))) =
      .ok (rightNested s .BO_Assign a as) (s.setStream rest) :=
  ⟨parseExpression_assignChain env (punct .equal) s rest rfl hprec hord hend [b, c] a fuel
      (by simp only [List.length_cons, List.length_nil]; omega),
    parseExpression_assignChain env (punct .equal) s rest rfl hprec hord hend as a fuel hfuel⟩

/-- Witness of C2: `a = b = c` and the chain `a = b = c = d` under the example
tables. -/
theorem parseExpression_assign_right_assoc_witness :
    (specEnv.getBinOpPrecedence tok.equal < 4 ∧ specEnv.ord tok.equal < specEnv.ord tok.percentequal ∧
      specEnv.endsExpression tok.eof) ∧
    ((fns specEnv 4).parseExpression .null
        ((Parser.init []).setStream
          [operand "a", punct .equal, operand "b", punct .equal, operand "c"]) =
      .ok (.BinaryOperator .BO_Assign (.Identifier "a" false)
        (.BinaryOperator .BO_Assign (.Identifier "b" false) (.Identifier "c" false)))
        (Parser.init []) ∧
    (fns specEnv 4).parseExpression .null
        ((Parser.init []).setStream
          [operand "a", punct .equal, operand "b", punct .equal, operand "c", punct .equal,
            operand "d"]) =
      .ok (.BinaryOperator .BO_Assign (.Identifier "a" false)
        (.BinaryOperator .BO_Assign (.Identifier "b" false)
          (.BinaryOperator .BO_Assign (.Identifier "c" false) (.Identifier "d" false))))
        (Parser.init [])) :=
  ⟨by decide,
    parseExpression_assign_right_assoc specEnv (Parser.init []) "a" "b" "c" ["b", "c", "d"] [] 4
      (by decide) (by decide) (by decide) (by decide) (by decide)⟩

/-- C3, where the code departs from the claim: on the ternary chain
`a ? b : c ? d : e`, `parseExpression` consumes the whole chain and returns a null
handle; no conditional node is built, since the branch of the source ends with
`// TODO: Create ConditionExpression` and `return nullptr`. -/
theorem parseExpression_ternary_null (env : Env) (s : Parser) (a b c d e : String)
    (rest : List Token) (fuel : Nat)
    (hq : env.getBinOpPrecedence .question < 4) (hc : env.getBinOpPrecedence .colon < 4)
    (hq2 : ¬ env.inAssignRange .question) (hc2 : ¬ env.inAssignRange .colon)
    (hend : env.endsExpression (rest.headD Token.eofTok).Kind) (hfuel : 3 ≤ fuel) :
    (fns env fuel).parseExpression .null
        (s.setStream (operand a :: punct .question :: operand b :: punct .colon :: operand c ::
          punct .question :: operand d :: punct .colon :: operand e :: rest)) =
      .ok .null (s.setStream rest) := by
  obtain ⟨f, rfl⟩ : ∃ f, fuel = f + 3 := ⟨fuel - 3, by omega⟩
  have hcolon : env.endsExpression tok.colon := ⟨by decide, hc, hc2, by decide⟩
  have hopnd : ∀ (self : Fns) (x : String) (ts : List Token),
      parseBinaryExpression env self 4 .null (s.setStream (operand x :: punct .question :: ts)) =
        .ok (ident s x) (s.setStream (punct .question :: ts)) := by
    intro self x ts
    have hqe : endsOperand tok.question := by decide
    rw [parseBinaryExpression_operand env self 4 _ rfl
      (by rw [NextToken_setStream]; exact hqe) (by rw [NextToken_setStream]; exact hq),
      CachedLex_setStream, ident_setStream]
  have hbranch : ∀ (self : Fns) (x : String) (ts : List Token),
      env.endsExpression (ts.headD Token.eofTok).Kind →
      parseExpression env self .null (s.setStream (operand x :: ts)) =
        .ok (ident s x) (s.setStream ts) := by
    intro self x ts h
    rw [parseExpression_operand env self _ rfl (by rw [NextToken_setStream]; exact h),
      CachedLex_setStream, ident_setStream]
  have hinner : parseExpression env (fns env (f + 1)) .null
      (s.setStream (operand c :: punct .question :: operand d :: punct .colon :: operand e :: rest)) =
      .ok .null (s.setStream rest) := by
    apply parseExpression_conditional env (fns env (f + 1)) .null (ident s c) (ident s d) (ident s e)
      _ _ (s.setStream (punct .colon :: operand e :: rest)) _ (hopnd _ c _) hq2 rfl
    · rw [CachedLex_setStream, fns_succ_parseExpression]
      exact hbranch _ d _ hcolon
    · rfl
    · rw [CachedLex_setStream, fns_succ_parseExpression]
      exact hbranch _ e _ hend
  rw [fns_succ_parseExpression]
  apply parseExpression_conditional env (fns env (f + 2)) .null (ident s a) (ident s b) .null
    _ _ (s.setStream (punct .colon :: operand c :: punct .question :: operand d :: punct .colon ::
      operand e :: rest)) _ (hopnd _ a _) hq2 rfl
  · rw [CachedLex_setStream, fns_succ_parseExpression]
    exact hbranch _ b _ hcolon
  · rfl
  · rw [CachedLex_setStream, fns_succ_parseExpression]
    exact hinner

/-- Witness of C3: the ternary chain under the example tables. -/
theorem parseExpression_ternary_null_witness :
    (specEnv.getBinOpPrecedence tok.question < 4 ∧ specEnv.getBinOpPrecedence tok.colon < 4 ∧
      ¬ specEnv.inAssignRange tok.question ∧ ¬ specEnv.inAssignRange tok.colon ∧
      specEnv.endsExpression tok.eof) ∧
    (fns specEnv 3).parseExpression .null
        ((Parser.init []).setStream
          [operand "a", punct .question, operand "b", punct .colon, operand "c", punct .question,
            operand "d", punct .colon, operand "e"]) =
      .ok .null (Parser.init []) :=
  ⟨by decide,
    parseExpression_ternary_null specEnv (Parser.init []) "a" "b" "c" "d" "e" [] 3
      (by decide) (by decide) (by decide) (by decide) (by decide) (by decide)⟩

/-- On `a ? b : c ? d : e`, a whole input, the result of `parseExpression` is the null
handle, so it is not a non-null conditional expression. -/
theorem parseExpression_ternary_not_conditional :
    (fns specEnv 5).parseExpression .null
        (Parser.init [operand "a", punct .question, operand "b", punct .colon, operand "c",
          punct .question, operand "d", punct .colon, operand "e"]) =
      .ok .null (Parser.init []) ∧
    ¬ ∃ E s1, (fns specEnv 5).parseExpression .null
        (Parser.init [operand "a", punct .question, operand "b", punct .colon, operand "c",
          punct .question, operand "d", punct .colon, operand "e"]) = .ok E s1 ∧
        E.isNull = false := by
  have h : (fns specEnv 5).parseExpression .null
      (Parser.init [operand "a", punct .question, operand "b", punct .colon, operand "c",
        punct .question, operand "d", punct .colon, operand "e"]) =
      .ok .null (Parser.init []) := by rfl
  refine ⟨h, ?_⟩
  rintro ⟨E, s1, h1, h2⟩
  rw [h] at h1
  injection h1 with hE _
  subst hE
  exact absurd h2 (by decide)

/-- C4: for a binary operator token `o` of precedence at least 4 and operands
`a1 ... an` with `n >= 2`, `parseBinaryExpression(4)` parses `a1 o a2 o ... o an` as
the left-nested tree `Binary(o, ... Binary(o, a1, a2) ..., an)`; and with `+` and `-`
on one level at least 4, `*` above it and `=` an assignment below 4,
`a = b + c * d - e` parses as `Assign(a, Sub(Add(b, Mul(c, d)), e))`. -/
theorem parseBinaryExpression_left_assoc (env : Env) (s : Parser) (o : Token)
    (a1 a2 : String) (as : List String) (a b c d e : String) (rest : List Token) (fuel : Nat)
    (ho : isBinaryOperatorToken o.Kind) (hp : 4 ≤ env.getBinOpPrecedence o.Kind)
    (hplus : 4 ≤ env.getBinOpPrecedence .plus)
    (hminus : env.getBinOpPrecedence .minus = env.getBinOpPrecedence .plus)
    (hstar : env.getBinOpPrecedence .plus < env.getBinOpPrecedence .star)
    (hprec : env.getBinOpPrecedence .equal < 4)
    (hord : env.ord .equal < env.ord .percentequal)
    (hend : env.endsExpression (rest.headD Token.eofTok).Kind)
    (hfuel : as.length + 2 ≤ fuel) (hfuel4 : 4 ≤ fuel) :
    (fns env fuel).parseBinaryExpression 4 .null
        (s.setStream (operand a1 :: (chain o (a2 :: as) ++ rest))) =
      .ok (leftNested s o (binary o (ident s a1) (ident s a2)) as) (s.setStream rest) ∧
    (fns env fuel).parseExpression .null
        (s.setStream (operand a :: punct .equal :: operand b :: punct .plus :: operand c ::
          punct .star :: operand d :: punct .minus :: operand e :: rest)) =
      .ok (.BinaryOperator .BO_Assign (ident s a)
        (.BinaryOperator .BO_Sub
          (.BinaryOperator .BO_Add (ident s b)
            (.BinaryOperator .BO_Mul (ident s c) (ident s d)))
          (ident s e))) (s.setStream rest) := by
  obtain ⟨he1, he2, he3, he4⟩ := hend
  constructor
  · obtain ⟨f, rfl⟩ : ∃ f, fuel = f + 2 := ⟨fuel - 2, by omega⟩
    rw [fns_succ_parseBinaryExpression]
    exact parseBinaryExpression_chain env (fns env (f + 1)) (fns env f) o _ 4 s a1 (a2 :: as) rest
      (fns_succ_parseBinaryExpression env f) ho rfl hp he1 he2
      (by rw [fns_fuel]; simp only [List.length_cons]; omega)
  · obtain ⟨f, rfl⟩ : ∃ f, fuel = f + 4 := ⟨fuel - 4, by omega⟩
    generalize hpp : env.getBinOpPrecedence tok.plus = p at hplus hminus hstar
    have hop : parseBinaryExpression env (fns env (f + 3)) 4 .null
        (s.setStream (operand a :: punct .equal :: operand b :: punct .plus :: operand c ::
          punct .star :: operand d :: punct .minus :: operand e :: rest)) =
        .ok (ident s a) (s.setStream (punct .equal :: operand b :: punct .plus :: operand c ::
          punct .star :: operand d :: punct .minus :: operand e :: rest)) := by
      have hqe : endsOperand tok.equal := by decide
      rw [parseBinaryExpression_operand env _ 4 _ rfl
        (by rw [NextToken_setStream]; exact hqe) (by rw [NextToken_setStream]; exact hprec),
        CachedLex_setStream, ident_setStream]
    have hme : endsOperand tok.minus := by decide
    have hsb : isBinaryOperatorToken tok.star := by decide
    have hmb : isBinaryOperatorToken tok.minus := by decide
    have hmul : parseBinaryExpression env (fns env (f + 1)) (p + 1) .null
        (s.setStream (operand c :: punct .star :: operand d :: punct .minus :: operand e :: rest)) =
        .ok (binary (punct .star) (ident s c) (ident s d))
          (s.setStream (punct .minus :: operand e :: rest)) :=
      parseBinaryExpression_chain env (fns env (f + 1)) (fns env f) (punct .star) _ (p + 1) s c [d]
        (punct .minus :: operand e :: rest) (fns_succ_parseBinaryExpression env f) hsb rfl
        (by show p + 1 ≤ env.getBinOpPrecedence tok.star; omega) hme
        (by show env.getBinOpPrecedence tok.minus < p + 1; omega)
        (by rw [fns_fuel]; simp only [List.length_singleton]; omega)
    have hsub : ∀ E, parseBinaryExpression.whileLoop env (fns env (f + 2)) p (f + 2) E
        (s.setStream (punct .minus :: operand e :: rest)) =
        .ok (binary (punct .minus) E (ident s e)) (s.setStream rest) := fun E =>
      whileLoop_chain env (fns env (f + 2)) (fns env (f + 1)) (punct .minus) p s rest
        (fns_succ_parseBinaryExpression env (f + 1)) hmb hminus he1 (by omega) [e] E
        (f + 2) (by simp only [List.length_singleton]; omega)
    have hrhs : parseBinaryExpression env (fns env (f + 2)) 4 .null
        (s.setStream (operand b :: punct .plus :: operand c :: punct .star :: operand d ::
          punct .minus :: operand e :: rest)) =
        .ok (binary (punct .minus) (binary (punct .plus) (ident s b)
          (binary (punct .star) (ident s c) (ident s d))) (ident s e)) (s.setStream rest) := by
      have hqe : endsOperand tok.plus := by decide
      obtain ⟨c1, hc1⟩ : ∃ c1, p + 1 - 4 = c1 + 1 := ⟨p - 4, by omega⟩
      unfold parseBinaryExpression
      simp only [bind_apply]
      rw [parseUnaryExpression_identifier env _ _ rfl (by rw [NextToken_setStream]; exact hqe)]
      simp only [bind_apply, Res.bind_ok, getTok_apply, CachedLex_setStream, setStream_cons_Tok,
        ident_setStream_name, operand_Text]
      have hk : (punct tok.plus).Kind = tok.plus := rfl
      rw [hk, hpp, hc1, forLoop_succ, fns_fuel,
        whileLoop_step env _ p _ _ _ (by rw [setStream_cons_Tok]; exact hpp),
        CachedLex_setStream, fns_succ_parseBinaryExpression, hmul, Res.bind_ok,
        setStream_cons_Tok, hsub, Res.bind_ok]
      apply forLoop_skip
      intro q hq1 hq2
      rw [setStream_Tok]
      omega
    rw [fns_succ_parseExpression,
      parseExpression_assign env _ _ _ _ _ hop
        (by rw [setStream_cons_Tok]; exact ⟨le_refl _, hord⟩),
      CachedLex_setStream, fns_succ_parseExpression,
      parseExpression_plain env _ _ _ _ _ hrhs (by rw [setStream_Tok]; exact he3)
        (by rw [setStream_Tok]; exact he4),
      Res.bind_ok]
    rfl

/-- Witness of C4: `a + b + c + d` and `a = b + c * d - e` under the example tables. -/
theorem parseBinaryExpression_left_assoc_witness :
    (isBinaryOperatorToken tok.plus ∧ 4 ≤ specEnv.getBinOpPrecedence tok.plus ∧
      specEnv.getBinOpPrecedence tok.minus = specEnv.getBinOpPrecedence tok.plus ∧
      specEnv.getBinOpPrecedence tok.plus < specEnv.getBinOpPrecedence tok.star ∧
      specEnv.getBinOpPrecedence tok.equal < 4 ∧
      specEnv.ord tok.equal < specEnv.ord tok.percentequal ∧ specEnv.endsExpression tok.eof) ∧
    ((fns specEnv 4).parseBinaryExpression 4 .null
        ((Parser.init []).setStream
          [operand "a", punct .plus, operand "b", punct .plus, operand "c", punct .plus,
            operand "d"]) =
      .ok (.BinaryOperator .BO_Add
        (.BinaryOperator .BO_Add
          (.BinaryOperator .BO_Add (.Identifier "a" false) (.Identifier "b" false))
          (.Identifier "c" false))
        (.Identifier "d" false)) (Parser.init []) ∧
    (fns specEnv 4).parseExpression .null
        ((Parser.init []).setStream
          [operand "a", punct .equal, operand "b", punct .plus, operand "c", punct .star,
            operand "d", punct .minus, operand "e"]) =
      .ok (.BinaryOperator .BO_Assign (.Identifier "a" false)
        (.BinaryOperator .BO_Sub
          (.BinaryOperator .BO_Add (.Identifier "b" false)
            (.BinaryOperator .BO_Mul (.Identifier "c" false) (.Identifier "d" false)))
          (.Identifier "e" false))) (Parser.init [])) :=
  ⟨by decide,
    parseBinaryExpression_left_assoc specEnv (Parser.init []) (punct .plus) "a" "b" ["c", "d"]
      "a" "b" "c" "d" "e" [] 4 (by decide) (by decide) (by decide) (by decide) (by decide)
      (by decide) (by decide) (by decide) (by decide) (by decide)⟩

/-- C5, what the code does on the failing input: on `a %= b`, with `%=` of binary
precedence below 4, `parseExpression` returns the identifier `a` alone and leaves
`%=` as the current token; no assignment node is built, because the range test
`tok::equal <= Kind && Kind < tok::percentequal` excludes `%=` itself. -/
theorem parseExpression_percentequal_unconsumed (env : Env) (s : Parser) (a b : String)
    (rest : List Token) (fuel : Nat)
    (hprec : env.getBinOpPrecedence .percentequal < 4) (hfuel : 1 ≤ fuel) :
    (fns env fuel).parseExpression .null
        (s.setStream (operand a :: punct .percentequal :: operand b :: rest)) =
      .ok (ident s a) (s.setStream (punct .percentequal :: operand b :: rest)) := by
  obtain ⟨f, rfl⟩ : ∃ f, fuel = f + 1 := ⟨fuel - 1, by omega⟩
  have hend : env.endsExpression tok.percentequal :=
    ⟨by decide, hprec, fun h => Nat.lt_irrefl _ h.2, by decide⟩
  rw [fns_succ_parseExpression,
    parseExpression_operand env _ _ rfl (by rw [NextToken_setStream]; exact hend),
    CachedLex_setStream, ident_setStream]

/-- Witness of the C5 evaluation under the example tables. -/
theorem parseExpression_percentequal_unconsumed_witness :
    specEnv.getBinOpPrecedence tok.percentequal < 4 ∧
    (fns specEnv 1).parseExpression .null
        ((Parser.init []).setStream [operand "a", punct .percentequal, operand "b"]) =
      .ok (.Identifier "a" false)
        ((Parser.init []).setStream [punct .percentequal, operand "b"]) :=
  ⟨by decide,
    parseExpression_percentequal_unconsumed specEnv (Parser.init []) "a" "b" [] 1 (by decide)
      (by decide)⟩

/-! ## Deferred function bodies -/

/-- C7: when the tokens `body` after a consumed opening `{` are balanced with respect
to `()`, `[]` and `{}` and `close` is the `}` that follows them,
`ConsumeAndStoreUntil(r_brace, r_brace, Toks)` returns true, appends to `Toks` exactly
`body` and `close` in source order, and leaves the current token at the token right
after `close`; and no run of `ConsumeAndStoreUntil` returns false at a current token
other than `eof`. -/
theorem ConsumeAndStoreUntil_balanced_body (body : List Token) (close : Token)
    (rest Toks : List Token) (s : Parser) (fuel : Nat)
    (hb : Balanced body) (hc : close.Kind = .r_brace) (hf : body.length < fuel) :
    ConsumeAndStoreUntil fuel .r_brace .r_brace Toks (s.setStream (body ++ close :: rest)) =
        .ok (true, Toks ++ body ++ [close]) (s.setStream rest) ∧
      (s.setStream rest).Tok = rest.headD Token.eofTok ∧
      ∀ (fuel1 : Nat) (T1 T2 : tok) (Toks1 : List Token) (s0 s1 : Parser) (r : List Token),
        ConsumeAndStoreUntil fuel1 T1 T2 Toks1 s0 = .ok (false, r) s1 → s1.Tok.Kind = .eof :=
  ⟨ConsumeAndStoreUntil_balanced body hb .r_brace close rest Toks s fuel
      (by simp only [List.mem_cons, List.mem_singleton, or_true, true_or]) hc hf,
    setStream_Tok s rest,
    fun fuel1 T1 T2 Toks1 s0 s1 r h => ConsumeAndStoreUntil_false_eof fuel1 T1 T2 Toks1 s0 r s1 h⟩

/-- Witness of C7: the body `b ( ) ; }` of `a` in
`contract C { function a() public { b(); } function b() public {} }` is buffered up to
its closing brace, and the next token is `function`. -/
theorem ConsumeAndStoreUntil_balanced_body_witness :
    ConsumeAndStoreUntil 5 .r_brace .r_brace [punct .l_brace]
        ((Parser.init []).setStream
          ([operand "b", punct .l_paren, punct .r_paren, punct .semi] ++
            punct .r_brace :: [⟨.kw_function, "function"⟩, operand "b"])) =
        .ok (true, [punct .l_brace] ++
            [operand "b", punct .l_paren, punct .r_paren, punct .semi] ++ [punct .r_brace])
          ((Parser.init []).setStream [⟨.kw_function, "function"⟩, operand "b"]) ∧
      ((Parser.init []).setStream [⟨.kw_function, "function"⟩, operand "b"]).Tok =
        [(⟨.kw_function, "function"⟩ : Token), operand "b"].headD Token.eofTok ∧
      ∀ (fuel1 : Nat) (T1 T2 : tok) (Toks1 : List Token) (s0 s1 : Parser) (r : List Token),
        ConsumeAndStoreUntil fuel1 T1 T2 Toks1 s0 = .ok (false, r) s1 → s1.Tok.Kind = .eof :=
  ConsumeAndStoreUntil_balanced_body
    [operand "b", punct .l_paren, punct .r_paren, punct .semi] (punct .r_brace)
    [⟨.kw_function, "function"⟩, operand "b"] [punct .l_brace] (Parser.init []) 5
    (Balanced.plain _ _ (by decide)
      (Balanced.group (punct .l_paren) (punct .r_paren) [] [punct .semi] (by decide)
        Balanced.nil (Balanced.plain _ _ (by decide) Balanced.nil)))
    rfl (by decide)

/-- The loop over the members followed by `Actions.addDecl` and the loop over the
buffered bodies, taken by themselves: if the loop over the members, started with a
scope on the stack, returns `SubNodes`, `Constructor` and `Fallback`, then in every
state `sk` in which the loop over the buffered bodies calls `ParseLexedMethodDef` -
the state reached after the bodies `pre` that precede the body `LM` in the queue - the
name of every function, state variable and event among them is registered in a scope
that is on the stack, whatever the textual order. -/
theorem members_then_late_registered (env : Env) (depth fuel : Nat)
    (s s1 s2 sk : Parser) (SubNodes : List Member) (Constructor Fallback : Option FunctionDecl)
    (CD CDk : ContractDecl) (pre : List LexedMethod) (LM : LexedMethod)
    (post : List LexedMethod)
    (hs : s.Scopes ≠ [])
    (hmem : parseContractDefinition.members env (fns env depth) fuel [] none none s =
      .ok (some (SubNodes, Constructor, Fallback)) s1)
    (hadd : Actions.addDecl CD.Name s1 = .ok () s2)
    (hpre : parseContractDefinition.late (fns env depth) pre CD s2 = .ok CDk sk) :
    parseContractDefinition.late (fns env depth) (pre ++ LM :: post) CD s2 =
        parseContractDefinition.late (fns env depth) (LM :: post) CDk sk ∧
      ∀ n ∈ memberNames SubNodes Constructor Fallback, n ∈ Actions.visible sk := by
  constructor
  · rw [late_append, hpre, Res.bind_ok]
  · have h0 : Registered (memberNames [] none none) s := ⟨hs, fun n hn => nomatch hn⟩
    have h1 := (Registers.members env (fns env depth) (fns_keeps env depth) fuel [] none none).out
      s _ s1 h0 hmem
    have h2 := h1.keeps (Keeps.addDecl CD.Name) hadd
    exact (h2.keeps (Keeps.late (fns env depth) (fns_keeps env depth) pre CD) hpre).2

/-- In `contract C { function a() public { b(); } function b() public {} }` the names
`a` and `b` are registered when the body of `a`, the first in the queue, is parsed;
and the loop over the buffered bodies resolves the identifier `b` in the body of
`a`. -/
theorem members_then_late_registered_example :
    (parseContractDefinition.late (fns specEnv 4)
          ([] ++ deferredExample.bodyA :: [deferredExample.bodyB]) deferredExample.contract
          (deferredExample.collected ["C", "b", "a"]) =
        parseContractDefinition.late (fns specEnv 4)
          (deferredExample.bodyA :: [deferredExample.bodyB]) deferredExample.contract
          (deferredExample.collected ["C", "b", "a"]) ∧
      ∀ n ∈ memberNames deferredExample.contract.SubNodes none none,
        n ∈ Actions.visible (deferredExample.collected ["C", "b", "a"])) ∧
    parseContractDefinition.late (fns specEnv 4)
        [deferredExample.bodyA, deferredExample.bodyB] deferredExample.contract
        (deferredExample.collected ["C", "b", "a"]) =
      .ok ⟨"C", [],
          [.function (deferredExample.decl 0 "a"
              (.Block [.expr (.CallExpr (.Identifier "b" true) [])])),
            .function (deferredExample.decl 1 "b" (.Block []))],
          none, none, .Contract⟩
        (deferredExample.collected ["C", "b", "a"]) :=
  ⟨members_then_late_registered specEnv 4 5 deferredExample.start
      (deferredExample.collected ["b", "a"]) (deferredExample.collected ["C", "b", "a"])
      (deferredExample.collected ["C", "b", "a"]) deferredExample.contract.SubNodes none none
      deferredExample.contract deferredExample.contract [] deferredExample.bodyA
      [deferredExample.bodyB] (by decide) deferredExample_members (by rfl) (by rfl),
    deferredExample_late⟩

/-- C9: on `contract C { function f() public {} struct S {} }`, `parseContractDefinition`
returns the null handle at `struct` with the buffered body of `f` still in
`LateParsedDeclarations`; the queue is not empty when the function returns. -/
theorem parseContractDefinition_leaves_queue (env : Env) (n : Nat) :
    parseContractDefinition env (fns env (n + 1))
      (Parser.init [punct .kw_contract, operand "C", punct .l_brace, punct .kw_function,
        operand "f", punct .l_paren, punct .r_paren, punct .kw_public, punct .l_brace,
        punct .r_brace, punct .kw_struct, operand "S", punct .l_brace, punct .r_brace,
        punct .r_brace]) =
    .ok none ⟨punct .kw_struct, [operand "S", punct .l_brace, punct .r_brace, punct .r_brace],
      [], [], [⟨.err_unimplemented_token, [.kw_struct]⟩],
      [⟨[punct .l_brace, punct .r_brace],
        ⟨0, "f", .Public, .NonPayable, false, false, some ⟨[]⟩, 0, some ⟨[]⟩, .null⟩⟩], 1⟩ := by
  rfl

/-- C10: on `contract C is A(x), B {}`, `parseContractDefinition` returns the null
handle: after `A(` it expects a comma before the first argument, reports
`err_expected` for `comma` and stops with `x` as the current token; no list of base
contracts is built. -/
theorem parseContractDefinition_base_arguments (env : Env) (self : Fns) :
    parseContractDefinition env self
      (Parser.init [punct .kw_contract, operand "C", punct .kw_is, operand "A", punct .l_paren,
        operand "x", punct .r_paren, punct .comma, operand "B", punct .l_brace,
        punct .r_brace]) =
    .ok none ⟨operand "x", [punct .r_paren, punct .comma, operand "B", punct .l_brace,
        punct .r_brace], [], [], [⟨.err_expected, [.comma]⟩], [], 0⟩ := by
  rfl

/-! ## Escapes in string literals -/

/-- C18, what the code does on the failing input: on a literal that consists of one
escape `\e` between quotes `q` (any `e` other than `u`, so each of the nine simple
escapes), `stringUnquote` reads the escape letter at `TokBuf[1]` after `TokBuf += 2`,
that is the terminating NUL behind the closing quote, and fails the assertion
`unknown escape sequence!`; and on `"a\nb"` it returns `a"b`: the character taken is
the closing quote, not the line feed. -/
theorem stringUnquote_simple_escape_fails :
    (∀ q e : Nat, q = 34 ∨ q = 39 → e ≠ 117 →
      stringUnquote [q, 92, e, q] = .error "unknown escape sequence!") ∧
    stringUnquote (lexemeBytes "\"\\n\"") = .error "unknown escape sequence!" ∧
    stringUnquote (lexemeBytes "\"a\\nb\"") = .ok (lexemeBytes "a\"b") := by
  refine ⟨?_, by rfl, by rfl⟩
  intro q e hq he
  rcases hq with rfl | rfl <;>
    simp [stringUnquote, stringUnquote.loop, readChar, he]

/-- C19, what the code does on the failing input: on `"\x41"` `stringUnquote` takes
the second hex digit `1` for the escape letter and fails the assertion
`unknown escape sequence!`; on `"\x4b"` it takes `b` for the escape letter, writes the
byte 8 and then copies the two digits: the result is the bytes 8, `4`, `b`, not the
single byte 0x4B. -/
theorem stringUnquote_hex_escape_fails :
    stringUnquote (lexemeBytes "\"\\x41\"") = .error "unknown escape sequence!" ∧
    stringUnquote (lexemeBytes "\"\\x4b\"") = .ok [8, 52, 98] := by
  exact ⟨by rfl, by rfl⟩

/-- C20, what the code does on the failing input: the digit loop of the `\u` branch
reads `TokBuf[0]` four times and never advances, so the value is the first digit
repeated and the four digits stay in the text: `"\u0041"` gives the byte 0 followed
by `0041`, not `A`, and `"\u00e9"` gives the byte 0 followed by `00e9`, not the bytes
C3 A9. -/
theorem stringUnquote_unicode_escape_wrong :
    stringUnquote (lexemeBytes "\"\\u0041\"") = .ok (0 :: lexemeBytes "0041") ∧
    stringUnquote (lexemeBytes "\"\\u00e9\"") = .ok (0 :: lexemeBytes "00e9") ∧
    stringUnquote (lexemeBytes "\"\\u0041\"") ≠ .ok (lexemeBytes "A") ∧
    stringUnquote (lexemeBytes "\"\\u00e9\"") ≠ .ok [0xC3, 0xA9] := by
  have h1 : stringUnquote (lexemeBytes "\"\\u0041\"") = .ok (0 :: lexemeBytes "0041") := by rfl
  have h2 : stringUnquote (lexemeBytes "\"\\u00e9\"") = .ok (0 :: lexemeBytes "00e9") := by rfl
  refine ⟨h1, h2, ?_, ?_⟩
  · rw [h1]; intro h; injection h with h; exact absurd h (by decide)
  · rw [h2]; intro h; injection h with h; exact absurd h (by decide)

/-! ## Classification of the start of a simple statement -/

theorem Token.isOneOf_iff (t : Token) (ks : List tok) : t.isOneOf ks = true ↔ t.Kind ∈ ks := by
  unfold Token.isOneOf
  exact decide_eq_true_iff

theorem Token.is_iff (t : Token) (k : tok) : t.is k = true ↔ t.Kind = k := by
  unfold Token.is
  exact decide_eq_true_iff

theorem peekStatementType_eq_spec (s : Parser) :
    peekStatementType s = peekStatementTypeSpec s.Tok.Kind (NextToken s).Kind := by
  have e1 : s.Tok.isOneOf [.kw_mapping, .kw_function, .kw_var] = true ↔
      (s.Tok.Kind = .kw_mapping ∨ s.Tok.Kind = .kw_function ∨ s.Tok.Kind = .kw_var) := by
    rw [Token.isOneOf_iff]
    simp only [List.mem_cons, List.mem_singleton, List.not_mem_nil, or_false]
  have e2 : (s.Tok.isElementaryTypeName || s.Tok.is .identifier) = true ↔
      (s.Tok.Kind.isElementaryTypeName = true ∨ s.Tok.Kind = .identifier) := by
    rw [Bool.or_eq_true, Token.is_iff]
    rfl
  have e3 : (s.Tok.isElementaryTypeName &&
        (NextToken s).isOneOf [.kw_pure, .kw_view, .kw_payable]) = true ↔
      (s.Tok.Kind.isElementaryTypeName = true ∧ ((NextToken s).Kind = .kw_pure ∨
        (NextToken s).Kind = .kw_view ∨ (NextToken s).Kind = .kw_payable)) := by
    rw [Bool.and_eq_true, Token.isOneOf_iff]
    simp only [List.mem_cons, List.mem_singleton, List.not_mem_nil, or_false]
    rfl
  have e4 : (NextToken s).isOneOf [.raw_identifier, .identifier, .kw_memory, .kw_storage,
        .kw_calldata] = true ↔
      ((NextToken s).Kind = .raw_identifier ∨ (NextToken s).Kind = .identifier ∨
        (NextToken s).Kind = .kw_memory ∨ (NextToken s).Kind = .kw_storage ∨
        (NextToken s).Kind = .kw_calldata) := by
    rw [Token.isOneOf_iff]
    simp only [List.mem_cons, List.mem_singleton, List.not_mem_nil, or_false]
  have e5 : (NextToken s).isOneOf [.l_square, .period] = true ↔
      ((NextToken s).Kind = .l_square ∨ (NextToken s).Kind = .period) := by
    rw [Token.isOneOf_iff]
    simp only [List.mem_cons, List.mem_singleton, List.not_mem_nil, or_false]
  unfold peekStatementType peekStatementTypeSpec
  by_cases c1 : s.Tok.Kind = .kw_mapping ∨ s.Tok.Kind = .kw_function ∨ s.Tok.Kind = .kw_var
  · rw [if_pos (e1.mpr c1), if_pos c1]
  · rw [if_neg (mt e1.mp c1), if_neg c1]
    by_cases c2 : s.Tok.Kind.isElementaryTypeName = true ∨ s.Tok.Kind = .identifier
    · show (if (s.Tok.isElementaryTypeName || s.Tok.is .identifier) = true then _ else _) = _
      rw [if_pos (e2.mpr c2), if_pos c2]
      by_cases c3 : s.Tok.Kind.isElementaryTypeName = true ∧ ((NextToken s).Kind = .kw_pure ∨
          (NextToken s).Kind = .kw_view ∨ (NextToken s).Kind = .kw_payable)
      · show (if (s.Tok.isElementaryTypeName &&
            (NextToken s).isOneOf [.kw_pure, .kw_view, .kw_payable]) = true then _ else _) = _
        rw [if_pos (e3.mpr c3), if_pos (Or.inl c3)]
      · show (if (s.Tok.isElementaryTypeName &&
            (NextToken s).isOneOf [.kw_pure, .kw_view, .kw_payable]) = true then _ else _) = _
        rw [if_neg (mt e3.mp c3)]
        by_cases c4 : (NextToken s).Kind = .raw_identifier ∨ (NextToken s).Kind = .identifier ∨
            (NextToken s).Kind = .kw_memory ∨ (NextToken s).Kind = .kw_storage ∨
            (NextToken s).Kind = .kw_calldata
        · rw [if_pos (e4.mpr c4), if_pos (Or.inr c4)]
        · rw [if_neg (mt e4.mp c4), if_neg (not_or.mpr ⟨c3, c4⟩)]
          by_cases c5 : (NextToken s).Kind = .l_square ∨ (NextToken s).Kind = .period
          · rw [if_pos (e5.mpr c5), if_pos c5]
          · rw [if_neg (mt e5.mp c5), if_neg c5]
    · show (if (s.Tok.isElementaryTypeName || s.Tok.is .identifier) = true then _ else _) = _
      rw [if_neg (mt e2.mp c2), if_neg c2]

/-- C14: `peekStatementType` is the table of the specification, as a function of the
kind of the current token and the kind of the next token. -/
theorem peekStatementType_table (s : Parser) :
    peekStatementType s = peekStatementTypeSpec s.Tok.Kind (NextToken s).Kind :=
  peekStatementType_eq_spec s

/-- An elementary type name or an identifier followed by `[` or `.` is classified
`IndexAccessStructure`. -/
theorem peekStatementType_ambiguous (s : Parser)
    (ht : s.Tok.Kind.isElementaryTypeName = true ∨ s.Tok.Kind = .identifier)
    (hn : (NextToken s).Kind = .l_square ∨ (NextToken s).Kind = .period) :
    peekStatementType s = .IndexAccessStructure := by
  have h1 : ¬ (s.Tok.Kind = .kw_mapping ∨ s.Tok.Kind = .kw_function ∨ s.Tok.Kind = .kw_var) := by
    intro h
    rcases h with h | h | h <;> rcases ht with h2 | h2 <;> rw [h] at h2 <;>
      exact absurd h2 (by decide)
  have h2 : ¬ ((s.Tok.Kind.isElementaryTypeName = true ∧ ((NextToken s).Kind = .kw_pure ∨
        (NextToken s).Kind = .kw_view ∨ (NextToken s).Kind = .kw_payable)) ∨
      (NextToken s).Kind = .raw_identifier ∨ (NextToken s).Kind = .identifier ∨
      (NextToken s).Kind = .kw_memory ∨ (NextToken s).Kind = .kw_storage ∨
      (NextToken s).Kind = .kw_calldata) := by
    intro h
    rcases hn with h3 | h3 <;> rw [h3] at h <;>
      simp only [reduceCtorEq, or_self, and_false] at h
  rw [peekStatementType_eq_spec]
  unfold peekStatementTypeSpec
  rw [if_neg h1, if_pos ht, if_neg h2, if_pos hn]

theorem tryParseIndexAccessedPath_eq (env : Env) (self : Fns) (s s1 : Parser)
    (Iap : IndexAccessedPath)
    (ht : s.Tok.Kind.isElementaryTypeName = true ∨ s.Tok.Kind = .identifier)
    (hn : (NextToken s).Kind = .l_square ∨ (NextToken s).Kind = .period)
    (hpath : parseIndexAccessedPath env self s = .ok Iap s1) :
    tryParseIndexAccessedPath env self s =
      .ok (if s1.Tok.Kind ∈ [tok.identifier, tok.kw_memory, tok.kw_storage, tok.kw_calldata]
        then .VariableDeclaration else .Expression, Iap) s1 := by
  unfold tryParseIndexAccessedPath
  rw [peekStatementType_ambiguous s ht hn]
  simp only [hpath, Res.bind_ok]
  by_cases h : s1.Tok.Kind ∈ [tok.identifier, tok.kw_memory, tok.kw_storage, tok.kw_calldata]
  · rw [if_pos ((Token.isOneOf_iff _ _).mpr h), if_pos h]
  · rw [if_neg (mt (Token.isOneOf_iff _ _).mp h), if_neg h]

/-- At one of the keywords `struct`, `enum`, `modifier`, `using` the loop over the
members reports `err_unimplemented_token` with the keyword and returns the null
handle, with the keyword still the current token. -/
theorem members_unimplemented_step (env : Env) (self : Fns) (fuel : Nat) (S : List Member)
    (C F : Option FunctionDecl) (s : Parser) (k : tok)
    (hk : k = .kw_struct ∨ k = .kw_enum ∨ k = .kw_modifier ∨ k = .kw_using)
    (hs : s.Tok.Kind = k) :
    parseContractDefinition.members env self (fuel + 1) S C F s =
      .ok none { s with Diags := s.Diags ++ [⟨.err_unimplemented_token, [k]⟩] } := by
  have he : s.Tok.isElementaryTypeName = false := by
    unfold Token.isElementaryTypeName
    rw [hs]
    rcases hk with rfl | rfl | rfl | rfl <;> rfl
  have h1 : ∀ k1 : tok, k1 ≠ k → s.Tok.is k1 = false := by
    intro k1 hne
    unfold Token.is
    rw [hs]
    exact decide_eq_false (fun h => hne h.symm)
  have h2 : s.Tok.is k = true := by
    unfold Token.is
    exact decide_eq_true hs
  have h3 : s.Tok.isOneOf [.kw_function, .kw_constructor] = false := by
    unfold Token.isOneOf
    rw [hs]
    rcases hk with rfl | rfl | rfl | rfl <;> rfl
  have h4 : s.Tok.isAnyIdentifier = false := by
    unfold Token.isAnyIdentifier Token.isOneOf
    rw [hs]
    rcases hk with rfl | rfl | rfl | rfl <;> rfl
  have h5 : s.Tok.Kind ≠ .kw_event := by
    rw [hs]
    rcases hk with rfl | rfl | rfl | rfl <;> exact fun h => nomatch h
  unfold parseContractDefinition.members
  rcases hk with rfl | rfl | rfl | rfl
  · simp only [bind_apply, getTok_apply, Res.bind_ok, h1 .eof (fun h => nomatch h),
      h1 .r_brace (fun h => nomatch h), h2, h3, Bool.false_eq_true, if_false, if_true, Diag,
      pure_apply]
  · simp only [bind_apply, getTok_apply, Res.bind_ok, h1 .eof (fun h => nomatch h),
      h1 .r_brace (fun h => nomatch h), h1 .kw_struct (fun h => nomatch h), h2, h3,
      Bool.false_eq_true, if_false, if_true, Diag, pure_apply]
  · simp only [bind_apply, getTok_apply, Res.bind_ok, h1 .eof (fun h => nomatch h),
      h1 .r_brace (fun h => nomatch h), h1 .kw_struct (fun h => nomatch h),
      h1 .kw_enum (fun h => nomatch h), h1 .kw_mapping (fun h => nomatch h), h2, h3, h4, he,
      Bool.or_self, Bool.false_eq_true, if_false, if_true, Diag, pure_apply]
  · simp only [bind_apply, getTok_apply, Res.bind_ok, h1 .eof (fun h => nomatch h),
      h1 .r_brace (fun h => nomatch h), h1 .kw_struct (fun h => nomatch h),
      h1 .kw_enum (fun h => nomatch h), h1 .kw_mapping (fun h => nomatch h),
      h1 .kw_modifier (fun h => nomatch h), h2, h3, h4, he, h5, TryConsumeToken_apply,
      Bool.or_self, Bool.false_eq_true, if_false, if_true, Diag, pure_apply]

/-- C13: at every member position - whatever members `SubNodes`, `Constructor`,
`Fallback` were collected before and whatever the state - a current token `struct`,
`enum`, `modifier` or `using` makes the loop over the members report
`err_unimplemented_token` with that keyword and return the null handle without
consuming a token; and `parseContractDefinition` on `contract C {` followed by such a
keyword returns the null handle with exactly that diagnostic, the keyword and all
tokens after it unread. -/
theorem parseContractDefinition_unimplemented_member (env : Env) (self : Fns) (k : tok)
    (hk : k = .kw_struct ∨ k = .kw_enum ∨ k = .kw_modifier ∨ k = .kw_using) :
    (∀ (fuel : Nat) (S : List Member) (C F : Option FunctionDecl) (s : Parser),
      s.Tok.Kind = k →
      parseContractDefinition.members env self (fuel + 1) S C F s =
        .ok none { s with Diags := s.Diags ++ [⟨.err_unimplemented_token, [k]⟩] }) ∧
    ∀ (name txt : String) (rest : List Token),
      parseContractDefinition env self
          (Parser.init (punct .kw_contract :: operand name :: punct .l_brace :: ⟨k, txt⟩ :: rest)) =
        .ok none ⟨⟨k, txt⟩, rest, [], [], [⟨.err_unimplemented_token, [k]⟩], [], 0⟩ := by
  refine ⟨fun fuel S C F s hs => members_unimplemented_step env self fuel S C F s k hk hs, ?_⟩
  intro name txt rest
  unfold parseContractDefinition ParseScope
  simp only [bind_apply, Actions.PushScope, Res.bind_ok, Parser.init, CachedLex]
  rw [parseContractKind_contract _ rfl]
  have h := members_unimplemented_step env self self.fuel [] none none
    ⟨⟨k, txt⟩, rest, [⟨[], []⟩], [], [], [], 0⟩ k hk rfl
  simp only [Res.bind_ok, CachedLex, getTok_apply, bind_apply, Token.isAnyIdentifier,
    Token.isOneOf, operand, List.mem_cons, true_or, decide_True, Bool.not_true,
    Bool.false_eq_true, if_false, ConsumeToken_apply, TryConsumeToken_apply, punct,
    reduceCtorEq, pure_apply, ExpectAndConsume, Token.is, if_true, ConsumeAnyToken_apply, h,
    Actions.PopScope, List.tail_cons, List.nil_append]

/-- Witness of C13: `contract C { struct S { } }`. -/
theorem parseContractDefinition_unimplemented_member_witness :
    (∀ (fuel : Nat) (S : List Member) (C F : Option FunctionDecl) (s : Parser),
      s.Tok.Kind = .kw_struct →
      parseContractDefinition.members specEnv (fns specEnv 1) (fuel + 1) S C F s =
        .ok none { s with Diags := s.Diags ++ [⟨.err_unimplemented_token, [.kw_struct]⟩] }) ∧
    ∀ (name txt : String) (rest : List Token),
      parseContractDefinition specEnv (fns specEnv 1)
          (Parser.init
            (punct .kw_contract :: operand name :: punct .l_brace :: ⟨.kw_struct, txt⟩ :: rest)) =
        .ok none
          ⟨⟨.kw_struct, txt⟩, rest, [], [], [⟨.err_unimplemented_token, [.kw_struct]⟩], [], 0⟩ :=
  parseContractDefinition_unimplemented_member specEnv (fns specEnv 1) .kw_struct (Or.inl rfl)

/-! ## Properties of the results of productions -/

theorem Ensures.andThen {α β : Type} {Q : β → Prop} {m : P α} {f : α → P β} (R : α → Prop)
    (hm : Ensures R m) (hf : ∀ a, R a → Ensures Q (f a)) : Ensures Q (m >>= f) := by
  constructor
  intro s b s2 h
  rw [bind_apply] at h
  cases hms : m s with
  | ok a s1 =>
    rw [hms, Res.bind_ok] at h
    exact (hf a (hm.out s a s1 hms)).out s1 b s2 h
  | abort msg => rw [hms] at h; cases h
  | outOfFuel => rw [hms] at h; cases h

theorem Ensures.after {α β : Type} {Q : β → Prop} {m : P α} {f : α → P β}
    (hf : ∀ a, Ensures Q (f a)) : Ensures Q (m >>= f) :=
  Ensures.andThen (fun _ => True) ⟨fun _ _ _ _ => trivial⟩ (fun a _ => hf a)

theorem Ensures.result {α : Type} {Q : α → Prop} (a : α) (h : Q a) :
    Ensures Q (pure a : P α) := by
  constructor
  intro s b s1 hrun
  cases hrun
  exact h

theorem Ensures.ofAbort {α : Type} {Q : α → Prop} (msg : String) :
    Ensures Q (abort msg : P α) := by
  constructor; intro s a s1 h; cases h

theorem parseFunctionHeader_name_ensures (ForceEmptyName : Bool) :
    Ensures (fun t : Bool × Bool × String =>
        (t.1 = true → t.2.2 = "solidity.constructor") ∧
        (t.2.1 = true → t.2.2 = "solidity.fallback") ∧ ¬ (t.1 = true ∧ t.2.1 = true))
      (parseFunctionHeader.name ForceEmptyName) := by
  unfold parseFunctionHeader.name
  repeat' (first
    | exact Ensures.ofAbort _
    | exact Ensures.result _ (by simp only [Bool.false_eq_true, false_implies, true_implies,
        and_false, false_and, not_false_eq_true, and_self])
    | apply Ensures.after | intro _ | split)

theorem parseFunctionHeader_ensures (env : Env) (self : Fns)
    (ForceEmptyName AllowModifiers : Bool) :
    Ensures (fun r : FunctionHeaderParserResult =>
        (r.IsConstructor = true → r.Name = "solidity.constructor") ∧
        (r.IsFallback = true → r.Name = "solidity.fallback") ∧
        ¬ (r.IsConstructor = true ∧ r.IsFallback = true))
      (parseFunctionHeader env self ForceEmptyName AllowModifiers) := by
  unfold parseFunctionHeader
  apply Ensures.andThen _ (parseFunctionHeader_name_ensures ForceEmptyName)
  rintro ⟨a, b, c⟩ ht
  repeat' (first
    | exact Ensures.ofAbort _
    | exact Ensures.result _ ht
    | apply Ensures.after | intro _ | split)

/-- C11, amended: every header `parseFunctionHeader` returns has the name
`solidity.constructor` if it is a constructor and `solidity.fallback` if it is a
fallback, and is never both; the parameter list of a fallback is whatever
`parseParameterList` reads and need not be empty: on `function (uint256 x) {` the
header returned is a fallback with the one parameter `x`. -/
theorem parseFunctionHeader_fallback_parameters :
    (∀ (env : Env) (self : Fns) (ForceEmptyName AllowModifiers : Bool) (s s1 : Parser)
        (r : FunctionHeaderParserResult),
      parseFunctionHeader env self ForceEmptyName AllowModifiers s = .ok r s1 →
        (r.IsConstructor = true → r.Name = "solidity.constructor") ∧
        (r.IsFallback = true → r.Name = "solidity.fallback") ∧
        ¬ (r.IsConstructor = true ∧ r.IsFallback = true)) ∧
    parseFunctionHeader specEnv (fns specEnv 3) false true
        (Parser.init [punct .kw_function, punct .l_paren, ⟨.kw_uint256, "uint256"⟩, operand "x",
          punct .r_paren, punct .l_brace]) =
      .ok ⟨false, true, "solidity.fallback", .Default, .NonPayable,
          some ⟨[some ⟨.IntegerType .U256, "x", .null, .Default, false, false, false,
            .Unspecified⟩]⟩, 0, some ⟨[]⟩⟩
        ⟨punct .l_brace, [], [], [], [], [], 0⟩ :=
  ⟨fun env self a b s s1 r h => (parseFunctionHeader_ensures env self a b).out s r s1 h, by rfl⟩

/-- Witness of the amended C11: the header of `constructor() {`. -/
theorem parseFunctionHeader_fallback_parameters_witness :
    parseFunctionHeader specEnv (fns specEnv 3) false true
        (Parser.init [punct .kw_constructor, punct .l_paren, punct .r_paren, punct .l_brace]) =
      .ok ⟨true, false, "solidity.constructor", .Default, .NonPayable, some ⟨[]⟩, 0, some ⟨[]⟩⟩
        ⟨punct .l_brace, [], [], [], [], [], 0⟩ ∧
    ((true = true → "solidity.constructor" = "solidity.constructor") ∧
      (false = true → "solidity.constructor" = "solidity.fallback") ∧
      ¬ (true = true ∧ false = true)) :=
  ⟨by rfl,
    parseFunctionHeader_fallback_parameters.1 specEnv (fns specEnv 3) false true
      (Parser.init [punct .kw_constructor, punct .l_paren, punct .r_paren, punct .l_brace])
      ⟨punct .l_brace, [], [], [], [], [], 0⟩
      ⟨true, false, "solidity.constructor", .Default, .NonPayable, some ⟨[]⟩, 0, some ⟨[]⟩⟩
      (by rfl)⟩

/-- Counterexample to C11 as stated: not every header `parseFunctionHeader` returns
satisfies the invariant with the empty parameter list.  On `function (uint256 x) {`
the header returned is a fallback whose parameter list holds the parameter `x`. -/
theorem parseFunctionHeader_fallback_counterexample :
    ¬ ∀ (env : Env) (self : Fns) (ForceEmptyName AllowModifiers : Bool) (s s1 : Parser)
        (r : FunctionHeaderParserResult),
      parseFunctionHeader env self ForceEmptyName AllowModifiers s = .ok r s1 →
        (r.IsConstructor = true → r.Name = "solidity.constructor") ∧
        (r.IsFallback = true → r.Name = "solidity.fallback" ∧
          ∀ P, r.Parameters = some P → P.Params = []) ∧
        ¬ (r.IsConstructor = true ∧ r.IsFallback = true) := by
  intro h
  have hrun : parseFunctionHeader specEnv (fns specEnv 3) false true
      (Parser.init [punct .kw_function, punct .l_paren, ⟨.kw_uint256, "uint256"⟩, operand "x",
        punct .r_paren, punct .l_brace]) =
      .ok ⟨false, true, "solidity.fallback", .Default, .NonPayable,
          some ⟨[some ⟨.IntegerType .U256, "x", .null, .Default, false, false, false,
            .Unspecified⟩]⟩, 0, some ⟨[]⟩⟩
        ⟨punct .l_brace, [], [], [], [], [], 0⟩ := by rfl
  exact List.cons_ne_nil _ _ (((h _ _ _ _ _ _ _ hrun).2.1 rfl).2 _ rfl)

/-! ## One constructor and one fallback -/

theorem membersSorted.empty : membersSorted [] none none := by
  unfold membersSorted
  exact ⟨fun _ h => (nomatch h), fun _ h => (nomatch h), fun _ h => (nomatch h)⟩

theorem pathTokens_head (id0 : String) (ids : List String) (rest : List Token) :
    ∃ ts, pathTokens id0 ids ++ rest = operand id0 :: ts ∧
      (ts.headD Token.eofTok = if ids = [] then rest.headD Token.eofTok else punct .period) := by
  cases ids with
  | nil => exact ⟨rest, rfl, rfl⟩
  | cons i is => exact ⟨punct .period :: (pathTokens i is ++ rest), rfl, rfl⟩

/-- The loop over the path reads `id0.id1. ... .idk` up to a token that is no `.`. -/
theorem parseIndexAccessedPath_path_run (s : Parser) (rest : List Token)
    (hrest : (rest.headD Token.eofTok).Kind ≠ .period) :
    ∀ (ids : List String) (id0 : String) (acc : List Token) (fuel : Nat), ids.length < fuel →
      parseIndexAccessedPath.path fuel acc (s.setStream (pathTokens id0 ids ++ rest)) =
        .ok (acc ++ operand id0 :: ids.map operand) (s.setStream rest) := by
  intro ids
  induction ids with
  | nil =>
    intro id0 acc fuel hf
    obtain ⟨f, rfl⟩ : ∃ f, fuel = f + 1 := ⟨fuel - 1, by omega⟩
    show parseIndexAccessedPath.path (f + 1) acc (s.setStream (operand id0 :: rest)) = _
    unfold parseIndexAccessedPath.path
    simp only [bind_apply, getTok_apply, Res.bind_ok, ConsumeToken_apply, CachedLex_setStream,
      TryConsumeToken_apply, setStream_Tok, hrest, if_false, Bool.false_eq_true, pure_apply,
      setStream_cons_Tok, List.map_nil]
    rfl
  | cons i is ih =>
    intro id0 acc fuel hf
    obtain ⟨f, rfl⟩ : ∃ f, fuel = f + 1 := ⟨fuel - 1, by omega⟩
    simp only [List.length_cons] at hf
    show parseIndexAccessedPath.path (f + 1) acc
      (s.setStream (operand id0 :: punct .period :: (pathTokens i is ++ rest))) = _
    conv => lhs; unfold parseIndexAccessedPath.path
    obtain ⟨ts, hts, _⟩ := pathTokens_head i is rest
    simp only [bind_apply, getTok_apply, Res.bind_ok, ConsumeToken_apply, CachedLex_setStream,
      TryConsumeToken_apply, setStream_cons_Tok, punct, if_true]
    have h := ih i (acc ++ [operand id0]) f (by omega)
    rw [hts] at h ⊢
    rw [h]
    simp only [List.append_assoc, List.singleton_append, List.map_cons]

/-- C17: for a path `id0.id1. ... .idk` that has a member or is followed by `[`, read
with the indices `Indices` by the loop over the indices, and followed by a token that
is none of `identifier`, `memory`, `storage`, `calldata`, `parseSimpleStatement`
continues with `parseExpression` from the synthesized expression
`IndexAccess(... IndexAccess(Member(... Member(Identifier(id0), id1) ..., idk), e1) ..., em)`
and returns the expression it parses as the statement. -/
theorem parseSimpleStatement_path (env : Env) (self : Fns) (s s1 : Parser) (id0 : String)
    (ids : List String) (rest : List Token) (Indices : List Expr)
    (hstart : ids ≠ [] ∨ (rest.headD Token.eofTok).Kind = .l_square)
    (hrest : (rest.headD Token.eofTok).Kind ≠ .period)
    (hfuel : ids.length ≤ self.fuel)
    (hidx : parseIndexAccessedPath.indices env self (self.fuel + 1) [] (s.setStream rest) =
      .ok Indices s1)
    (hfollow : s1.Tok.Kind ∉ [tok.identifier, tok.kw_memory, tok.kw_storage, tok.kw_calldata]) :
    parseSimpleStatement env self (s.setStream (pathTokens id0 ids ++ rest)) =
      (parseExpression env self (pathExpr s1 id0 ids Indices) s1).bind fun E s2 =>
        .ok (Stmt.ofExpr E) s2 := by
  obtain ⟨ts, hts, hhead⟩ := pathTokens_head id0 ids rest
  have hpath : parseIndexAccessedPath env self (s.setStream (pathTokens id0 ids ++ rest)) =
      .ok ⟨operand id0 :: ids.map operand, .null, Indices⟩ s1 := by
    unfold parseIndexAccessedPath
    have hp := parseIndexAccessedPath_path_run s rest hrest ids id0 [] (self.fuel + 1) (by omega)
    rw [hts] at hp ⊢
    simp only [bind_apply, getTok_apply, Res.bind_ok, setStream_cons_Tok]
    have hid : (operand id0).isAnyIdentifier = true := rfl
    rw [if_pos hid]
    simp only [bind_apply, hp, Res.bind_ok, hidx, List.nil_append, pure_apply]
  have hn : (NextToken (s.setStream (pathTokens id0 ids ++ rest))).Kind = .l_square ∨
      (NextToken (s.setStream (pathTokens id0 ids ++ rest))).Kind = .period := by
    rw [hts, NextToken_setStream, hhead]
    by_cases hids : ids = []
    · rw [if_pos hids]
      rcases hstart with h | h
      · exact absurd hids h
      · exact Or.inl h
    · rw [if_neg hids]
      exact Or.inr rfl
  have htok : (s.setStream (pathTokens id0 ids ++ rest)).Tok = operand id0 := by
    rw [hts, setStream_cons_Tok]
  have htry := tryParseIndexAccessedPath_eq env self _ s1 _ (Or.inr (by rw [htok]; rfl)) hn hpath
  rw [if_neg hfollow] at htry
  unfold parseSimpleStatement
  simp only [bind_apply, TryConsumeToken_apply, htok, operand, reduceCtorEq, if_false,
    Res.bind_ok, htry]
  have hexpr : expressionFromIndexAccessStructure
      ⟨operand id0 :: ids.map operand, .null, Indices⟩ s1 =
      .ok (pathExpr s1 id0 ids Indices) s1 := by
    unfold expressionFromIndexAccessStructure IndexAccessedPath.empty
    simp only [List.isEmpty_cons, Bool.false_eq_true, false_and, and_false, not_false_eq_true,
      if_false, Bool.false_and, ite_not]
    rfl
  simp only [operand] at hexpr
  simp only [hexpr, Res.bind_ok, Bool.false_eq_true, if_false, pure_apply]
  rfl

/-- Witness of C17: `a[0] = 1` continues from `IndexAccess(Identifier a, 0)` and yields
`Binary(Assign, IndexAccess(Identifier a, 0), 1)`; `variable.el[9] = 7` yields
`Binary(Assign, IndexAccess(Member(Identifier variable, el), 9), 7)`. -/
theorem parseSimpleStatement_path_witness :
    parseSimpleStatement specEnv (fns specEnv 3)
        ((Parser.init []).setStream (pathTokens "a" [] ++
          [punct .l_square, ⟨.numeric_constant, "0"⟩, punct .r_square, punct .equal,
            ⟨.numeric_constant, "1"⟩, punct .semi])) =
      (parseExpression specEnv (fns specEnv 3)
          (pathExpr (Parser.init [punct .equal, ⟨.numeric_constant, "1"⟩, punct .semi]) "a" []
            [.NumberLiteral 0])
          (Parser.init [punct .equal, ⟨.numeric_constant, "1"⟩, punct .semi])).bind
        (fun E s2 => .ok (Stmt.ofExpr E) s2) ∧
    parseSimpleStatement specEnv (fns specEnv 3)
        (Parser.init [operand "a", punct .l_square, ⟨.numeric_constant, "0"⟩, punct .r_square,
          punct .equal, ⟨.numeric_constant, "1"⟩, punct .semi]) =
      .ok (.expr (.BinaryOperator .BO_Assign
          (.IndexAccess (.Identifier "a" false) (.NumberLiteral 0)) (.NumberLiteral 1)))
        (Parser.init [punct .semi]) ∧
    parseSimpleStatement specEnv (fns specEnv 3)
        (Parser.init [operand "variable", punct .period, operand "el", punct .l_square,
          ⟨.numeric_constant, "9"⟩, punct .r_square, punct .equal, ⟨.numeric_constant, "7"⟩,
          punct .semi]) =
      .ok (.expr (.BinaryOperator .BO_Assign
          (.IndexAccess (.MemberExpr (.Identifier "variable" false) "el") (.NumberLiteral 9))
          (.NumberLiteral 7)))
        (Parser.init [punct .semi]) :=
  ⟨parseSimpleStatement_path specEnv (fns specEnv 3) (Parser.init [])
      (Parser.init [punct .equal, ⟨.numeric_constant, "1"⟩, punct .semi]) "a" []
      [punct .l_square, ⟨.numeric_constant, "0"⟩, punct .r_square, punct .equal,
        ⟨.numeric_constant, "1"⟩, punct .semi]
      [.NumberLiteral 0] (Or.inr rfl) (by decide) (by decide) (by rfl) (by decide),
    by rfl, by rfl⟩

/-! ## Array declarations as simple statements -/

theorem parseDataLocation_keyword (s : Parser) (L : tok) (lt : String) (ts : List Token)
    (loc : DataLocation)
    (hL : (L = .kw_memory ∧ loc = .Memory) ∨ (L = .kw_storage ∧ loc = .Storage) ∨
      (L = .kw_calldata ∧ loc = .CallData)) :
    parseDataLocation (s.setStream (⟨L, lt⟩ :: ts)) = .ok loc (s.setStream ts) := by
  unfold parseDataLocation
  rcases hL with ⟨rfl, rfl⟩ | ⟨rfl, rfl⟩ | ⟨rfl, rfl⟩ <;>
    simp only [bind_apply, getTok_apply, Res.bind_ok, setStream_cons_Tok, ConsumeToken_apply,
      CachedLex_setStream, pure_apply]

/-- One suffix `[n] L` after an element type, followed by a token that is no `[`. -/
theorem parseTypeNameSuffix_one (s : Parser) (T : Ty) (txt lt : String) (n : Int) (L : tok)
    (loc : DataLocation) (ts : List Token) (fuel : Nat)
    (hn : getAsInteger txt = some n)
    (hL : (L = .kw_memory ∧ loc = .Memory) ∨ (L = .kw_storage ∧ loc = .Storage) ∨
      (L = .kw_calldata ∧ loc = .CallData))
    (hts : (ts.headD Token.eofTok).Kind ≠ .l_square) :
    parseTypeNameSuffix (fuel + 2) T
        (s.setStream (punct .l_square :: ⟨.numeric_constant, txt⟩ :: punct .r_square ::
          ⟨L, lt⟩ :: ts)) =
      .ok (.ArrayType T (some n) loc) (s.setStream ts) := by
  unfold parseTypeNameSuffix
  simp only [bind_apply, TryConsumeToken_apply, setStream_cons_Tok, punct, if_true, Res.bind_ok,
    CachedLex_setStream, getTok_apply, Token.is, decide_True, hn, ConsumeToken_apply,
    ExpectAndConsume, ConsumeAnyToken_apply, pure_apply, Bool.false_eq_true, if_false,
    parseDataLocation_keyword s L lt ts loc hL]
  unfold parseTypeNameSuffix
  simp only [bind_apply, TryConsumeToken_apply, setStream_Tok, hts, if_false, Res.bind_ok,
    Bool.false_eq_true, pure_apply]

theorem elementary_not (K k : tok) (hK : K.isElementaryTypeName = true)
    (hk : k.isElementaryTypeName = false) : K ≠ k := by
  intro h
  rw [h, hk] at hK
  exact absurd hK (by decide)

/-- The loop over the indices stops at a token that is no `[`. -/
theorem parseIndexAccessedPath_indices_none (env : Env) (self : Fns) (fuel : Nat)
    (acc : List Expr) (s : Parser) (h : s.Tok.Kind ≠ .l_square) :
    parseIndexAccessedPath.indices env self (fuel + 1) acc s = .ok acc s := by
  unfold parseIndexAccessedPath.indices
  simp only [bind_apply, getTok_apply, Res.bind_ok, Token.is, h, decide_False,
    Bool.false_eq_true, if_false, pure_apply]

/-- The declaration of `x` with a type that was read ahead, where no initial value is
allowed. -/
theorem parseVariableDeclaration_lookahead (env : Env) (self : Fns) (s : Parser) (T : Ty)
    (x : String) (ts : List Token) (hT : T ≠ .null) :
    parseVariableDeclaration env self
        { VarDeclParserOptions.default with AllowVar := false, AllowLocationSpecifier := true } T
        (s.setStream (operand x :: ts)) =
      (Actions.addDecl x (s.setStream ts)).bind fun _ s2 =>
        .ok (some ⟨T, x, .null, .Default, false, false, false, .Unspecified⟩) s2 := by
  unfold parseVariableDeclaration
  simp only [bind_apply, hT, ne_eq, not_false_eq_true, if_true, pure_apply, Res.bind_ok]
  unfold parseVariableDeclaration.loop
  simp only [bind_apply, getTok_apply, Res.bind_ok, setStream_cons_Tok, Token.is, operand,
    reduceCtorEq, decide_False, Bool.false_eq_true, if_false, VarDeclParserOptions.default,
    Bool.false_and, Token.isOneOf, List.mem_cons, List.mem_singleton, List.not_mem_nil,
    or_self, Bool.and_false, Bool.true_and, pure_apply, Token.isAnyIdentifier, true_or,
    decide_True, Bool.not_true, Token.getIdentifierName, if_true, ConsumeToken_apply]
  rw [show (⟨tok.identifier, x⟩ : Token) = operand x from rfl, CachedLex_setStream]
  rfl

/-- C16: for an elementary type keyword `K` that the elementary branch of
`parseTypeName` reads as the type `T`, a numeric literal that `getAsInteger` reads as
`n`, and a data-location keyword `L` (`memory`, `storage` or `calldata`) that denotes
`loc`, `parseSimpleStatement` on `K [ n ] L x ;` returns a `DeclStmt` with exactly one
`VarDecl`, named `x`, of type `ArrayType T n loc`, without initial value; `x` has been
registered and `;` is the current token. -/
theorem parseSimpleStatement_array_declaration (env : Env) (self : Fns) (s : Parser)
    (K L : tok) (kt lt txt x : String) (T : Ty) (n : Int) (loc : DataLocation)
    (rest : List Token)
    (hK : K.isElementaryTypeName = true)
    (hT : parseTypeName.elementary env K
        (s.setStream (⟨K, kt⟩ :: punct .l_square :: ⟨.numeric_constant, txt⟩ :: punct .r_square ::
          ⟨L, lt⟩ :: operand x :: punct .semi :: rest)) =
      .ok T (s.setStream (punct .l_square :: ⟨.numeric_constant, txt⟩ :: punct .r_square ::
          ⟨L, lt⟩ :: operand x :: punct .semi :: rest)))
    (hn : getAsInteger txt = some n)
    (hL : (L = .kw_memory ∧ loc = .Memory) ∨ (L = .kw_storage ∧ loc = .Storage) ∨
      (L = .kw_calldata ∧ loc = .CallData))
    (hfuel : 1 ≤ self.fuel) :
    parseSimpleStatement env self
        (s.setStream (⟨K, kt⟩ :: punct .l_square :: ⟨.numeric_constant, txt⟩ :: punct .r_square ::
          ⟨L, lt⟩ :: operand x :: punct .semi :: rest)) =
      (Actions.addDecl x (s.setStream (punct .semi :: rest))).bind fun _ s2 =>
        .ok (.DeclStmt [some ⟨.ArrayType T (some n) loc, x, .null, .Default, false, false, false,
          .Unspecified⟩] .null) s2 := by
  obtain ⟨f, hf⟩ : ∃ f, self.fuel = f + 1 := ⟨self.fuel - 1, by omega⟩
  have hKid : K ≠ .identifier := elementary_not K _ hK rfl
  have hKraw : K ≠ .raw_identifier := elementary_not K _ hK rfl
  have hKparen : K ≠ .l_paren := elementary_not K _ hK rfl
  have hx1 : ((operand x :: punct .semi :: rest).headD Token.eofTok).Kind ≠ .l_square := by
    intro h; cases h
  have hx2 : (s.setStream (operand x :: punct .semi :: rest)).Tok.Kind ≠ .l_square := by
    intro h; cases h
  have hsuffix : parseTypeNameSuffix (self.fuel + 1) T
      (s.setStream (punct .l_square :: ⟨.numeric_constant, txt⟩ :: punct .r_square ::
        ⟨L, lt⟩ :: operand x :: punct .semi :: rest)) =
      .ok (.ArrayType T (some n) loc) (s.setStream (operand x :: punct .semi :: rest)) := by
    rw [hf]
    exact parseTypeNameSuffix_one s T txt lt n L loc (operand x :: punct .semi :: rest) f hn hL
      hx1
  have hpath : parseIndexAccessedPath env self
      (s.setStream (⟨K, kt⟩ :: punct .l_square :: ⟨.numeric_constant, txt⟩ :: punct .r_square ::
        ⟨L, lt⟩ :: operand x :: punct .semi :: rest)) =
      .ok ⟨[], .ArrayType T (some n) loc, []⟩ (s.setStream (operand x :: punct .semi :: rest)) := by
    unfold parseIndexAccessedPath parseTypeName
    simp only [bind_apply, getTok_apply, Res.bind_ok, setStream_cons_Tok, Token.isAnyIdentifier,
      Token.isOneOf, List.mem_cons, List.mem_singleton, List.not_mem_nil, hKid, hKraw, or_self,
      decide_False, Bool.false_eq_true, if_false, Token.isElementaryTypeName, hK, if_true, hT,
      hsuffix,
      parseIndexAccessedPath_indices_none env self self.fuel []
        (s.setStream (operand x :: punct .semi :: rest)) hx2, pure_apply]
  have hnext : (NextToken (s.setStream (⟨K, kt⟩ :: punct .l_square ::
      ⟨.numeric_constant, txt⟩ :: punct .r_square :: ⟨L, lt⟩ :: operand x :: punct .semi ::
      rest))).Kind = .l_square := rfl
  have hx3 : (s.setStream (operand x :: punct .semi :: rest)).Tok.Kind ∈
      [tok.identifier, tok.kw_memory, tok.kw_storage, tok.kw_calldata] :=
    List.mem_cons_self _ _
  have htry := tryParseIndexAccessedPath_eq env self _ _ _ (Or.inl hK) (Or.inl hnext) hpath
  rw [if_pos hx3] at htry
  have htype : typeNameFromIndexAccessStructure ⟨[], .ArrayType T (some n) loc, []⟩
      (s.setStream (operand x :: punct .semi :: rest)) =
      .ok (.ArrayType T (some n) loc) (s.setStream (operand x :: punct .semi :: rest)) := by
    rfl
  have harr : Ty.ArrayType T (some n) loc ≠ .null := by
    intro h; cases h
  unfold parseSimpleStatement
  simp only [bind_apply, TryConsumeToken_apply, setStream_cons_Tok, hKparen, if_false,
    Res.bind_ok, htry, htype]
  unfold parseVariableDeclarationStatement
  simp only [bind_apply, getTok_apply, getNextToken_apply, Res.bind_ok, harr, false_and,
    if_false, parseVariableDeclaration_lookahead env self s _ x (punct .semi :: rest) harr]
  cases hadd : Actions.addDecl x (s.setStream (punct .semi :: rest)) with
  | ok u s2 =>
    have hs2 : s2.Tok.Kind ≠ .equal := by
      have : s2.Tok = (s.setStream (punct .semi :: rest)).Tok := by
        unfold Actions.addDecl at hadd
        split at hadd <;> cases hadd <;> rfl
      rw [this]
      intro h; cases h
    simp only [Res.bind_ok, TryConsumeToken_apply, hs2, if_false, bind_apply, pure_apply,
      Bool.false_eq_true]
  | abort msg => rfl
  | outOfFuel => rfl

/-- Witness of C16: `uint256[3] memory a;` yields the declaration of `a` with type
`ArrayType (IntegerType U256) 3 Memory`. -/
theorem parseSimpleStatement_array_declaration_witness :
    parseSimpleStatement specEnv (fns specEnv 3)
        ((Parser.init []).setStream (⟨.kw_uint256, "uint256"⟩ :: punct .l_square ::
          ⟨.numeric_constant, "3"⟩ :: punct .r_square :: ⟨.kw_memory, "memory"⟩ :: operand "a" ::
          punct .semi :: [])) =
      (Actions.addDecl "a" ((Parser.init []).setStream (punct .semi :: []))).bind
        (fun _ s2 =>
          .ok (.DeclStmt [some ⟨.ArrayType (.IntegerType .U256) (some 3) .Memory, "a", .null,
            .Default, false, false, false, .Unspecified⟩] .null) s2) ∧
    parseSimpleStatement specEnv (fns specEnv 3)
        (Parser.init [⟨.kw_uint256, "uint256"⟩, punct .l_square, ⟨.numeric_constant, "3"⟩,
          punct .r_square, ⟨.kw_memory, "memory"⟩, operand "a", punct .semi]) =
      .ok (.DeclStmt [some ⟨.ArrayType (.IntegerType .U256) (some 3) .Memory, "a", .null,
          .Default, false, false, false, .Unspecified⟩] .null)
        (Parser.init [punct .semi]) :=
  ⟨parseSimpleStatement_array_declaration specEnv (fns specEnv 3) (Parser.init [])
      .kw_uint256 .kw_memory "uint256" "memory" "3" "a" (.IntegerType .U256) 3 .Memory []
      rfl (by rfl) (by rfl) (Or.inl ⟨rfl, rfl⟩) (by decide),
    by rfl⟩

/-! ## Explicit casts -/

/-- C23, what the code does on the failing input: for an elementary type keyword `K`
other than `address` that `token2inttype` has no case for (`bool`, `bytesN`, `bytes`,
`string`), `parsePrimaryExpression` on `K ( e )` takes the branch of the integer cast
and calls `token2inttype` on the keyword, which fails the assertion
`Invalid int token.`: no cast expression is returned. -/
theorem parsePrimaryExpression_cast_fails (self : Fns) (s s1 : Parser) (K : tok) (kt : String)
    (ts : List Token) (Sub : Expr)
    (hK : K.isElementaryTypeName = true) (ha : K ≠ .kw_address)
    (hint : token2inttype K = none)
    (hsub : self.parseExpression .null (s.setStream ts) = .ok Sub s1) :
    parsePrimaryExpression self (s.setStream (⟨K, kt⟩ :: punct .l_paren :: ts)) =
      .abort "Invalid int token." := by
  have h1 : (⟨K, kt⟩ : Token).isElementaryTypeName = true := hK
  have h2 : (⟨K, kt⟩ : Token).is .kw_address = false := by
    unfold Token.is
    exact decide_eq_false ha
  have h3 : (punct .l_paren).is .l_paren = true := rfl
  unfold parsePrimaryExpression
  simp only [bind_apply, getTok_apply, getNextToken_apply, Res.bind_ok, setStream_cons_Tok,
    NextToken_setStream, List.headD_cons, h1, h3, Bool.true_and, Bool.and_self, if_true, ConsumeToken_apply,
    ConsumeParen_apply, CachedLex_setStream, hsub, h2, Bool.false_eq_true, if_false, hint]
  rfl

/-- Witness of C23: `bool(x)`. -/
theorem parsePrimaryExpression_cast_fails_witness :
    parsePrimaryExpression (fns specEnv 3)
        ((Parser.init []).setStream (⟨.kw_bool, "bool"⟩ :: punct .l_paren ::
          [operand "x", punct .r_paren, punct .semi])) =
      .abort "Invalid int token." :=
  parsePrimaryExpression_cast_fails (fns specEnv 3) (Parser.init [])
    ((Parser.init []).setStream [punct .r_paren, punct .semi]) .kw_bool "bool"
    [operand "x", punct .r_paren, punct .semi] (.Identifier "x" false) rfl
    (fun h => nomatch h) rfl (by rfl)

/-! ## Loops -/

/-- C24, what the code does on the failing input: `parseWhileStatement` expects `{`
after `while`: on `while (` it reports `err_expected` for `l_brace` and returns the
null handle with `(` as the current token; the form it accepts is
`while { cond } stmt`.  `parseDoWhileStatement` likewise expects `{` after the
`while` of `do stmt while`. -/
theorem parseWhileStatement_expects_brace :
    (∀ (env : Env) (self : Fns) (s : Parser) (wt : String) (ts : List Token),
      parseWhileStatement env self (s.setStream (⟨.kw_while, wt⟩ :: punct .l_paren :: ts)) =
        .ok .null { s.setStream (punct .l_paren :: ts) with
          Diags := s.Diags ++ [⟨.err_expected, [.l_brace]⟩] }) ∧
    parseWhileStatement specEnv (fns specEnv 4)
        (Parser.init [⟨.kw_while, "while"⟩, punct .l_brace, operand "a", punct .r_brace,
          operand "b", punct .semi]) =
      .ok (.WhileStmt (.Identifier "a" false) (.expr (.Identifier "b" false)) false)
        (Parser.init []) ∧
    parseDoWhileStatement specEnv (fns specEnv 4)
        (Parser.init [⟨.kw_do, "do"⟩, operand "b", punct .semi, ⟨.kw_while, "while"⟩,
          punct .l_paren, operand "a", punct .r_paren, punct .semi]) =
      .ok .null ⟨punct .l_paren, [operand "a", punct .r_paren, punct .semi], [], [],
        [⟨.err_expected, [.l_brace]⟩], [], 0⟩ := by
  refine ⟨?_, by rfl, by rfl⟩
  intro env self s wt ts
  unfold parseWhileStatement
  simp only [bind_apply, ConsumeToken_apply, Res.bind_ok, CachedLex_setStream, ExpectAndConsume,
    getTok_apply, setStream_cons_Tok, Token.is, punct, reduceCtorEq, decide_False,
    Bool.false_eq_true, if_false, if_true, Diag, pure_apply]
  rfl

/-! ## A stray semicolon -/

/-- C25, what the code does on the failing input: on the body `{ return (1);; }`
`parseBlock` reads `return (1);` and then starts a statement at the stray `;`, where
`parsePrimaryExpression` fails the assertion `Unknown token`; no block is returned
and no diagnostic is reported. -/
theorem parseBlock_stray_semi :
    parseBlock (fns specEnv 5)
        (Parser.init [punct .l_brace, ⟨.kw_return, "return"⟩, punct .l_paren,
          ⟨.numeric_constant, "1"⟩, punct .r_paren, punct .semi, punct .semi, punct .r_brace]) =
      .abort "Unknown token" := by
  rfl

/-! ## Null handles without a diagnostic -/

/-- C26, what the code does on the failing input: on `assembly ;` `parseStatement`
consumes both tokens and returns the null handle without reporting a diagnostic; and
on `a ? b : c` `parseExpression` returns the null handle without a diagnostic. -/
theorem parseStatement_null_without_diagnostic :
    (∀ (env : Env) (self : Fns) (s : Parser) (at1 st : String) (ts : List Token),
      parseStatement env self (s.setStream (⟨.kw_assembly, at1⟩ :: ⟨.semi, st⟩ :: ts)) =
        .ok .null (s.setStream ts) ∧ (s.setStream ts).Diags = s.Diags) ∧
    parseExpression specEnv (fns specEnv 4) .null
        (Parser.init [operand "a", punct .question, operand "b", punct .colon, operand "c",
          punct .semi]) =
      .ok .null (Parser.init [punct .semi]) ∧
    (Parser.init [punct .semi]).Diags = [] := by
  refine ⟨?_, by rfl, rfl⟩
  intro env self s at1 st ts
  constructor
  · unfold parseStatement
    simp only [bind_apply, getTok_apply, Res.bind_ok, setStream_cons_Tok, ConsumeToken_apply,
      CachedLex_setStream, ExpectAndConsumeSemi, TryConsumeToken_apply, if_true, pure_apply,
      Bool.false_eq_true, if_false]
  · cases ts <;> rfl

/-! ## Data locations of a declaration -/

/-- C27, what the code does on the failing input: on `uint[] memory storage x` the
suffix loop of `parseTypeName` takes `memory` into the array type, so the loop of
`parseVariableDeclaration` sees `storage` as the first location: no diagnostic is
reported and a `VarDecl` with the array type at `memory` and the location `storage`
is returned.  On `uint memory storage x` the call reports
`err_multiple_variable_location` and returns the null handle; on `uint[] memory x`
the location of the `VarDecl` stays unspecified. -/
theorem parseVariableDeclaration_array_two_locations :
    parseVariableDeclaration specEnv (fns specEnv 4)
        { VarDeclParserOptions.default with AllowLocationSpecifier := true } .null
        (Parser.init [⟨.kw_uint, "uint"⟩, punct .l_square, punct .r_square,
          ⟨.kw_memory, "memory"⟩, ⟨.kw_storage, "storage"⟩, operand "x", punct .semi]) =
      .ok (some ⟨.ArrayType (.IntegerType .U256) none .Memory, "x", .null, .Default, false,
        false, false, .Storage⟩) (Parser.init [punct .semi]) ∧
    parseVariableDeclaration specEnv (fns specEnv 4)
        { VarDeclParserOptions.default with AllowLocationSpecifier := true } .null
        (Parser.init [⟨.kw_uint, "uint"⟩, ⟨.kw_memory, "memory"⟩, ⟨.kw_storage, "storage"⟩,
          operand "x", punct .semi]) =
      .ok none ⟨⟨.kw_storage, "storage"⟩, [operand "x", punct .semi], [], [],
        [⟨.err_multiple_variable_location, []⟩], [], 0⟩ ∧
    parseVariableDeclaration specEnv (fns specEnv 4)
        { VarDeclParserOptions.default with AllowLocationSpecifier := true } .null
        (Parser.init [⟨.kw_uint, "uint"⟩, punct .l_square, punct .r_square,
          ⟨.kw_memory, "memory"⟩, operand "x", punct .semi]) =
      .ok (some ⟨.ArrayType (.IntegerType .U256) none .Memory, "x", .null, .Default, false,
        false, false, .Unspecified⟩) (Parser.init [punct .semi]) := by
  exact ⟨by rfl, by rfl, by rfl⟩

/-! ## The address type -/

/-- The suffix loop stops at a token that is no `[`. -/
theorem parseTypeNameSuffix_none (fuel : Nat) (T : Ty) (s : Parser)
    (h : s.Tok.Kind ≠ .l_square) : parseTypeNameSuffix (fuel + 1) T s = .ok T s := by
  unfold parseTypeNameSuffix
  simp only [bind_apply, TryConsumeToken_apply, h, if_false, Res.bind_ok, Bool.false_eq_true,
    pure_apply]

/-- C30: where the order of the token kinds places `address` neither among the integer
keywords nor among the `bytesN` keywords (the two range tests `parseTypeName` makes
first), and the type name is not followed by `[`: on `address payable` `parseTypeName`
returns `AddressType Payable` with both tokens consumed, and on `address` followed by
a token that is none of `constant`, `pure`, `view`, `payable` it returns
`AddressType NonPayable` with only `address` consumed. -/
theorem parseTypeName_address (env : Env) (self : Fns) (AllowVar : Bool) (s : Parser)
    (at1 pt : String) (ts : List Token)
    (hint : ¬ (env.ord .kw_int ≤ env.ord .kw_address ∧ env.ord .kw_address ≤ env.ord .kw_uint256))
    (hbytes : ¬ (env.ord .kw_bytes1 ≤ env.ord .kw_address ∧
      env.ord .kw_address ≤ env.ord .kw_bytes32))
    (hsq : (ts.headD Token.eofTok).Kind ≠ .l_square) :
    parseTypeName env self AllowVar (s.setStream (⟨.kw_address, at1⟩ :: ⟨.kw_payable, pt⟩ :: ts)) =
      .ok (.AddressType .Payable) (s.setStream ts) ∧
    ((ts.headD Token.eofTok).Kind ∉ [tok.kw_constant, tok.kw_pure, tok.kw_view, tok.kw_payable] →
      parseTypeName env self AllowVar (s.setStream (⟨.kw_address, at1⟩ :: ts)) =
        .ok (.AddressType .NonPayable) (s.setStream ts)) := by
  have hsq2 : (s.setStream ts).Tok.Kind ≠ .l_square := by
    rw [setStream_Tok]
    exact hsq
  have hel : (⟨.kw_address, at1⟩ : Token).isElementaryTypeName = true := rfl
  constructor
  · have hone : (⟨.kw_payable, pt⟩ : Token).isOneOf
        [.kw_constant, .kw_pure, .kw_view, .kw_payable] = true := by
      rfl
    unfold parseTypeName parseTypeName.elementary
    simp only [bind_apply, getTok_apply, Res.bind_ok, setStream_cons_Tok, hel, if_true,
      reduceCtorEq, if_false, hint, hbytes, ConsumeToken_apply, CachedLex_setStream, hone,
      parseStateMutability, pure_apply, parseTypeNameSuffix_none self.fuel _ _ hsq2]
  · intro hmut
    have hone : (s.setStream ts).Tok.isOneOf
        [.kw_constant, .kw_pure, .kw_view, .kw_payable] = false := by
      unfold Token.isOneOf
      rw [setStream_Tok]
      exact decide_eq_false hmut
    unfold parseTypeName parseTypeName.elementary
    simp only [bind_apply, getTok_apply, Res.bind_ok, setStream_cons_Tok, hel, if_true,
      reduceCtorEq, if_false, hint, hbytes, ConsumeToken_apply, CachedLex_setStream, hone,
      Bool.false_eq_true, pure_apply, parseTypeNameSuffix_none self.fuel _ _ hsq2]

/-- Witness of C30: `address payable x` and `address x` with the example tables. -/
theorem parseTypeName_address_witness :
    parseTypeName specEnv (fns specEnv 2) false
        ((Parser.init []).setStream (⟨.kw_address, "address"⟩ :: ⟨.kw_payable, "payable"⟩ ::
          [operand "x"])) =
      .ok (.AddressType .Payable) ((Parser.init []).setStream [operand "x"]) ∧
    parseTypeName specEnv (fns specEnv 2) false
        ((Parser.init []).setStream (⟨.kw_address, "address"⟩ :: [operand "x"])) =
      .ok (.AddressType .NonPayable) ((Parser.init []).setStream [operand "x"]) :=
  ⟨(parseTypeName_address specEnv (fns specEnv 2) false (Parser.init []) "address" "payable"
      [operand "x"] (by decide) (by decide) (by decide)).1,
    (parseTypeName_address specEnv (fns specEnv 2) false (Parser.init []) "address" "payable"
      [operand "x"] (by decide) (by decide) (by decide)).2 (by decide)⟩

/-! ## Hex string literals -/

theorem hexDigitValue_lt (c : Nat) (h : isHexDigit c) : hexDigitValue c < 16 := by
  unfold hexDigitValue
  rcases h with h | h | h
  · rw [if_pos h]; omega
  · rw [if_neg (by omega), if_pos h]; omega
  · rw [if_neg (by omega), if_neg (by omega), if_pos h]; omega

theorem hexDigitValue_hexDigitChar (d : Nat) (h : d < 16) : hexDigitValue (hexDigitChar d) = d := by
  unfold hexDigitValue hexDigitChar
  by_cases h10 : d < 10
  · rw [if_pos h10, if_pos (by omega)]; omega
  · rw [if_neg h10, if_neg (by omega), if_pos (by omega)]; omega

/-- The byte the loop of `hexUnquote` pushes for two digit values below 16. -/
theorem hexUnquote_byte (x y : Nat) (hx : x < 16) (hy : y < 16) :
    (((x <<< 4) % 2 ^ 32) ||| y) % 256 = 16 * x + y := by
  interval_cases x <;> interval_cases y <;> rfl

theorem hexUnquote_loop_length : ∀ q : List Nat, (hexUnquote.loop q).length = q.length / 2
  | [] => rfl
  | [_] => by
    unfold hexUnquote.loop
    simp only [List.length_cons, List.length_nil]
  | a :: b :: rest => by
    unfold hexUnquote.loop
    rw [List.length_cons, hexUnquote_loop_length rest, List.length_cons, List.length_cons]
    omega

theorem hexUnquote_loop_getD : ∀ (q : List Nat), (∀ c ∈ q, isHexDigit c) →
    ∀ i, i < q.length / 2 →
      (hexUnquote.loop q).getD i 0 =
        16 * hexDigitValue (q.getD (2 * i) 0) + hexDigitValue (q.getD (2 * i + 1) 0)
  | [], _, i, hi => by
    simp only [List.length_nil] at hi
    omega
  | [_], _, i, hi => by
    simp only [List.length_cons, List.length_nil] at hi
    omega
  | a :: b :: rest, hq, i, hi => by
    unfold hexUnquote.loop
    cases i with
    | zero =>
      simp only [List.getD_cons_zero, Nat.mul_zero, Nat.zero_add, List.getD_cons_succ]
      exact hexUnquote_byte _ _ (hexDigitValue_lt a (hq a (List.mem_cons_self _ _)))
        (hexDigitValue_lt b (hq b (List.mem_cons_of_mem _ (List.mem_cons_self _ _))))
    | succ j =>
      have hj : j < rest.length / 2 := by
        simp only [List.length_cons] at hi
        omega
      rw [show 2 * (j + 1) = 2 * j + 1 + 1 from by omega]
      simp only [List.getD_cons_succ]
      exact hexUnquote_loop_getD rest
        (fun c hc => hq c (List.mem_cons_of_mem _ (List.mem_cons_of_mem _ hc))) j hj

theorem hexEncode_length : ∀ bs : List Nat, (hexEncode bs).length = 2 * bs.length
  | [] => rfl
  | b :: bs => by
    unfold hexEncode
    rw [List.length_cons, List.length_cons, hexEncode_length bs, List.length_cons]
    omega

theorem hexUnquote_loop_hexEncode : ∀ bs : List Nat, (∀ b ∈ bs, b < 256) →
    hexUnquote.loop (hexEncode bs) = bs
  | [], _ => rfl
  | b :: bs, h => by
    have hb : b < 256 := h b (List.mem_cons_self _ _)
    unfold hexEncode hexUnquote.loop
    rw [hexDigitValue_hexDigitChar _ (by omega), hexDigitValue_hexDigitChar _ (by omega),
      hexUnquote_byte _ _ (by omega) (by omega),
      hexUnquote_loop_hexEncode bs (fun c hc => h c (List.mem_cons_of_mem _ hc))]
    congr 1
    omega

/-- C21: for every even-length string `q` of hexadecimal digits, `hexUnquote q` returns
a string of length `|q| / 2` whose `i`-th byte is
`16 * hexDigitValue q[2i] + hexDigitValue q[2i+1]`; `hexUnquote` inverts the two-digit
hexadecimal encoding of every byte string (`aa` decodes to the single byte `0xAA`); and
on an input of odd length the assertion fails. -/
theorem hexUnquote_decodes :
    (∀ q : List Nat, q.length % 2 = 0 → (∀ c ∈ q, isHexDigit c) →
      ∃ r, hexUnquote q = some r ∧ r.length = q.length / 2 ∧
        ∀ i, i < q.length / 2 →
          r.getD i 0 =
            16 * hexDigitValue (q.getD (2 * i) 0) + hexDigitValue (q.getD (2 * i + 1) 0)) ∧
    (∀ bs : List Nat, (∀ b ∈ bs, b < 256) → hexUnquote (hexEncode bs) = some bs) ∧
    hexUnquote (lexemeBytes "aa") = some [0xAA] ∧
    (∀ q : List Nat, q.length % 2 = 1 → hexUnquote q = none) := by
  refine ⟨?_, ?_, by rfl, ?_⟩
  · intro q heven hq
    refine ⟨hexUnquote.loop q, ?_, hexUnquote_loop_length q, hexUnquote_loop_getD q hq⟩
    unfold hexUnquote
    rw [if_pos heven]
  · intro bs hbs
    unfold hexUnquote
    rw [if_pos (by rw [hexEncode_length]; omega), hexUnquote_loop_hexEncode bs hbs]
  · intro q hodd
    unfold hexUnquote
    rw [if_neg (by omega)]

/-- Witness of C21: the digits `a1f0` and the bytes `0xAA 0x01`. -/
theorem hexUnquote_decodes_witness :
    (∃ r, hexUnquote [97, 49, 102, 48] = some r ∧ r.length = [97, 49, 102, 48].length / 2 ∧
        ∀ i, i < [97, 49, 102, 48].length / 2 →
          r.getD i 0 =
            16 * hexDigitValue ([97, 49, 102, 48].getD (2 * i) 0) +
              hexDigitValue ([97, 49, 102, 48].getD (2 * i + 1) 0)) ∧
    hexUnquote (hexEncode [0xAA, 0x01]) = some [0xAA, 0x01] ∧
    hexUnquote [97, 49, 102] = none :=
  ⟨hexUnquote_decodes.1 [97, 49, 102, 48] (by decide) (by unfold isHexDigit; decide),
    hexUnquote_decodes.2.1 [0xAA, 0x01] (by decide),
    hexUnquote_decodes.2.2.2 [97, 49, 102] (by decide)⟩

/-! ## Integer type keywords -/

theorem token2inttype_sized (i : Nat) (hi : i < 32) :
    ∃ ku ki U I, uintKeywords.get? i = some ku ∧ intKeywords.get? i = some ki ∧
      unsignedKinds.get? i = some U ∧ signedKinds.get? i = some I ∧
      token2inttype ku = some U ∧ token2inttype ki = some I := by
  interval_cases i <;> exact ⟨_, _, _, _, rfl, rfl, rfl, rfl, rfl, rfl⟩

set_option maxRecDepth 100000 in
theorem token2inttype_sized_injective :
    ∀ k1 ∈ uintKeywords ++ intKeywords, ∀ k2 ∈ uintKeywords ++ intKeywords,
      token2inttype k1 = token2inttype k2 → k1 = k2 := by
  decide

/-- C22: for every multiple `n` of 8 with `8 ≤ n ≤ 256`, `token2inttype` maps the keyword
`uint{n}` to the unsigned kind `U{n}` and the keyword `int{n}` to the signed kind
`I{n}`; it maps `uint` and `int` to the kinds of `uint256` and `int256`, so that the
elementary branch of `parseTypeName` gives `uint` and `uint256` the same type
(where the order of the token kinds places both among the integer keywords); and
distinct sized keywords get distinct kinds. -/
theorem token2inttype_widths :
    (∀ n, n % 8 = 0 → 8 ≤ n → n ≤ 256 →
      ∃ ku ki U I, uintKeyword n = some ku ∧ intKeyword n = some ki ∧
        unsignedKind n = some U ∧ signedKind n = some I ∧
        token2inttype ku = some U ∧ token2inttype ki = some I) ∧
    token2inttype .kw_uint = token2inttype .kw_uint256 ∧
    token2inttype .kw_int = token2inttype .kw_int256 ∧
    (∀ (env : Env) (s : Parser),
      env.ord .kw_int ≤ env.ord .kw_uint → env.ord .kw_uint ≤ env.ord .kw_uint256 →
      parseTypeName.elementary env .kw_uint s = .ok (.IntegerType .U256) (CachedLex s) ∧
      parseTypeName.elementary env .kw_uint256 s = .ok (.IntegerType .U256) (CachedLex s)) ∧
    (∀ k1 ∈ uintKeywords ++ intKeywords, ∀ k2 ∈ uintKeywords ++ intKeywords,
      k1 ≠ k2 → token2inttype k1 ≠ token2inttype k2) := by
  refine ⟨?_, rfl, rfl, ?_, ?_⟩
  · intro n h8 hlo hhi
    have hi : n / 8 - 1 < 32 := by omega
    unfold uintKeyword intKeyword unsignedKind signedKind atWidth
    simp only [h8, hlo, and_self, if_true]
    exact token2inttype_sized (n / 8 - 1) hi
  · intro env s h1 h2
    have h3 : env.ord .kw_int ≤ env.ord .kw_uint256 := Nat.le_trans h1 h2
    have e1 : token2inttype .kw_uint = some .U256 := rfl
    have e2 : token2inttype .kw_uint256 = some .U256 := rfl
    unfold parseTypeName.elementary
    simp only [reduceCtorEq, if_false, h1, h2, h3, Nat.le_refl, and_self, if_true, e1, e2,
      bind_apply, ConsumeToken_apply, Res.bind_ok, pure_apply]
  · intro k1 h1 k2 h2 hne heq
    exact hne (token2inttype_sized_injective k1 h1 k2 h2 heq)

/-- Witness of C22: the width 64, and the types of `uint` and `uint256` with the
example tables. -/
theorem token2inttype_widths_witness :
    (∃ ku ki U I, uintKeyword 64 = some ku ∧ intKeyword 64 = some ki ∧
        unsignedKind 64 = some U ∧ signedKind 64 = some I ∧
        token2inttype ku = some U ∧ token2inttype ki = some I) ∧
    (parseTypeName.elementary specEnv .kw_uint (Parser.init [⟨.kw_uint, "uint"⟩]) =
        .ok (.IntegerType .U256) (CachedLex (Parser.init [⟨.kw_uint, "uint"⟩])) ∧
      parseTypeName.elementary specEnv .kw_uint256 (Parser.init [⟨.kw_uint, "uint"⟩]) =
        .ok (.IntegerType .U256) (CachedLex (Parser.init [⟨.kw_uint, "uint"⟩]))) ∧
    token2inttype .kw_uint64 ≠ token2inttype .kw_int64 :=
  ⟨token2inttype_widths.1 64 (by decide) (by decide) (by decide),
    token2inttype_widths.2.2.2.1 specEnv _ (by decide) (by decide),
    token2inttype_widths.2.2.2.2 .kw_uint64 (by decide) .kw_int64 (by decide) (by decide)⟩

/-! ## The scope stack across contracts and source units -/

theorem Keeps.parseContractDefinition_arguments (env : Env) (self : Fns) (hself : self.Keeps) (fuel : Nat) :
    ∀ (A : List Expr), Keeps (parseContractDefinition.arguments env self fuel A) := by
  induction fuel with
  | zero =>
    intros
    unfold Soll.parseContractDefinition.arguments
    exact Keeps.outOfFuel
  | succ fuel ih =>
    intros
    unfold Soll.parseContractDefinition.arguments
    try dsimp only
    repeat' (with_reducible first
      | exact ih _
      | exact Keeps.parseExpression _ _ _ hself
      | exact Keeps.getTok
      | exact Keeps.getNextToken
      | exact Keeps.ConsumeToken
      | exact Keeps.ConsumeAnyToken
      | exact Keeps.ConsumeParen
      | exact Keeps.ConsumeBracket
      | exact Keeps.ConsumeBrace
      | exact Keeps.ConsumeStringToken
      | exact Keeps.Diag _ _
      | exact Keeps.pure _
      | exact Keeps.abort _
      | exact Keeps.outOfFuel
      | exact Keeps.TryConsumeToken _
      | exact Keeps.isTokenParen
      | exact Keeps.ExpectAndConsume _ _
      | exact Keeps.ExpectAndConsumeSemi _
      | apply Keeps.bind
      | apply Keeps.ParseScope
      | intro _
      | split)

theorem Keeps.parseContractDefinition_bases (env : Env) (self : Fns) (hself : self.Keeps) (fuel : Nat) :
    ∀ (B : List InheritanceSpecifier), Keeps (parseContractDefinition.bases env self fuel B) := by
  induction fuel with
  | zero =>
    intros
    unfold Soll.parseContractDefinition.bases
    exact Keeps.outOfFuel
  | succ fuel ih =>
    intros
    unfold Soll.parseContractDefinition.bases
    try dsimp only
    repeat' (with_reducible first
      | exact ih _
      | exact Keeps.parseContractDefinition_arguments _ _ hself _ _
      | exact Keeps.getTok
      | exact Keeps.getNextToken
      | exact Keeps.ConsumeToken
      | exact Keeps.ConsumeAnyToken
      | exact Keeps.ConsumeParen
      | exact Keeps.ConsumeBracket
      | exact Keeps.ConsumeBrace
      | exact Keeps.ConsumeStringToken
      | exact Keeps.Diag _ _
      | exact Keeps.pure _
      | exact Keeps.abort _
      | exact Keeps.outOfFuel
      | exact Keeps.TryConsumeToken _
      | exact Keeps.isTokenParen
      | exact Keeps.ExpectAndConsume _ _
      | exact Keeps.ExpectAndConsumeSemi _
      | apply Keeps.bind
      | apply Keeps.ParseScope
      | intro _
      | split)

theorem Keeps.parseContractDefinition_members (env : Env) (self : Fns) (hself : self.Keeps) (fuel : Nat) :
    ∀ (S : List Member) (C F : Option FunctionDecl), Keeps (parseContractDefinition.members env self fuel S C F) := by
  induction fuel with
  | zero =>
    intros
    unfold Soll.parseContractDefinition.members
    exact Keeps.outOfFuel
  | succ fuel ih =>
    intros
    unfold Soll.parseContractDefinition.members
    try dsimp only
    repeat' (with_reducible first
      | exact ih _ _ _
      | exact Keeps.parseFunctionDefinitionOrFunctionTypeStateVariable _ _ hself
      | exact Keeps.parseVariableDeclaration _ _ _ _ hself
      | exact Keeps.parseEventDefinition _ _ hself
      | exact Keeps.addDecl _
      | exact Keeps.EraseFunRtnTys
      | exact Keeps.getTok
      | exact Keeps.getNextToken
      | exact Keeps.ConsumeToken
      | exact Keeps.ConsumeAnyToken
      | exact Keeps.ConsumeParen
      | exact Keeps.ConsumeBracket
      | exact Keeps.ConsumeBrace
      | exact Keeps.ConsumeStringToken
      | exact Keeps.Diag _ _
      | exact Keeps.pure _
      | exact Keeps.abort _
      | exact Keeps.outOfFuel
      | exact Keeps.TryConsumeToken _
      | exact Keeps.isTokenParen
      | exact Keeps.ExpectAndConsume _ _
      | exact Keeps.ExpectAndConsumeSemi _
      | apply Keeps.bind
      | apply Keeps.ParseScope
      | intro _
      | split)

theorem Keeps.readLateParsedDeclarations :
    Keeps (fun s => Res.ok s.LateParsedDeclarations s : P (List LexedMethod)) := by
  apply Keeps.of_same; intro s a s1 h; cases h; rfl

theorem Keeps.clearLateParsedDeclarations :
    Keeps (fun s => Res.ok () { s with LateParsedDeclarations := [] } : P Unit) := by
  apply Keeps.of_same; intro s a s1 h; cases h; rfl

theorem Keeps.parseContractDefinition (env : Env) (self : Fns) (hself : self.Keeps) :
    Keeps (parseContractDefinition env self) := by
  unfold Soll.parseContractDefinition
  try dsimp only
  repeat' (with_reducible first
    | exact Keeps.parseContractKind
    | exact Keeps.parseContractDefinition_bases _ _ hself _ _
    | exact Keeps.parseContractDefinition_members _ _ hself _ _ _ _
    | exact Keeps.addDecl _
    | exact Keeps.late _ hself _ _
    | exact Keeps.readLateParsedDeclarations
    | exact Keeps.clearLateParsedDeclarations
    | exact Keeps.getTok
    | exact Keeps.getNextToken
    | exact Keeps.ConsumeToken
    | exact Keeps.ConsumeAnyToken
    | exact Keeps.ConsumeParen
    | exact Keeps.ConsumeBracket
    | exact Keeps.ConsumeBrace
    | exact Keeps.ConsumeStringToken
    | exact Keeps.Diag _ _
    | exact Keeps.pure _
    | exact Keeps.abort _
    | exact Keeps.outOfFuel
    | exact Keeps.TryConsumeToken _
    | exact Keeps.isTokenParen
    | exact Keeps.ExpectAndConsume _ _
    | exact Keeps.ExpectAndConsumeSemi _
    | apply Keeps.bind
    | apply Keeps.ParseScope
    | intro _
    | split)

theorem Keeps.parse_loop (env : Env) (self : Fns) (hself : self.Keeps) (fuel : Nat) :
    ∀ (Nodes : List Decl), Keeps (parse.loop env self fuel Nodes) := by
  induction fuel with
  | zero =>
    intros
    unfold Soll.parse.loop
    exact Keeps.outOfFuel
  | succ fuel ih =>
    intros
    unfold Soll.parse.loop
    try dsimp only
    repeat' (with_reducible first
      | exact ih _
      | exact Keeps.parsePragmaDirective _
      | exact Keeps.parseContractDefinition _ _ hself
      | exact Keeps.getTok
      | exact Keeps.getNextToken
      | exact Keeps.ConsumeToken
      | exact Keeps.ConsumeAnyToken
      | exact Keeps.ConsumeParen
      | exact Keeps.ConsumeBracket
      | exact Keeps.ConsumeBrace
      | exact Keeps.ConsumeStringToken
      | exact Keeps.Diag _ _
      | exact Keeps.pure _
      | exact Keeps.abort _
      | exact Keeps.outOfFuel
      | exact Keeps.TryConsumeToken _
      | exact Keeps.isTokenParen
      | exact Keeps.ExpectAndConsume _ _
      | exact Keeps.ExpectAndConsumeSemi _
      | apply Keeps.bind
      | apply Keeps.ParseScope
      | intro _
      | split)

theorem Keeps.parse (env : Env) (fuel : Nat) : Keeps (parse env fuel) := by
  unfold Soll.parse
  exact Keeps.ParseScope _ _ (Keeps.bind _ _ (Keeps.parse_loop _ _ (fns_keeps env fuel) _ _)
    (fun _ => Keeps.pure _))

/-- C28: every production that opens a scope returns with the scope stack at the depth
it was entered with, on every input and whichever way it returns: `parse`,
`parseContractDefinition`, `parseFunctionDefinitionOrFunctionTypeStateVariable`,
`ParseLexedMethodDef`, `parseBlock`, `parseWhileStatement`, `parseDoWhileStatement`
and `parseForStatement`. -/
theorem scope_depth_restored (env : Env) (n : Nat) :
    (∀ fuel s a s1, parse env fuel s = .ok a s1 → s1.Scopes.length = s.Scopes.length) ∧
    (∀ s a s1, parseContractDefinition env (fns env n) s = .ok a s1 →
      s1.Scopes.length = s.Scopes.length) ∧
    (∀ s a s1, parseFunctionDefinitionOrFunctionTypeStateVariable env (fns env n) s = .ok a s1 →
      s1.Scopes.length = s.Scopes.length) ∧
    (∀ LM s a s1, ParseLexedMethodDef (fns env n) LM s = .ok a s1 →
      s1.Scopes.length = s.Scopes.length) ∧
    (∀ s a s1, parseBlock (fns env n) s = .ok a s1 → s1.Scopes.length = s.Scopes.length) ∧
    (∀ s a s1, parseWhileStatement env (fns env n) s = .ok a s1 →
      s1.Scopes.length = s.Scopes.length) ∧
    (∀ s a s1, parseDoWhileStatement env (fns env n) s = .ok a s1 →
      s1.Scopes.length = s.Scopes.length) ∧
    (∀ s a s1, parseForStatement env (fns env n) s = .ok a s1 →
      s1.Scopes.length = s.Scopes.length) := by
  have hself := fns_keeps env n
  exact ⟨fun fuel s a s1 h => ((Keeps.parse env fuel).out s a s1 h).length.symm,
    fun s a s1 h => ((Keeps.parseContractDefinition env _ hself).out s a s1 h).length.symm,
    fun s a s1 h =>
      ((Keeps.parseFunctionDefinitionOrFunctionTypeStateVariable env _ hself).out s a s1
        h).length.symm,
    fun LM s a s1 h => ((Keeps.ParseLexedMethodDef _ LM hself).out s a s1 h).length.symm,
    fun s a s1 h => ((Keeps.parseBlock _ hself).out s a s1 h).length.symm,
    fun s a s1 h => ((Keeps.parseWhileStatement env _ hself).out s a s1 h).length.symm,
    fun s a s1 h => ((Keeps.parseDoWhileStatement env _ hself).out s a s1 h).length.symm,
    fun s a s1 h => ((Keeps.parseForStatement env _ hself).out s a s1 h).length.symm⟩

/-- Witness of C28: the block `{ a; }` and the early return of `while (`, entered with
one scope on the stack. -/
theorem scope_depth_restored_witness :
    parseBlock (fns specEnv 4)
        ⟨punct .l_brace, [operand "a", punct .semi, punct .r_brace], [⟨[], ["a"]⟩], [], [], [],
          0⟩ =
      .ok (.Block [.expr (.Identifier "a" true)])
        ⟨Token.eofTok, [], [⟨[], ["a"]⟩], [], [], [], 0⟩ ∧
    (⟨Token.eofTok, [], [⟨[], ["a"]⟩], [], [], [], 0⟩ : Parser).Scopes.length =
      (⟨punct .l_brace, [operand "a", punct .semi, punct .r_brace], [⟨[], ["a"]⟩], [], [], [],
        0⟩ : Parser).Scopes.length ∧
    parseWhileStatement specEnv (fns specEnv 4)
        ⟨⟨.kw_while, "while"⟩, [punct .l_paren, operand "a"], [⟨[], ["a"]⟩], [], [], [], 0⟩ =
      .ok .null ⟨punct .l_paren, [operand "a"], [⟨[], ["a"]⟩], [],
        [⟨.err_expected, [.l_brace]⟩], [], 0⟩ ∧
    (⟨punct .l_paren, [operand "a"], [⟨[], ["a"]⟩], [], [⟨.err_expected, [.l_brace]⟩], [],
        0⟩ : Parser).Scopes.length =
      (⟨⟨.kw_while, "while"⟩, [punct .l_paren, operand "a"], [⟨[], ["a"]⟩], [], [], [],
        0⟩ : Parser).Scopes.length :=
  ⟨by rfl, (scope_depth_restored specEnv 4).2.2.2.2.1 _ _ _ (by rfl), by rfl,
    (scope_depth_restored specEnv 4).2.2.2.2.2.1 _ _ _ (by rfl)⟩

/-! ## Numeric literals -/

theorem charVal_of_digitOf (c : Char) (d : Nat) (h : digitOf c = some d) :
    getAsInteger.charVal c = some d ∧ d < 16 := by
  unfold digitOf at h
  unfold getAsInteger.charVal
  by_cases h1 : 48 ≤ c.toNat ∧ c.toNat ≤ 57
  · rw [if_pos h1] at h
    rw [if_pos h1]
    cases h
    exact ⟨rfl, by omega⟩
  · rw [if_neg h1] at h
    rw [if_neg h1]
    by_cases h2 : 97 ≤ c.toNat ∧ c.toNat ≤ 102
    · rw [if_pos h2] at h
      rw [if_pos ⟨h2.1, by omega⟩]
      cases h
      exact ⟨by congr 1; omega, by omega⟩
    · rw [if_neg h2] at h
      by_cases h3 : 65 ≤ c.toNat ∧ c.toNat ≤ 70
      · rw [if_pos h3] at h
        rw [if_neg (by omega), if_pos ⟨h3.1, by omega⟩]
        cases h
        exact ⟨by congr 1; omega, by omega⟩
      · rw [if_neg h3] at h
        cases h

/-- A character that is a digit below ten is a decimal digit character. -/
theorem digitOf_lt_ten (c : Char) (d : Nat) (h : digitOf c = some d) (hd : d < 10) :
    48 ≤ c.toNat ∧ c.toNat ≤ 57 := by
  unfold digitOf at h
  by_cases h1 : 48 ≤ c.toNat ∧ c.toNat ≤ 57
  · exact h1
  · rw [if_neg h1] at h
    by_cases h2 : 97 ≤ c.toNat ∧ c.toNat ≤ 102
    · rw [if_pos h2] at h
      cases h
      omega
    · rw [if_neg h2] at h
      by_cases h3 : 65 ≤ c.toNat ∧ c.toNat ≤ 70
      · rw [if_pos h3] at h
        cases h
        omega
      · rw [if_neg h3] at h
        cases h

theorem digitsValue_ge (R : Nat) (hR : 1 ≤ R) : ∀ (ds : List Char) (acc v : Nat),
    digitsValue R ds acc = some v → acc ≤ v
  | [], acc, v, h => by
    unfold digitsValue at h
    cases h
    exact Nat.le_refl _
  | c :: r, acc, v, h => by
    unfold digitsValue at h
    cases hc : digitOf c with
    | none => rw [hc] at h; cases h
    | some d =>
      rw [hc] at h
      by_cases hd : d < R
      · simp only [hd, if_true] at h
        have := digitsValue_ge R hR r _ v h
        have h2 : acc * 1 ≤ acc * R := Nat.mul_le_mul_left acc hR
        omega
      · simp only [hd, if_false] at h
        cases h

/-- The digit loop on a string of digits of the base: it reads all of them and
returns their value, unless the value does not fit 64 bits. -/
theorem digitLoop_digits (R : Nat) (hR : 1 ≤ R) : ∀ (ds : List Char) (acc v : Nat),
    acc < 2 ^ 64 → digitsValue R ds acc = some v →
      getAsInteger.digitLoop R ds acc = if v < 2 ^ 64 then some (v, []) else none
  | [], acc, v, hacc, h => by
    unfold digitsValue at h
    cases h
    unfold getAsInteger.digitLoop
    rw [if_pos hacc]
  | c :: r, acc, v, hacc, h => by
    unfold digitsValue at h
    cases hc : digitOf c with
    | none => rw [hc] at h; cases h
    | some d =>
      rw [hc] at h
      by_cases hd : d < R
      · simp only [hd, if_true] at h
        have hge := digitsValue_ge R hR r _ v h
        unfold getAsInteger.digitLoop
        simp only [(charVal_of_digitOf c d hc).1, ge_iff_le, Nat.not_le.mpr hd, if_false]
        by_cases hov : acc * R + d < 2 ^ 64
        · have hmod : (acc * R + d) % 2 ^ 64 = acc * R + d := Nat.mod_eq_of_lt hov
          have hdiv : (acc * R + d) / R = acc := by
            rw [Nat.mul_comm, Nat.mul_add_div (by omega), Nat.div_eq_of_lt hd, Nat.add_zero]
          rw [hmod, hdiv, if_neg (Nat.lt_irrefl _)]
          exact digitLoop_digits R hR r _ v hov h
        · have hlt : (acc * R + d) % 2 ^ 64 / R < acc := by
            rw [Nat.div_lt_iff_lt_mul (by omega)]
            have hm := Nat.mod_add_div (acc * R + d) (2 ^ 64)
            have hq : 1 ≤ (acc * R + d) / 2 ^ 64 := by
              rw [Nat.le_div_iff_mul_le (by norm_num)]
              omega
            have hd64 : d < 2 ^ 64 := by
              have := (charVal_of_digitOf c d hc).2
              omega
            have hq2 : 2 ^ 64 * 1 ≤ 2 ^ 64 * ((acc * R + d) / 2 ^ 64) :=
              Nat.mul_le_mul_left _ hq
            omega
          rw [if_pos hlt, if_neg (by omega)]
      · simp only [hd, if_false] at h
        cases h

theorem consumeUnsigned_of_autoSense (Str ds : List Char) (R v : Nat) (hR : 1 ≤ R)
    (hsense : getAsInteger.autoSenseRadix Str = (R, ds)) (hds : ds ≠ [])
    (hv : digitsValue R ds 0 = some v) :
    getAsInteger.consumeUnsigned Str = if v < 2 ^ 64 then some (v, []) else none := by
  unfold getAsInteger.consumeUnsigned
  rw [hsense]
  have hemp : ds.isEmpty = false := by
    cases ds with
    | nil => exact absurd rfl hds
    | cons c r => rfl
  have hlen : ([] : List Char).length ≠ ds.length := by
    cases ds with
    | nil => exact absurd rfl hds
    | cons c r => simp only [List.length_nil, List.length_cons]; omega
  simp only [hemp, Bool.false_eq_true, if_false, digitLoop_digits R hR ds 0 v (by norm_num) hv]
  by_cases h64 : v < 2 ^ 64
  · simp only [h64, if_true, hlen, if_false]
  · simp only [h64, if_false]

theorem isDigit_of_toNat (c : Char) (h : 48 ≤ c.toNat ∧ c.toNat ≤ 57) : c.isDigit = true := by
  unfold Char.isDigit
  simp only [Bool.and_eq_true, decide_eq_true_eq, UInt32.le_def, Fin.le_def]
  exact h

theorem autoSenseRadix_octal (d : Char) (ds : List Char) (hd : 48 ≤ d.toNat ∧ d.toNat ≤ 57) :
    getAsInteger.autoSenseRadix ('0' :: d :: ds) = (8, d :: ds) := by
  have hx : d ≠ 'x' := by
    intro h; rw [h] at hd; exact absurd hd (by decide)
  have hX : d ≠ 'X' := by
    intro h; rw [h] at hd; exact absurd hd (by decide)
  have hb : d ≠ 'b' := by
    intro h; rw [h] at hd; exact absurd hd (by decide)
  have hB : d ≠ 'B' := by
    intro h; rw [h] at hd; exact absurd hd (by decide)
  have ho : d ≠ 'o' := by
    intro h; rw [h] at hd; exact absurd hd (by decide)
  unfold getAsInteger.autoSenseRadix
  split
  · rename_i heq
    exact absurd (List.cons.inj (List.cons.inj heq).2).1 hx
  · rename_i heq
    exact absurd (List.cons.inj (List.cons.inj heq).2).1 hX
  · rename_i heq
    exact absurd (List.cons.inj (List.cons.inj heq).2).1 hb
  · rename_i heq
    exact absurd (List.cons.inj (List.cons.inj heq).2).1 hB
  · rename_i heq
    exact absurd (List.cons.inj (List.cons.inj heq).2).1 ho
  · rename_i c r _ _ _ _ _ heq
    have h1 := List.cons.inj (List.cons.inj heq).2
    rw [← h1.1, ← h1.2, isDigit_of_toNat d hd, if_pos rfl]
  · rename_i hno
    exact absurd rfl (hno d ds)

theorem autoSenseRadix_decimal (c : Char) (r : List Char) (h : c ≠ '0' ∨ r = []) :
    getAsInteger.autoSenseRadix (c :: r) = (10, c :: r) := by
  have key : ∀ (a b : Char) (t : List Char), c :: r = a :: b :: t → a ≠ '0' := by
    intro a b t heq ha
    rcases h with h | h
    · exact h ((List.cons.inj heq).1.trans ha)
    · rw [h] at heq
      exact absurd (List.cons.inj heq).2 (by intro h2; cases h2)
  unfold getAsInteger.autoSenseRadix
  split
  · rename_i heq
    exact absurd rfl (key _ _ _ heq)
  · rename_i heq
    exact absurd rfl (key _ _ _ heq)
  · rename_i heq
    exact absurd rfl (key _ _ _ heq)
  · rename_i heq
    exact absurd rfl (key _ _ _ heq)
  · rename_i heq
    exact absurd rfl (key _ _ _ heq)
  · rename_i heq
    exact absurd rfl (key _ _ _ heq)
  · rfl

theorem digitsValue_head (R : Nat) (c : Char) (r : List Char) (acc v : Nat)
    (h : digitsValue R (c :: r) acc = some v) : ∃ d, digitOf c = some d ∧ d < R := by
  unfold digitsValue at h
  cases hc : digitOf c with
  | none => rw [hc] at h; cases h
  | some d =>
    rw [hc] at h
    by_cases hd : d < R
    · exact ⟨d, rfl, hd⟩
    · simp only [hd, if_false] at h
      cases h

/-- What `GetAutoSenseRadix` makes of a lexeme that denotes a value: the base of the
prefix and the digits after it. -/
theorem autoSenseRadix_of_lexemeValue (l : List Char) (v : Nat) (h : lexemeValue l = some v) :
    ∃ R ds, getAsInteger.autoSenseRadix l = (R, ds) ∧ 1 ≤ R ∧ ds ≠ [] ∧
      digitsValue R ds 0 = some v ∧ ∀ r, l ≠ '-' :: r := by
  unfold lexemeValue at h
  split at h
  · rename_i ds
    cases ds with
    | nil => cases h
    | cons c r =>
      exact ⟨16, c :: r, rfl, by norm_num, List.cons_ne_nil _ _, h, fun _ h2 => nomatch h2⟩
  · rename_i ds
    cases ds with
    | nil => cases h
    | cons c r =>
      exact ⟨2, c :: r, rfl, by norm_num, List.cons_ne_nil _ _, h, fun _ h2 => nomatch h2⟩
  · rename_i d ds _ _
    obtain ⟨k, hk, hk8⟩ := digitsValue_head 8 d ds 0 v h
    exact ⟨8, d :: ds, autoSenseRadix_octal d ds (digitOf_lt_ten d k hk (by omega)),
      by norm_num, List.cons_ne_nil _ _, h, fun _ h2 => nomatch h2⟩
  · rename_i hx hb ho
    cases l with
    | nil => cases h
    | cons c r =>
      simp only [List.isEmpty_cons, Bool.false_eq_true, if_false] at h
      obtain ⟨k, hk, hk10⟩ := digitsValue_head 10 c r 0 v h
      have hc := digitOf_lt_ten c k hk hk10
      refine ⟨10, c :: r, autoSenseRadix_decimal c r ?_, by norm_num, List.cons_ne_nil _ _, h,
        ?_⟩
      · by_cases hc0 : c = '0'
        · right
          cases r with
          | nil => rfl
          | cons e t =>
            rw [hc0] at ho
            exact absurd rfl (ho e t)
        · exact Or.inl hc0
      · intro t h2
        rw [(List.cons.inj h2).1] at hc
        exact absurd hc (by decide)

/-- The conversion of a lexeme that denotes `v`: the value if it fits `int`, failure
otherwise. -/
theorem getAsInteger_of_lexemeValue (lexeme : String) (v : Nat)
    (h : lexemeValue lexeme.toList = some v) :
    getAsInteger lexeme = if v ≤ 2 ^ 31 - 1 then some (v : Int) else none := by
  obtain ⟨R, ds, hsense, hR, hds, hv, hminus⟩ := autoSenseRadix_of_lexemeValue _ v h
  have hcons := consumeUnsigned_of_autoSense _ ds R v hR hsense hds hv
  unfold getAsInteger
  split
  · rename_i r heq
    exact absurd heq (hminus r)
  · rw [hcons]
    by_cases h31 : v ≤ 2 ^ 31 - 1
    · have h64 : v < 2 ^ 64 := by omega
      have h63 : v < 2 ^ 63 := by omega
      have hfit : -(2 ^ 31 : Int) ≤ (v : Int) ∧ (v : Int) < 2 ^ 31 := by
        constructor <;> omega
      simp only [h64, if_true, h63, hfit, and_self, h31]
    · by_cases h64 : v < 2 ^ 64
      · by_cases h63 : v < 2 ^ 63
        · have hfit : ¬ (-(2 ^ 31 : Int) ≤ (v : Int) ∧ (v : Int) < 2 ^ 31) := by
            intro hf
            omega
          simp only [h64, if_true, h63, hfit, if_false, h31]
        · simp only [h64, if_true, h63, if_false, h31]
      · simp only [h64, if_false, h31]

/-- C29: for a `numeric_constant` token whose lexeme denotes the value `v` under the
base its prefix determines (`0x` hexadecimal, `0b` binary, a leading `0` octal,
otherwise decimal): if `v ≤ 2^31 - 1`, `parsePrimaryExpression` returns
`NumberLiteral v` and consumes the token; if `v` exceeds `2^31 - 1`, the assertion
`invalid numeric constant` fails, and no literal is returned. -/
theorem parsePrimaryExpression_numeric (self : Fns) (s : Parser) (lexeme : String) (v : Nat)
    (ts : List Token) (h : lexemeValue lexeme.toList = some v) :
    parsePrimaryExpression self (s.setStream (⟨.numeric_constant, lexeme⟩ :: ts)) =
      if v ≤ 2 ^ 31 - 1 then .ok (.NumberLiteral (v : Int)) (s.setStream ts)
      else .abort "invalid numeric constant" := by
  have hconv := getAsInteger_of_lexemeValue lexeme v h
  have hel : (⟨.numeric_constant, lexeme⟩ : Token).isElementaryTypeName = false := rfl
  unfold parsePrimaryExpression
  simp only [bind_apply, getTok_apply, getNextToken_apply, Res.bind_ok, setStream_cons_Tok, hel,
    Bool.false_and, Bool.false_eq_true, if_false, hconv]
  by_cases h31 : v ≤ 2 ^ 31 - 1
  · simp only [h31, if_true, bind_apply, ConsumeToken_apply, Res.bind_ok, CachedLex_setStream,
      pure_apply]
  · simp only [h31, if_false, abort_apply]

/-- Witness of C29: `0x7fffffff` is read as `2147483647`, and `2147483648` is
refused. -/
theorem parsePrimaryExpression_numeric_witness :
    parsePrimaryExpression (fns specEnv 1)
        ((Parser.init []).setStream (⟨.numeric_constant, "0x7fffffff"⟩ :: [punct .semi])) =
      .ok (.NumberLiteral 2147483647) ((Parser.init []).setStream [punct .semi]) ∧
    parsePrimaryExpression (fns specEnv 1)
        ((Parser.init []).setStream (⟨.numeric_constant, "2147483648"⟩ :: [punct .semi])) =
      .abort "invalid numeric constant" :=
  ⟨(parsePrimaryExpression_numeric (fns specEnv 1) (Parser.init []) "0x7fffffff" 2147483647
      [punct .semi] (by rfl)).trans (if_pos (by decide)),
    (parsePrimaryExpression_numeric (fns specEnv 1) (Parser.init []) "2147483648" 2147483648
      [punct .semi] (by rfl)).trans (if_neg (by decide))⟩

/-! ## The end of a statement -/

/-- C31: `ExpectAndConsumeSemi` on `;` consumes it and returns false without a
diagnostic; on `)` or `]` followed by `;` it reports
`err_extraneous_token_before_semi`, consumes exactly these two tokens and returns
false; in every other case it returns true, reports the diagnostic it was called
with (for `err_expected`, with `;` as the expected token) and consumes no token. -/
theorem ExpectAndConsumeSemi_cases (d : diag) (s : Parser) :
    (∀ (st : String) (ts : List Token),
      ExpectAndConsumeSemi d (s.setStream (⟨.semi, st⟩ :: ts)) = .ok false (s.setStream ts) ∧
        (s.setStream ts).Diags = s.Diags) ∧
    (∀ (k : tok) (kt st : String) (ts : List Token), k = .r_paren ∨ k = .r_square →
      ExpectAndConsumeSemi d (s.setStream (⟨k, kt⟩ :: ⟨.semi, st⟩ :: ts)) =
        .ok false { s.setStream ts with
          Diags := s.Diags ++ [⟨.err_extraneous_token_before_semi, []⟩] }) ∧
    (s.Tok.Kind ≠ .semi →
      ¬ ((s.Tok.Kind = .r_paren ∨ s.Tok.Kind = .r_square) ∧ (NextToken s).Kind = .semi) →
      ExpectAndConsumeSemi d s =
        .ok true { s with Diags := s.Diags ++
          [⟨d, if d = .err_expected ∨ d = .err_expected_after then [.semi] else []⟩] }) := by
  refine ⟨?_, ?_, ?_⟩
  · intro st ts
    constructor
    · unfold ExpectAndConsumeSemi
      simp only [bind_apply, TryConsumeToken_apply, setStream_cons_Tok, if_true, Res.bind_ok,
        CachedLex_setStream, pure_apply]
    · cases ts <;> rfl
  · intro k kt st ts hk
    have hsemi : k ≠ .semi := by
      rcases hk with h | h <;> rw [h] <;> intro h2 <;> cases h2
    have hcond : (((⟨k, kt⟩ : Token).is .r_paren || (⟨k, kt⟩ : Token).is .r_square) &&
        (⟨.semi, st⟩ : Token).is .semi) = true := by
      rcases hk with h | h <;> rw [h] <;> rfl
    unfold ExpectAndConsumeSemi
    simp only [bind_apply, TryConsumeToken_apply, setStream_cons_Tok, hsemi, if_false,
      Res.bind_ok, getTok_apply, getNextToken_apply, NextToken_setStream, List.headD_cons,
      hcond, if_true, Bool.false_eq_true, Diag, ConsumeAnyToken_apply, ConsumeToken_apply,
      pure_apply]
    cases ts <;> rfl
  · intro hsemi hnot
    have hcond : ((s.Tok.is .r_paren || s.Tok.is .r_square) && (NextToken s).is .semi) =
        false := by
      unfold Token.is
      by_cases h1 : s.Tok.Kind = .r_paren ∨ s.Tok.Kind = .r_square
      · have h2 : (NextToken s).Kind ≠ .semi := fun h => hnot ⟨h1, h⟩
        simp only [h2, decide_False, Bool.and_false]
      · rw [not_or] at h1
        simp only [h1.1, h1.2, decide_False, Bool.or_self, Bool.false_and]
    have his : s.Tok.is .semi = false := by
      unfold Token.is
      exact decide_eq_false hsemi
    unfold ExpectAndConsumeSemi ExpectAndConsume
    simp only [bind_apply, TryConsumeToken_apply, hsemi, if_false, Res.bind_ok, getTok_apply,
      getNextToken_apply, hcond, his, Bool.false_eq_true]
    by_cases hd1 : d = .err_expected
    · subst hd1
      simp only [true_or, if_true, bind_apply, Diag, Res.bind_ok, pure_apply]
    · by_cases hd2 : d = .err_expected_after
      · subst hd2
        simp only [reduceCtorEq, if_false, or_true, if_true, bind_apply, Diag, Res.bind_ok,
          pure_apply]
      · simp only [hd1, hd2, if_false, or_self, bind_apply, Diag, Res.bind_ok, pure_apply]

/-- Witness of C31: `) ;` is recovered from, and on an identifier the call fails. -/
theorem ExpectAndConsumeSemi_cases_witness :
    ExpectAndConsumeSemi .err_expected
        ((Parser.init []).setStream (⟨.r_paren, ")"⟩ :: ⟨.semi, ";"⟩ :: [operand "a"])) =
      .ok false { (Parser.init []).setStream [operand "a"] with
        Diags := (Parser.init []).Diags ++ [⟨.err_extraneous_token_before_semi, []⟩] } ∧
    ExpectAndConsumeSemi .err_expected (Parser.init [operand "a"]) =
      .ok true { Parser.init [operand "a"] with
        Diags := (Parser.init [operand "a"]).Diags ++
          [⟨.err_expected,
            if diag.err_expected = .err_expected ∨ diag.err_expected = .err_expected_after
            then [.semi] else []⟩] } :=
  ⟨(ExpectAndConsumeSemi_cases .err_expected (Parser.init [])).2.1 .r_paren ")" ";"
      [operand "a"] (Or.inl rfl),
    (ExpectAndConsumeSemi_cases .err_expected (Parser.init [operand "a"])).2.2 (by decide)
      (by decide)⟩

/-! ## The buffer of the `\u` branch -/

theorem stringUnquote_BytesToWrite_range (UcnVal : Nat) :
    stringUnquote.BytesToWrite UcnVal = 1 ∨ stringUnquote.BytesToWrite UcnVal = 2 ∨
      stringUnquote.BytesToWrite UcnVal = 3 ∨ stringUnquote.BytesToWrite UcnVal = 4 := by
  unfold stringUnquote.BytesToWrite
  by_cases h1 : UcnVal < 0x80
  · rw [if_pos h1]; exact Or.inl rfl
  · rw [if_neg h1]
    by_cases h2 : UcnVal < 0x800
    · rw [if_pos h2]; exact Or.inr (Or.inl rfl)
    · rw [if_neg h2]
      by_cases h3 : UcnVal < 0x10000
      · rw [if_pos h3]; exact Or.inr (Or.inr (Or.inl rfl))
      · rw [if_neg h3]; exact Or.inr (Or.inr (Or.inr rfl))

/-- C33, what the code does on the failing input: `ResultBuf` starts at `&Buffer[5]`,
so for every code-point value the first store `*--ResultBuf` of the `\u` branch of
`stringUnquote` goes to index 4, outside the array `Buffer` of 4 elements (indices 0
to 3); for the code point `0x41` it is the only store. -/
theorem stringUnquote_stores_outside_buffer :
    (∀ UcnVal : Nat, ∃ b, (stringUnquote.stores UcnVal).head? = some (4, b)) ∧
    stringUnquote.stores 0x41 = [(4, 0x41)] := by
  refine ⟨?_, by rfl⟩
  intro UcnVal
  unfold stringUnquote.stores
  rcases stringUnquote_BytesToWrite_range UcnVal with h | h | h | h <;>
    simp only [h] <;> exact ⟨_, rfl⟩

/-! ## String literals without escapes -/

theorem stringUnquote_plainRun_end (Quoted : List Nat) (TokEnd : Nat)
    (hlen : TokEnd < Quoted.length) :
    ∀ (fuel TokBuf : Nat), TokBuf < TokEnd → TokEnd - TokBuf ≤ fuel →
      (∀ i, TokBuf < i → i < TokEnd → Quoted.getD i 0 ≠ 92) →
      stringUnquote.plainRun Quoted TokEnd fuel TokBuf = .ok TokEnd := by
  intro fuel
  induction fuel with
  | zero =>
    intro TokBuf hlt hfuel _
    omega
  | succ f ih =>
    intro TokBuf hlt hfuel hplain
    unfold stringUnquote.plainRun
    by_cases hend : TokBuf + 1 = TokEnd
    · simp only [hend, if_true]
    · have hread : readChar Quoted (TokBuf + 1) = some (Quoted.getD (TokBuf + 1) 0) := by
        unfold readChar
        rw [if_pos (by omega)]
      have hc : Quoted.getD (TokBuf + 1) 0 ≠ 92 := hplain _ (by omega) (by omega)
      simp only [hend, if_false, hread, hc, ne_eq, not_false_eq_true, if_true]
      exact ih (TokBuf + 1) (by omega) (by omega) (fun i h1 h2 => hplain i (by omega) h2)

theorem stringUnquote_loop_end (Quoted : List Nat) (TokEnd f : Nat) (Result : List Nat) :
    stringUnquote.loop Quoted TokEnd (f + 1) TokEnd Result = .ok Result := by
  unfold stringUnquote.loop
  simp only [if_true]

theorem stringUnquote_loop_plain (Quoted : List Nat) (TokEnd f TokBuf Stop : Nat)
    (Result : List Nat) (hne : TokBuf ≠ TokEnd) (hlen : TokBuf < Quoted.length)
    (hc : Quoted.getD TokBuf 0 ≠ 92)
    (hrun : stringUnquote.plainRun Quoted TokEnd (Quoted.length + 2) TokBuf = .ok Stop) :
    stringUnquote.loop Quoted TokEnd (f + 1) TokBuf Result =
      stringUnquote.loop Quoted TokEnd f Stop
        (Result ++ (Quoted.drop TokBuf).take (Stop - TokBuf)) := by
  have hread : readChar Quoted TokBuf = some (Quoted.getD TokBuf 0) := by
    unfold readChar
    rw [if_pos hlen]
  conv => lhs; unfold stringUnquote.loop
  simp only [hne, if_false, hread, hc, ne_eq, not_false_eq_true, if_true, hrun]

theorem stringUnquote_escape_free (q : Nat) (str : List Nat) (hq : q = 34 ∨ q = 39)
    (hplain : ∀ c ∈ str, c ≠ 92) : stringUnquote (q :: (str ++ [q])) = .ok str := by
  have hlen : (q :: (str ++ [q])).length = str.length + 2 := by
    simp only [List.length_cons, List.length_append, List.length_nil]
  have hlast : (q :: (str ++ [q])).getD (str.length + 1) 0 = q := by
    rw [List.getD_cons_succ, List.getD_append_right _ _ _ _ (Nat.le_refl _), Nat.sub_self,
      List.getD_cons_zero]
  have hmid : ∀ i, 0 < i → i < str.length + 1 → (q :: (str ++ [q])).getD i 0 ≠ 92 := by
    intro i h0 h1
    obtain ⟨j, rfl⟩ : ∃ j, i = j + 1 := ⟨i - 1, by omega⟩
    have hj : j < str.length := by omega
    rw [List.getD_cons_succ, List.getD_append _ _ _ _ hj, List.getD_eq_getElem _ _ hj]
    exact hplain _ (List.getElem_mem _)
  unfold stringUnquote
  simp only [hlen, show ¬ (str.length + 2 < 2) from by omega, if_false, List.getD_cons_zero, hq,
    not_true_eq_false, show str.length + 2 - 1 = str.length + 1 from by omega, hlast, ne_eq]
  cases hstr : str with
  | nil =>
    simp only [List.length_nil, Nat.zero_add]
    exact stringUnquote_loop_end _ 1 _ []
  | cons c r =>
    rw [← hstr]
    have hpos : 0 < str.length := by rw [hstr]; exact Nat.succ_pos _
    have hrun := stringUnquote_plainRun_end (q :: (str ++ [q])) (str.length + 1)
      (by rw [hlen]; omega) ((q :: (str ++ [q])).length + 2) 1 (by omega) (by rw [hlen]; omega)
      (fun i h1 h2 => hmid i (by omega) h2)
    rw [show str.length + 2 + 2 = (str.length + 2) + 1 + 1 from rfl,
      stringUnquote_loop_plain _ _ _ 1 (str.length + 1) [] (by omega) (by rw [hlen]; omega)
        (hmid 1 (by omega) (by omega)) hrun,
      stringUnquote_loop_end]
    simp only [List.nil_append, List.drop_succ_cons, List.drop_zero, Nat.add_sub_cancel,
      List.take_left']

/-- C34: for either quote character `q` and every string `str` without a backslash,
`stringUnquote` on `q str q` returns `str`: on a literal without escapes, unquoting
removes the two delimiters (an occurrence of the delimiter inside `str` makes no
difference, the end of the literal being found by its length). -/
theorem stringUnquote_without_escapes (q : Nat) (str : List Nat) (hq : q = 34 ∨ q = 39)
    (hplain : ∀ c ∈ str, c ≠ 92) : stringUnquote (q :: (str ++ [q])) = .ok str :=
  stringUnquote_escape_free q str hq hplain

/-- Witness of C34: the literal `'ab'` and the empty literal `""`. -/
theorem stringUnquote_without_escapes_witness :
    stringUnquote (39 :: ([97, 98] ++ [39])) = .ok [97, 98] ∧
    stringUnquote (34 :: ([] ++ [34])) = .ok [] :=
  ⟨stringUnquote_without_escapes 39 [97, 98] (Or.inr rfl) (by decide),
    stringUnquote_without_escapes 34 [] (Or.inl rfl) (by decide)⟩

/-! ## Token conservation in `ConsumeAndStoreUntil` -/

theorem Parser.consumes_append (a b : List Token) :
    ∀ (s s2 s1 : Parser), s.consumes a s2 → s2.consumes b s1 → s.consumes (a ++ b) s1 := by
  induction a with
  | nil =>
    intro s s2 s1 h1 h2
    unfold Parser.consumes at h1
    rw [h1] at h2
    exact h2
  | cons t a ih =>
    intro s s2 s1 h1 h2
    unfold Parser.consumes at h1
    rw [List.cons_append]
    unfold Parser.consumes
    exact ⟨h1.1, ih _ _ _ h1.2 h2⟩

theorem Parser.consumes_one (s : Parser) : s.consumes [s.Tok] (CachedLex s) := by
  unfold Parser.consumes
  refine ⟨rfl, ?_⟩
  unfold Parser.consumes
  rfl

/-- The buffer `ConsumeAndStoreUntil` returns is the buffer it was given followed by
the tokens it consumed; none of them is `eof` unless `eof` is a kind to stop at. -/
theorem ConsumeAndStoreUntil_conserves :
    ∀ (fuel : Nat) (T1 T2 : tok) (Toks : List Token) (s : Parser) (found : Bool)
      (r : List Token) (s1 : Parser),
      ConsumeAndStoreUntil fuel T1 T2 Toks s = .ok (found, r) s1 →
      ∃ c, r = Toks ++ c ∧ s.consumes c s1 ∧
        (T1 ≠ .eof → T2 ≠ .eof → ∀ t ∈ c, t.Kind ≠ .eof) := by
  intro fuel
  induction fuel with
  | zero =>
    intro T1 T2 Toks s found r s1 h
    exact absurd h (by unfold ConsumeAndStoreUntil; simp only [outOfFuel_apply, reduceCtorEq,
      not_false_eq_true])
  | succ f ih =>
    intro T1 T2 Toks s found r s1 h
    have hstep : s.Tok.Kind ≠ .eof →
        ConsumeAndStoreUntil f T1 T2 (Toks ++ [s.Tok]) (CachedLex s) = .ok (found, r) s1 →
        ∃ c, r = Toks ++ c ∧ s.consumes c s1 ∧
          (T1 ≠ .eof → T2 ≠ .eof → ∀ t ∈ c, t.Kind ≠ .eof) := by
      intro hk hx
      obtain ⟨c, hc1, hc2, hc3⟩ := ih T1 T2 _ _ found r s1 hx
      refine ⟨s.Tok :: c, ?_, ?_, ?_⟩
      · rw [hc1, List.append_assoc, List.singleton_append]
      · exact Parser.consumes_append [s.Tok] c s _ s1 (Parser.consumes_one s) hc2
      · intro h1 h2 t ht
        rcases List.mem_cons.mp ht with h3 | h3
        · rw [h3]; exact hk
        · exact hc3 h1 h2 t h3
    have hnest : ∀ (c : tok), c ≠ .eof → s.Tok.Kind ≠ .eof →
        ((ConsumeAndStoreUntil f c c (Toks ++ [s.Tok]) (CachedLex s)).bind fun x s2 =>
          ConsumeAndStoreUntil f T1 T2 x.2 s2) = .ok (found, r) s1 →
        ∃ c, r = Toks ++ c ∧ s.consumes c s1 ∧
          (T1 ≠ .eof → T2 ≠ .eof → ∀ t ∈ c, t.Kind ≠ .eof) := by
      intro c hceof hk hx
      cases hn : ConsumeAndStoreUntil f c c (Toks ++ [s.Tok]) (CachedLex s) with
      | ok x s2 =>
        rw [hn, Res.bind_ok] at hx
        obtain ⟨c1, ha1, ha2, ha3⟩ := ih c c _ _ x.1 x.2 s2 hn
        obtain ⟨c2, hb1, hb2, hb3⟩ := ih T1 T2 _ _ found r s1 hx
        refine ⟨s.Tok :: (c1 ++ c2), ?_, ?_, ?_⟩
        · rw [hb1, ha1]
          simp only [List.append_assoc, List.singleton_append, List.cons_append, List.nil_append]
        · exact Parser.consumes_append [s.Tok] (c1 ++ c2) s _ s1 (Parser.consumes_one s)
            (Parser.consumes_append c1 c2 _ s2 s1 ha2 hb2)
        · intro h1 h2 t ht
          rcases List.mem_cons.mp ht with h3 | h3
          · rw [h3]; exact hk
          · rcases List.mem_append.mp h3 with h4 | h4
            · exact ha3 hceof hceof t h4
            · exact hb3 h1 h2 t h4
      | abort m => rw [hn, Res.bind_abort] at hx; exact absurd hx (by simp only [reduceCtorEq,
          not_false_eq_true])
      | outOfFuel => rw [hn, Res.bind_outOfFuel] at hx; exact absurd hx (by
          simp only [reduceCtorEq, not_false_eq_true])
    unfold ConsumeAndStoreUntil at h
    simp only [bind_apply, getTok_apply, Res.bind_ok] at h
    split at h
    · rename_i hT
      simp only [bind_apply, ConsumeAnyToken_apply, Res.bind_ok, pure_apply, Res.ok.injEq,
        Prod.mk.injEq] at h
      obtain ⟨⟨_, hr⟩, hs⟩ := h
      refine ⟨[s.Tok], hr.symm, ?_, ?_⟩
      · rw [← hs]; exact Parser.consumes_one s
      · intro h1 h2 t ht
        rw [List.mem_singleton.mp ht]
        intro hk
        simp only [Token.is, hk, Bool.or_eq_true, decide_eq_true_eq] at hT
        rcases hT with h3 | h3
        · exact h1 h3.symm
        · exact h2 h3.symm
    · split at h
      · simp only [pure_apply, Res.ok.injEq, Prod.mk.injEq] at h
        obtain ⟨⟨_, hr⟩, hs⟩ := h
        refine ⟨[], by rw [List.append_nil]; exact hr.symm, ?_, fun _ _ t ht => nomatch ht⟩
        unfold Parser.consumes
        exact hs.symm
      · rename_i hne
        have hk : s.Tok.Kind ≠ .eof := by
          intro hk
          apply hne
          simp only [Token.is, hk, decide_True]
        split at h
        · simp only [bind_apply, ConsumeParen_apply, Res.bind_ok] at h
          exact hnest _ (by intro h2; cases h2) hk h
        · split at h
          · simp only [bind_apply, ConsumeBracket_apply, Res.bind_ok] at h
            exact hnest _ (by intro h2; cases h2) hk h
          · split at h
            · simp only [bind_apply, ConsumeBrace_apply, Res.bind_ok] at h
              exact hnest _ (by intro h2; cases h2) hk h
            · split at h
              · simp only [bind_apply, ConsumeParen_apply, Res.bind_ok] at h
                exact hstep hk h
              · split at h
                · simp only [bind_apply, ConsumeBracket_apply, Res.bind_ok] at h
                  exact hstep hk h
                · split at h
                  · simp only [bind_apply, ConsumeBrace_apply, Res.bind_ok] at h
                    exact hstep hk h
                  · simp only [bind_apply, ConsumeAnyToken_apply, Res.bind_ok] at h
                    exact hstep hk h

/-- C35: whenever `ConsumeAndStoreUntil` returns, with true or with false, the buffer
is the initial buffer followed by exactly the tokens consumed from the stream during
the call, in their order; and, the kinds to stop at not being `eof`, no `eof` token
is stored. -/
theorem ConsumeAndStoreUntil_token_conservation (fuel : Nat) (T1 T2 : tok) (Toks : List Token)
    (s : Parser) (found : Bool) (r : List Token) (s1 : Parser)
    (h : ConsumeAndStoreUntil fuel T1 T2 Toks s = .ok (found, r) s1) :
    ∃ c, r = Toks ++ c ∧ s.consumes c s1 ∧
      (T1 ≠ .eof → T2 ≠ .eof → ∀ t ∈ c, t.Kind ≠ .eof) :=
  ConsumeAndStoreUntil_conserves fuel T1 T2 Toks s found r s1 h

/-- Witness of C35: the call for `}` on `( a } b` with the buffer `{` returns false at
the end of the stream, with `( a } b` stored after `{`. -/
theorem ConsumeAndStoreUntil_token_conservation_witness :
    ConsumeAndStoreUntil 6 .r_brace .r_brace [punct .l_brace]
        (Parser.init [punct .l_paren, operand "a", punct .r_brace, operand "b"]) =
      .ok (false, [punct .l_brace, punct .l_paren, operand "a", punct .r_brace, operand "b"])
        (Parser.init []) ∧
    ∃ c, [punct .l_brace, punct .l_paren, operand "a", punct .r_brace, operand "b"] =
        [punct .l_brace] ++ c ∧
      (Parser.init [punct .l_paren, operand "a", punct .r_brace, operand "b"]).consumes c
        (Parser.init []) ∧
      (tok.r_brace ≠ .eof → tok.r_brace ≠ .eof → ∀ t ∈ c, t.Kind ≠ .eof) :=
  ⟨by rfl, ConsumeAndStoreUntil_token_conservation 6 .r_brace .r_brace [punct .l_brace]
    (Parser.init [punct .l_paren, operand "a", punct .r_brace, operand "b"]) false _
    (Parser.init []) (by rfl)⟩

/-! ## The position in the main stream across a buffered body -/

theorem addParams_stream (Params : List (Option VarDecl)) :
    ∀ (s s1 : Parser), ParseLexedMethodDef.addParams Params s = .ok () s1 →
      s1.Tok = s.Tok ∧ s1.Lexer = s.Lexer := by
  induction Params with
  | nil =>
    intro s s1 h
    unfold ParseLexedMethodDef.addParams at h
    cases h
    exact ⟨rfl, rfl⟩
  | cons p rest ih =>
    intro s s1 h
    cases p with
    | none =>
      unfold ParseLexedMethodDef.addParams at h
      cases h
    | some vd =>
      unfold ParseLexedMethodDef.addParams at h
      simp only [bind_apply] at h
      cases hadd : Actions.addDecl vd.Name s with
      | ok u s2 =>
        rw [hadd, Res.bind_ok] at h
        have hs2 : s2.Tok = s.Tok ∧ s2.Lexer = s.Lexer := by
          unfold Actions.addDecl at hadd
          split at hadd <;> cases hadd <;> exact ⟨rfl, rfl⟩
        obtain ⟨h1, h2⟩ := ih s2 s1 h
        exact ⟨h1.trans hs2.1, h2.trans hs2.2⟩
      | abort m => rw [hadd] at h; cases h
      | outOfFuel => rw [hadd] at h; cases h

theorem Res.bind_eq_ok {α β : Type} (r : Res α) (f : α → Parser → Res β) (b : β)
    (s1 : Parser) (h : r.bind f = .ok b s1) : ∃ a s2, r = .ok a s2 ∧ f a s2 = .ok b s1 := by
  cases r with
  | ok a s2 => exact ⟨a, s2, rfl, h⟩
  | abort m => cases h
  | outOfFuel => cases h

/-- The run of `ParseLexedMethodDef`: `parseBlock` is started on the buffered tokens
followed by the `eof` token `BodyEnd`, the saved current token and the main stream;
it has returned at an `eof` token; and if that is `BodyEnd`, the position in the main
stream is the one before the call. -/
theorem ParseLexedMethodDef_run (self : Fns) (LM : LexedMethod) (s : Parser) (Body : Stmt)
    (s1 : Parser) (h : ParseLexedMethodDef self LM s = .ok Body s1) :
    ∃ s0 s2, s0.Tok :: s0.Lexer = LM.Toks ++ Token.eofTok :: s.Tok :: s.Lexer ∧
      parseBlock self s0 = .ok Body s2 ∧ s2.Tok.Kind = .eof ∧
      (s2.Lexer = s.Tok :: s.Lexer → s1.Tok = s.Tok ∧ s1.Lexer = s.Lexer) := by
  have hentered : ∀ (u : Parser), u.Lexer = LM.Toks ++ [Token.eofTok, s.Tok] ++ s.Lexer →
      (CachedLex u).Tok :: (CachedLex u).Lexer = LM.Toks ++ Token.eofTok :: s.Tok :: s.Lexer := by
    intro u hu
    unfold CachedLex
    rw [hu]
    cases LM.Toks with
    | nil => rfl
    | cons t ts =>
      simp only [List.cons_append, List.append_assoc, List.nil_append]
  unfold ParseLexedMethodDef at h
  simp only [bind_apply, getTok_apply, Res.bind_ok, EnterTokenStream, ConsumeAnyToken_apply] at h
  unfold ParseScope at h
  simp only [bind_apply, Actions.PushScope, Res.bind_ok] at h
  cases hP : LM.D.Params with
  | none => rw [hP] at h; cases h
  | some Params =>
    rw [hP] at h
    simp only [bind_apply] at h
    obtain ⟨r1, sz, h, hpop⟩ := Res.bind_eq_ok _ _ _ _ h
    obtain ⟨u, sa, hadd, h⟩ := Res.bind_eq_ok _ _ _ _ h
    obtain ⟨ha1, ha2⟩ := addParams_stream _ _ _ hadd
    cases hR : ParamList.types LM.D.ReturnParams with
    | none => rw [hR] at h; cases h
    | some Tys =>
      rw [hR] at h
      simp only [bind_apply, Actions.SetFunRtnTys, Actions.PushScope, Res.bind_ok] at h
      obtain ⟨r2, sy, h, hpop2⟩ := Res.bind_eq_ok _ _ _ _ h
      obtain ⟨B, s2, hb, h⟩ := Res.bind_eq_ok _ _ _ _ h
      simp only [bind_apply, getTok_apply, Res.bind_ok] at h
      by_cases heof : s2.Tok.is .eof = true
      · simp only [heof, not_true_eq_false, if_false, bind_apply, ConsumeToken_apply,
          Res.bind_ok, Actions.EraseFunRtnTys, pure_apply, Res.ok.injEq] at h
        obtain ⟨hB, hsy⟩ := h
        simp only [Actions.PopScope, bind_apply, Res.bind_ok, pure_apply, Res.ok.injEq] at hpop2
        obtain ⟨hr2, hsz⟩ := hpop2
        simp only [Actions.PopScope, bind_apply, Res.bind_ok, pure_apply, Res.ok.injEq] at hpop
        obtain ⟨hr1, hs1⟩ := hpop
        subst hB hr2 hr1
        refine ⟨_, s2, ?_, hb, ?_, ?_⟩
        · show sa.Tok :: sa.Lexer = _
          rw [ha1, ha2]
          exact hentered _ rfl
        · simpa only [Token.is, decide_eq_true_eq] using heof
        · intro hpos
          rw [← hs1, ← hsz, ← hsy]
          show (CachedLex s2).Tok = s.Tok ∧ (CachedLex s2).Lexer = s.Lexer
          unfold CachedLex
          rw [hpos]
          exact ⟨rfl, rfl⟩
      · simp only [heof, not_false_eq_true, if_true, abort_apply] at h
        cases h

/-- C36: whenever `ParseLexedMethodDef` returns, `parseBlock` has been run on the
buffered tokens followed by the `eof` token `BodyEnd`, the saved current token and
the main stream, and has returned at an `eof` token; where `parseBlock` has parsed
the buffered body completely, that is where it has stopped at `BodyEnd` with the
saved token and the main stream still to come, the current token after
`ParseLexedMethodDef` is the token that was current before the call and the main
stream is where it was: no token of it is skipped or replayed. -/
theorem ParseLexedMethodDef_keeps_position (self : Fns) (LM : LexedMethod) (s : Parser)
    (Body : Stmt) (s1 : Parser) (h : ParseLexedMethodDef self LM s = .ok Body s1) :
    ∃ s0 s2, s0.Tok :: s0.Lexer = LM.Toks ++ Token.eofTok :: s.Tok :: s.Lexer ∧
      parseBlock self s0 = .ok Body s2 ∧ s2.Tok.Kind = .eof ∧
      (s2.Lexer = s.Tok :: s.Lexer → s1.Tok = s.Tok ∧ s1.Lexer = s.Lexer) :=
  ParseLexedMethodDef_run self LM s Body s1 h

/-- Witness of C36: the body `{ b(); }` of the example, parsed while the main stream
stands at `contract D`. -/
theorem ParseLexedMethodDef_keeps_position_witness :
    ParseLexedMethodDef (fns specEnv 4) deferredExample.bodyA
        (deferredExample.state ⟨.kw_contract, "contract"⟩ [operand "D"] ["b", "a"] [] 2) =
      .ok (.Block [.expr (.CallExpr (.Identifier "b" true) [])])
        (deferredExample.state ⟨.kw_contract, "contract"⟩ [operand "D"] ["b", "a"] [] 2) ∧
    ∃ s0 s2,
      s0.Tok :: s0.Lexer =
        deferredExample.bodyA.Toks ++ Token.eofTok ::
          (deferredExample.state ⟨.kw_contract, "contract"⟩ [operand "D"] ["b", "a"] [] 2).Tok ::
          (deferredExample.state ⟨.kw_contract, "contract"⟩ [operand "D"] ["b", "a"] []
            2).Lexer ∧
      parseBlock (fns specEnv 4) s0 =
        .ok (.Block [.expr (.CallExpr (.Identifier "b" true) [])]) s2 ∧
      s2.Tok.Kind = .eof ∧
      (s2.Lexer =
          (deferredExample.state ⟨.kw_contract, "contract"⟩ [operand "D"] ["b", "a"] [] 2).Tok ::
          (deferredExample.state ⟨.kw_contract, "contract"⟩ [operand "D"] ["b", "a"] []
            2).Lexer →
        (deferredExample.state ⟨.kw_contract, "contract"⟩ [operand "D"] ["b", "a"] [] 2).Tok =
            (deferredExample.state ⟨.kw_contract, "contract"⟩ [operand "D"] ["b", "a"] []
              2).Tok ∧
          (deferredExample.state ⟨.kw_contract, "contract"⟩ [operand "D"] ["b", "a"] []
              2).Lexer =
            (deferredExample.state ⟨.kw_contract, "contract"⟩ [operand "D"] ["b", "a"] []
              2).Lexer) :=
  ⟨by rfl, ParseLexedMethodDef_keeps_position (fns specEnv 4) deferredExample.bodyA
    (deferredExample.state ⟨.kw_contract, "contract"⟩ [operand "D"] ["b", "a"] [] 2)
    (.Block [.expr (.CallExpr (.Identifier "b" true) [])])
    (deferredExample.state ⟨.kw_contract, "contract"⟩ [operand "D"] ["b", "a"] [] 2) (by rfl)⟩

/-! ## The dangling `else` -/

theorem parseStatement_if (env : Env) (self : Fns) (s : Parser) (it : String)
    (ts : List Token) :
    parseStatement env self (s.setStream (⟨.kw_if, it⟩ :: ts)) =
      parseIfStatement env self (s.setStream (⟨.kw_if, it⟩ :: ts)) := by
  unfold parseStatement
  simp only [bind_apply, getTok_apply, Res.bind_ok, setStream_cons_Tok]

/-- The head of an `if` statement, up to its true branch. -/
theorem parseIfStatement_head (env : Env) (self : Fns) (s sC : Parser) (it : String)
    (tc X : List Token) (C : Expr)
    (hC : parseExpression env self .null (s.setStream (tc ++ punct .r_paren :: X)) =
      .ok C (sC.setStream (punct .r_paren :: X))) :
    parseIfStatement env self
        (s.setStream (⟨.kw_if, it⟩ :: punct .l_paren :: (tc ++ punct .r_paren :: X))) =
      (self.parseStatement (sC.setStream X)).bind fun TrueBody s1 =>
        if s1.Tok.Kind = .kw_else then
          (self.parseStatement (CachedLex s1)).bind fun FalseBody s2 =>
            .ok (.IfStmt C TrueBody FalseBody) s2
        else .ok (.IfStmt C TrueBody .null) s1 := by
  have h1 : (punct .l_paren).is .l_paren = true := rfl
  have h2 : (punct .r_paren).is .r_paren = true := rfl
  unfold parseIfStatement ExpectAndConsume
  simp only [bind_apply, ConsumeToken_apply, Res.bind_ok, CachedLex_setStream, getTok_apply,
    setStream_cons_Tok, h1, h2, if_true, ConsumeAnyToken_apply, pure_apply, Bool.false_eq_true,
    if_false, hC, TryConsumeToken_apply]
  congr 1
  funext TrueBody s1
  by_cases he : s1.Tok.Kind = .kw_else
  · simp only [bind_apply, TryConsumeToken_apply, he, if_true, Res.bind_ok, pure_apply]
    rfl
  · simp only [bind_apply, TryConsumeToken_apply, he, if_false, Res.bind_ok, pure_apply,
      Bool.false_eq_true]

/-- An `if` statement with an `else` branch. -/
theorem parseIfStatement_else (env : Env) (self : Fns) (s sC sT s2 : Parser) (it et : String)
    (tc X Y : List Token) (C : Expr) (T F : Stmt)
    (hC : parseExpression env self .null (s.setStream (tc ++ punct .r_paren :: X)) =
      .ok C (sC.setStream (punct .r_paren :: X)))
    (hT : self.parseStatement (sC.setStream X) = .ok T (sT.setStream (⟨.kw_else, et⟩ :: Y)))
    (hF : self.parseStatement (sT.setStream Y) = .ok F s2) :
    parseIfStatement env self
        (s.setStream (⟨.kw_if, it⟩ :: punct .l_paren :: (tc ++ punct .r_paren :: X))) =
      .ok (.IfStmt C T F) s2 := by
  rw [parseIfStatement_head env self s sC it tc X C hC, hT, Res.bind_ok, setStream_cons_Tok,
    if_pos rfl, CachedLex_setStream, hF, Res.bind_ok]

/-- An `if` statement that is not followed by `else`. -/
theorem parseIfStatement_no_else (env : Env) (self : Fns) (s sC s1 : Parser) (it : String)
    (tc X : List Token) (C : Expr) (T : Stmt)
    (hC : parseExpression env self .null (s.setStream (tc ++ punct .r_paren :: X)) =
      .ok C (sC.setStream (punct .r_paren :: X)))
    (hT : self.parseStatement (sC.setStream X) = .ok T s1)
    (hne : s1.Tok.Kind ≠ .kw_else) :
    parseIfStatement env self
        (s.setStream (⟨.kw_if, it⟩ :: punct .l_paren :: (tc ++ punct .r_paren :: X))) =
      .ok (.IfStmt C T .null) s1 := by
  rw [parseIfStatement_head env self s sC it tc X C hC, hT, Res.bind_ok, if_neg hne]

/-- C37: the dangling `else` binds to the nearest `if`.  On
`if ( a ) if ( b ) s1 else s2`, where the condition `a` is parsed as `A`, the
condition `b` as `B`, and the statements `s1` and `s2` (with their `;`) as `S1` and
`S2`, and where no further `else` follows, `parseIfStatement` returns
`IfStmt A (IfStmt B S1 S2) null`: the outer `if` has no else-branch.  Here `self`
are the productions the outer statement re-enters and `inner` those its true branch
re-enters. -/
theorem parseIfStatement_dangling_else (env : Env) (self inner : Fns)
    (s sA sB s1 s2 : Parser) (it1 it2 et : String) (ta tb t1 t2 rest : List Token)
    (A B : Expr) (S1 S2 : Stmt)
    (hself : self.parseStatement = parseStatement env inner)
    (hA : parseExpression env self .null
        (s.setStream (ta ++ punct .r_paren :: (⟨.kw_if, it2⟩ :: punct .l_paren ::
          (tb ++ punct .r_paren :: (t1 ++ ⟨.kw_else, et⟩ :: (t2 ++ rest)))))) =
      .ok A (sA.setStream (punct .r_paren :: (⟨.kw_if, it2⟩ :: punct .l_paren ::
          (tb ++ punct .r_paren :: (t1 ++ ⟨.kw_else, et⟩ :: (t2 ++ rest)))))))
    (hB : parseExpression env inner .null
        (sA.setStream (tb ++ punct .r_paren :: (t1 ++ ⟨.kw_else, et⟩ :: (t2 ++ rest)))) =
      .ok B (sB.setStream (punct .r_paren :: (t1 ++ ⟨.kw_else, et⟩ :: (t2 ++ rest)))))
    (hS1 : inner.parseStatement (sB.setStream (t1 ++ ⟨.kw_else, et⟩ :: (t2 ++ rest))) =
      .ok S1 (s1.setStream (⟨.kw_else, et⟩ :: (t2 ++ rest))))
    (hS2 : inner.parseStatement (s1.setStream (t2 ++ rest)) = .ok S2 s2)
    (hrest : s2.Tok.Kind ≠ .kw_else) :
    parseIfStatement env self
        (s.setStream (⟨.kw_if, it1⟩ :: punct .l_paren :: (ta ++ punct .r_paren ::
          (⟨.kw_if, it2⟩ :: punct .l_paren ::
            (tb ++ punct .r_paren :: (t1 ++ ⟨.kw_else, et⟩ :: (t2 ++ rest))))))) =
      .ok (.IfStmt A (.IfStmt B S1 S2) .null) s2 := by
  refine parseIfStatement_no_else env self s sA s2 it1 ta _ A _ hA ?_ hrest
  rw [hself, parseStatement_if]
  exact parseIfStatement_else env inner sA sB s1 s2 it2 et tb _ _ B S1 S2 hB hS1 hS2

/-- Witness of C37: `if (a) if (b) x; else y;`. -/
theorem parseIfStatement_dangling_else_witness :
    parseIfStatement specEnv (fns specEnv 4)
        ((Parser.init []).setStream (⟨.kw_if, "if"⟩ :: punct .l_paren ::
          ([operand "a"] ++ punct .r_paren :: (⟨.kw_if, "if"⟩ :: punct .l_paren ::
            ([operand "b"] ++ punct .r_paren ::
              ([operand "x", punct .semi] ++ ⟨.kw_else, "else"⟩ ::
                ([operand "y", punct .semi] ++ []))))))) =
      .ok (.IfStmt (.Identifier "a" false)
          (.IfStmt (.Identifier "b" false) (.expr (.Identifier "x" false))
            (.expr (.Identifier "y" false))) .null)
        (Parser.init []) :=
  parseIfStatement_dangling_else specEnv (fns specEnv 4) (fns specEnv 3) (Parser.init [])
    (Parser.init []) (Parser.init []) (Parser.init []) (Parser.init []) "if" "if" "else"
    [operand "a"] [operand "b"] [operand "x", punct .semi] [operand "y", punct .semi] []
    (.Identifier "a" false) (.Identifier "b" false) (.expr (.Identifier "x" false))
    (.expr (.Identifier "y" false)) rfl (by rfl) (by rfl) (by rfl) (by rfl) (by decide)

/-! ## The scope a contract is registered in -/

/-- C38, what the code does on the failing input: `parseContractDefinition` registers
the contract while its own scope is still the top scope, and the guard of that scope
pops it on return.  After `contract A { }`, entered with the scope of the source unit
on the stack, that scope holds no name.  So when the body of `f` in a later contract
`contract B { function f() public { A; } }` is parsed, with `B` and `f` in the scope of
`B` above the scope of the source unit as the parse of `A` left it, the identifier `A`
is not resolved. -/
theorem parseContractDefinition_not_registered :
    parseContractDefinition specEnv (fns specEnv 4)
        ⟨⟨.kw_contract, "contract"⟩,
          [operand "A", punct .l_brace, punct .r_brace, ⟨.kw_contract, "contract"⟩, operand "B"],
          [⟨[], []⟩], [], [], [], 0⟩ =
      .ok (some ⟨"A", [], [], none, none, .Contract⟩)
        ⟨⟨.kw_contract, "contract"⟩, [operand "B"], [⟨[], []⟩], [], [], [], 0⟩ ∧
    Actions.visible
      (⟨⟨.kw_contract, "contract"⟩, [operand "B"], [⟨[], []⟩], [], [], [], 0⟩ : Parser) = [] ∧
    ParseLexedMethodDef (fns specEnv 4)
        ⟨[punct .l_brace, operand "A", punct .semi, punct .r_brace],
          deferredExample.decl 0 "f" .null⟩
        ⟨Token.eofTok, [], [⟨[], ["B", "f"]⟩, ⟨[], []⟩], [], [], [], 1⟩ =
      .ok (.Block [.expr (.Identifier "A" false)])
        ⟨Token.eofTok, [], [⟨[], ["B", "f"]⟩, ⟨[], []⟩], [], [], [], 1⟩ := by
  exact ⟨by rfl, by rfl, by rfl⟩

/-! ## The `Implemented` flag of a function declaration -/

/-- C39, what the code does on the failing input: the constructor of `FunctionDecl`
initialises `Body` from `std::move(body)` before it evaluates `body != nullptr` for
`Implemented`, so `Implemented` is false for every body passed in, while `getBody()`
returns that body: for the non-null body `{ }` the flag is false although `getBody()`
is not null. -/
theorem FunctionDecl_Implemented_false :
    (∀ (name : String) (visibility : Visibility) (sm : StateMutability) (isConstructor : Bool)
        (Params : Option ParamList) (modifiers : Nat) (returnParams : Option ParamList)
        (body : Stmt),
      (AST.FunctionDecl.FunctionDecl name visibility sm isConstructor Params modifiers
          returnParams body).Implemented = false ∧
        (AST.FunctionDecl.FunctionDecl name visibility sm isConstructor Params modifiers
          returnParams body).getBody = body) ∧
    (AST.FunctionDecl.FunctionDecl "f" .Public .NonPayable false (some ⟨[]⟩) 0 (some ⟨[]⟩)
        (.Block [])).Implemented = false ∧
    (AST.FunctionDecl.FunctionDecl "f" .Public .NonPayable false (some ⟨[]⟩) 0 (some ⟨[]⟩)
        (.Block [])).getBody.isNull = false := by
  refine ⟨?_, rfl, rfl⟩
  intro name visibility sm isConstructor Params modifiers returnParams body
  exact ⟨rfl, rfl⟩

/-! ## The unreachable branch of `parseSimpleStatement` -/

theorem handled_of_returns {α : Type} (m : P α) (h : ∀ s, ∃ a s1, m s = .ok a s1) :
    Handled m := by
  constructor
  intro s hs
  obtain ⟨a, s1, h1⟩ := h s
  rw [h1] at hs
  cases hs

theorem handled_pure {α : Type} (a : α) : Handled (pure a : P α) :=
  handled_of_returns _ (fun s => ⟨a, s, rfl⟩)

theorem handled_bind {α β : Type} (m : P α) (f : α → P β) (hm : Handled m)
    (hf : ∀ a, Handled (f a)) : Handled (m >>= f) := by
  constructor
  intro s hs
  rw [bind_apply] at hs
  cases hr : m s with
  | ok a s1 =>
    rw [hr, Res.bind_ok] at hs
    exact (hf a).out s1 hs
  | abort msg =>
    rw [hr, Res.bind_abort] at hs
    exact hm.out s (hr.trans (congrArg Res.abort (Res.abort.inj hs)))
  | outOfFuel =>
    rw [hr, Res.bind_outOfFuel] at hs
    cases hs

/-- Sequencing where the continuation is safe on the results the first part can
return. -/
theorem handled_bind_ensures {α β : Type} (Q : α → Prop) (m : P α) (f : α → P β)
    (hm : Handled m) (hQ : Ensures Q m) (hf : ∀ a, Q a → Handled (f a)) :
    Handled (m >>= f) := by
  constructor
  intro s hs
  rw [bind_apply] at hs
  cases hr : m s with
  | ok a s1 =>
    rw [hr, Res.bind_ok] at hs
    exact (hf a (hQ.out s a s1 hr)).out s1 hs
  | abort msg =>
    rw [hr, Res.bind_abort] at hs
    exact hm.out s (hr.trans (congrArg Res.abort (Res.abort.inj hs)))
  | outOfFuel =>
    rw [hr, Res.bind_outOfFuel] at hs
    cases hs

theorem handled_raise {α : Type} (msg : String) (h : msg ≠ "Unhandle statement.") :
    Handled (abort msg : P α) := by
  constructor
  intro s hs
  rw [abort_apply] at hs
  exact h (Res.abort.inj hs)

theorem handled_outOfFuel {α : Type} : Handled (outOfFuel : P α) := by
  constructor
  intro s hs
  cases hs

theorem handled_getTok : Handled getTok := handled_of_returns _ (fun _ => ⟨_, _, rfl⟩)

theorem handled_getNextToken : Handled getNextToken :=
  handled_of_returns _ (fun _ => ⟨_, _, rfl⟩)

theorem handled_ConsumeToken : Handled ConsumeToken :=
  handled_of_returns _ (fun _ => ⟨_, _, rfl⟩)

theorem handled_ConsumeAnyToken : Handled ConsumeAnyToken := handled_ConsumeToken

theorem handled_ConsumeParen : Handled ConsumeParen := handled_ConsumeToken

theorem handled_ConsumeBracket : Handled ConsumeBracket := handled_ConsumeToken

theorem handled_ConsumeBrace : Handled ConsumeBrace := handled_ConsumeToken

theorem handled_ConsumeStringToken : Handled ConsumeStringToken := handled_ConsumeToken

theorem handled_TryConsumeToken (k : tok) : Handled (TryConsumeToken k) := by
  apply handled_of_returns
  intro s
  rw [TryConsumeToken_apply]
  split
  · exact ⟨_, _, rfl⟩
  · exact ⟨_, _, rfl⟩

theorem handled_isTokenParen : Handled isTokenParen :=
  handled_of_returns _ (fun _ => ⟨_, _, rfl⟩)

theorem handled_Diag (ID : diag) (Args : List tok) : Handled (Diag ID Args) :=
  handled_of_returns _ (fun _ => ⟨_, _, rfl⟩)

theorem handled_CreateIdentifier (t : Token) : Handled (Actions.CreateIdentifier t) :=
  handled_of_returns _ (fun _ => ⟨_, _, rfl⟩)

theorem handled_addDecl (Name : String) : Handled (Actions.addDecl Name) := by
  apply handled_of_returns
  intro s
  unfold Actions.addDecl
  split
  · exact ⟨_, _, rfl⟩
  · exact ⟨_, _, rfl⟩

theorem handled_PushScope (Flags : List ScopeFlag) : Handled (Actions.PushScope Flags) :=
  handled_of_returns _ (fun _ => ⟨_, _, rfl⟩)

theorem handled_PopScope : Handled Actions.PopScope :=
  handled_of_returns _ (fun _ => ⟨_, _, rfl⟩)

theorem handled_ParseScope {α : Type} (Flags : List ScopeFlag) (body : P α)
    (h : Handled body) : Handled (ParseScope Flags body) := by
  unfold ParseScope
  exact handled_bind _ _ (handled_PushScope _) (fun _ =>
    handled_bind _ _ h (fun _ => handled_bind _ _ handled_PopScope (fun _ => handled_pure _)))

/-! The messages of `stringUnquote` -/

theorem otherMessage_ok {α : Type} (a : α) : OtherMessage (.ok a : Except String α) := by
  intro e h
  cases h

theorem otherMessage_error {α : Type} (msg : String) (h : msg ≠ "Unhandle statement.") :
    OtherMessage (.error msg : Except String α) := by
  intro e he
  cases he
  exact h

theorem stringUnquote_plainRun_message (Quoted : List Nat) (TokEnd : Nat) :
    ∀ (fuel TokBuf : Nat), OtherMessage (stringUnquote.plainRun Quoted TokEnd fuel TokBuf) := by
  intro fuel
  induction fuel with
  | zero =>
    intro TokBuf
    unfold stringUnquote.plainRun
    exact otherMessage_error _ (by decide)
  | succ f ih =>
    intro TokBuf
    unfold stringUnquote.plainRun
    dsimp only
    repeat' (first
      | exact ih _
      | exact otherMessage_ok _
      | exact otherMessage_error _ (by decide)
      | split)

theorem stringUnquote_loop_message (Quoted : List Nat) (TokEnd : Nat) :
    ∀ (fuel TokBuf : Nat) (Result : List Nat),
      OtherMessage (stringUnquote.loop Quoted TokEnd fuel TokBuf Result) := by
  intro fuel
  induction fuel with
  | zero =>
    intro TokBuf Result
    unfold stringUnquote.loop
    exact otherMessage_error _ (by decide)
  | succ f ih =>
    intro TokBuf Result
    unfold stringUnquote.loop
    dsimp only
    by_cases hend : TokBuf = TokEnd
    · rw [if_pos hend]
      exact otherMessage_ok _
    · rw [if_neg hend]
      cases readChar Quoted TokBuf with
      | none => exact otherMessage_error _ (by decide)
      | some c0 =>
        dsimp only
        by_cases h0 : c0 ≠ 92
        · rw [if_pos h0]
          cases hrun : stringUnquote.plainRun Quoted TokEnd (Quoted.length + 2) TokBuf with
          | error e =>
            exact otherMessage_error _ (stringUnquote_plainRun_message _ _ _ _ e hrun)
          | ok Stop => exact ih _ _
        · rw [if_neg h0]
          cases readChar Quoted (TokBuf + 1) with
          | none => exact otherMessage_error _ (by decide)
          | some c1 =>
            dsimp only
            by_cases h1 : c1 = 117
            · rw [if_pos h1]
              cases readChar Quoted (TokBuf + 2) with
              | none => exact otherMessage_error _ (by decide)
              | some c =>
                dsimp only
                split
                · exact otherMessage_error _ (by decide)
                · exact ih _ _
            · rw [if_neg h1]
              cases readChar Quoted (TokBuf + 2 + 1) with
              | none => exact otherMessage_error _ (by decide)
              | some ResultChar =>
                dsimp only
                by_cases hx : ResultChar = 120
                · rw [if_pos hx]
                  cases readChar Quoted (TokBuf + 2) with
                  | none => exact otherMessage_error _ (by decide)
                  | some c =>
                    dsimp only
                    split
                    · exact otherMessage_error _ (by decide)
                    · exact ih _ _
                · rw [if_neg hx]
                  repeat' (first
                    | exact ih _ _
                    | exact otherMessage_error _ (by decide)
                    | split)

theorem stringUnquote_message (Quoted : List Nat) : OtherMessage (stringUnquote Quoted) := by
  unfold stringUnquote
  dsimp only
  repeat' (first
    | exact stringUnquote_loop_message _ _ _ _ _
    | exact otherMessage_ok _
    | exact otherMessage_error _ (by decide)
    | split)

theorem stringUnquote_message_ne (Quoted : List Nat) (e : String)
    (h : stringUnquote Quoted = .error e) : e ≠ "Unhandle statement." :=
  stringUnquote_message Quoted e h

theorem ExpectAndConsume_handled (k : tok) (d : diag) : Handled (ExpectAndConsume k d) := by
  unfold ExpectAndConsume
  try dsimp only
  repeat' (with_reducible first
    | exact handled_getTok | exact handled_ConsumeAnyToken | exact handled_Diag _ _
    | exact handled_pure _ | apply handled_bind | intro _ | split)

theorem ExpectAndConsumeSemi_handled (d : diag) : Handled (ExpectAndConsumeSemi d) := by
  unfold ExpectAndConsumeSemi
  try dsimp only
  repeat' (with_reducible first
    | exact handled_getTok | exact handled_getNextToken | exact handled_ConsumeAnyToken
    | exact handled_ConsumeToken | exact handled_Diag _ _ | exact handled_pure _
    | exact handled_TryConsumeToken _ | exact ExpectAndConsume_handled _ _
    | apply handled_bind | intro _ | split)

theorem parseVisibilitySpecifier_handled :
    Handled (parseVisibilitySpecifier) := by
  unfold parseVisibilitySpecifier
  try dsimp only
  repeat' (with_reducible first
    | exact handled_getTok
    | exact handled_getNextToken
    | exact handled_ConsumeToken
    | exact handled_ConsumeAnyToken
    | exact handled_ConsumeParen
    | exact handled_ConsumeBracket
    | exact handled_ConsumeBrace
    | exact handled_ConsumeStringToken
    | exact handled_Diag _ _
    | exact handled_pure _
    | exact handled_outOfFuel
    | exact handled_TryConsumeToken _
    | exact handled_isTokenParen
    | exact ExpectAndConsume_handled _ _
    | exact ExpectAndConsumeSemi_handled _
    | apply handled_bind
    | apply handled_ParseScope
    | intro _
    | split)

theorem parseStateMutability_handled :
    Handled (parseStateMutability) := by
  unfold parseStateMutability
  try dsimp only
  repeat' (with_reducible first
    | exact handled_getTok
    | exact handled_getNextToken
    | exact handled_ConsumeToken
    | exact handled_ConsumeAnyToken
    | exact handled_ConsumeParen
    | exact handled_ConsumeBracket
    | exact handled_ConsumeBrace
    | exact handled_ConsumeStringToken
    | exact handled_Diag _ _
    | exact handled_pure _
    | exact handled_outOfFuel
    | exact handled_TryConsumeToken _
    | exact handled_isTokenParen
    | exact ExpectAndConsume_handled _ _
    | exact ExpectAndConsumeSemi_handled _
    | apply handled_bind
    | apply handled_ParseScope
    | intro _
    | split)

theorem parseDataLocation_handled :
    Handled (parseDataLocation) := by
  unfold parseDataLocation
  try dsimp only
  repeat' (with_reducible first
    | exact handled_getTok
    | exact handled_getNextToken
    | exact handled_ConsumeToken
    | exact handled_ConsumeAnyToken
    | exact handled_ConsumeParen
    | exact handled_ConsumeBracket
    | exact handled_ConsumeBrace
    | exact handled_ConsumeStringToken
    | exact handled_Diag _ _
    | exact handled_pure _
    | exact handled_outOfFuel
    | exact handled_TryConsumeToken _
    | exact handled_isTokenParen
    | exact ExpectAndConsume_handled _ _
    | exact ExpectAndConsumeSemi_handled _
    | apply handled_bind
    | apply handled_ParseScope
    | intro _
    | split)

theorem parseTypeNameSuffix_handled (fuel : Nat) :
    ∀ (T : Ty), Handled (parseTypeNameSuffix fuel T) := by
  induction fuel with
  | zero =>
    intros
    unfold parseTypeNameSuffix
    exact handled_outOfFuel
  | succ fuel ih =>
    intros
    unfold parseTypeNameSuffix
    try dsimp only
    repeat' (first
      | (with_reducible first
        | exact ih _
        | exact parseDataLocation_handled
        | exact handled_getTok
        | exact handled_getNextToken
        | exact handled_ConsumeToken
        | exact handled_ConsumeAnyToken
        | exact handled_ConsumeParen
        | exact handled_ConsumeBracket
        | exact handled_ConsumeBrace
        | exact handled_ConsumeStringToken
        | exact handled_Diag _ _
        | exact handled_pure _
        | exact handled_outOfFuel
        | exact handled_TryConsumeToken _
        | exact handled_isTokenParen
        | exact ExpectAndConsume_handled _ _
        | exact ExpectAndConsumeSemi_handled _
        | apply handled_bind
        | apply handled_ParseScope
        | intro _
        | split)
      | exact handled_raise _ (by decide))

theorem parseMapping_handled (self : Fns) (hself : self.Handled) :
    Handled (parseMapping self) := by
  unfold parseMapping
  try dsimp only
  repeat' (with_reducible first
    | exact hself.parseTypeName _
    | exact hself.parseExpression _
    | exact hself.parseBinaryExpression _ _
    | exact hself.parseUnaryExpression _
    | exact hself.parseStatement
    | exact handled_getTok
    | exact handled_getNextToken
    | exact handled_ConsumeToken
    | exact handled_ConsumeAnyToken
    | exact handled_ConsumeParen
    | exact handled_ConsumeBracket
    | exact handled_ConsumeBrace
    | exact handled_ConsumeStringToken
    | exact handled_Diag _ _
    | exact handled_pure _
    | exact handled_outOfFuel
    | exact handled_TryConsumeToken _
    | exact handled_isTokenParen
    | exact ExpectAndConsume_handled _ _
    | exact ExpectAndConsumeSemi_handled _
    | apply handled_bind
    | apply handled_ParseScope
    | intro _
    | split)

theorem parseTypeName_elementary_handled (env : Env) (Kind : tok) :
    Handled (parseTypeName.elementary env Kind) := by
  unfold parseTypeName.elementary
  try dsimp only
  repeat' (first
    | (with_reducible first
      | exact parseStateMutability_handled
      | exact handled_getTok
      | exact handled_getNextToken
      | exact handled_ConsumeToken
      | exact handled_ConsumeAnyToken
      | exact handled_ConsumeParen
      | exact handled_ConsumeBracket
      | exact handled_ConsumeBrace
      | exact handled_ConsumeStringToken
      | exact handled_Diag _ _
      | exact handled_pure _
      | exact handled_outOfFuel
      | exact handled_TryConsumeToken _
      | exact handled_isTokenParen
      | exact ExpectAndConsume_handled _ _
      | exact ExpectAndConsumeSemi_handled _
      | apply handled_bind
      | apply handled_ParseScope
      | intro _
      | split)
    | exact handled_raise _ (by decide))

theorem parseTypeName_handled (env : Env) (self : Fns) (b : Bool) (hself : self.Handled) :
    Handled (parseTypeName env self b) := by
  unfold parseTypeName
  try dsimp only
  repeat' (first
    | (with_reducible first
      | exact hself.parseTypeName _
      | exact hself.parseExpression _
      | exact hself.parseBinaryExpression _ _
      | exact hself.parseUnaryExpression _
      | exact hself.parseStatement
      | exact parseTypeName_elementary_handled _ _
      | exact parseTypeNameSuffix_handled _ _
      | exact parseMapping_handled _ hself
      | exact handled_getTok
      | exact handled_getNextToken
      | exact handled_ConsumeToken
      | exact handled_ConsumeAnyToken
      | exact handled_ConsumeParen
      | exact handled_ConsumeBracket
      | exact handled_ConsumeBrace
      | exact handled_ConsumeStringToken
      | exact handled_Diag _ _
      | exact handled_pure _
      | exact handled_outOfFuel
      | exact handled_TryConsumeToken _
      | exact handled_isTokenParen
      | exact ExpectAndConsume_handled _ _
      | exact ExpectAndConsumeSemi_handled _
      | apply handled_bind
      | apply handled_ParseScope
      | intro _
      | split)
    | exact handled_raise _ (by decide))

theorem parseFunctionCallListArguments_loop_handled (self : Fns) (hself : self.Handled) (fuel : Nat) :
    ∀ (A : List Expr), Handled (parseFunctionCallListArguments.loop self fuel A) := by
  induction fuel with
  | zero =>
    intros
    unfold parseFunctionCallListArguments.loop
    exact handled_outOfFuel
  | succ fuel ih =>
    intros
    unfold parseFunctionCallListArguments.loop
    try dsimp only
    repeat' (with_reducible first
      | exact ih _
      | exact hself.parseTypeName _
      | exact hself.parseExpression _
      | exact hself.parseBinaryExpression _ _
      | exact hself.parseUnaryExpression _
      | exact hself.parseStatement
      | exact handled_getTok
      | exact handled_getNextToken
      | exact handled_ConsumeToken
      | exact handled_ConsumeAnyToken
      | exact handled_ConsumeParen
      | exact handled_ConsumeBracket
      | exact handled_ConsumeBrace
      | exact handled_ConsumeStringToken
      | exact handled_Diag _ _
      | exact handled_pure _
      | exact handled_outOfFuel
      | exact handled_TryConsumeToken _
      | exact handled_isTokenParen
      | exact ExpectAndConsume_handled _ _
      | exact ExpectAndConsumeSemi_handled _
      | apply handled_bind
      | apply handled_ParseScope
      | intro _
      | split)

theorem parseFunctionCallListArguments_handled (self : Fns) (hself : self.Handled) :
    Handled (parseFunctionCallListArguments self) := by
  unfold parseFunctionCallListArguments
  try dsimp only
  repeat' (with_reducible first
    | exact hself.parseTypeName _
    | exact hself.parseExpression _
    | exact hself.parseBinaryExpression _ _
    | exact hself.parseUnaryExpression _
    | exact hself.parseStatement
    | exact parseFunctionCallListArguments_loop_handled _ hself _ _
    | exact handled_getTok
    | exact handled_getNextToken
    | exact handled_ConsumeToken
    | exact handled_ConsumeAnyToken
    | exact handled_ConsumeParen
    | exact handled_ConsumeBracket
    | exact handled_ConsumeBrace
    | exact handled_ConsumeStringToken
    | exact handled_Diag _ _
    | exact handled_pure _
    | exact handled_outOfFuel
    | exact handled_TryConsumeToken _
    | exact handled_isTokenParen
    | exact ExpectAndConsume_handled _ _
    | exact ExpectAndConsumeSemi_handled _
    | apply handled_bind
    | apply handled_ParseScope
    | intro _
    | split)

theorem parseFunctionCallArguments_loop_handled (self : Fns) (hself : self.Handled) (fuel : Nat) :
    ∀ (First : Bool) (A : List Expr) (N : List String), Handled (parseFunctionCallArguments.loop self fuel First A N) := by
  induction fuel with
  | zero =>
    intros
    unfold parseFunctionCallArguments.loop
    exact handled_outOfFuel
  | succ fuel ih =>
    intros
    unfold parseFunctionCallArguments.loop
    try dsimp only
    repeat' (with_reducible first
      | exact ih _ _ _
      | exact hself.parseTypeName _
      | exact hself.parseExpression _
      | exact hself.parseBinaryExpression _ _
      | exact hself.parseUnaryExpression _
      | exact hself.parseStatement
      | exact handled_getTok
      | exact handled_getNextToken
      | exact handled_ConsumeToken
      | exact handled_ConsumeAnyToken
      | exact handled_ConsumeParen
      | exact handled_ConsumeBracket
      | exact handled_ConsumeBrace
      | exact handled_ConsumeStringToken
      | exact handled_Diag _ _
      | exact handled_pure _
      | exact handled_outOfFuel
      | exact handled_TryConsumeToken _
      | exact handled_isTokenParen
      | exact ExpectAndConsume_handled _ _
      | exact ExpectAndConsumeSemi_handled _
      | apply handled_bind
      | apply handled_ParseScope
      | intro _
      | split)

theorem parseFunctionCallArguments_handled (self : Fns) (hself : self.Handled) :
    Handled (parseFunctionCallArguments self) := by
  unfold parseFunctionCallArguments
  try dsimp only
  repeat' (with_reducible first
    | exact hself.parseTypeName _
    | exact hself.parseExpression _
    | exact hself.parseBinaryExpression _ _
    | exact hself.parseUnaryExpression _
    | exact hself.parseStatement
    | exact parseFunctionCallArguments_loop_handled _ hself _ _ _ _
    | exact parseFunctionCallListArguments_handled _ hself
    | exact handled_getTok
    | exact handled_getNextToken
    | exact handled_ConsumeToken
    | exact handled_ConsumeAnyToken
    | exact handled_ConsumeParen
    | exact handled_ConsumeBracket
    | exact handled_ConsumeBrace
    | exact handled_ConsumeStringToken
    | exact handled_Diag _ _
    | exact handled_pure _
    | exact handled_outOfFuel
    | exact handled_TryConsumeToken _
    | exact handled_isTokenParen
    | exact ExpectAndConsume_handled _ _
    | exact ExpectAndConsumeSemi_handled _
    | apply handled_bind
    | apply handled_ParseScope
    | intro _
    | split)

theorem parsePrimaryExpression_handled (self : Fns) (hself : self.Handled) :
    Handled (parsePrimaryExpression self) := by
  unfold parsePrimaryExpression
  try dsimp only
  repeat' (first
    | (with_reducible first
      | exact hself.parseTypeName _
      | exact hself.parseExpression _
      | exact hself.parseBinaryExpression _ _
      | exact hself.parseUnaryExpression _
      | exact hself.parseStatement
      | exact handled_CreateIdentifier _
      | exact handled_raise _ (stringUnquote_message_ne _ _ (by assumption))
      | exact handled_getTok
      | exact handled_getNextToken
      | exact handled_ConsumeToken
      | exact handled_ConsumeAnyToken
      | exact handled_ConsumeParen
      | exact handled_ConsumeBracket
      | exact handled_ConsumeBrace
      | exact handled_ConsumeStringToken
      | exact handled_Diag _ _
      | exact handled_pure _
      | exact handled_outOfFuel
      | exact handled_TryConsumeToken _
      | exact handled_isTokenParen
      | exact ExpectAndConsume_handled _ _
      | exact ExpectAndConsumeSemi_handled _
      | apply handled_bind
      | apply handled_ParseScope
      | intro _
      | split)
    | exact handled_raise _ (by decide))

theorem parseLeftHandSideExpression_loop_handled (self : Fns) (hself : self.Handled) (fuel : Nat) :
    ∀ (E : Expr), Handled (parseLeftHandSideExpression.loop self fuel E) := by
  induction fuel with
  | zero =>
    intros
    unfold parseLeftHandSideExpression.loop
    exact handled_outOfFuel
  | succ fuel ih =>
    intros
    unfold parseLeftHandSideExpression.loop
    try dsimp only
    repeat' (with_reducible first
      | exact ih _
      | exact hself.parseTypeName _
      | exact hself.parseExpression _
      | exact hself.parseBinaryExpression _ _
      | exact hself.parseUnaryExpression _
      | exact hself.parseStatement
      | exact parseFunctionCallArguments_handled _ hself
      | exact handled_getTok
      | exact handled_getNextToken
      | exact handled_ConsumeToken
      | exact handled_ConsumeAnyToken
      | exact handled_ConsumeParen
      | exact handled_ConsumeBracket
      | exact handled_ConsumeBrace
      | exact handled_ConsumeStringToken
      | exact handled_Diag _ _
      | exact handled_pure _
      | exact handled_outOfFuel
      | exact handled_TryConsumeToken _
      | exact handled_isTokenParen
      | exact ExpectAndConsume_handled _ _
      | exact ExpectAndConsumeSemi_handled _
      | apply handled_bind
      | apply handled_ParseScope
      | intro _
      | split)

theorem parseLeftHandSideExpression_handled (env : Env) (self : Fns) (E : Expr) (hself : self.Handled) :
    Handled (parseLeftHandSideExpression env self E) := by
  unfold parseLeftHandSideExpression
  try dsimp only
  repeat' (with_reducible first
    | exact hself.parseTypeName _
    | exact hself.parseExpression _
    | exact hself.parseBinaryExpression _ _
    | exact hself.parseUnaryExpression _
    | exact hself.parseStatement
    | exact parseLeftHandSideExpression_loop_handled _ hself _ _
    | exact parseTypeName_handled _ _ _ hself
    | exact parsePrimaryExpression_handled _ hself
    | exact handled_getTok
    | exact handled_getNextToken
    | exact handled_ConsumeToken
    | exact handled_ConsumeAnyToken
    | exact handled_ConsumeParen
    | exact handled_ConsumeBracket
    | exact handled_ConsumeBrace
    | exact handled_ConsumeStringToken
    | exact handled_Diag _ _
    | exact handled_pure _
    | exact handled_outOfFuel
    | exact handled_TryConsumeToken _
    | exact handled_isTokenParen
    | exact ExpectAndConsume_handled _ _
    | exact ExpectAndConsumeSemi_handled _
    | apply handled_bind
    | apply handled_ParseScope
    | intro _
    | split)

theorem parseUnaryExpression_handled (env : Env) (self : Fns) (E : Expr) (hself : self.Handled) :
    Handled (parseUnaryExpression env self E) := by
  unfold parseUnaryExpression
  try dsimp only
  repeat' (first
    | (with_reducible first
      | exact hself.parseTypeName _
      | exact hself.parseExpression _
      | exact hself.parseBinaryExpression _ _
      | exact hself.parseUnaryExpression _
      | exact hself.parseStatement
      | exact parseLeftHandSideExpression_handled _ _ _ hself
      | exact handled_getTok
      | exact handled_getNextToken
      | exact handled_ConsumeToken
      | exact handled_ConsumeAnyToken
      | exact handled_ConsumeParen
      | exact handled_ConsumeBracket
      | exact handled_ConsumeBrace
      | exact handled_ConsumeStringToken
      | exact handled_Diag _ _
      | exact handled_pure _
      | exact handled_outOfFuel
      | exact handled_TryConsumeToken _
      | exact handled_isTokenParen
      | exact ExpectAndConsume_handled _ _
      | exact ExpectAndConsumeSemi_handled _
      | apply handled_bind
      | apply handled_ParseScope
      | intro _
      | split)
    | exact handled_raise _ (by decide))

theorem parseBinaryExpression_whileLoop_handled (env : Env) (self : Fns) (Precedence : Nat) (hself : self.Handled) (fuel : Nat) :
    ∀ (E : Expr), Handled (parseBinaryExpression.whileLoop env self Precedence fuel E) := by
  induction fuel with
  | zero =>
    intros
    unfold parseBinaryExpression.whileLoop
    exact handled_outOfFuel
  | succ fuel ih =>
    intros
    unfold parseBinaryExpression.whileLoop
    try dsimp only
    repeat' (with_reducible first
      | exact ih _
      | exact hself.parseTypeName _
      | exact hself.parseExpression _
      | exact hself.parseBinaryExpression _ _
      | exact hself.parseUnaryExpression _
      | exact hself.parseStatement
      | exact handled_getTok
      | exact handled_getNextToken
      | exact handled_ConsumeToken
      | exact handled_ConsumeAnyToken
      | exact handled_ConsumeParen
      | exact handled_ConsumeBracket
      | exact handled_ConsumeBrace
      | exact handled_ConsumeStringToken
      | exact handled_Diag _ _
      | exact handled_pure _
      | exact handled_outOfFuel
      | exact handled_TryConsumeToken _
      | exact handled_isTokenParen
      | exact ExpectAndConsume_handled _ _
      | exact ExpectAndConsumeSemi_handled _
      | apply handled_bind
      | apply handled_ParseScope
      | intro _
      | split)

theorem parseBinaryExpression_forLoop_handled (env : Env) (self : Fns) (hself : self.Handled)
    (count : Nat) :
    ∀ (Precedence : Nat) (E : Expr),
      Handled (parseBinaryExpression.forLoop env self count Precedence E) := by
  induction count with
  | zero =>
    intros
    unfold parseBinaryExpression.forLoop
    exact handled_pure _
  | succ count ih =>
    intros
    unfold parseBinaryExpression.forLoop
    exact handled_bind _ _ (parseBinaryExpression_whileLoop_handled _ _ _ hself _ _)
      (fun _ => ih _ _)

theorem parseBinaryExpression_handled (env : Env) (self : Fns) (Min : Nat) (E : Expr) (hself : self.Handled) :
    Handled (parseBinaryExpression env self Min E) := by
  unfold parseBinaryExpression
  try dsimp only
  repeat' (with_reducible first
    | exact hself.parseTypeName _
    | exact hself.parseExpression _
    | exact hself.parseBinaryExpression _ _
    | exact hself.parseUnaryExpression _
    | exact hself.parseStatement
    | exact parseUnaryExpression_handled _ _ _ hself
    | exact parseBinaryExpression_forLoop_handled _ _ hself _ _ _
    | exact handled_getTok
    | exact handled_getNextToken
    | exact handled_ConsumeToken
    | exact handled_ConsumeAnyToken
    | exact handled_ConsumeParen
    | exact handled_ConsumeBracket
    | exact handled_ConsumeBrace
    | exact handled_ConsumeStringToken
    | exact handled_Diag _ _
    | exact handled_pure _
    | exact handled_outOfFuel
    | exact handled_TryConsumeToken _
    | exact handled_isTokenParen
    | exact ExpectAndConsume_handled _ _
    | exact ExpectAndConsumeSemi_handled _
    | apply handled_bind
    | apply handled_ParseScope
    | intro _)

theorem parseExpression_handled (env : Env) (self : Fns) (E : Expr) (hself : self.Handled) :
    Handled (parseExpression env self E) := by
  unfold parseExpression
  try dsimp only
  repeat' (with_reducible first
    | exact hself.parseTypeName _
    | exact hself.parseExpression _
    | exact hself.parseBinaryExpression _ _
    | exact hself.parseUnaryExpression _
    | exact hself.parseStatement
    | exact parseBinaryExpression_handled _ _ _ _ hself
    | exact handled_getTok
    | exact handled_getNextToken
    | exact handled_ConsumeToken
    | exact handled_ConsumeAnyToken
    | exact handled_ConsumeParen
    | exact handled_ConsumeBracket
    | exact handled_ConsumeBrace
    | exact handled_ConsumeStringToken
    | exact handled_Diag _ _
    | exact handled_pure _
    | exact handled_outOfFuel
    | exact handled_TryConsumeToken _
    | exact handled_isTokenParen
    | exact ExpectAndConsume_handled _ _
    | exact ExpectAndConsumeSemi_handled _
    | apply handled_bind
    | apply handled_ParseScope
    | intro _
    | split)

theorem parseVariableDeclaration_loop_handled (Options : VarDeclParserOptions) (T : Ty) (fuel : Nat) :
    ∀ (a b : Bool) (c : Visibility) (d : Location), Handled (parseVariableDeclaration.loop Options T fuel a b c d) := by
  induction fuel with
  | zero =>
    intros
    unfold parseVariableDeclaration.loop
    exact handled_outOfFuel
  | succ fuel ih =>
    intros
    unfold parseVariableDeclaration.loop
    try dsimp only
    repeat' (with_reducible first
      | exact ih _ _ _ _
      | exact parseVisibilitySpecifier_handled
      | exact handled_getTok
      | exact handled_getNextToken
      | exact handled_ConsumeToken
      | exact handled_ConsumeAnyToken
      | exact handled_ConsumeParen
      | exact handled_ConsumeBracket
      | exact handled_ConsumeBrace
      | exact handled_ConsumeStringToken
      | exact handled_Diag _ _
      | exact handled_pure _
      | exact handled_outOfFuel
      | exact handled_TryConsumeToken _
      | exact handled_isTokenParen
      | exact ExpectAndConsume_handled _ _
      | exact ExpectAndConsumeSemi_handled _
      | apply handled_bind
      | apply handled_ParseScope
      | intro _
      | split)

theorem parseVariableDeclaration_handled (env : Env) (self : Fns) (Options : VarDeclParserOptions) (T : Ty) (hself : self.Handled) :
    Handled (parseVariableDeclaration env self Options T) := by
  unfold parseVariableDeclaration
  try dsimp only
  repeat' (first
    | (with_reducible first
      | exact hself.parseTypeName _
      | exact hself.parseExpression _
      | exact hself.parseBinaryExpression _ _
      | exact hself.parseUnaryExpression _
      | exact hself.parseStatement
      | exact parseTypeName_handled _ _ _ hself
      | exact parseVariableDeclaration_loop_handled _ _ _ _ _ _ _
      | exact parseExpression_handled _ _ _ hself
      | exact handled_addDecl _
      | exact handled_getTok
      | exact handled_getNextToken
      | exact handled_ConsumeToken
      | exact handled_ConsumeAnyToken
      | exact handled_ConsumeParen
      | exact handled_ConsumeBracket
      | exact handled_ConsumeBrace
      | exact handled_ConsumeStringToken
      | exact handled_Diag _ _
      | exact handled_pure _
      | exact handled_outOfFuel
      | exact handled_TryConsumeToken _
      | exact handled_isTokenParen
      | exact ExpectAndConsume_handled _ _
      | exact ExpectAndConsumeSemi_handled _
      | apply handled_bind
      | apply handled_ParseScope
      | intro _
      | split)
    | exact handled_raise _ (by decide))

theorem parseIndexAccessedPath_path_handled (fuel : Nat) :
    ∀ (A : List Token), Handled (parseIndexAccessedPath.path fuel A) := by
  induction fuel with
  | zero =>
    intros
    unfold parseIndexAccessedPath.path
    exact handled_outOfFuel
  | succ fuel ih =>
    intros
    unfold parseIndexAccessedPath.path
    try dsimp only
    repeat' (with_reducible first
      | exact ih _
      | exact handled_getTok
      | exact handled_getNextToken
      | exact handled_ConsumeToken
      | exact handled_ConsumeAnyToken
      | exact handled_ConsumeParen
      | exact handled_ConsumeBracket
      | exact handled_ConsumeBrace
      | exact handled_ConsumeStringToken
      | exact handled_Diag _ _
      | exact handled_pure _
      | exact handled_outOfFuel
      | exact handled_TryConsumeToken _
      | exact handled_isTokenParen
      | exact ExpectAndConsume_handled _ _
      | exact ExpectAndConsumeSemi_handled _
      | apply handled_bind
      | apply handled_ParseScope
      | intro _
      | split)

theorem parseIndexAccessedPath_indices_handled (env : Env) (self : Fns) (hself : self.Handled) (fuel : Nat) :
    ∀ (A : List Expr), Handled (parseIndexAccessedPath.indices env self fuel A) := by
  induction fuel with
  | zero =>
    intros
    unfold parseIndexAccessedPath.indices
    exact handled_outOfFuel
  | succ fuel ih =>
    intros
    unfold parseIndexAccessedPath.indices
    try dsimp only
    repeat' (with_reducible first
      | exact ih _
      | exact hself.parseTypeName _
      | exact hself.parseExpression _
      | exact hself.parseBinaryExpression _ _
      | exact hself.parseUnaryExpression _
      | exact hself.parseStatement
      | exact parseExpression_handled _ _ _ hself
      | exact handled_getTok
      | exact handled_getNextToken
      | exact handled_ConsumeToken
      | exact handled_ConsumeAnyToken
      | exact handled_ConsumeParen
      | exact handled_ConsumeBracket
      | exact handled_ConsumeBrace
      | exact handled_ConsumeStringToken
      | exact handled_Diag _ _
      | exact handled_pure _
      | exact handled_outOfFuel
      | exact handled_TryConsumeToken _
      | exact handled_isTokenParen
      | exact ExpectAndConsume_handled _ _
      | exact ExpectAndConsumeSemi_handled _
      | apply handled_bind
      | apply handled_ParseScope
      | intro _
      | split)

theorem parseIndexAccessedPath_handled (env : Env) (self : Fns) (hself : self.Handled) :
    Handled (parseIndexAccessedPath env self) := by
  unfold parseIndexAccessedPath
  try dsimp only
  repeat' (with_reducible first
    | exact hself.parseTypeName _
    | exact hself.parseExpression _
    | exact hself.parseBinaryExpression _ _
    | exact hself.parseUnaryExpression _
    | exact hself.parseStatement
    | exact parseIndexAccessedPath_path_handled _ _
    | exact parseIndexAccessedPath_indices_handled _ _ hself _ _
    | exact parseTypeName_handled _ _ _ hself
    | exact handled_getTok
    | exact handled_getNextToken
    | exact handled_ConsumeToken
    | exact handled_ConsumeAnyToken
    | exact handled_ConsumeParen
    | exact handled_ConsumeBracket
    | exact handled_ConsumeBrace
    | exact handled_ConsumeStringToken
    | exact handled_Diag _ _
    | exact handled_pure _
    | exact handled_outOfFuel
    | exact handled_TryConsumeToken _
    | exact handled_isTokenParen
    | exact ExpectAndConsume_handled _ _
    | exact ExpectAndConsumeSemi_handled _
    | apply handled_bind
    | apply handled_ParseScope
    | intro _
    | split)

theorem tryParseIndexAccessedPath_handled (env : Env) (self : Fns) (hself : self.Handled) :
    Handled (tryParseIndexAccessedPath env self) := by
  constructor
  intro s h
  unfold tryParseIndexAccessedPath at h
  split at h
  · cases h
  · cases h
  · cases hp : parseIndexAccessedPath env self s with
    | ok Iap s2 =>
      rw [hp, Res.bind_ok] at h
      split at h <;> cases h
    | abort msg =>
      rw [hp, Res.bind_abort] at h
      exact (parseIndexAccessedPath_handled env self hself).out s
        (hp.trans (congrArg Res.abort (Res.abort.inj h)))
    | outOfFuel => rw [hp] at h; cases h

/-- The classification `tryParseIndexAccessedPath` returns is never
`IndexAccessStructure`. -/
theorem tryParseIndexAccessedPath_decides (env : Env) (self : Fns) :
    Ensures (fun r => r.1 ≠ LookAheadInfo.IndexAccessStructure)
      (tryParseIndexAccessedPath env self) := by
  constructor
  intro s a s1 h
  unfold tryParseIndexAccessedPath at h
  split at h
  · cases h
    intro h2
    cases h2
  · cases h
    intro h2
    cases h2
  · cases hp : parseIndexAccessedPath env self s with
    | ok Iap s2 =>
      rw [hp, Res.bind_ok] at h
      split at h <;> cases h <;> intro h2 <;> cases h2
    | abort msg => rw [hp] at h; cases h
    | outOfFuel => rw [hp] at h; cases h

theorem typeNameFromIndexAccessStructure_loop_handled (Indices : List Expr) :
    ∀ (T : Ty), Handled (typeNameFromIndexAccessStructure.loop Indices T) := by
  induction Indices with
  | nil =>
    intros
    unfold typeNameFromIndexAccessStructure.loop
    exact handled_pure _
  | cons Length rest ih =>
    intros
    unfold typeNameFromIndexAccessStructure.loop
    repeat' (first
      | (with_reducible first
        | exact ih _ | exact parseDataLocation_handled
        | apply handled_bind | intro _ | split)
      | exact handled_raise _ (by decide))

theorem typeNameFromIndexAccessStructure_handled (Iap : IndexAccessedPath) :
    Handled (typeNameFromIndexAccessStructure Iap) := by
  unfold typeNameFromIndexAccessStructure
  try dsimp only
  repeat' (first
    | (with_reducible first
      | exact typeNameFromIndexAccessStructure_loop_handled _ _
      | exact handled_getTok
      | exact handled_getNextToken
      | exact handled_ConsumeToken
      | exact handled_ConsumeAnyToken
      | exact handled_ConsumeParen
      | exact handled_ConsumeBracket
      | exact handled_ConsumeBrace
      | exact handled_ConsumeStringToken
      | exact handled_Diag _ _
      | exact handled_pure _
      | exact handled_outOfFuel
      | exact handled_TryConsumeToken _
      | exact handled_isTokenParen
      | exact ExpectAndConsume_handled _ _
      | exact ExpectAndConsumeSemi_handled _
      | apply handled_bind
      | apply handled_ParseScope
      | intro _
      | split)
    | exact handled_raise _ (by decide))

theorem expressionFromIndexAccessStructure_handled (Iap : IndexAccessedPath) :
    Handled (expressionFromIndexAccessStructure Iap) := by
  unfold expressionFromIndexAccessStructure
  try dsimp only
  repeat' (first
    | (with_reducible first
      | exact handled_CreateIdentifier _
      | exact handled_getTok
      | exact handled_getNextToken
      | exact handled_ConsumeToken
      | exact handled_ConsumeAnyToken
      | exact handled_ConsumeParen
      | exact handled_ConsumeBracket
      | exact handled_ConsumeBrace
      | exact handled_ConsumeStringToken
      | exact handled_Diag _ _
      | exact handled_pure _
      | exact handled_outOfFuel
      | exact handled_TryConsumeToken _
      | exact handled_isTokenParen
      | exact ExpectAndConsume_handled _ _
      | exact ExpectAndConsumeSemi_handled _
      | apply handled_bind
      | apply handled_ParseScope
      | intro _
      | split)
    | exact handled_raise _ (by decide))

theorem parseVariableDeclarationStatement_handled (env : Env) (self : Fns) (T : Ty) (hself : self.Handled) :
    Handled (parseVariableDeclarationStatement env self T) := by
  unfold parseVariableDeclarationStatement
  try dsimp only
  repeat' (with_reducible first
    | exact hself.parseTypeName _
    | exact hself.parseExpression _
    | exact hself.parseBinaryExpression _ _
    | exact hself.parseUnaryExpression _
    | exact hself.parseStatement
    | exact parseVariableDeclaration_handled _ _ _ _ hself
    | exact parseExpression_handled _ _ _ hself
    | exact handled_getTok
    | exact handled_getNextToken
    | exact handled_ConsumeToken
    | exact handled_ConsumeAnyToken
    | exact handled_ConsumeParen
    | exact handled_ConsumeBracket
    | exact handled_ConsumeBrace
    | exact handled_ConsumeStringToken
    | exact handled_Diag _ _
    | exact handled_pure _
    | exact handled_outOfFuel
    | exact handled_TryConsumeToken _
    | exact handled_isTokenParen
    | exact ExpectAndConsume_handled _ _
    | exact ExpectAndConsumeSemi_handled _
    | apply handled_bind
    | apply handled_ParseScope
    | intro _
    | split)

/-- The production `parseSimpleStatement` does not fail its assertion, given that
the productions it re-enters do not. -/
theorem parseSimpleStatement_handled (env : Env) (self : Fns) (hself : self.Handled) :
    Handled (parseSimpleStatement env self) := by
  unfold parseSimpleStatement
  apply handled_bind _ _ (handled_TryConsumeToken _)
  intro IsParenExpr
  apply handled_bind_ensures _ _ _ (tryParseIndexAccessedPath_handled env self hself)
    (tryParseIndexAccessedPath_decides env self)
  intro r hr
  obtain ⟨StatementType, Iap⟩ := r
  cases StatementType with
  | IndexAccessStructure => exact absurd rfl hr
  | VariableDeclaration =>
    dsimp only
    repeat' (with_reducible first
      | exact hself.parseTypeName _
      | exact hself.parseExpression _
      | exact hself.parseBinaryExpression _ _
      | exact hself.parseUnaryExpression _
      | exact hself.parseStatement
      | exact typeNameFromIndexAccessStructure_handled _
      | exact expressionFromIndexAccessStructure_handled _
      | exact parseVariableDeclarationStatement_handled _ _ _ hself
      | exact parseExpression_handled _ _ _ hself
      | exact handled_getTok
      | exact handled_getNextToken
      | exact handled_ConsumeToken
      | exact handled_ConsumeAnyToken
      | exact handled_ConsumeParen
      | exact handled_ConsumeBracket
      | exact handled_ConsumeBrace
      | exact handled_ConsumeStringToken
      | exact handled_Diag _ _
      | exact handled_pure _
      | exact handled_outOfFuel
      | exact handled_TryConsumeToken _
      | exact handled_isTokenParen
      | exact ExpectAndConsume_handled _ _
      | exact ExpectAndConsumeSemi_handled _
      | apply handled_bind
      | apply handled_ParseScope
      | intro _)
  | Expression =>
    dsimp only
    repeat' (with_reducible first
      | exact hself.parseTypeName _
      | exact hself.parseExpression _
      | exact hself.parseBinaryExpression _ _
      | exact hself.parseUnaryExpression _
      | exact hself.parseStatement
      | exact typeNameFromIndexAccessStructure_handled _
      | exact expressionFromIndexAccessStructure_handled _
      | exact parseVariableDeclarationStatement_handled _ _ _ hself
      | exact parseExpression_handled _ _ _ hself
      | exact handled_getTok
      | exact handled_getNextToken
      | exact handled_ConsumeToken
      | exact handled_ConsumeAnyToken
      | exact handled_ConsumeParen
      | exact handled_ConsumeBracket
      | exact handled_ConsumeBrace
      | exact handled_ConsumeStringToken
      | exact handled_Diag _ _
      | exact handled_pure _
      | exact handled_outOfFuel
      | exact handled_TryConsumeToken _
      | exact handled_isTokenParen
      | exact ExpectAndConsume_handled _ _
      | exact ExpectAndConsumeSemi_handled _
      | apply handled_bind
      | apply handled_ParseScope
      | intro _
      | split)

theorem parseEmitStatement_path_handled (fuel : Nat) :
    ∀ (A : List Token), Handled (parseEmitStatement.path fuel A) := by
  induction fuel with
  | zero =>
    intros
    unfold parseEmitStatement.path
    exact handled_outOfFuel
  | succ fuel ih =>
    intros
    unfold parseEmitStatement.path
    try dsimp only
    repeat' (with_reducible first
      | exact ih _
      | exact handled_getTok
      | exact handled_getNextToken
      | exact handled_ConsumeToken
      | exact handled_ConsumeAnyToken
      | exact handled_ConsumeParen
      | exact handled_ConsumeBracket
      | exact handled_ConsumeBrace
      | exact handled_ConsumeStringToken
      | exact handled_Diag _ _
      | exact handled_pure _
      | exact handled_outOfFuel
      | exact handled_TryConsumeToken _
      | exact handled_isTokenParen
      | exact ExpectAndConsume_handled _ _
      | exact ExpectAndConsumeSemi_handled _
      | apply handled_bind
      | apply handled_ParseScope
      | intro _
      | split)

theorem parseEmitStatement_handled (self : Fns) (hself : self.Handled) :
    Handled (parseEmitStatement self) := by
  unfold parseEmitStatement
  try dsimp only
  repeat' (with_reducible first
    | exact hself.parseTypeName _
    | exact hself.parseExpression _
    | exact hself.parseBinaryExpression _ _
    | exact hself.parseUnaryExpression _
    | exact hself.parseStatement
    | exact parseEmitStatement_path_handled _ _
    | exact expressionFromIndexAccessStructure_handled _
    | exact parseFunctionCallArguments_handled _ hself
    | exact handled_getTok
    | exact handled_getNextToken
    | exact handled_ConsumeToken
    | exact handled_ConsumeAnyToken
    | exact handled_ConsumeParen
    | exact handled_ConsumeBracket
    | exact handled_ConsumeBrace
    | exact handled_ConsumeStringToken
    | exact handled_Diag _ _
    | exact handled_pure _
    | exact handled_outOfFuel
    | exact handled_TryConsumeToken _
    | exact handled_isTokenParen
    | exact ExpectAndConsume_handled _ _
    | exact ExpectAndConsumeSemi_handled _
    | apply handled_bind
    | apply handled_ParseScope
    | intro _
    | split)

theorem parseIfStatement_handled (env : Env) (self : Fns) (hself : self.Handled) :
    Handled (parseIfStatement env self) := by
  unfold parseIfStatement
  try dsimp only
  repeat' (with_reducible first
    | exact hself.parseTypeName _
    | exact hself.parseExpression _
    | exact hself.parseBinaryExpression _ _
    | exact hself.parseUnaryExpression _
    | exact hself.parseStatement
    | exact parseExpression_handled _ _ _ hself
    | exact handled_getTok
    | exact handled_getNextToken
    | exact handled_ConsumeToken
    | exact handled_ConsumeAnyToken
    | exact handled_ConsumeParen
    | exact handled_ConsumeBracket
    | exact handled_ConsumeBrace
    | exact handled_ConsumeStringToken
    | exact handled_Diag _ _
    | exact handled_pure _
    | exact handled_outOfFuel
    | exact handled_TryConsumeToken _
    | exact handled_isTokenParen
    | exact ExpectAndConsume_handled _ _
    | exact ExpectAndConsumeSemi_handled _
    | apply handled_bind
    | apply handled_ParseScope
    | intro _
    | split)

theorem parseWhileStatement_handled (env : Env) (self : Fns) (hself : self.Handled) :
    Handled (parseWhileStatement env self) := by
  unfold parseWhileStatement
  try dsimp only
  repeat' (with_reducible first
    | exact hself.parseTypeName _
    | exact hself.parseExpression _
    | exact hself.parseBinaryExpression _ _
    | exact hself.parseUnaryExpression _
    | exact hself.parseStatement
    | exact parseExpression_handled _ _ _ hself
    | exact handled_getTok
    | exact handled_getNextToken
    | exact handled_ConsumeToken
    | exact handled_ConsumeAnyToken
    | exact handled_ConsumeParen
    | exact handled_ConsumeBracket
    | exact handled_ConsumeBrace
    | exact handled_ConsumeStringToken
    | exact handled_Diag _ _
    | exact handled_pure _
    | exact handled_outOfFuel
    | exact handled_TryConsumeToken _
    | exact handled_isTokenParen
    | exact ExpectAndConsume_handled _ _
    | exact ExpectAndConsumeSemi_handled _
    | apply handled_bind
    | apply handled_ParseScope
    | intro _
    | split)

theorem parseDoWhileStatement_handled (env : Env) (self : Fns) (hself : self.Handled) :
    Handled (parseDoWhileStatement env self) := by
  unfold parseDoWhileStatement
  try dsimp only
  repeat' (with_reducible first
    | exact hself.parseTypeName _
    | exact hself.parseExpression _
    | exact hself.parseBinaryExpression _ _
    | exact hself.parseUnaryExpression _
    | exact hself.parseStatement
    | exact parseExpression_handled _ _ _ hself
    | exact handled_getTok
    | exact handled_getNextToken
    | exact handled_ConsumeToken
    | exact handled_ConsumeAnyToken
    | exact handled_ConsumeParen
    | exact handled_ConsumeBracket
    | exact handled_ConsumeBrace
    | exact handled_ConsumeStringToken
    | exact handled_Diag _ _
    | exact handled_pure _
    | exact handled_outOfFuel
    | exact handled_TryConsumeToken _
    | exact handled_isTokenParen
    | exact ExpectAndConsume_handled _ _
    | exact ExpectAndConsumeSemi_handled _
    | apply handled_bind
    | apply handled_ParseScope
    | intro _
    | split)

theorem parseForStatement_handled (env : Env) (self : Fns) (hself : self.Handled) :
    Handled (parseForStatement env self) := by
  unfold parseForStatement
  try dsimp only
  repeat' (with_reducible first
    | exact hself.parseTypeName _
    | exact hself.parseExpression _
    | exact hself.parseBinaryExpression _ _
    | exact hself.parseUnaryExpression _
    | exact hself.parseStatement
    | exact parseExpression_handled _ _ _ hself
    | exact parseSimpleStatement_handled _ _ hself
    | exact handled_getTok
    | exact handled_getNextToken
    | exact handled_ConsumeToken
    | exact handled_ConsumeAnyToken
    | exact handled_ConsumeParen
    | exact handled_ConsumeBracket
    | exact handled_ConsumeBrace
    | exact handled_ConsumeStringToken
    | exact handled_Diag _ _
    | exact handled_pure _
    | exact handled_outOfFuel
    | exact handled_TryConsumeToken _
    | exact handled_isTokenParen
    | exact ExpectAndConsume_handled _ _
    | exact ExpectAndConsumeSemi_handled _
    | apply handled_bind
    | apply handled_ParseScope
    | intro _
    | split)

theorem parseBlock_loop_handled (self : Fns) (hself : self.Handled) (fuel : Nat) :
    ∀ (A : List Stmt), Handled (parseBlock.loop self fuel A) := by
  induction fuel with
  | zero =>
    intros
    unfold parseBlock.loop
    exact handled_outOfFuel
  | succ fuel ih =>
    intros
    unfold parseBlock.loop
    try dsimp only
    repeat' (with_reducible first
      | exact ih _
      | exact hself.parseTypeName _
      | exact hself.parseExpression _
      | exact hself.parseBinaryExpression _ _
      | exact hself.parseUnaryExpression _
      | exact hself.parseStatement
      | exact handled_getTok
      | exact handled_getNextToken
      | exact handled_ConsumeToken
      | exact handled_ConsumeAnyToken
      | exact handled_ConsumeParen
      | exact handled_ConsumeBracket
      | exact handled_ConsumeBrace
      | exact handled_ConsumeStringToken
      | exact handled_Diag _ _
      | exact handled_pure _
      | exact handled_outOfFuel
      | exact handled_TryConsumeToken _
      | exact handled_isTokenParen
      | exact ExpectAndConsume_handled _ _
      | exact ExpectAndConsumeSemi_handled _
      | apply handled_bind
      | apply handled_ParseScope
      | intro _
      | split)

theorem parseBlock_handled (self : Fns) (hself : self.Handled) :
    Handled (parseBlock self) := by
  unfold parseBlock
  try dsimp only
  repeat' (with_reducible first
    | exact hself.parseTypeName _
    | exact hself.parseExpression _
    | exact hself.parseBinaryExpression _ _
    | exact hself.parseUnaryExpression _
    | exact hself.parseStatement
    | exact parseBlock_loop_handled _ hself _ _
    | exact handled_getTok
    | exact handled_getNextToken
    | exact handled_ConsumeToken
    | exact handled_ConsumeAnyToken
    | exact handled_ConsumeParen
    | exact handled_ConsumeBracket
    | exact handled_ConsumeBrace
    | exact handled_ConsumeStringToken
    | exact handled_Diag _ _
    | exact handled_pure _
    | exact handled_outOfFuel
    | exact handled_TryConsumeToken _
    | exact handled_isTokenParen
    | exact ExpectAndConsume_handled _ _
    | exact ExpectAndConsumeSemi_handled _
    | apply handled_bind
    | apply handled_ParseScope
    | intro _
    | split)

theorem parseStatement_handled (env : Env) (self : Fns) (hself : self.Handled) :
    Handled (parseStatement env self) := by
  unfold parseStatement
  try dsimp only
  repeat' (with_reducible first
    | exact hself.parseTypeName _
    | exact hself.parseExpression _
    | exact hself.parseBinaryExpression _ _
    | exact hself.parseUnaryExpression _
    | exact hself.parseStatement
    | exact parseIfStatement_handled _ _ hself
    | exact parseWhileStatement_handled _ _ hself
    | exact parseDoWhileStatement_handled _ _ hself
    | exact parseForStatement_handled _ _ hself
    | exact parseBlock_handled _ hself
    | exact parseExpression_handled _ _ _ hself
    | exact parseEmitStatement_handled _ hself
    | exact parseSimpleStatement_handled _ _ hself
    | exact handled_getTok
    | exact handled_getNextToken
    | exact handled_ConsumeToken
    | exact handled_ConsumeAnyToken
    | exact handled_ConsumeParen
    | exact handled_ConsumeBracket
    | exact handled_ConsumeBrace
    | exact handled_ConsumeStringToken
    | exact handled_Diag _ _
    | exact handled_pure _
    | exact handled_outOfFuel
    | exact handled_TryConsumeToken _
    | exact handled_isTokenParen
    | exact ExpectAndConsume_handled _ _
    | exact ExpectAndConsumeSemi_handled _
    | apply handled_bind
    | apply handled_ParseScope
    | intro _
    | split)

/-- None of the re-entered productions fails the assertion, at any depth. -/
theorem fns_handled (env : Env) (n : Nat) : (fns env n).Handled := by
  induction n with
  | zero =>
    exact ⟨fun _ => handled_outOfFuel, fun _ => handled_outOfFuel, fun _ _ => handled_outOfFuel,
      fun _ => handled_outOfFuel, handled_outOfFuel⟩
  | succ n ih =>
    exact ⟨fun b => parseTypeName_handled env (fns env n) b ih,
      fun e => parseExpression_handled env (fns env n) e ih,
      fun p e => parseBinaryExpression_handled env (fns env n) p e ih,
      fun e => parseUnaryExpression_handled env (fns env n) e ih,
      parseStatement_handled env (fns env n) ih⟩


/-- C32: the classification `tryParseIndexAccessedPath` returns is always
`VariableDeclaration` or `Expression`, never `IndexAccessStructure`; so the default
branch of `parseSimpleStatement` is not reached: on no input does
`parseSimpleStatement`, or the statement parser that calls it, fail the assertion
`Unhandle statement.` -/
theorem parseSimpleStatement_default_unreachable (env : Env) :
    (∀ (self : Fns) (s : Parser) (info : LookAheadInfo) (Iap : IndexAccessedPath) (s1 : Parser),
      tryParseIndexAccessedPath env self s = .ok (info, Iap) s1 →
        info = .VariableDeclaration ∨ info = .Expression) ∧
    (∀ (n : Nat) (s : Parser),
      parseSimpleStatement env (fns env n) s ≠ .abort "Unhandle statement.") ∧
    (∀ (n : Nat) (s : Parser),
      parseStatement env (fns env n) s ≠ .abort "Unhandle statement.") := by
  refine ⟨?_, ?_, ?_⟩
  · intro self s info Iap s1 h
    have hne := (tryParseIndexAccessedPath_decides env self).out s (info, Iap) s1 h
    cases info with
    | IndexAccessStructure => exact absurd rfl hne
    | VariableDeclaration => exact Or.inl rfl
    | Expression => exact Or.inr rfl
  · intro n s
    exact (parseSimpleStatement_handled env (fns env n) (fns_handled env n)).out s
  · intro n s
    exact (parseStatement_handled env (fns env n) (fns_handled env n)).out s

/-- Witness of C32: the statement `a[1] b;` starts like an index access and is
classified as a declaration. -/
theorem parseSimpleStatement_default_unreachable_witness :
    tryParseIndexAccessedPath specEnv (fns specEnv 4)
        (Parser.init [operand "a", punct .l_square, ⟨.numeric_constant, "1"⟩, punct .r_square,
          operand "b", punct .semi]) =
      .ok (.VariableDeclaration,
          ⟨[operand "a"], .null, [.NumberLiteral 1]⟩)
        (Parser.init [operand "b", punct .semi]) ∧
    (LookAheadInfo.VariableDeclaration = .VariableDeclaration ∨
      LookAheadInfo.VariableDeclaration = .Expression) :=
  ⟨by rfl, (parseSimpleStatement_default_unreachable specEnv).1 (fns specEnv 4)
    (Parser.init [operand "a", punct .l_square, ⟨.numeric_constant, "1"⟩, punct .r_square,
      operand "b", punct .semi])
    .VariableDeclaration ⟨[operand "a"], .null, [.NumberLiteral 1]⟩
    (Parser.init [operand "b", punct .semi]) (by rfl)⟩

/-! ## The run of `parseContractDefinition` up to the buffered bodies -/

theorem ScopesLe.ne_nil {a b : List Scope} (h : ScopesLe a b) (ha : a ≠ []) : b ≠ [] := by
  intro hb
  have hl := h.length
  rw [hb] at hl
  exact ha (List.length_eq_zero.mp hl)

/-- The run of `parseContractDefinition` that returns a contract: the loop over the
members has run from an empty collection on a scope stack that is the stack at entry
with the scope of the contract pushed; the contract built from its result has been
registered; the loop over the buffered bodies has run on the queue as it stood then;
and on return the queue has been cleared and the scope popped. -/
theorem parseContractDefinition_run (env : Env) (self : Fns) (hself : self.Keeps)
    (s s1 : Parser) (CD : ContractDecl)
    (h : parseContractDefinition env self s = .ok (some CD) s1) :
    ∃ (s0 sm sa sl : Parser) (CD0 : ContractDecl),
      ScopesLe (⟨[], []⟩ :: s.Scopes) s0.Scopes ∧
      parseContractDefinition.members env self (self.fuel + 1) [] none none s0 =
        .ok (some (CD0.SubNodes, CD0.Constructor, CD0.Fallback)) sm ∧
      Actions.addDecl CD0.Name sm = .ok () sa ∧
      parseContractDefinition.late self sa.LateParsedDeclarations CD0 sa = .ok CD sl ∧
      s1 = { sl with LateParsedDeclarations := [], Scopes := sl.Scopes.tail } := by
  unfold parseContractDefinition ParseScope at h
  simp only [bind_apply, Actions.PushScope, Res.bind_ok] at h
  obtain ⟨r, sz, h, hpop⟩ := Res.bind_eq_ok _ _ _ _ h
  simp only [Actions.PopScope, bind_apply, Res.bind_ok, pure_apply, Res.ok.injEq] at hpop
  obtain ⟨hr, hs1⟩ := hpop
  subst hr
  obtain ⟨CtKind, sk, hkind, h⟩ := Res.bind_eq_ok _ _ _ _ h
  have hsk := (Keeps.parseContractKind).out _ _ _ hkind
  simp only [bind_apply, getTok_apply, Res.bind_ok] at h
  split at h
  · simp only [bind_apply, Diag, Res.bind_ok, pure_apply, Res.ok.injEq, reduceCtorEq,
      false_and] at h
  · simp only [bind_apply, ConsumeToken_apply, Res.bind_ok] at h
    obtain ⟨Bases, sb, hbases, h⟩ := Res.bind_eq_ok _ _ _ _ h
    have hkb : Keeps (do
        if (← TryConsumeToken .kw_is) then
          parseContractDefinition.bases env self (self.fuel + 1) []
        else pure (some [])) := by
      repeat' (with_reducible first
        | exact Keeps.TryConsumeToken _
        | exact Keeps.parseContractDefinition_bases _ _ hself _ _
        | exact Keeps.pure _
        | apply Keeps.bind | intro _ | split)
    have hsb := hkb.out _ _ _ hbases
    cases Bases with
    | none =>
      simp only [pure_apply, Res.ok.injEq, reduceCtorEq, false_and] at h
    | some BaseContracts =>
      simp only [bind_apply] at h
      obtain ⟨failed, s0, hbrace, h⟩ := Res.bind_eq_ok _ _ _ _ h
      have hs0 := (Keeps.ExpectAndConsume _ _).out _ _ _ hbrace
      cases failed with
      | true =>
        simp only [if_true, pure_apply, Res.ok.injEq, reduceCtorEq, false_and] at h
      | false =>
        simp only [Bool.false_eq_true, if_false, bind_apply] at h
        obtain ⟨mr, sm, hmem, h⟩ := Res.bind_eq_ok _ _ _ _ h
        cases mr with
        | none =>
          simp only [pure_apply, Res.ok.injEq, reduceCtorEq, false_and] at h
        | some triple =>
          obtain ⟨SubNodes, Constructor, Fallback⟩ := triple
          obtain ⟨u, sa, hadd, h⟩ := Res.bind_eq_ok _ _ _ _ h
          simp only [bind_apply, Res.bind_ok] at h
          obtain ⟨CD1, sl, hlate, h⟩ := Res.bind_eq_ok _ _ _ _ h
          simp only [bind_apply, Res.bind_ok, pure_apply, Res.ok.injEq, Option.some.injEq] at h
          obtain ⟨hCD, hsz⟩ := h
          subst hCD
          refine ⟨s0, sm, sa, sl,
            ⟨sk.Tok.Text, BaseContracts, SubNodes, Constructor, Fallback, CtKind⟩, ?_, hmem,
            hadd, hlate, ?_⟩
          · have hcl : ScopesLe sk.Scopes (CachedLex sk).Scopes := by
              rw [CachedLex_Scopes]
              exact ScopesLe.refl _
            exact ((hsk.trans hcl).trans hsb).trans hs0
          · rw [← hs1, ← hsz]

/-- Storing a body into a function of a contract keeps the names of its members. -/
theorem memberNames_setBody (CD : ContractDecl) (Id : Nat) (Body : Stmt) :
    memberNames (CD.setBody Id Body).SubNodes (CD.setBody Id Body).Constructor
        (CD.setBody Id Body).Fallback =
      memberNames CD.SubNodes CD.Constructor CD.Fallback := by
  obtain ⟨Name, Bases, SubNodes, Constructor, Fallback, Kind⟩ := CD
  have hset : ∀ fd : FunctionDecl,
      (if fd.Id = Id then { fd with Body := Body } else fd).Name = fd.Name := by
    intro fd
    split <;> rfl
  have hsub : ∀ l : List Member,
      (l.map fun m => match m with
        | .function fd => Member.function (if fd.Id = Id then { fd with Body := Body } else fd)
        | m => m).flatMap Member.names = l.flatMap Member.names := by
    intro l
    induction l with
    | nil => rfl
    | cons m rest ih =>
      rw [List.map_cons, List.flatMap_cons, List.flatMap_cons, ih]
      cases m with
      | function fd => simp only [Member.names, hset]
      | null => rfl
      | var vd => rfl
      | event ed => rfl
  simp only [ContractDecl.setBody, memberNames]
  refine congrArg₂ (fun a b => a ++ b) (hsub SubNodes) ?_
  cases Constructor <;> cases Fallback <;>
    simp only [Option.map_none', Option.map_some', Option.toList, List.map_cons, List.map_nil,
      List.nil_append, List.cons_append, List.singleton_append, hset]

/-- The loop over the buffered bodies keeps the names of the members of the
contract: it only stores bodies. -/
theorem late_memberNames (self : Fns) (Late : List LexedMethod) :
    ∀ (CD0 CD : ContractDecl) (s s1 : Parser),
      parseContractDefinition.late self Late CD0 s = .ok CD s1 →
      memberNames CD.SubNodes CD.Constructor CD.Fallback =
        memberNames CD0.SubNodes CD0.Constructor CD0.Fallback := by
  induction Late with
  | nil =>
    intro CD0 CD s s1 h
    simp only [parseContractDefinition.late, pure_apply, Res.ok.injEq] at h
    rw [← h.1]
  | cons LM rest ih =>
    intro CD0 CD s s1 h
    rw [late_cons] at h
    split at h
    · rw [bind_apply] at h
      obtain ⟨Body, sb, _, h⟩ := Res.bind_eq_ok _ _ _ _ h
      rw [ih _ _ _ _ h, memberNames_setBody]
    · exact nomatch h

/-- A run of the loop over the buffered bodies that returns has called
`ParseLexedMethodDef` on each body of the queue, in the state its predecessors
left. -/
theorem late_split (self : Fns) (pre : List LexedMethod) (LM : LexedMethod)
    (post : List LexedMethod) (CD0 CD : ContractDecl) (s s1 : Parser)
    (h : parseContractDefinition.late self (pre ++ LM :: post) CD0 s = .ok CD s1) :
    ∃ (CDk : ContractDecl) (sk : Parser) (Body : Stmt) (sb : Parser),
      parseContractDefinition.late self pre CD0 s = .ok CDk sk ∧
      ParseLexedMethodDef self LM sk = .ok Body sb ∧
      parseContractDefinition.late self post (CDk.setBody LM.D.Id Body) sb = .ok CD s1 := by
  rw [late_append] at h
  obtain ⟨CDk, sk, hpre, h⟩ := Res.bind_eq_ok _ _ _ _ h
  rw [late_cons] at h
  split at h
  · rw [bind_apply] at h
    obtain ⟨Body, sb, hbody, h⟩ := Res.bind_eq_ok _ _ _ _ h
    exact ⟨CDk, sk, Body, sb, hpre, hbody, h⟩
  · exact nomatch h

/-! ## Deferred bodies: the names registered when a body is parsed -/

/-- The run of `parseContractDefinition` put together from the runs of its parts:
the kind, the name, the base contracts, the opening brace, the loop over the
members, `Actions.addDecl` of the contract and the loop over the buffered bodies. -/
theorem parseContractDefinition_of_run (env : Env) (self : Fns)
    (s sk sb s0 sm sa sl : Parser) (CtKind : ContractKind)
    (Bases : List InheritanceSpecifier) (SubNodes : List Member)
    (Constructor Fallback : Option FunctionDecl) (CD : ContractDecl)
    (hkind : parseContractKind { s with Scopes := ⟨[], []⟩ :: s.Scopes } = .ok CtKind sk)
    (hid : sk.Tok.isAnyIdentifier = true)
    (hbases : (do
        if (← TryConsumeToken .kw_is) then
          parseContractDefinition.bases env self (self.fuel + 1) []
        else pure (some [])) (CachedLex sk) = .ok (some Bases) sb)
    (hbrace : ExpectAndConsume .l_brace .err_expected sb = .ok false s0)
    (hmem : parseContractDefinition.members env self (self.fuel + 1) [] none none s0 =
      .ok (some (SubNodes, Constructor, Fallback)) sm)
    (hadd : Actions.addDecl sk.Tok.Text sm = .ok () sa)
    (hlate : parseContractDefinition.late self sa.LateParsedDeclarations
      ⟨sk.Tok.Text, Bases, SubNodes, Constructor, Fallback, CtKind⟩ sa = .ok CD sl) :
    parseContractDefinition env self s =
      .ok (some CD) { sl with LateParsedDeclarations := [], Scopes := sl.Scopes.tail } := by
  unfold parseContractDefinition ParseScope
  simp only [bind_apply, Actions.PushScope, Res.bind_ok]
  rw [hkind]
  simp only [Res.bind_ok, bind_apply, getTok_apply, hid, Bool.not_true, Bool.false_eq_true,
    if_false, ConsumeToken_apply]
  rw [bind_apply] at hbases
  rw [hbases]
  simp only [Res.bind_ok, bind_apply]
  rw [hbrace]
  simp only [Res.bind_ok, bind_apply, Bool.false_eq_true, if_false]
  rw [hmem]
  simp only [Res.bind_ok, bind_apply]
  rw [hadd]
  simp only [Res.bind_ok, bind_apply]
  rw [hlate]
  simp only [Res.bind_ok, bind_apply, pure_apply, Actions.PopScope]

/-- The run of `parseContractDefinition` on
`contract C { function a() public { b(); } function b() public {} }`: the contract is
returned with both bodies parsed, the identifier `b` in the body of `a` resolved. -/
theorem deferredExample_run :
    parseContractDefinition specEnv (fns specEnv 4)
        (Parser.init (⟨.kw_contract, "contract"⟩ :: operand "C" :: punct .l_brace ::
          deferredExample.members)) =
      .ok (some ⟨"C", [],
          [.function (deferredExample.decl 0 "a"
              (.Block [.expr (.CallExpr (.Identifier "b" true) [])])),
            .function (deferredExample.decl 1 "b" (.Block []))],
          none, none, .Contract⟩)
        ⟨Token.eofTok, [], [], [], [], [], 2⟩ :=
  parseContractDefinition_of_run specEnv (fns specEnv 4) _
    ⟨operand "C", punct .l_brace :: deferredExample.members, [⟨[], []⟩], [], [], [], 0⟩
    ⟨punct .l_brace, deferredExample.members, [⟨[], []⟩], [], [], [], 0⟩
    deferredExample.start (deferredExample.collected ["b", "a"])
    (deferredExample.collected ["C", "b", "a"]) (deferredExample.collected ["C", "b", "a"])
    .Contract [] deferredExample.contract.SubNodes none none _
    rfl rfl rfl rfl deferredExample_members rfl deferredExample_late

/-- C8: in every run of `parseContractDefinition` that returns a contract `CD`, the
loop over the members was run in a state `s0` whose scope stack is the scope of the
contract, pushed by `parseContractDefinition`, on top of the stack of the caller, and
returned in state `sm` the members of the contract `CD0`, which are those of `CD` by
name; `Actions.addDecl` of the contract led to state `sa`; and for every buffered
body `LM` of the queue in `sa`, with the bodies `pre` before it and `post` after it,
the loop over the buffered bodies called `ParseLexedMethodDef` on `LM` in the state
`sk` the bodies `pre` left, and in `sk` there is a scope on the stack and the name of
every function, state variable and event of `CD` is registered in a scope that is on
the stack, whatever the textual order of the members; the scope of the contract is
popped only after the last body, in `s1`. -/
theorem parseContractDefinition_bodies_see_members (env : Env) (depth : Nat) (s s1 : Parser)
    (CD : ContractDecl)
    (h : parseContractDefinition env (fns env depth) s = .ok (some CD) s1) :
    ∃ (s0 sm sa : Parser) (CD0 : ContractDecl),
      ScopesLe (⟨[], []⟩ :: s.Scopes) s0.Scopes ∧
      parseContractDefinition.members env (fns env depth) ((fns env depth).fuel + 1) [] none none
          s0 = .ok (some (CD0.SubNodes, CD0.Constructor, CD0.Fallback)) sm ∧
      Actions.addDecl CD0.Name sm = .ok () sa ∧
      memberNames CD.SubNodes CD.Constructor CD.Fallback =
        memberNames CD0.SubNodes CD0.Constructor CD0.Fallback ∧
      ∀ (pre : List LexedMethod) (LM : LexedMethod) (post : List LexedMethod),
        sa.LateParsedDeclarations = pre ++ LM :: post →
        ∃ (CDk : ContractDecl) (sk : Parser) (Body : Stmt) (sb sl : Parser),
          parseContractDefinition.late (fns env depth) pre CD0 sa = .ok CDk sk ∧
          ParseLexedMethodDef (fns env depth) LM sk = .ok Body sb ∧
          parseContractDefinition.late (fns env depth) post (CDk.setBody LM.D.Id Body) sb =
            .ok CD sl ∧
          s1 = { sl with LateParsedDeclarations := [], Scopes := sl.Scopes.tail } ∧
          sk.Scopes ≠ [] ∧
          ∀ n ∈ memberNames CD.SubNodes CD.Constructor CD.Fallback, n ∈ Actions.visible sk := by
  obtain ⟨s0, sm, sa, sl, CD0, hs0, hmem, hadd, hlate, hs1⟩ :=
    parseContractDefinition_run env (fns env depth) (fns_keeps env depth) s s1 CD h
  have hnames := late_memberNames (fns env depth) _ _ _ _ _ hlate
  refine ⟨s0, sm, sa, CD0, hs0, hmem, hadd, hnames, ?_⟩
  intro pre LM post hq
  rw [hq] at hlate
  obtain ⟨CDk, sk, Body, sb, hpre, hbody, hpost⟩ := late_split _ _ _ _ _ _ _ _ hlate
  have h0 : Registered (memberNames [] none none) s0 :=
    ⟨ScopesLe.ne_nil hs0 (List.cons_ne_nil _ _), fun n hn => nomatch hn⟩
  have h1 := (Registers.members env (fns env depth) (fns_keeps env depth) _ [] none none).out
    s0 _ sm h0 hmem
  have h2 := h1.keeps (Keeps.addDecl CD0.Name) hadd
  have h3 := h2.keeps (Keeps.late (fns env depth) (fns_keeps env depth) pre CD0) hpre
  refine ⟨CDk, sk, Body, sb, sl, hpre, hbody, hpost, hs1, h3.1, ?_⟩
  rw [hnames]
  exact h3.2

/-- Witness of C8: the run of `parseContractDefinition` on
`contract C { function a() public { b(); } function b() public {} }` returns the
contract, so each of its two bodies was parsed with the names of `a` and `b`
registered in a scope on the stack. -/
theorem parseContractDefinition_bodies_see_members_witness :
    parseContractDefinition specEnv (fns specEnv 4)
        (Parser.init (⟨.kw_contract, "contract"⟩ :: operand "C" :: punct .l_brace ::
          deferredExample.members)) =
      .ok (some ⟨"C", [],
          [.function (deferredExample.decl 0 "a"
              (.Block [.expr (.CallExpr (.Identifier "b" true) [])])),
            .function (deferredExample.decl 1 "b" (.Block []))],
          none, none, .Contract⟩)
        ⟨Token.eofTok, [], [], [], [], [], 2⟩ ∧
    ∃ (s0 sm sa : Parser) (CD0 : ContractDecl),
      ScopesLe [⟨[], []⟩] s0.Scopes ∧
      parseContractDefinition.members specEnv (fns specEnv 4) 5 [] none none s0 =
        .ok (some (CD0.SubNodes, CD0.Constructor, CD0.Fallback)) sm ∧
      Actions.addDecl CD0.Name sm = .ok () sa ∧
      ["a", "b"] = memberNames CD0.SubNodes CD0.Constructor CD0.Fallback ∧
      ∀ (pre : List LexedMethod) (LM : LexedMethod) (post : List LexedMethod),
        sa.LateParsedDeclarations = pre ++ LM :: post →
        ∃ (CDk : ContractDecl) (sk : Parser) (Body : Stmt) (sb sl : Parser),
          parseContractDefinition.late (fns specEnv 4) pre CD0 sa = .ok CDk sk ∧
          ParseLexedMethodDef (fns specEnv 4) LM sk = .ok Body sb ∧
          parseContractDefinition.late (fns specEnv 4) post (CDk.setBody LM.D.Id Body) sb =
            .ok ⟨"C", [],
              [.function (deferredExample.decl 0 "a"
                  (.Block [.expr (.CallExpr (.Identifier "b" true) [])])),
                .function (deferredExample.decl 1 "b" (.Block []))],
              none, none, .Contract⟩ sl ∧
          (⟨Token.eofTok, [], [], [], [], [], 2⟩ : Parser) =
            { sl with LateParsedDeclarations := [], Scopes := sl.Scopes.tail } ∧
          sk.Scopes ≠ [] ∧
          ∀ n ∈ ["a", "b"], n ∈ Actions.visible sk :=
  ⟨deferredExample_run,
    parseContractDefinition_bodies_see_members specEnv 4 _ _ _ deferredExample_run⟩

end Soll
